import Mathlib

/-!
# DecoyCompiler: a shallow embedding of the compilation pipeline

The development follows the C++ sources stage by stage:

* `lexer/DecoyLexer.{hpp,cpp}`            : `Lexer.*`
* `parser/DecoyParser.{hpp,cpp}`          : `Parser.*`
* `codegen/DecoySymbolTable.{hpp,cpp}`    : `SymbolTable.*`
* `codegen/DecoySemanticAnalyzer.{hpp,cpp}` : `SemanticAnalyzer.*`
* `codegen/DecoyCodeGenerator.{hpp,cpp}`  : `CodeGenerator.*`

Conventions of the embedding.

* A C++ `char` is a Lean `Char`, a `std::string` is a `String` (or the `List Char`
  of its characters while it is being scanned); the byte a character is emitted
  as is `c.toNat % 256`.
* A byte is a `Nat` below 256 and the `bytecode` vector is a `List Nat`.
* `size_t` values are natural numbers; the narrowing conversions to `uint32_t`
  that the code performs are explicit (`% 2 ^ 32`).  `long` and `unsigned long`
  are 64 bits wide (LP64), `int` is 32 bits wide.
* A thrown C++ exception is `Except.error (Err.exn msg)` with `msg` the text of
  `what()`; reading a `std::vector` outside its bounds is `Err.ub`.
* Loops that the source runs without a bound take a fuel argument and return
  `none` when the fuel runs out.
* `std::stof` is a parameter `stof : String → Option Nat` of the embedding: the
  bit pattern of the parsed `float`, or `none` when `std::stof` throws.
-/

namespace Decoy

/-! ## Tokens (`lexer/DecoyLexer.hpp`) -/

/-- The `TokenType` enumeration. -/
inductive TokenType where
  | INSTRUCTION
  | IDENTIFIER
  | LITERAL
  | TYPE
  | LABEL
  | STRING
  | COMMA
  | END_OF_LINE
  deriving DecidableEq

/-- The `Token` structure: kind, lexeme and one-based source line. -/
structure Token where
  type : TokenType
  value : String
  line : Nat
  deriving DecidableEq

/-- Failures of the embedded code: a thrown exception with its `what()` text, or
undefined behaviour (an out-of-bounds read of a vector). -/
inductive Err where
  | exn (msg : String)
  | ub
  deriving DecidableEq

deriving instance DecidableEq for Except

/-! ## Lexer (`lexer/DecoyLexer.cpp`) -/

namespace Lexer

/-- The `keywords` table of the lexer. -/
def keywords : List (String × TokenType) :=
  [("cv", .INSTRUCTION), ("av", .INSTRUCTION), ("aav", .INSTRUCTION), ("sav", .INSTRUCTION),
   ("mav", .INSTRUCTION), ("dav", .INSTRUCTION), ("moav", .INSTRUCTION), ("inc", .INSTRUCTION),
   ("dec", .INSTRUCTION), ("p", .INSTRUCTION), ("pl", .INSTRUCTION), ("pk", .INSTRUCTION),
   ("rk", .INSTRUCTION), ("ikd", .INSTRUCTION), ("mvm", .INSTRUCTION), ("dfp", .INSTRUCTION),
   ("jmp", .INSTRUCTION), ("cejmp", .INSTRUCTION), ("cgjmp", .INSTRUCTION),
   ("cljmp", .INSTRUCTION), ("cegjmp", .INSTRUCTION), ("celjmp", .INSTRUCTION),
   ("dl", .INSTRUCTION), ("nop", .INSTRUCTION),
   ("nt", .TYPE), ("i8", .TYPE), ("ui8", .TYPE), ("i16", .TYPE), ("ui16", .TYPE),
   ("i32", .TYPE), ("ui32", .TYPE), ("f32", .TYPE), ("str", .TYPE)]

/-- The state of a `Lexer` object during `tokenize`.  The read position `pos` is
represented by `rest`, the part of `source` from `pos` on; `tokens` is the local
vector of `tokenize`. -/
structure State where
  rest : List Char
  line : Nat
  tokens : List Token
  deriving DecidableEq

/-- The loop of `readNumber`: digits and at most one `.` are consumed.  Returns
the consumed characters and the unread rest.  At the end of the input `peek`
yields the NUL character, which ends the loop. -/
def readNumberLoop : Bool → List Char → List Char × List Char
  | _, [] => ([], [])
  | isFloat, c :: cs =>
    if c.isDigit then
      let r := readNumberLoop isFloat cs
      (c :: r.1, r.2)
    else if c = '.' ∧ isFloat = false then
      let r := readNumberLoop true cs
      (c :: r.1, r.2)
    else ([], c :: cs)

/-- Embeds `Lexer::readNumber`: an optional leading `-`, then `readNumberLoop`. -/
def readNumber (st : State) : Token × List Char :=
  match st.rest with
  | '-' :: cs =>
    let r := readNumberLoop false cs
    (⟨.LITERAL, String.mk ('-' :: r.1), st.line⟩, r.2)
  | cs =>
    let r := readNumberLoop false cs
    (⟨.LITERAL, String.mk r.1, st.line⟩, r.2)

/-- The loop `while (std::isalnum(peek())) consume();` of `readIdentifier`. -/
def readAlnum : List Char → List Char × List Char
  | [] => ([], [])
  | c :: cs =>
    if c.isAlphanum then
      let r := readAlnum cs
      (c :: r.1, r.2)
    else ([], c :: cs)

/-- Embeds `Lexer::readIdentifier`: the run of alphanumeric characters at the read
position, classified through `keywords`. -/
def readIdentifier (st : State) : Token × List Char :=
  let r := readAlnum st.rest
  let id := String.mk r.1
  match keywords.lookup id with
  | some k => (⟨k, id, st.line⟩, r.2)
  | none => (⟨.IDENTIFIER, id, st.line⟩, r.2)

/-- The loop `while (peek() != '"' && peek() != '\0') consume();` of `readString`. -/
def readStringLoop : List Char → List Char × List Char
  | [] => ([], [])
  | c :: cs =>
    if c ≠ '"' ∧ c ≠ Char.ofNat 0 then
      let r := readStringLoop cs
      (c :: r.1, r.2)
    else ([], c :: cs)

/-- Embeds `Lexer::readString`: skips the opening quote, reads up to the next quote (or
NUL, or the end of the input) and consumes the closing quote when there is one. -/
def readString (st : State) : Token × List Char :=
  let r := readStringLoop st.rest.tail
  let rest := match r.2 with
    | '"' :: cs => cs
    | cs => cs
  (⟨.STRING, String.mk r.1, st.line⟩, rest)

/-- One iteration of the `while (pos < source.length())` loop of `tokenize`, run
in a state whose `rest` is `current :: cs`. -/
def step (st : State) (current : Char) (cs : List Char) : State :=
  if current.isDigit ∨ current = '-' then
    let r := readNumber st
    { rest := r.2, line := st.line, tokens := st.tokens ++ [r.1] }
  else if current.isAlpha ∨ current = '_' then
    let r := readIdentifier st
    { rest := r.2, line := st.line, tokens := st.tokens ++ [r.1] }
  else if current = '"' then
    let r := readString st
    { rest := r.2, line := st.line, tokens := st.tokens ++ [r.1] }
  else if current = ',' then
    { rest := cs, line := st.line, tokens := st.tokens ++ [⟨.COMMA, ",", st.line⟩] }
  else if current = '\n' then
    { rest := cs, line := st.line + 1, tokens := st.tokens ++ [⟨.END_OF_LINE, "EOL", st.line⟩] }
  else
    { rest := cs, line := st.line, tokens := st.tokens }

/-- The main loop of `tokenize`; each iteration costs one unit of fuel.  The
result is the state in which the loop condition `pos < source.length()` fails,
or `none` when `fuel` iterations do not reach such a state. -/
def loop : Nat → State → Option State
  | fuel, st =>
    match st.rest with
    | [] => some st
    | c :: cs =>
      match fuel with
      | 0 => none
      | fuel + 1 => loop fuel (step st c cs)

/-- The code after the main loop of `tokenize`: an `END_OF_LINE` token is
appended unless the vector is empty or already ends with one. -/
def finish (st : State) : List Token :=
  match st.tokens.getLast? with
  | none => st.tokens
  | some t =>
    if t.type ≠ .END_OF_LINE then st.tokens ++ [⟨.END_OF_LINE, "EOL", st.line⟩]
    else st.tokens

/-- Embeds `Lexer::tokenize` on a freshly constructed `Lexer(source)` (`pos = 0`,
`line = 1`), run for at most `fuel` iterations of the main loop. -/
def tokenize (fuel : Nat) (source : List Char) : Option (List Token) :=
  (loop fuel ⟨source, 1, []⟩).map finish

end Lexer

/-! ## Instruction nodes, opcodes and types (`parser/DecoyParser.hpp`) -/

/-- The `Instruction` enumeration (the opcodes). -/
inductive Instruction where
  | CV | AV | AAV | SAV | MAV | DAV | MOAV | INC | DEC | P | PL | PK | RK | IKD | MVM
  | DFP | JMP | CEJMP | CGJMP | CLJMP | CEGJMP | CELJMP | DL | NOP
  deriving DecidableEq

/-- The numeric code of an `Instruction`, i.e. `static_cast<uint8_t>(opcode)`. -/
def Instruction.code : Instruction → Nat
  | .CV => 0 | .AV => 1 | .AAV => 2 | .SAV => 3 | .MAV => 4 | .DAV => 5 | .MOAV => 6
  | .INC => 7 | .DEC => 8 | .P => 9 | .PL => 10 | .PK => 11 | .RK => 12 | .IKD => 13
  | .MVM => 14 | .DFP => 15 | .JMP => 16 | .CEJMP => 17 | .CGJMP => 18 | .CLJMP => 19
  | .CEGJMP => 20 | .CELJMP => 21 | .DL => 22 | .NOP => 255

/-- The `Type` enumeration of the source (`Type` is reserved in Lean). -/
inductive Ty where
  | NT | I8 | UI8 | I16 | UI16 | I32 | UI32 | F32 | STR
  deriving DecidableEq

/-- The numeric code of a `Ty`, i.e. `static_cast<uint8_t>(type)`. -/
def Ty.code : Ty → Nat
  | .NT => 0 | .I8 => 1 | .UI8 => 2 | .I16 => 3 | .UI16 => 4 | .I32 => 5 | .UI32 => 6
  | .F32 => 7 | .STR => 8

/-- The `InstructionNode` structure: mnemonic token and operand tokens. -/
structure InstructionNode where
  instruction : Token
  operands : List Token
  deriving DecidableEq

/-! ## Parser (`parser/DecoyParser.cpp`)

The read position `pos` is represented by `rest`, the tokens from `pos` on;
`all` is the whole vector `tokens` (needed by `parseError` at the end). -/

namespace Parser

/-- Embeds `Parser::parseError`: the exception carrying `"Line N: message"`, where `N`
is the line of the current token, or of the last token at the end of the input
(`tokens.back()` of an empty vector is undefined behaviour). -/
def parseError (all rest : List Token) (message : String) : Err :=
  match rest with
  | t :: _ => .exn ("Line " ++ toString t.line ++ ": " ++ message)
  | [] =>
    match all.getLast? with
    | some t => .exn ("Line " ++ toString t.line ++ ": " ++ message)
    | none => .ub

/-- Embeds `Parser::consume`: checks the kind of the current token and advances.  The
consumed token (`tokens[pos - 1]` afterwards) is returned with the new position. -/
def consume (all rest : List Token) (expected : TokenType) (error : String) :
    Except Err (Token × List Token) :=
  match rest with
  | [] => .error (parseError all rest error)
  | t :: ts => if t.type ≠ expected then .error (parseError all rest error) else .ok (t, ts)

/-- Embeds `Parser::consumeIdentifier`. -/
def consumeIdentifier (all rest : List Token) (error : String) :
    Except Err (Token × List Token) :=
  consume all rest .IDENTIFIER error

/-- Embeds `Parser::consumeType`. -/
def consumeType (all rest : List Token) (error : String) : Except Err (Token × List Token) :=
  consume all rest .TYPE error

/-- Embeds `Parser::consumeValueOperand`; `peek()` at the end of the vector reads out of
bounds.  Returns the operand pushed to the node and the new position. -/
def consumeValueOperand (all rest : List Token) : Except Err (Token × List Token) :=
  match rest with
  | [] => .error .ub
  | t :: ts =>
    if t.type = .LITERAL ∨ t.type = .IDENTIFIER then .ok (t, ts)
    else .error (parseError all rest "Expected literal value or variable")

/-- The loop of `Parser::parsePrint`: operands are taken while the current token
is a `STRING` or an `IDENTIFIER`; `peek()` at the end reads out of bounds. -/
def parsePrintLoop : List Token → Except Err (List Token × List Token)
  | [] => .error .ub
  | t :: ts =>
    if t.type = .STRING ∨ t.type = .IDENTIFIER then
      match parsePrintLoop ts with
      | .ok r => .ok (t :: r.1, r.2)
      | .error e => .error e
    else .ok ([], t :: ts)

/-- Embeds `Parser::parsePrint`. -/
def parsePrint (all rest : List Token) : Except Err (List Token × List Token) :=
  match parsePrintLoop rest with
  | .error e => .error e
  | .ok r =>
    if r.1 = [] then
      .error (parseError all r.2 "Print instruction requires at least one operand")
    else .ok r

/-- Embeds `Parser::parseKeyOperation`. -/
def parseKeyOperation (all rest : List Token) : Except Err (List Token × List Token) :=
  match rest with
  | [] => .error .ub
  | t :: ts =>
    if t.type = .LITERAL ∨ t.type = .IDENTIFIER then .ok ([t], ts)
    else .error (parseError all rest "Key operation requires literal or variable")

/-- Embeds `Parser::parseNop`. -/
def parseNop (all rest : List Token) : Except Err (List Token × List Token) :=
  match rest with
  | [] => .error .ub
  | t :: _ =>
    if t.type ≠ .END_OF_LINE then
      .error (parseError all rest "NOP instruction takes no operands")
    else .ok ([], rest)

/-- Embeds `Parser::parseCv`. -/
def parseCv (all rest : List Token) : Except Err (List Token × List Token) := do
  let a ← consumeIdentifier all rest "Expected a variable name"
  let b ← consumeType all a.2 "Expected a variable type (e.g., ui8, i32, etc"
  pure ([a.1, b.1], b.2)

/-- Embeds `Parser::parseAv` and `Parser::parseMathAssignment` (their bodies coincide). -/
def parseAv (all rest : List Token) : Except Err (List Token × List Token) := do
  let a ← consumeIdentifier all rest "Expected a variable name"
  let b ← consumeValueOperand all a.2
  pure ([a.1, b.1], b.2)

/-- Embeds `Parser::parseIncDec`. -/
def parseIncDec (all rest : List Token) : Except Err (List Token × List Token) := do
  let a ← consumeIdentifier all rest "Expected a variable name"
  pure ([a.1], a.2)

/-- Embeds `Parser::parseIkd`. -/
def parseIkd (all rest : List Token) : Except Err (List Token × List Token) := do
  let a ← consumeIdentifier all rest "Expected a variable name"
  let b ← consumeIdentifier all a.2 "Expected result variable"
  pure ([a.1, b.1], b.2)

/-- Embeds `Parser::parseMvm`. -/
def parseMvm (all rest : List Token) : Except Err (List Token × List Token) := do
  let a ← consumeValueOperand all rest
  let b ← consumeValueOperand all a.2
  pure ([a.1, b.1], b.2)

/-- Embeds `Parser::parseDfp` and `Parser::parseJmp` (their bodies coincide). -/
def parseDfp (all rest : List Token) : Except Err (List Token × List Token) := do
  let a ← consumeIdentifier all rest "Expected a label name"
  pure ([a.1], a.2)

/-- Embeds `Parser::parseConditionalJmp`. -/
def parseConditionalJmp (all rest : List Token) : Except Err (List Token × List Token) := do
  let a ← consumeIdentifier all rest "Expected first operand variable"
  let b ← consumeIdentifier all a.2 "Expected second operand variable"
  let c ← consumeIdentifier all b.2 "Expected true label"
  let d ← consumeIdentifier all c.2 "Expected false label"
  pure ([a.1, b.1, c.1, d.1], d.2)

/-- Embeds `Parser::parseDl`. -/
def parseDl (all rest : List Token) : Except Err (List Token × List Token) := do
  let a ← consumeValueOperand all rest
  pure ([a.1], a.2)

/-- The dispatch on the mnemonic in `Parser::parseInstruction`: parses the
operands with the position `rest` just after the mnemonic token. -/
def parseOperands (all rest : List Token) (inst : String) :
    Except Err (List Token × List Token) :=
  if inst = "cv" then parseCv all rest
  else if inst = "av" then parseAv all rest
  else if inst = "aav" ∨ inst = "sav" ∨ inst = "mav" ∨ inst = "dav" ∨ inst = "moav" then
    parseAv all rest
  else if inst = "inc" ∨ inst = "dec" then parseIncDec all rest
  else if inst = "p" ∨ inst = "pl" then parsePrint all rest
  else if inst = "pk" ∨ inst = "rk" then parseKeyOperation all rest
  else if inst = "ikd" then parseIkd all rest
  else if inst = "mvm" then parseMvm all rest
  else if inst = "dfp" then parseDfp all rest
  else if inst = "jmp" then parseDfp all rest
  else if inst = "cejmp" ∨ inst = "cgjmp" ∨ inst = "cljmp" ∨ inst = "cegjmp" ∨ inst = "celjmp" then
    parseConditionalJmp all rest
  else if inst = "dl" then parseDl all rest
  else if inst = "nop" then parseNop all rest
  else .error (parseError all rest ("Unknown instruction " ++ inst))

/-- Embeds `Parser::parseInstruction`: the mnemonic token is taken with `advance()`
whatever its kind, the operands are parsed, and an `END_OF_LINE` is required. -/
def parseInstruction (all rest : List Token) : Except Err (InstructionNode × List Token) :=
  match rest with
  | [] => .error .ub
  | t :: ts => do
    let r ← parseOperands all ts t.value
    let e ← consume all r.2 .END_OF_LINE "Expected end of line after instruction"
    pure (⟨t, r.1⟩, e.2)

/-- The loop `while (!isAtEnd()) program.push_back(parseInstruction());`.  Every
iteration consumes at least one token, so `rest.length` iterations always
suffice; `count` only makes the recursion structural and the last case is not
reached when `rest.length ≤ count` (`Parser.parseLoop_count`). -/
def parseLoop : Nat → List Token → List Token → Except Err (List InstructionNode)
  | _, _, [] => .ok []
  | count + 1, all, t :: ts =>
    match parseInstruction all (t :: ts) with
    | .error e => .error e
    | .ok r =>
      match parseLoop count all r.2 with
      | .error e => .error e
      | .ok program => .ok (r.1 :: program)
  | 0, _, _ :: _ => .error .ub

/-- Embeds `Parser::parse` on a freshly constructed `Parser(tokens)`. -/
def parse (tokens : List Token) : Except Err (List InstructionNode) :=
  parseLoop tokens.length tokens tokens

end Parser

/-! ## The standard conversions `std::stoi`, `std::stol`, `std::stoul`

These belong to the C++ standard library, not to the repository; they are
modelled after `strtol` / `strtoul` in base 10 on an LP64 target
(`long` and `unsigned long` of 64 bits, `int` of 32 bits).  The `what()` text of
the exceptions they throw is the name of the function, as in libstdc++. -/

namespace Std

/-- The `isspace` class of the C locale. -/
def isSpace (c : Char) : Bool :=
  c = ' ' ∨ (9 ≤ c.toNat ∧ c.toNat ≤ 13)

/-- The value of a run of decimal digits, most significant digit first. -/
def digitsValue (ds : List Char) : Nat :=
  ds.foldl (fun acc c => 10 * acc + (c.toNat - 48)) 0

/-- The optional sign that `strtol` and `strtoul` accept: whether it is `-`, and
the characters after it. -/
def scanSign (t : List Char) : Bool × List Char :=
  match t with
  | '-' :: u => (true, u)
  | '+' :: u => (false, u)
  | u => (false, u)

/-- The integer that `strtol` and `strtoul` recognise at the start of a string:
white space is skipped, one sign is accepted, then the longest run of digits is
read and whatever follows is ignored.  The result is the sign (true for `-`)
and the magnitude, or `none` when there is no digit (no conversion). -/
def scanInteger (s : List Char) : Option (Bool × Nat) :=
  let r := scanSign (s.dropWhile isSpace)
  let ds := r.2.takeWhile Char.isDigit
  if ds = [] then none else some (r.1, digitsValue ds)

/-- The signed value of a scanned integer. -/
def signedValue (r : Bool × Nat) : Int :=
  if r.1 then -(r.2 : Int) else (r.2 : Int)

/-- Embeds `std::stol`: throws `std::invalid_argument` when nothing converts and
`std::out_of_range` when the value does not fit a `long`. -/
def stol (s : String) : Except Err Int :=
  match scanInteger s.data with
  | none => .error (.exn "stol")
  | some r =>
    if signedValue r < -(2 : Int) ^ 63 ∨ signedValue r > (2 : Int) ^ 63 - 1 then
      .error (.exn "stol")
    else .ok (signedValue r)

/-- Embeds `std::stoi`: as `std::stol`, and the value must also fit an `int`. -/
def stoi (s : String) : Except Err Int :=
  match scanInteger s.data with
  | none => .error (.exn "stoi")
  | some r =>
    if signedValue r < -(2 : Int) ^ 63 ∨ signedValue r > (2 : Int) ^ 63 - 1 then
      .error (.exn "stoi")
    else if signedValue r < -(2 : Int) ^ 31 ∨ signedValue r > (2 : Int) ^ 31 - 1 then
      .error (.exn "stoi")
    else .ok (signedValue r)

/-- Embeds `std::stoul`: throws when nothing converts or when the magnitude exceeds
`ULONG_MAX`; a magnitude that fits is negated modulo `2 ^ 64` after a `-` sign,
as `strtoul` does. -/
def stoul (s : String) : Except Err Nat :=
  match scanInteger s.data with
  | none => .error (.exn "stoul")
  | some r =>
    if r.2 > 2 ^ 64 - 1 then .error (.exn "stoul")
    else .ok (if r.1 then (2 ^ 64 - r.2) % 2 ^ 64 else r.2)

end Std

/-! ## Symbol table (`codegen/DecoySymbolTable.{hpp,cpp}`)

The two `std::unordered_map`s are association lists read with `List.lookup`; a
new binding is put in front. -/

/-- The `VariableInfo` structure. -/
structure VariableInfo where
  type : Ty
  size : Nat
  offset : Nat
  deriving DecidableEq

/-- The data members of a `SymbolTable`: `vars` is the map `variables` (a word
reserved in Lean) and `labels` holds the `instruction_address` of each
`LabelInfo`. -/
structure SymbolTable where
  vars : List (String × VariableInfo)
  labels : List (String × Nat)
  currentOffset : Nat
  deriving DecidableEq

namespace SymbolTable

/-- A default-constructed `SymbolTable`. -/
def empty : SymbolTable := ⟨[], [], 0⟩

/-- Embeds `SymbolTable::getTypeSize`; the table `typeSizes` covers every type. -/
def getTypeSize : Ty → Nat
  | .NT => 0 | .I8 => 1 | .UI8 => 1 | .I16 => 2 | .UI16 => 2
  | .I32 => 4 | .UI32 => 4 | .F32 => 4 | .STR => 0

/-- Embeds `SymbolTable::addVariable`. -/
def addVariable (t : SymbolTable) (name : String) (type : Ty) : Except Err SymbolTable :=
  match t.vars.lookup name with
  | some _ => .error (.exn ("Redeclaration of variable \x27" ++ name ++ "\x27"))
  | none =>
    .ok { t with
      vars := (name, ⟨type, getTypeSize type, t.currentOffset⟩) :: t.vars
      currentOffset := t.currentOffset + getTypeSize type }

/-- Embeds `SymbolTable::getVariable`. -/
def getVariable (t : SymbolTable) (name : String) : Except Err VariableInfo :=
  match t.vars.lookup name with
  | none => .error (.exn ("Undefined variable \x27" ++ name ++ "\x27"))
  | some v => .ok v

/-- Embeds `SymbolTable::addLabel`. -/
def addLabel (t : SymbolTable) (name : String) (address : Nat) : Except Err SymbolTable :=
  match t.labels.lookup name with
  | some _ => .error (.exn ("Redeclaration of label \x27" ++ name ++ "\x27"))
  | none => .ok { t with labels := (name, address) :: t.labels }

/-- Embeds `SymbolTable::getLabelAddress`. -/
def getLabelAddress (t : SymbolTable) (name : String) : Except Err Nat :=
  match t.labels.lookup name with
  | none => .error (.exn ("Undefined label \x27" ++ name ++ "\x27"))
  | some a => .ok a

/-- Embeds `SymbolTable::getTotalMemorySize`. -/
def getTotalMemorySize (t : SymbolTable) : Nat := t.currentOffset

/-- Embeds `SymbolTable::isVariable`. -/
def isVariable (t : SymbolTable) (name : String) : Bool :=
  (t.vars.lookup name).isSome

end SymbolTable

/-- The read `node.operands[i]` of a `std::vector`, undefined outside its bounds. -/
def InstructionNode.operand (node : InstructionNode) (i : Nat) : Except Err Token :=
  match node.operands.get? i with
  | some t => .ok t
  | none => .error .ub

/-! ## Semantic analyzer (`codegen/DecoySemanticAnalyzer.cpp`) -/

namespace SemanticAnalyzer

/-- Embeds `SemanticAnalyzer::stringToType`; `typeMap` has no entry for `nt` and `str`. -/
def stringToType (str : String) : Except Err Ty :=
  if str = "i8" then .ok .I8
  else if str = "ui8" then .ok .UI8
  else if str = "i16" then .ok .I16
  else if str = "ui16" then .ok .UI16
  else if str = "i32" then .ok .I32
  else if str = "ui32" then .ok .UI32
  else if str = "f32" then .ok .F32
  else .error (.exn "Invalid type specifier")

/-- Embeds `SemanticAnalyzer::typeToString`; `reverseMap.at` throws `std::out_of_range`
for `NT` and `STR`. -/
def typeToString : Ty → Except Err String
  | .I8 => .ok "i8" | .UI8 => .ok "ui8" | .I16 => .ok "i16" | .UI16 => .ok "ui16"
  | .I32 => .ok "i32" | .UI32 => .ok "ui32" | .F32 => .ok "f32"
  | .NT => .error (.exn "unordered_map::at") | .STR => .error (.exn "unordered_map::at")

/-- Embeds `SemanticAnalyzer::processCv`. -/
def processCv (symbols : SymbolTable) (node : InstructionNode) : Except Err SymbolTable :=
  match node.operands with
  | [nameToken, typeToken] =>
    if typeToken.type ≠ .TYPE then .error (.exn "second operand must be a type")
    else
      match stringToType typeToken.value with
      | .error e => .error e
      | .ok type => symbols.addVariable nameToken.value type
  | _ => .error (.exn "cv requires 2 operands")

/-- Embeds `SemanticAnalyzer::processDfp`. -/
def processDfp (symbols : SymbolTable) (node : InstructionNode) (currentAddress : Nat) :
    Except Err SymbolTable :=
  match node.operands with
  | [labelToken] => symbols.addLabel labelToken.value currentAddress
  | _ => .error (.exn "dfp requires 1 operand")

/-- Embeds `SemanticAnalyzer::firstPass`, from the table `symbols` and the address
counter `currentAddress`. -/
def firstPass : List InstructionNode → SymbolTable → Nat → Except Err SymbolTable
  | [], symbols, _ => .ok symbols
  | node :: rest, symbols, currentAddress =>
    if node.instruction.value = "cv" then
      match processCv symbols node with
      | .error e => .error e
      | .ok symbols1 => firstPass rest symbols1 (currentAddress + 1)
    else if node.instruction.value = "dfp" then
      match processDfp symbols node currentAddress with
      | .error e => .error e
      | .ok symbols1 => firstPass rest symbols1 (currentAddress + 1)
    else firstPass rest symbols (currentAddress + 1)

/-- Embeds `SemanticAnalyzer::validateOperandCount`. -/
def validateOperandCount (node : InstructionNode) (expected : Nat) : Except Err Unit :=
  if node.operands.length ≠ expected then
    .error (.exn ("Expected " ++ toString expected ++ " operands"))
  else .ok ()

/-- Embeds `SemanticAnalyzer::validateTypeMatch`. -/
def validateTypeMatch (expected actual : Ty) : Except Err Unit :=
  if expected ≠ actual then
    match typeToString expected, typeToString actual with
    | .ok e, .ok a => .error (.exn ("Type mismatch: expected " ++ e ++ ", got " ++ a))
    | .error e, _ => .error e
    | .ok _, .error e => .error e
  else .ok ()

/-- Embeds `SemanticAnalyzer::getVariable`. -/
def getVariable (symbols : SymbolTable) (token : Token) : Except Err VariableInfo :=
  if token.type ≠ .IDENTIFIER then .error (.exn "Expected variable identifier")
  else symbols.getVariable token.value

/-- Embeds `SemanticAnalyzer::validateI8`. -/
def validateI8 (literal : String) : Except Err Unit :=
  match Std.stoi literal with
  | .error e => .error e
  | .ok value => if value < -128 ∨ value > 127 then .error (.exn "") else .ok ()

/-- Embeds `SemanticAnalyzer::validateUI8`. -/
def validateUI8 (literal : String) : Except Err Unit :=
  match Std.stoul literal with
  | .error e => .error e
  | .ok value => if value > 255 then .error (.exn "") else .ok ()

/-- Embeds `SemanticAnalyzer::validateI16`. -/
def validateI16 (literal : String) : Except Err Unit :=
  match Std.stoi literal with
  | .error e => .error e
  | .ok value => if value < -32768 ∨ value > 32767 then .error (.exn "") else .ok ()

/-- Embeds `SemanticAnalyzer::validateUI16`. -/
def validateUI16 (literal : String) : Except Err Unit :=
  match Std.stoul literal with
  | .error e => .error e
  | .ok value => if value > 65535 then .error (.exn "") else .ok ()

/-- Embeds `SemanticAnalyzer::validateI32`. -/
def validateI32 (literal : String) : Except Err Unit :=
  match Std.stol literal with
  | .error e => .error e
  | .ok value => if value < -2147483648 ∨ value > 2147483647 then .error (.exn "") else .ok ()

/-- Embeds `SemanticAnalyzer::validateUI32`. -/
def validateUI32 (literal : String) : Except Err Unit :=
  match Std.stoul literal with
  | .error e => .error e
  | .ok value => if value > 4294967295 then .error (.exn "") else .ok ()

/-- Embeds `SemanticAnalyzer::validateF32`: only checks that `std::stof` does not throw. -/
def validateF32 (stof : String → Option Nat) (literal : String) : Except Err Unit :=
  match stof literal with
  | none => .error (.exn "stof")
  | some _ => .ok ()

/-- The `switch` inside the `try` block of `validateLiteral`. -/
def validateLiteralSwitch (stof : String → Option Nat) (literal : String) (type : Ty) :
    Except Err Unit :=
  match type with
  | .I8 => validateI8 literal
  | .UI8 => validateUI8 literal
  | .I16 => validateI16 literal
  | .UI16 => validateUI16 literal
  | .I32 => validateI32 literal
  | .UI32 => validateUI32 literal
  | .F32 => validateF32 stof literal
  | _ => .error (.exn "Invalid type for literal assignment")

/-- Embeds `SemanticAnalyzer::validateLiteral`: every exception of the `switch` is
replaced by the out-of-range message (whose construction calls `typeToString`). -/
def validateLiteral (stof : String → Option Nat) (literal : String) (type : Ty) :
    Except Err Unit :=
  match validateLiteralSwitch stof literal type with
  | .ok u => .ok u
  | .error .ub => .error .ub
  | .error (.exn _) =>
    match typeToString type with
    | .error e => .error e
    | .ok t => .error (.exn ("Value " ++ literal ++ " out of range for type " ++ t))

/-- Embeds `SemanticAnalyzer::checkAv` and `SemanticAnalyzer::validateArithmeticOp`,
which differ only in the name `op` used in the last message (`"av"` for
`checkAv`). -/
def validateArithmeticOp (stof : String → Option Nat) (symbols : SymbolTable)
    (node : InstructionNode) (op : String) : Except Err Unit :=
  match node.operands with
  | [target, operand] =>
    match getVariable symbols target with
    | .error e => .error e
    | .ok varInfo =>
      if operand.type = .LITERAL then validateLiteral stof operand.value varInfo.type
      else if operand.type = .IDENTIFIER then
        match getVariable symbols operand with
        | .error e => .error e
        | .ok srcVar => validateTypeMatch varInfo.type srcVar.type
      else .error (.exn ("Invalid operand type for " ++ op))
  | _ => validateOperandCount node 2

/-- Embeds `SemanticAnalyzer::validateIncDec`. -/
def validateIncDec (symbols : SymbolTable) (node : InstructionNode) : Except Err Unit :=
  match node.operands with
  | [target] =>
    match getVariable symbols target with
    | .error e => .error e
    | .ok _ => .ok ()
  | _ => validateOperandCount node 1

/-- The loop of `SemanticAnalyzer::validatePrint` over the operands. -/
def validatePrintLoop (symbols : SymbolTable) : List Token → Except Err Unit
  | [] => .ok ()
  | operand :: rest =>
    if operand.type ≠ .STRING ∧ operand.type ≠ .IDENTIFIER then
      .error (.exn "Print operands must be string literals or variables")
    else if operand.type = .IDENTIFIER then
      match getVariable symbols operand with
      | .error e => .error e
      | .ok _ => validatePrintLoop symbols rest
    else validatePrintLoop symbols rest

/-- Embeds `SemanticAnalyzer::validatePrint`. -/
def validatePrint (symbols : SymbolTable) (node : InstructionNode) : Except Err Unit :=
  validatePrintLoop symbols node.operands

/-- Embeds `SemanticAnalyzer::validateKeyOp`; for an identifier the variable's type is
compared with itself. -/
def validateKeyOp (symbols : SymbolTable) (node : InstructionNode) : Except Err Unit :=
  match node.operands with
  | [operand] =>
    if operand.type = .LITERAL then validateUI8 operand.value
    else if operand.type = .IDENTIFIER then
      match getVariable symbols operand with
      | .error e => .error e
      | .ok var => validateTypeMatch var.type var.type
    else .error (.exn "Key operation requires UI8 literal or variable")
  | _ => validateOperandCount node 1

/-- Embeds `SemanticAnalyzer::checkIkd`. -/
def checkIkd (symbols : SymbolTable) (node : InstructionNode) : Except Err Unit :=
  match node.operands with
  | [key, res] =>
    match getVariable symbols key with
    | .error e => .error e
    | .ok _ =>
      match getVariable symbols res with
      | .error e => .error e
      | .ok resVar => validateTypeMatch .UI8 resVar.type
  | _ => validateOperandCount node 2

/-- The loop of `SemanticAnalyzer::checkMvm` over the operands. -/
def checkMvmLoop (symbols : SymbolTable) : List Token → Except Err Unit
  | [] => .ok ()
  | operand :: rest =>
    if operand.type = .LITERAL then
      match validateI32 operand.value with
      | .error e => .error e
      | .ok _ => checkMvmLoop symbols rest
    else if operand.type = .IDENTIFIER then
      match getVariable symbols operand with
      | .error e => .error e
      | .ok var =>
        match validateTypeMatch .I32 var.type with
        | .error e => .error e
        | .ok _ => checkMvmLoop symbols rest
    else .error (.exn "mvm operands must be I32 literals or variables")

/-- Embeds `SemanticAnalyzer::checkMvm`. -/
def checkMvm (symbols : SymbolTable) (node : InstructionNode) : Except Err Unit :=
  match validateOperandCount node 2 with
  | .error e => .error e
  | .ok _ => checkMvmLoop symbols node.operands

/-- Embeds `SemanticAnalyzer::checkJmp`. -/
def checkJmp (symbols : SymbolTable) (node : InstructionNode) : Except Err Unit :=
  match node.operands with
  | [label] =>
    match symbols.getLabelAddress label.value with
    | .error e => .error e
    | .ok _ => .ok ()
  | _ => validateOperandCount node 1

/-- Embeds `SemanticAnalyzer::validateConditionalJump`. -/
def validateConditionalJump (symbols : SymbolTable) (node : InstructionNode) : Except Err Unit :=
  match node.operands with
  | [a, b, t, f] =>
    match getVariable symbols a with
    | .error e => .error e
    | .ok _ =>
      match getVariable symbols b with
      | .error e => .error e
      | .ok _ =>
        match symbols.getLabelAddress t.value with
        | .error e => .error e
        | .ok _ =>
          match symbols.getLabelAddress f.value with
          | .error e => .error e
          | .ok _ => .ok ()
  | _ => validateOperandCount node 4

/-- Embeds `SemanticAnalyzer::checkDl`. -/
def checkDl (symbols : SymbolTable) (node : InstructionNode) : Except Err Unit :=
  match node.operands with
  | [operand] =>
    if operand.type = .LITERAL then validateUI32 operand.value
    else if operand.type = .IDENTIFIER then
      match getVariable symbols operand with
      | .error e => .error e
      | .ok var => validateTypeMatch .UI32 var.type
    else .error (.exn "dl requires UI32 literal or variable")
  | _ => validateOperandCount node 1

/-- The body of the `try` block of `secondPass`: the check selected by the
mnemonic (`checkAav` .. `checkCeljmp` forward to the shared validators). -/
def checkNode (stof : String → Option Nat) (symbols : SymbolTable) (node : InstructionNode) :
    Except Err Unit :=
  let inst := node.instruction.value
  if inst = "av" then validateArithmeticOp stof symbols node "av"
  else if inst = "aav" then validateArithmeticOp stof symbols node "AAV"
  else if inst = "sav" then validateArithmeticOp stof symbols node "SAV"
  else if inst = "mav" then validateArithmeticOp stof symbols node "MAV"
  else if inst = "dav" then validateArithmeticOp stof symbols node "DAV"
  else if inst = "moav" then validateArithmeticOp stof symbols node "MOAV"
  else if inst = "inc" then validateIncDec symbols node
  else if inst = "dec" then validateIncDec symbols node
  else if inst = "p" then validatePrint symbols node
  else if inst = "pl" then validatePrint symbols node
  else if inst = "pk" then validateKeyOp symbols node
  else if inst = "rk" then validateKeyOp symbols node
  else if inst = "ikd" then checkIkd symbols node
  else if inst = "mvm" then checkMvm symbols node
  else if inst = "jmp" then checkJmp symbols node
  else if inst = "cejmp" then validateConditionalJump symbols node
  else if inst = "cgjmp" then validateConditionalJump symbols node
  else if inst = "cljmp" then validateConditionalJump symbols node
  else if inst = "cegjmp" then validateConditionalJump symbols node
  else if inst = "celjmp" then validateConditionalJump symbols node
  else if inst = "dl" then checkDl symbols node
  else .ok ()

/-- Embeds `SemanticAnalyzer::secondPass`: an exception of a check is rethrown with the
prefix `"At instruction <mnemonic> (line N): "`. -/
def secondPass (stof : String → Option Nat) (symbols : SymbolTable) :
    List InstructionNode → Except Err Unit
  | [] => .ok ()
  | node :: rest =>
    match checkNode stof symbols node with
    | .ok _ => secondPass stof symbols rest
    | .error .ub => .error .ub
    | .error (.exn what) =>
      .error (.exn ("At instruction " ++ node.instruction.value ++ " (line " ++
        toString node.instruction.line ++ "): " ++ what))

/-- Embeds `SemanticAnalyzer::analyze` for an analyzer constructed on the table
`symbols` and the list `ast`; the result is the table after the analysis. -/
def analyze (stof : String → Option Nat) (symbols : SymbolTable) (ast : List InstructionNode) :
    Except Err SymbolTable :=
  match firstPass ast symbols 0 with
  | .error e => .error e
  | .ok symbols1 =>
    match secondPass stof symbols1 ast with
    | .error e => .error e
    | .ok _ => .ok symbols1

end SemanticAnalyzer

/-! ## Code generator (`codegen/DecoyCodeGenerator.{hpp,cpp}`)

Each `emit*` function is represented by the list of bytes it appends to
`bytecode`; `labels` is the member `labelAddresses`, an association list read
with `List.lookup` in which a new assignment is put in front. -/

namespace CodeGenerator

/-- Embeds `CodeGenerator::instructionToOpcode`. -/
def instructionToOpcode (inst : String) : Except Err Instruction :=
  if inst = "cv" then .ok .CV
  else if inst = "av" then .ok .AV
  else if inst = "aav" then .ok .AAV
  else if inst = "sav" then .ok .SAV
  else if inst = "mav" then .ok .MAV
  else if inst = "dav" then .ok .DAV
  else if inst = "moav" then .ok .MOAV
  else if inst = "inc" then .ok .INC
  else if inst = "dec" then .ok .DEC
  else if inst = "p" then .ok .P
  else if inst = "pl" then .ok .PL
  else if inst = "pk" then .ok .PK
  else if inst = "rk" then .ok .RK
  else if inst = "ikd" then .ok .IKD
  else if inst = "mvm" then .ok .MVM
  else if inst = "dfp" then .ok .DFP
  else if inst = "jmp" then .ok .JMP
  else if inst = "cejmp" then .ok .CEJMP
  else if inst = "cgjmp" then .ok .CGJMP
  else if inst = "cljmp" then .ok .CLJMP
  else if inst = "cegjmp" then .ok .CEGJMP
  else if inst = "celjmp" then .ok .CELJMP
  else if inst = "dl" then .ok .DL
  else if inst = "nop" then .ok .NOP
  else .error (.exn ("Unknown instruction: " ++ inst))

/-- Embeds `CodeGenerator::inferLiteralType`; `literal[0]` of an empty string is NUL. -/
def inferLiteralType (literal : String) : Ty :=
  if '.' ∈ literal.data then .F32
  else if literal.data.head? = some '-' then .I32
  else .UI32

/-- Embeds `CodeGenerator::operandSize`. -/
def operandSize (operand : Token) : Except Err Nat :=
  if operand.type = .LITERAL then
    match inferLiteralType operand.value with
    | .I8 => .ok (1 + 1)
    | .UI8 => .ok (1 + 1)
    | .I16 => .ok (1 + 2)
    | .UI16 => .ok (1 + 2)
    | .I32 => .ok (1 + 4)
    | .UI32 => .ok (1 + 4)
    | .F32 => .ok (1 + 4)
    | _ => .error (.exn "Invalid literal type")
  else .ok 4

/-- The loop of `calculateInstructionSize` over the operands of `p` / `pl`. -/
def printSize : List Token → Nat
  | [] => 0
  | operand :: rest =>
    (if operand.type = .STRING then 4 + operand.value.length else 4) + printSize rest

/-- Embeds `CodeGenerator::calculateInstructionSize`. -/
def calculateInstructionSize (node : InstructionNode) : Except Err Nat :=
  let inst := node.instruction.value
  if inst = "cv" then
    match node.operand 0 with
    | .error e => .error e
    | .ok name => .ok (1 + (4 + name.value.length + 1))
  else if inst = "av" ∨ inst = "aav" ∨ inst = "sav" ∨ inst = "mav" ∨ inst = "dav" ∨
      inst = "moav" then
    match node.operand 1 with
    | .error e => .error e
    | .ok operand =>
      match operandSize operand with
      | .error e => .error e
      | .ok n => .ok (1 + (4 + n))
  else if inst = "inc" ∨ inst = "dec" then .ok (1 + 4)
  else if inst = "p" ∨ inst = "pl" then .ok (1 + printSize node.operands)
  else if inst = "pk" ∨ inst = "rk" ∨ inst = "dl" then
    match node.operand 0 with
    | .error e => .error e
    | .ok operand =>
      match operandSize operand with
      | .error e => .error e
      | .ok n => .ok (1 + n)
  else if inst = "ikd" then .ok (1 + (4 + 4))
  else if inst = "mvm" then
    match node.operand 0, node.operand 1 with
    | .ok a, .ok b =>
      match operandSize a, operandSize b with
      | .ok n, .ok m => .ok (1 + (n + m))
      | .error e, _ => .error e
      | .ok _, .error e => .error e
    | .error e, _ => .error e
    | .ok _, .error e => .error e
  else if inst = "jmp" then .ok (1 + 4)
  else if inst = "cejmp" ∨ inst = "cgjmp" ∨ inst = "cljmp" ∨ inst = "cegjmp" ∨
      inst = "celjmp" then .ok (1 + (4 + 4 + 4 + 4))
  else .ok 1

/-- Embeds `CodeGenerator::buildLabelMap`, from the running `address` and the map
`labels`. -/
def buildLabelMapFrom :
    List InstructionNode → Nat → List (String × Nat) → Except Err (List (String × Nat))
  | [], _, labels => .ok labels
  | node :: rest, address, labels =>
    let labels1 : Except Err (List (String × Nat)) :=
      if node.instruction.value = "dfp" then
        match node.operand 0 with
        | .error e => .error e
        | .ok name => .ok ((name.value, address) :: labels)
      else .ok labels
    match labels1 with
    | .error e => .error e
    | .ok l =>
      match calculateInstructionSize node with
      | .error e => .error e
      | .ok size => buildLabelMapFrom rest (address + size) l

/-- Embeds `CodeGenerator::buildLabelMap` on a generator whose `labelAddresses` is
still empty. -/
def buildLabelMap (ast : List InstructionNode) : Except Err (List (String × Nat)) :=
  buildLabelMapFrom ast 0 []

/-- Embeds `CodeGenerator::emitUI32`: the four bytes of the value narrowed to
`uint32_t`, least significant first. -/
def emitUI32 (value : Nat) : List Nat :=
  let v := value % 2 ^ 32
  [v / 2 ^ 0 % 256, v / 2 ^ 8 % 256, v / 2 ^ 16 % 256, v / 2 ^ 24 % 256]

/-- Embeds `CodeGenerator::emitI32`: the `int32_t` value is passed on as `uint32_t`. -/
def emitI32 (value : Int) : List Nat :=
  emitUI32 (value % 2 ^ 32).toNat

/-- Embeds `CodeGenerator::emitUI16` on the value narrowed to `uint16_t`. -/
def emitUI16 (value : Nat) : List Nat :=
  let v := value % 2 ^ 16
  [v % 256, v / 2 ^ 8 % 256]

/-- Embeds `CodeGenerator::emitI16`. -/
def emitI16 (value : Int) : List Nat :=
  emitUI16 (value % 2 ^ 16).toNat

/-- Embeds `CodeGenerator::emitUI8` on the value narrowed to `uint8_t`. -/
def emitUI8 (value : Nat) : List Nat :=
  [value % 2 ^ 8]

/-- Embeds `CodeGenerator::emitI8`. -/
def emitI8 (value : Int) : List Nat :=
  emitUI8 (value % 2 ^ 8).toNat

/-- Embeds `CodeGenerator::emitString`: the length as `uint32_t`, then the characters. -/
def emitString (str : String) : List Nat :=
  emitUI32 str.length ++ str.data.map (fun c => c.toNat % 256)

/-- Embeds `CodeGenerator::emitLiteral`: the tag byte of `type`, then the converted
value (`emitF32` copies the bits of the `float` into `emitUI32`). -/
def emitLiteral (stof : String → Option Nat) (value : String) (type : Ty) :
    Except Err (List Nat) :=
  match type with
  | .I8 =>
    match Std.stoi value with
    | .error e => .error e
    | .ok v => .ok (type.code :: emitI8 v)
  | .UI8 =>
    match Std.stoul value with
    | .error e => .error e
    | .ok v => .ok (type.code :: emitUI8 v)
  | .I16 =>
    match Std.stoi value with
    | .error e => .error e
    | .ok v => .ok (type.code :: emitI16 v)
  | .UI16 =>
    match Std.stoul value with
    | .error e => .error e
    | .ok v => .ok (type.code :: emitUI16 v)
  | .I32 =>
    match Std.stol value with
    | .error e => .error e
    | .ok v => .ok (type.code :: emitI32 v)
  | .UI32 =>
    match Std.stoul value with
    | .error e => .error e
    | .ok v => .ok (type.code :: emitUI32 v)
  | .F32 =>
    match stof value with
    | none => .error (.exn "stof")
    | some bits => .ok (type.code :: emitUI32 bits)
  | _ => .error (.exn "Unsupported literal type")

/-- Embeds `CodeGenerator::emitVariable`. -/
def emitVariable (symbols : SymbolTable) (varToken : Token) : Except Err (List Nat) :=
  match symbols.getVariable varToken.value with
  | .error e => .error e
  | .ok var => .ok (emitUI32 var.offset)

/-- Embeds `CodeGenerator::emitLabel`; `labelAddresses.at` throws `std::out_of_range`
for a name that is not in the map. -/
def emitLabel (labels : List (String × Nat)) (labelToken : Token) : Except Err (List Nat) :=
  match labels.lookup labelToken.value with
  | none => .error (.exn "unordered_map::at")
  | some address => .ok (emitUI32 address)

/-- Embeds `CodeGenerator::emitOperand`; a token that is neither a literal nor an
identifier emits nothing. -/
def emitOperand (stof : String → Option Nat) (symbols : SymbolTable)
    (labels : List (String × Nat)) (operand : Token) : Except Err (List Nat) :=
  if operand.type = .LITERAL then emitLiteral stof operand.value (inferLiteralType operand.value)
  else if operand.type = .IDENTIFIER then
    if symbols.isVariable operand.value then emitVariable symbols operand
    else emitLabel labels operand
  else .ok []

/-- The loop of `generateInstruction` over the operands of `p` / `pl`. -/
def emitPrint (symbols : SymbolTable) : List Token → Except Err (List Nat)
  | [] => .ok []
  | operand :: rest =>
    let one : Except Err (List Nat) :=
      if operand.type = .STRING then .ok (emitString operand.value)
      else emitVariable symbols operand
    match one with
    | .error e => .error e
    | .ok a =>
      match emitPrint symbols rest with
      | .error e => .error e
      | .ok b => .ok (a ++ b)

/-- Sequencing of two emissions: the bytes of the first, then of the second. -/
def seq2 (a b : Except Err (List Nat)) : Except Err (List Nat) :=
  match a with
  | .error e => .error e
  | .ok x =>
    match b with
    | .error e => .error e
    | .ok y => .ok (x ++ y)

/-- The operand payload that `generateInstruction` emits after the opcode byte
(the `if` chain on the mnemonic). -/
def emitPayload (stof : String → Option Nat) (symbols : SymbolTable)
    (labels : List (String × Nat)) (node : InstructionNode) : Except Err (List Nat) :=
  let inst := node.instruction.value
  let var := fun (i : Nat) => (node.operand i).bind (emitVariable symbols)
  let opd := fun (i : Nat) => (node.operand i).bind (emitOperand stof symbols labels)
  let lbl := fun (i : Nat) => (node.operand i).bind (emitLabel labels)
  if inst = "cv" then
    match node.operand 0 with
    | .error e => .error e
    | .ok name =>
      match symbols.getVariable name.value with
      | .error e => .error e
      | .ok v => .ok (emitString name.value ++ [v.type.code])
  else if inst = "av" then seq2 (var 0) (opd 1)
  else if inst = "aav" ∨ inst = "sav" ∨ inst = "mav" ∨ inst = "dav" ∨ inst = "moav" then
    seq2 (var 0) (opd 1)
  else if inst = "inc" ∨ inst = "dec" then var 0
  else if inst = "p" ∨ inst = "pl" then emitPrint symbols node.operands
  else if inst = "pk" ∨ inst = "rk" then opd 0
  else if inst = "ikd" then seq2 (var 0) (var 1)
  else if inst = "mvm" then seq2 (opd 0) (opd 1)
  else if inst = "dfp" then .ok []
  else if inst = "jmp" then lbl 0
  else if inst = "cejmp" ∨ inst = "cgjmp" ∨ inst = "cljmp" ∨ inst = "cegjmp" ∨
      inst = "celjmp" then seq2 (seq2 (var 0) (var 1)) (seq2 (lbl 2) (lbl 3))
  else if inst = "dl" then opd 0
  else .ok []

/-- Embeds `CodeGenerator::generateInstruction`: the bytes appended for one node, the
opcode byte first. -/
def generateInstruction (stof : String → Option Nat) (symbols : SymbolTable)
    (labels : List (String × Nat)) (node : InstructionNode) : Except Err (List Nat) :=
  match instructionToOpcode node.instruction.value with
  | .error e => .error e
  | .ok opcode =>
    match emitPayload stof symbols labels node with
    | .error e => .error e
    | .ok payload => .ok (opcode.code :: payload)

/-- The loop `for (const auto& node : ast) generateInstruction(node);`: the
bytes appended for a list of nodes. -/
def generateAll (stof : String → Option Nat) (symbols : SymbolTable)
    (labels : List (String × Nat)) : List InstructionNode → Except Err (List Nat)
  | [] => .ok []
  | node :: rest =>
    match generateInstruction stof symbols labels node with
    | .error e => .error e
    | .ok a =>
      match generateAll stof symbols labels rest with
      | .error e => .error e
      | .ok b => .ok (a ++ b)

/-- Embeds `CodeGenerator::generate` on a freshly constructed `CodeGenerator(symbols)`. -/
def generate (stof : String → Option Nat) (symbols : SymbolTable)
    (ast : List InstructionNode) : Except Err (List Nat) :=
  match buildLabelMap ast with
  | .error e => .error e
  | .ok labels => generateAll stof symbols labels ast

end CodeGenerator

/-! ## The pipeline (`DecoyCompiler.cpp`, the body of the loop over the inputs) -/

/-- Parser, analyzer on a new `SymbolTable`, and code generator, on a token
vector. -/
def compileTokens (stof : String → Option Nat) (tokens : List Token) : Except Err (List Nat) :=
  match Parser.parse tokens with
  | .error e => .error e
  | .ok ast =>
    match SemanticAnalyzer.analyze stof SymbolTable.empty ast with
    | .error e => .error e
    | .ok symbols => CodeGenerator.generate stof symbols ast

/-- The four stages on a source text; `none` when the lexer does not finish
within `fuel` iterations. -/
def compile (fuel : Nat) (stof : String → Option Nat) (source : String) :
    Option (Except Err (List Nat)) :=
  (Lexer.tokenize fuel source.data).map (compileTokens stof)

/-! ## Notions of the specification used in the statements -/

/-- The characters that the main loop of `tokenize` consumes without producing a
token: those that start no number, identifier or string and are neither `,` nor
a newline. -/
def Lexer.isIgnored (c : Char) : Bool :=
  !(c.isDigit || c == '-' || c.isAlpha || c == '_' || c == '"' || c == ',' || c == '\n')

/-- The operand size of the size table of the specification: 4 for an identifier
and 1 + 4 for a literal. -/
def tableOperandSize (operand : Token) : Option Nat :=
  if operand.type = .IDENTIFIER then some 4
  else if operand.type = .LITERAL then some (1 + 4)
  else none

/-- The sum over the operands of `p` / `pl` in the size table of the
specification: 4 + the string length for a string, 4 for an identifier. -/
def tablePrintSize : List Token → Option Nat
  | [] => some 0
  | operand :: rest =>
    match tablePrintSize rest with
    | none => none
    | some n =>
      if operand.type = .STRING then some (4 + operand.value.length + n)
      else if operand.type = .IDENTIFIER then some (4 + n)
      else none

/-- The size table of the specification (§4.5), row by row; `none` where the
table gives no size (an unknown mnemonic or a missing operand). -/
def tableSize (node : InstructionNode) : Option Nat :=
  let inst := node.instruction.value
  if inst = "cv" then
    (node.operands.get? 0).map (fun name => 1 + 4 + name.value.length + 1)
  else if inst = "av" ∨ inst = "aav" ∨ inst = "sav" ∨ inst = "mav" ∨ inst = "dav" ∨
      inst = "moav" then
    ((node.operands.get? 1).bind tableOperandSize).map (fun n => 1 + 4 + n)
  else if inst = "inc" ∨ inst = "dec" then some (1 + 4)
  else if inst = "p" ∨ inst = "pl" then (tablePrintSize node.operands).map (fun n => 1 + n)
  else if inst = "pk" ∨ inst = "rk" ∨ inst = "dl" then
    ((node.operands.get? 0).bind tableOperandSize).map (fun n => 1 + n)
  else if inst = "ikd" then some (1 + 4 + 4)
  else if inst = "mvm" then
    match (node.operands.get? 0).bind tableOperandSize,
        (node.operands.get? 1).bind tableOperandSize with
    | some n, some m => some (1 + n + m)
    | _, _ => none
  else if inst = "dfp" then some 0
  else if inst = "jmp" then some (1 + 4)
  else if inst = "cejmp" ∨ inst = "cgjmp" ∨ inst = "cljmp" ∨ inst = "cegjmp" ∨
      inst = "celjmp" then some (1 + 16)
  else if inst = "nop" then some 1
  else none

/-- The tabulated range of the integer types (§4.4 of the specification); no
range for the other types. -/
def intRange : Ty → Option (Int × Int)
  | .I8 => some (-128, 127)
  | .UI8 => some (0, 255)
  | .I16 => some (-32768, 32767)
  | .UI16 => some (0, 65535)
  | .I32 => some (-2147483648, 2147483647)
  | .UI32 => some (0, 4294967295)
  | _ => none

/-- The unsigned integer types. -/
def Ty.isUnsigned : Ty → Bool
  | .UI8 => true
  | .UI16 => true
  | .UI32 => true
  | _ => false

/-- A clean decimal integer: an optional leading `-` followed only by one or
more digits. -/
def isCleanDecimal (s : List Char) : Bool :=
  match s with
  | '-' :: ds => !ds.isEmpty && ds.all Char.isDigit
  | ds => !ds.isEmpty && ds.all Char.isDigit

/-- The mathematical value of a clean decimal integer. -/
def cleanValue (s : List Char) : Int :=
  match s with
  | '-' :: ds => -(Std.digitsValue ds : Int)
  | ds => (Std.digitsValue ds : Int)

/-- The label that a node defines: the lexeme of the first operand of a `dfp`
node. -/
def InstructionNode.definedLabel (node : InstructionNode) : Option String :=
  if node.instruction.value = "dfp" then
    match node.operands with
    | l :: _ => some l.value
    | [] => none
  else none

/-- The 24 reserved mnemonics. -/
def knownMnemonics : List String :=
  ["cv", "av", "aav", "sav", "mav", "dav", "moav", "inc", "dec", "p", "pl", "pk", "rk", "ikd",
   "mvm", "dfp", "jmp", "cejmp", "cgjmp", "cljmp", "cegjmp", "celjmp", "dl", "nop"]

/-- A value operand: a literal or an identifier. -/
def Token.isValue (t : Token) : Prop :=
  t.type = .LITERAL ∨ t.type = .IDENTIFIER

/-- The operand shape that a successful analysis establishes for a node,
mnemonic by mnemonic. -/
def InstructionNode.Shaped (node : InstructionNode) : Prop :=
  (node.instruction.value = "cv" → ∃ a b, node.operands = [a, b]) ∧
  (node.instruction.value ∈ ["av", "aav", "sav", "mav", "dav", "moav"] →
    ∃ a b, node.operands = [a, b] ∧ b.isValue) ∧
  (node.instruction.value ∈ ["inc", "dec"] → ∃ a, node.operands = [a]) ∧
  (node.instruction.value ∈ ["p", "pl"] →
    ∀ op ∈ node.operands, op.type = .STRING ∨ op.type = .IDENTIFIER) ∧
  (node.instruction.value ∈ ["pk", "rk", "dl"] → ∃ a, node.operands = [a] ∧ a.isValue) ∧
  (node.instruction.value = "ikd" → ∃ a b, node.operands = [a, b]) ∧
  (node.instruction.value = "mvm" → ∃ a b, node.operands = [a, b] ∧ a.isValue ∧ b.isValue) ∧
  (node.instruction.value ∈ ["dfp", "jmp"] → ∃ l, node.operands = [l]) ∧
  (node.instruction.value ∈ ["cejmp", "cgjmp", "cljmp", "cegjmp", "celjmp"] →
    ∃ a b t f, node.operands = [a, b, t, f])

/-- A `stof` on which no lexeme converts; it instantiates the parameter in
evaluations of sources that contain no literal with a `.`. -/
def stofNone : String → Option Nat := fun _ => none

/-- Successive calls of `addVariable`, one for each declaration of the list in
order; the first failure ends the run. -/
def SymbolTable.addVariables : List (String × Ty) → SymbolTable → Except Err SymbolTable
  | [], t => .ok t
  | d :: rest, t =>
    match t.addVariable d.1 d.2 with
    | .error e => .error e
    | .ok t1 => SymbolTable.addVariables rest t1

/-- The sum of the sizes of the types of a list of declarations. -/
def declaredSize (decls : List (String × Ty)) : Nat :=
  (decls.map (fun d => SymbolTable.getTypeSize d.2)).sum

/-- The mnemonic of an opcode in the table of §3 of the specification. -/
def Instruction.mnemonic : Instruction → String
  | .CV => "cv" | .AV => "av" | .AAV => "aav" | .SAV => "sav" | .MAV => "mav" | .DAV => "dav"
  | .MOAV => "moav" | .INC => "inc" | .DEC => "dec" | .P => "p" | .PL => "pl" | .PK => "pk"
  | .RK => "rk" | .IKD => "ikd" | .MVM => "mvm" | .DFP => "dfp" | .JMP => "jmp"
  | .CEJMP => "cejmp" | .CGJMP => "cgjmp" | .CLJMP => "cljmp" | .CEGJMP => "cegjmp"
  | .CELJMP => "celjmp" | .DL => "dl" | .NOP => "nop"

/-- The opcode table of §3 of the specification, as pairs of mnemonic and
numeric code. -/
def opcodeTable : List (String × Nat) :=
  [("cv", 0), ("av", 1), ("aav", 2), ("sav", 3), ("mav", 4), ("dav", 5), ("moav", 6),
   ("inc", 7), ("dec", 8), ("p", 9), ("pl", 10), ("pk", 11), ("rk", 12), ("ikd", 13),
   ("mvm", 14), ("dfp", 15), ("jmp", 16), ("cejmp", 17), ("cgjmp", 18), ("cljmp", 19),
   ("cegjmp", 20), ("celjmp", 21), ("dl", 22), ("nop", 255)]

/-- The type that each of the seven type names accepted for a variable denotes. -/
def variableTypeNames : List (String × Ty) :=
  [("i8", .I8), ("ui8", .UI8), ("i16", .I16), ("ui16", .UI16), ("i32", .I32), ("ui32", .UI32),
   ("f32", .F32)]

/-- The name under which `typeToString` prints each integer type. -/
def integerTypeName : Ty → String
  | .I8 => "i8"
  | .UI8 => "ui8"
  | .I16 => "i16"
  | .UI16 => "ui16"
  | .I32 => "i32"
  | .UI32 => "ui32"
  | _ => ""

/-- The number that a list of bytes denotes when it is read in little-endian
order. -/
def littleEndianValue : List Nat → Nat
  | [] => 0
  | b :: bs => b + 256 * littleEndianValue bs

/-- The two's complement reading of a 32-bit pattern. -/
def asInt32 (n : Nat) : Int :=
  if n < 2 ^ 31 then (n : Int) else (n : Int) - 2 ^ 32

/-- The type against which the second pass checks a literal at operand position
`i` of a node: the type of the target variable for the assignments (position 1),
`UI8` for `pk` / `rk`, `UI32` for `dl`, `I32` for both operands of `mvm`; these
are the positions whose operand the generator emits with `emitOperand`. -/
def literalCheckType (symbols : SymbolTable) (node : InstructionNode) (i : Nat) : Option Ty :=
  let inst := node.instruction.value
  if inst = "av" ∨ inst = "aav" ∨ inst = "sav" ∨ inst = "mav" ∨ inst = "dav" ∨
      inst = "moav" then
    if i = 1 then
      match node.operands.head? with
      | some target => (symbols.vars.lookup target.value).map (fun v => v.type)
      | none => none
    else none
  else if inst = "pk" ∨ inst = "rk" then (if i = 0 then some .UI8 else none)
  else if inst = "dl" then (if i = 0 then some .UI32 else none)
  else if inst = "mvm" then (if i = 0 ∨ i = 1 then some .I32 else none)
  else none

/-- A `stof` that converts the lexeme `5000000000` to `0x4F9502F9`, the bit
pattern of the `float` 5·10⁹ that `std::stof` returns for it, and converts no
other lexeme. -/
def stofSample : String → Option Nat :=
  fun s => if s = "5000000000" then some 0x4F9502F9 else none

/-- The operand kinds of the shape table of §4.2 of the specification. -/
inductive OperandKind where
  | identifier
  | type
  | value
  deriving DecidableEq

/-- Whether a token is an operand of the given kind: an identifier is an
`IDENTIFIER` token, a type is a `TYPE` token, a value is a `LITERAL` or an
`IDENTIFIER` token. -/
def OperandKind.admits : OperandKind → Token → Bool
  | .identifier, t => t.type = .IDENTIFIER
  | .type, t => t.type = .TYPE
  | .value, t => t.type = .LITERAL ∨ t.type = .IDENTIFIER

/-- An operand of `p` / `pl`: a `STRING` or an `IDENTIFIER` token. -/
def Token.isPrintable (t : Token) : Bool :=
  t.type = .STRING ∨ t.type = .IDENTIFIER

/-- The operand shape of each mnemonic with a fixed number of operands, from
the table of §4.2 of the specification (`p` and `pl` have no fixed shape). -/
def fixedOperandShape (inst : String) : Option (List OperandKind) :=
  if inst = "cv" then some [.identifier, .type]
  else if inst = "av" ∨ inst = "aav" ∨ inst = "sav" ∨ inst = "mav" ∨ inst = "dav" ∨
      inst = "moav" then some [.identifier, .value]
  else if inst = "inc" ∨ inst = "dec" then some [.identifier]
  else if inst = "pk" ∨ inst = "rk" ∨ inst = "dl" then some [.value]
  else if inst = "ikd" then some [.identifier, .identifier]
  else if inst = "mvm" then some [.value, .value]
  else if inst = "dfp" ∨ inst = "jmp" then some [.identifier]
  else if inst = "cejmp" ∨ inst = "cgjmp" ∨ inst = "cljmp" ∨ inst = "cegjmp" ∨
      inst = "celjmp" then some [.identifier, .identifier, .identifier, .identifier]
  else if inst = "nop" then some []
  else none

/-- The operand list `ops` has the shape prescribed for the mnemonic `inst`:
one or more printable tokens for `p` / `pl`, and otherwise one token of each
kind of the fixed shape, in order. -/
def hasOperandShape (inst : String) (ops : List Token) : Prop :=
  if inst = "p" ∨ inst = "pl" then ops ≠ [] ∧ ∀ t ∈ ops, t.isPrintable = true
  else ∃ ks, fixedOperandShape inst = some ks ∧
    List.Forall₂ (fun k t => OperandKind.admits k t = true) ks ops

/-- The outcome of an operand parser without the text of its message: the
operands and the new position, a thrown `ParseError`, or a read past the end of
the token vector. -/
inductive ParseOutcome where
  | ok (operands rest : List Token)
  | failed
  | outOfBounds
  deriving DecidableEq

/-- The outcome of a result of the embedded parser functions. -/
def ParseOutcome.of : Except Err (List Token × List Token) → ParseOutcome
  | .ok r => .ok r.1 r.2
  | .error (.exn _) => .failed
  | .error .ub => .outOfBounds

/-- Matching a fixed shape against the tokens at the read position, kind by
kind: at the end of the vector a value operand is read out of bounds (`peek`),
an identifier or a type fails (`consume` tests `isAtEnd` first). -/
def matchKinds : List OperandKind → List Token → ParseOutcome
  | [], rest => .ok [] rest
  | .value :: _, [] => .outOfBounds
  | _ :: _, [] => .failed
  | k :: ks, t :: ts =>
    if k.admits t then
      match matchKinds ks ts with
      | .ok ops r => .ok (t :: ops) r
      | o => o
    else .failed

/-- The operands of `p` / `pl` at the read position: the longest run of
printable tokens; the token after it is read, so a run that reaches the end of
the vector is a read out of bounds, and an empty run fails. -/
def matchPrint (rest : List Token) : ParseOutcome :=
  if rest.dropWhile Token.isPrintable = [] then .outOfBounds
  else if rest.takeWhile Token.isPrintable = [] then .failed
  else .ok (rest.takeWhile Token.isPrintable) (rest.dropWhile Token.isPrintable)

/-- The operands of `nop` at the read position: none, and the next token must
be an `END_OF_LINE`. -/
def matchNop (rest : List Token) : ParseOutcome :=
  match rest with
  | [] => .outOfBounds
  | t :: _ => if t.type = .END_OF_LINE then .ok [] rest else .failed

/-- The operand grammar of the specification for the mnemonic `inst`, as an
outcome on the tokens at the read position. -/
def matchOperands (inst : String) (rest : List Token) : ParseOutcome :=
  if inst = "p" ∨ inst = "pl" then matchPrint rest
  else if inst = "nop" then matchNop rest
  else
    match fixedOperandShape inst with
    | some ks => matchKinds ks rest
    | none => .failed

/-- An outcome with the operands `acc`, consumed earlier, put in front. -/
def ParseOutcome.prepend (acc : List Token) : ParseOutcome → ParseOutcome
  | .ok ops r => .ok (acc ++ ops) r
  | o => o

/-- Embeds `SymbolTable::addVariable` as a transition of the object: the table
after the call, whether the call returns or throws, and the exception thrown, if
any.  The statements run in the order of the source: the test
`variables.count(name)` and its `throw` come before any write to a member. -/
def SymbolTable.addVariableRun (t : SymbolTable) (name : String) (type : Ty) :
    SymbolTable × Option Err :=
  if (t.vars.lookup name).isSome then
    (t, some (.exn ("Redeclaration of variable \x27" ++ name ++ "\x27")))
  else
    let size := SymbolTable.getTypeSize type
    let t1 : SymbolTable := { t with vars := (name, ⟨type, size, t.currentOffset⟩) :: t.vars }
    ({ t1 with currentOffset := t1.currentOffset + size }, none)

/-- Embeds `SymbolTable::addLabel` as a transition of the object: the table after
the call, whether the call returns or throws, and the exception thrown, if any. -/
def SymbolTable.addLabelRun (t : SymbolTable) (name : String) (address : Nat) :
    SymbolTable × Option Err :=
  if (t.labels.lookup name).isSome then
    (t, some (.exn ("Redeclaration of label \x27" ++ name ++ "\x27")))
  else ({ t with labels := (name, address) :: t.labels }, none)

/-- Modelled from the spec: the one-based line on which the character at
`offset` of the source stands, 1 plus the number of newline characters before
it. -/
def startLine (source : List Char) (offset : Nat) : Nat :=
  1 + (source.take offset).count '\n'

/-- The number of `END_OF_LINE` tokens in a token list. -/
def countEndOfLine (tokens : List Token) : Nat :=
  (tokens.filter (fun t => t.type = .END_OF_LINE)).length

/-- The invariant of the main loop of `tokenize`: the line of every token is 1
plus the number of `END_OF_LINE` tokens before it, and the line counter is 1
plus the number of `END_OF_LINE` tokens pushed so far. -/
def Lexer.LinesCounted (st : Lexer.State) : Prop :=
  st.line = 1 + countEndOfLine st.tokens ∧
  ∀ pre t post, st.tokens = pre ++ t :: post → t.line = 1 + countEndOfLine pre

/-- A value operand that the analyzer has checked: a literal, or an identifier
that names a declared variable. -/
def CheckedValue (symbols : SymbolTable) (t : Token) : Prop :=
  t.type = .LITERAL ∨ (t.type = .IDENTIFIER ∧ ∃ v, symbols.getVariable t.value = .ok v)

/-- The tokens of one line of a program: the mnemonic token of the node, its
operand tokens in order, and the token `eol` that ends the line. -/
def InstructionNode.lineTokens (node : InstructionNode) (eol : Token) : List Token :=
  node.instruction :: (node.operands ++ [eol])

/-- The concatenation of the lines of the nodes of a program, in order, each
ended by the corresponding token of `eols`. -/
def programTokens : List InstructionNode → List Token → List Token
  | node :: nodes, eol :: eols => node.lineTokens eol ++ programTokens nodes eols
  | _, _ => []

/-- The 4-byte little-endian address stored at offset `i` of a byte sequence. -/
def addressAt (bytes : List Nat) (i : Nat) : Nat :=
  littleEndianValue ((bytes.drop i).take 4)

theorem Lexer.loop_add (n : Nat) : ∀ (fuel : Nat) (st r : Lexer.State),
    Lexer.loop fuel st = some r → Lexer.loop (fuel + n) st = some r := by
  intro fuel
  induction fuel with
  | zero =>
    intro st r h
    unfold Lexer.loop at h ⊢
    cases hr : st.rest with
    | nil => simpa [hr] using h
    | cons c cs => simp [hr] at h
  | succ k ih =>
    intro st r h
    rw [Nat.add_right_comm]
    unfold Lexer.loop at h ⊢
    cases hr : st.rest with
    | nil => simpa [hr] using h
    | cons c cs =>
      simp only [hr] at h ⊢
      exact ih _ _ h

theorem Lexer.tokenize_add {fuel : Nat} {source : List Char} {toks : List Token}
    (h : Lexer.tokenize fuel source = some toks) (n : Nat) :
    Lexer.tokenize (fuel + n) source = some toks := by
  unfold Lexer.tokenize at h ⊢
  cases hl : Lexer.loop fuel ⟨source, 1, []⟩ with
  | none => simp [hl] at h
  | some r =>
    rw [Lexer.loop_add n fuel _ r hl]
    simpa [hl] using h

theorem Lexer.tokenize_unique {f g : Nat} {source : List Char} {s t : List Token}
    (hs : Lexer.tokenize f source = some s) (ht : Lexer.tokenize g source = some t) : s = t := by
  have h1 := Lexer.tokenize_add hs g
  have h2 := Lexer.tokenize_add ht f
  rw [Nat.add_comm] at h2
  rw [h1] at h2
  exact Option.some.inj h2

theorem compile_of_tokenize {fuel : Nat} {source : String} {toks : List Token}
    (h : Lexer.tokenize fuel source.data = some toks) (stof : String → Option Nat) (n : Nat) :
    compile (fuel + n) stof source = some (compileTokens stof toks) := by
  unfold compile
  rw [Lexer.tokenize_add h n]
  rfl

/-- Whatever the fuel and the `stof`, a source whose compilation is known for one
fuel and does not depend on `stof` compiles to that result or runs out of fuel. -/
theorem compile_eq_of {fuel g : Nat} {source : String} {toks : List Token}
    {stof : String → Option Nat} {r x : Except Err (List Nat)}
    (h : Lexer.tokenize fuel source.data = some toks) (hr : compileTokens stof toks = r)
    (hx : compile g stof source = some x) : x = r := by
  unfold compile at hx
  cases ht : Lexer.tokenize g source.data with
  | none => simp [ht] at hx
  | some t =>
    have e := Lexer.tokenize_unique ht h
    subst e
    simp only [ht, Option.map_some', Option.some.injEq] at hx
    rw [← hx, hr]

/-! ## The end-to-end scenarios -/

theorem s2_tokens : ∃ toks,
    Lexer.tokenize "dfp start\n nop\n jmp start\n".length "dfp start\n nop\n jmp start\n".data
      = some toks ∧
    ∀ stof, compileTokens stof toks = .ok [0x0f, 0xff, 0x10, 0, 0, 0, 0] :=
  ⟨_, rfl, fun _ => rfl⟩

theorem s3_tokens : ∃ toks,
    Lexer.tokenize "cv x ui8\n cv y ui8\n dfp t\n dfp f\n cejmp x y t f\n".length
      "cv x ui8\n cv y ui8\n dfp t\n dfp f\n cejmp x y t f\n".data = some toks ∧
    ∀ stof, compileTokens stof toks = .ok
      [0, 1, 0, 0, 0, 0x78, 2, 0, 1, 0, 0, 0, 0x79, 2, 0x0f, 0x0f,
       0x11, 0, 0, 0, 0, 1, 0, 0, 0, 14, 0, 0, 0, 15, 0, 0, 0] :=
  ⟨_, rfl, fun _ => rfl⟩

/-- For no fuel and no `stof` does the pipeline turn the
source of scenario S2 into the six bytes `ff 10 00 00 00 00`. -/
theorem s2_not_six_bytes :
    ¬ ∃ (fuel : Nat) (stof : String → Option Nat),
      compile fuel stof "dfp start\n nop\n jmp start\n"
        = some (.ok [0xff, 0x10, 0, 0, 0, 0]) := by
  rintro ⟨fuel, stof, h⟩
  obtain ⟨toks, h1, h2⟩ := s2_tokens
  have := compile_eq_of h1 (h2 stof) h
  exact absurd this (by decide)

/-- The pipeline succeeds on the source of scenario S2, for every
`stof` and every fuel from the length of the source on, and yields exactly the
seven bytes `0f ff 10 00 00 00 00`: the opcode of `dfp`, the opcode of `nop`,
the opcode of `jmp` and the address 0 in four bytes. -/
theorem s2_forward_jump (stof : String → Option Nat) (n : Nat) :
    compile ("dfp start\n nop\n jmp start\n".length + n) stof "dfp start\n nop\n jmp start\n"
      = some (.ok [0x0f, 0xff, 0x10, 0, 0, 0, 0]) := by
  obtain ⟨toks, h1, h2⟩ := s2_tokens
  rw [compile_of_tokenize h1, h2]

/-- C5: the pipeline succeeds on the source of scenario S1, for every `stof` and
every fuel from the length of the source on, and yields 17 bytes: `cv` as opcode
`00`, the name length `01 00 00 00`, the byte `61`, the type tag `02`; then `av`
as opcode `01`, the offset `00 00 00 00`, the inferred tag `06` and the value
`05 00 00 00`. -/
theorem s1_declaration_and_assignment (stof : String → Option Nat) (n : Nat) :
    compile ("cv a ui8\n av a 5\n".length + n) stof "cv a ui8\n av a 5\n"
      = some (.ok ([0x00] ++ [0x01, 0, 0, 0] ++ [0x61] ++ [0x02] ++
                   [0x01] ++ [0, 0, 0, 0] ++ [0x06] ++ [0x05, 0, 0, 0])) ∧
    ([0x00] ++ [0x01, 0, 0, 0] ++ [0x61] ++ [0x02] ++
      [0x01] ++ [0, 0, 0, 0] ++ [0x06] ++ [0x05, 0, 0, 0] : List Nat).length = 17 := by
  have h : ∃ toks, Lexer.tokenize "cv a ui8\n av a 5\n".length "cv a ui8\n av a 5\n".data
      = some toks ∧ compileTokens stof toks = .ok
        [0, 1, 0, 0, 0, 0x61, 2, 1, 0, 0, 0, 0, 6, 5, 0, 0, 0] := ⟨_, rfl, rfl⟩
  obtain ⟨toks, h1, h2⟩ := h
  refine ⟨?_, rfl⟩
  rw [compile_of_tokenize h1, h2]
  rfl

/-- For no fuel and no `stof` does the output for the
source of scenario S3 contain the `cejmp` instruction at an offset `pre.length`
with the payload 0, 1, `pre.length`, `pre.length`, i.e. with both label
addresses equal to the offset at which the `cejmp` starts. -/
theorem s3_labels_not_at_cejmp :
    ¬ ∃ (fuel : Nat) (stof : String → Option Nat) (pre : List Nat),
      compile fuel stof "cv x ui8\n cv y ui8\n dfp t\n dfp f\n cejmp x y t f\n"
        = some (.ok (pre ++ 0x11 :: (CodeGenerator.emitUI32 0 ++ CodeGenerator.emitUI32 1 ++
            CodeGenerator.emitUI32 pre.length ++ CodeGenerator.emitUI32 pre.length))) := by
  rintro ⟨fuel, stof, pre, h⟩
  obtain ⟨toks, h1, h2⟩ := s3_tokens
  have e := compile_eq_of h1 (h2 stof) h
  injection e with e
  have hl := congrArg List.length e
  simp [CodeGenerator.emitUI32] at hl
  have e2 := congrArg (List.drop pre.length) e
  rw [List.drop_left] at e2
  rw [hl] at e2
  exact absurd e2 (by decide)

/-- The pipeline succeeds on the source of scenario S3 and yields
the two `cv` instructions (bytes 0..13), the opcode byte of `dfp t` at offset
14, the opcode byte of `dfp f` at offset 15, and at offset 16 the `cejmp`
instruction: opcode `11`, then offset(x) = 0, offset(y) = 1, addr(t) = 14 and
addr(f) = 15, each in four little-endian bytes.  Each label address is the
offset of the opcode byte of its own `dfp`. -/
theorem s3_conditional_jump (stof : String → Option Nat) (n : Nat) :
    compile ("cv x ui8\n cv y ui8\n dfp t\n dfp f\n cejmp x y t f\n".length + n) stof
        "cv x ui8\n cv y ui8\n dfp t\n dfp f\n cejmp x y t f\n"
      = some (.ok ([0, 1, 0, 0, 0, 0x78, 2] ++ [0, 1, 0, 0, 0, 0x79, 2] ++ [0x0f] ++ [0x0f] ++
          0x11 :: (CodeGenerator.emitUI32 0 ++ CodeGenerator.emitUI32 1 ++
            CodeGenerator.emitUI32 14 ++ CodeGenerator.emitUI32 15))) ∧
    ([0, 1, 0, 0, 0, 0x78, 2] ++ [0, 1, 0, 0, 0, 0x79, 2] : List Nat).length = 14 ∧
    ([0, 1, 0, 0, 0, 0x78, 2] ++ [0, 1, 0, 0, 0, 0x79, 2] ++ [0x0f] : List Nat).length = 15 ∧
    ([0, 1, 0, 0, 0, 0x78, 2] ++ [0, 1, 0, 0, 0, 0x79, 2] ++ [0x0f] ++ [0x0f] : List Nat).length
      = 16 := by
  obtain ⟨toks, h1, h2⟩ := s3_tokens
  refine ⟨?_, rfl, rfl, rfl⟩
  rw [compile_of_tokenize h1, h2]
  rfl

/-- C4 (the code at the failing input): on the source of scenario S2 the
pipeline succeeds, for every `stof` and every fuel from the length of the source
on, with the seven bytes `0f ff 10 00 00 00 00` and not with the six bytes
`ff 10 00 00 00 00` of the scenario.  The first byte is the opcode that
`generateInstruction` emits for the `dfp` node before it dispatches on the
mnemonic, although the comment in its `dfp` branch says that no code is
emitted. -/
theorem s2_emits_dfp_opcode (stof : String → Option Nat) (n : Nat) :
    compile ("dfp start\n nop\n jmp start\n".length + n) stof "dfp start\n nop\n jmp start\n"
      = some (.ok [0x0f, 0xff, 0x10, 0, 0, 0, 0]) ∧
    compile ("dfp start\n nop\n jmp start\n".length + n) stof "dfp start\n nop\n jmp start\n"
      ≠ some (.ok [0xff, 0x10, 0, 0, 0, 0]) := by
  obtain ⟨toks, h1, h2⟩ := s2_tokens
  rw [compile_of_tokenize h1, h2]
  exact ⟨rfl, by decide⟩

/-- C6 (the code at the failing input): on the source of scenario S3 the
pipeline succeeds, for every `stof` and every fuel from the length of the source
on.  The output is the two `cv` instructions in 14 bytes, the opcode byte `0f`
of `dfp t` at offset 14, the opcode byte `0f` of `dfp f` at offset 15, and the
`cejmp` instruction at offset 16, whose payload holds the offsets 0 and 1 and
the label addresses 14 and 15: the two addresses differ, and neither is the
offset 16 at which the `cejmp` starts. -/
theorem s3_labels_before_cejmp (stof : String → Option Nat) (n : Nat) :
    compile ("cv x ui8\n cv y ui8\n dfp t\n dfp f\n cejmp x y t f\n".length + n) stof
        "cv x ui8\n cv y ui8\n dfp t\n dfp f\n cejmp x y t f\n"
      = some (.ok ([0, 1, 0, 0, 0, 0x78, 2, 0, 1, 0, 0, 0, 0x79, 2] ++ [0x0f] ++ [0x0f] ++
          0x11 :: ([0, 0, 0, 0] ++ [1, 0, 0, 0] ++ [14, 0, 0, 0] ++ [15, 0, 0, 0]))) ∧
    ([0, 1, 0, 0, 0, 0x78, 2, 0, 1, 0, 0, 0, 0x79, 2] ++ [0x0f] ++ [0x0f] : List Nat).length
      = 16 ∧
    littleEndianValue [14, 0, 0, 0] = 14 ∧
    littleEndianValue [15, 0, 0, 0] = 15 ∧
    littleEndianValue [14, 0, 0, 0] ≠ 16 ∧
    littleEndianValue [15, 0, 0, 0] ≠ 16 := by
  obtain ⟨toks, h1, h2⟩ := s3_tokens
  refine ⟨?_, rfl, by decide, by decide, by decide, by decide⟩
  rw [compile_of_tokenize h1, h2]
  rfl

/-! ## The parser loop needs no more iterations than there are tokens -/

theorem Parser.consume_length {all rest : List Token} {k : TokenType} {msg : String}
    {r : Token × List Token} (h : Parser.consume all rest k msg = .ok r) :
    r.2.length + 1 = rest.length := by
  unfold Parser.consume at h
  split at h
  · cases h
  · split at h
    · cases h
    · injection h with h
      rw [← h]
      rfl

theorem Parser.consumeValueOperand_length {all rest : List Token} {r : Token × List Token}
    (h : Parser.consumeValueOperand all rest = .ok r) : r.2.length + 1 = rest.length := by
  unfold Parser.consumeValueOperand at h
  split at h
  · cases h
  · split at h
    · injection h with h
      rw [← h]
      rfl
    · cases h

theorem Parser.parsePrintLoop_length :
    ∀ {rest : List Token} {r : List Token × List Token},
    Parser.parsePrintLoop rest = .ok r → r.2.length ≤ rest.length := by
  intro rest
  induction rest with
  | nil => intro r h; cases h
  | cons t ts ih =>
    intro r h
    unfold Parser.parsePrintLoop at h
    split at h
    · split at h
      · rename_i q hq
        injection h with h
        rw [← h]
        exact Nat.le_succ_of_le (ih (r := q) hq)
      · cases h
    · injection h with h
      rw [← h]

theorem Parser.bind_ok {α β : Type} {x : Except Err α} {f : α → Except Err β} {b : β}
    (h : x >>= f = .ok b) : ∃ a, x = .ok a ∧ f a = .ok b := by
  cases x with
  | error e => cases h
  | ok a => exact ⟨a, rfl, h⟩

theorem Parser.parseOperands_length {all rest : List Token} {inst : String}
    {r : List Token × List Token} (h : Parser.parseOperands all rest inst = .ok r) :
    r.2.length ≤ rest.length := by
  have hid : ∀ {rest : List Token} {m : String} {q : Token × List Token},
      Parser.consumeIdentifier all rest m = .ok q → q.2.length + 1 = rest.length :=
    fun hq => Parser.consume_length hq
  have hty : ∀ {rest : List Token} {m : String} {q : Token × List Token},
      Parser.consumeType all rest m = .ok q → q.2.length + 1 = rest.length :=
    fun hq => Parser.consume_length hq
  have hcv : ∀ {r : List Token × List Token}, Parser.parseCv all rest = .ok r →
      r.2.length ≤ rest.length := by
    intro r h
    obtain ⟨a, ha, h⟩ := Parser.bind_ok h
    obtain ⟨b, hb, h⟩ := Parser.bind_ok h
    injection h with h
    have := hid ha
    have := hty hb
    rw [← h]
    simp only
    omega
  have hav : ∀ {r : List Token × List Token}, Parser.parseAv all rest = .ok r →
      r.2.length ≤ rest.length := by
    intro r h
    obtain ⟨a, ha, h⟩ := Parser.bind_ok h
    obtain ⟨b, hb, h⟩ := Parser.bind_ok h
    injection h with h
    have := hid ha
    have := Parser.consumeValueOperand_length hb
    rw [← h]
    simp only
    omega
  have hdfp : ∀ {r : List Token × List Token}, Parser.parseDfp all rest = .ok r →
      r.2.length ≤ rest.length := by
    intro r h
    obtain ⟨a, ha, h⟩ := Parser.bind_ok h
    injection h with h
    have := hid ha
    rw [← h]
    simp only
    omega
  unfold Parser.parseOperands at h
  by_cases c0 : inst = "cv"
  · rw [if_pos c0] at h
    exact hcv h
  rw [if_neg c0] at h
  by_cases c1 : inst = "av"
  · rw [if_pos c1] at h
    exact hav h
  rw [if_neg c1] at h
  by_cases c2 : inst = "aav" ∨ inst = "sav" ∨ inst = "mav" ∨ inst = "dav" ∨ inst = "moav"
  · rw [if_pos c2] at h
    exact hav h
  rw [if_neg c2] at h
  by_cases c3 : inst = "inc" ∨ inst = "dec"
  · rw [if_pos c3] at h
    obtain ⟨a, ha, h⟩ := Parser.bind_ok h
    injection h with h
    have := hid ha
    rw [← h]
    simp only
    omega
  rw [if_neg c3] at h
  by_cases c4 : inst = "p" ∨ inst = "pl"
  · rw [if_pos c4] at h
    unfold Parser.parsePrint at h
    split at h
    · cases h
    · rename_i q hq
      split at h
      · cases h
      · injection h with h
        rw [← h]
        exact Parser.parsePrintLoop_length hq
  rw [if_neg c4] at h
  by_cases c5 : inst = "pk" ∨ inst = "rk"
  · rw [if_pos c5] at h
    unfold Parser.parseKeyOperation at h
    split at h
    · cases h
    · split at h
      · injection h with h
        rw [← h]
        exact Nat.le_succ _
      · cases h
  rw [if_neg c5] at h
  by_cases c6 : inst = "ikd"
  · rw [if_pos c6] at h
    obtain ⟨a, ha, h⟩ := Parser.bind_ok h
    obtain ⟨b, hb, h⟩ := Parser.bind_ok h
    injection h with h
    have := hid ha
    have := hid hb
    rw [← h]
    simp only
    omega
  rw [if_neg c6] at h
  by_cases c7 : inst = "mvm"
  · rw [if_pos c7] at h
    obtain ⟨a, ha, h⟩ := Parser.bind_ok h
    obtain ⟨b, hb, h⟩ := Parser.bind_ok h
    injection h with h
    have := Parser.consumeValueOperand_length ha
    have := Parser.consumeValueOperand_length hb
    rw [← h]
    simp only
    omega
  rw [if_neg c7] at h
  by_cases c8 : inst = "dfp"
  · rw [if_pos c8] at h
    exact hdfp h
  rw [if_neg c8] at h
  by_cases c9 : inst = "jmp"
  · rw [if_pos c9] at h
    exact hdfp h
  rw [if_neg c9] at h
  by_cases c10 : inst = "cejmp" ∨ inst = "cgjmp" ∨ inst = "cljmp" ∨ inst = "cegjmp" ∨ inst = "celjmp"
  · rw [if_pos c10] at h
    obtain ⟨a, ha, h⟩ := Parser.bind_ok h
    obtain ⟨b, hb, h⟩ := Parser.bind_ok h
    obtain ⟨c, hc, h⟩ := Parser.bind_ok h
    obtain ⟨d, hd, h⟩ := Parser.bind_ok h
    injection h with h
    have := hid ha
    have := hid hb
    have := hid hc
    have := hid hd
    rw [← h]
    simp only
    omega
  rw [if_neg c10] at h
  by_cases c11 : inst = "dl"
  · rw [if_pos c11] at h
    obtain ⟨a, ha, h⟩ := Parser.bind_ok h
    injection h with h
    have := Parser.consumeValueOperand_length ha
    rw [← h]
    simp only
    omega
  rw [if_neg c11] at h
  by_cases c12 : inst = "nop"
  · rw [if_pos c12] at h
    unfold Parser.parseNop at h
    split at h
    · cases h
    · split at h
      · cases h
      · injection h with h
        rw [← h]
  rw [if_neg c12] at h
  cases h

theorem Parser.parseInstruction_length {all ts : List Token} {t : Token}
    {r : InstructionNode × List Token}
    (h : Parser.parseInstruction all (t :: ts) = .ok r) : r.2.length + 1 ≤ ts.length := by
  unfold Parser.parseInstruction at h
  obtain ⟨a, ha, h⟩ := Parser.bind_ok h
  obtain ⟨b, hb, h⟩ := Parser.bind_ok h
  injection h with h
  have := Parser.parseOperands_length ha
  have := Parser.consume_length hb
  rw [← h]
  simp only
  omega

/-- The counter of `parseLoop` does not matter once it is at least the number
of tokens left: the case in which it runs out is then never reached. -/
theorem Parser.parseLoop_count (all : List Token) :
    ∀ (c1 c2 : Nat) (rest : List Token), rest.length ≤ c1 → rest.length ≤ c2 →
    Parser.parseLoop c1 all rest = Parser.parseLoop c2 all rest := by
  intro c1
  induction c1 with
  | zero =>
    intro c2 rest h1 _
    have : rest = [] := List.length_eq_zero.mp (Nat.le_zero.mp h1)
    subst this
    cases c2 <;> rfl
  | succ n ih =>
    intro c2 rest h1 h2
    cases rest with
    | nil => cases c2 <;> rfl
    | cons t ts =>
      cases c2 with
      | zero => simp at h2
      | succ m =>
        unfold Parser.parseLoop
        cases hp : Parser.parseInstruction all (t :: ts) with
        | error e => rfl
        | ok r =>
          have hl := Parser.parseInstruction_length hp
          simp only [List.length_cons] at h1 h2
          simp only
          rw [ih m r.2 (by omega) (by omega)]

/-! ## The `dfp` pseudo-instruction -/

/-- C2 (the code at the failing input): for the node `dfp start`,
`generateInstruction` appends the byte `0f` (so not no byte) and
`calculateInstructionSize` returns 1 (so not 0).  The opcode byte is emitted
before the dispatch on the mnemonic, although the comment in the `dfp` branch
says that no code is emitted, and the size starts at 1 for every mnemonic. -/
theorem dfp_start_occupies_one_byte :
    CodeGenerator.generateInstruction stofNone SymbolTable.empty []
        ⟨⟨.INSTRUCTION, "dfp", 1⟩, [⟨.IDENTIFIER, "start", 1⟩]⟩ = .ok [0x0f] ∧
    CodeGenerator.generateInstruction stofNone SymbolTable.empty []
        ⟨⟨.INSTRUCTION, "dfp", 1⟩, [⟨.IDENTIFIER, "start", 1⟩]⟩ ≠ .ok [] ∧
    CodeGenerator.calculateInstructionSize
        ⟨⟨.INSTRUCTION, "dfp", 1⟩, [⟨.IDENTIFIER, "start", 1⟩]⟩ = .ok 1 ∧
    CodeGenerator.calculateInstructionSize
        ⟨⟨.INSTRUCTION, "dfp", 1⟩, [⟨.IDENTIFIER, "start", 1⟩]⟩ ≠ .ok 0 := by
  decide

theorem CodeGenerator.generateInstruction_dfp (stof : String → Option Nat)
    (symbols : SymbolTable) (labels : List (String × Nat)) (node : InstructionNode)
    (h : node.instruction.value = "dfp") :
    CodeGenerator.generateInstruction stof symbols labels node = .ok [0x0f] := by
  simp [CodeGenerator.generateInstruction, CodeGenerator.instructionToOpcode,
    CodeGenerator.emitPayload, h, Instruction.code]

theorem CodeGenerator.calculateInstructionSize_dfp (node : InstructionNode)
    (h : node.instruction.value = "dfp") : CodeGenerator.calculateInstructionSize node = .ok 1 := by
  simp [CodeGenerator.calculateInstructionSize, h]

/-- For every `dfp` node, whatever its operands, the symbol table
and the label map, `generateInstruction` appends exactly one byte, the opcode
`0f`, and no payload, and `calculateInstructionSize` returns 1. -/
theorem dfp_occupies_one_byte (stof : String → Option Nat) (symbols : SymbolTable)
    (labels : List (String × Nat)) (node : InstructionNode)
    (h : node.instruction.value = "dfp") :
    CodeGenerator.generateInstruction stof symbols labels node = .ok [0x0f] ∧
    CodeGenerator.calculateInstructionSize node = .ok 1 :=
  ⟨CodeGenerator.generateInstruction_dfp stof symbols labels node h,
   CodeGenerator.calculateInstructionSize_dfp node h⟩

/-- The node `dfp loop` with a label map that already holds `loop`: one byte. -/
theorem dfp_occupies_one_byte_witness :
    (⟨⟨.INSTRUCTION, "dfp", 3⟩, [⟨.IDENTIFIER, "loop", 3⟩]⟩ : InstructionNode).instruction.value
      = "dfp" ∧
    CodeGenerator.generateInstruction stofNone SymbolTable.empty [("loop", 7)]
      ⟨⟨.INSTRUCTION, "dfp", 3⟩, [⟨.IDENTIFIER, "loop", 3⟩]⟩ = .ok [0x0f] ∧
    CodeGenerator.calculateInstructionSize
      ⟨⟨.INSTRUCTION, "dfp", 3⟩, [⟨.IDENTIFIER, "loop", 3⟩]⟩ = .ok 1 :=
  ⟨rfl, dfp_occupies_one_byte stofNone SymbolTable.empty [("loop", 7)]
    ⟨⟨.INSTRUCTION, "dfp", 3⟩, [⟨.IDENTIFIER, "loop", 3⟩]⟩ rfl⟩

/-! ## The lexer -/

theorem Lexer.step_underscore (cs : List Char) (line : Nat) (toks : List Token) :
    Lexer.step ⟨'_' :: cs, line, toks⟩ '_' cs
      = ⟨'_' :: cs, line, toks ++ [⟨.IDENTIFIER, "", line⟩]⟩ := by
  have h1 : ¬ (('_' : Char).isDigit = true ∨ ('_' : Char) = '-') := by decide
  have h2 : (('_' : Char).isAlpha = true ∨ ('_' : Char) = '_') := by decide
  have h3 : ('_' : Char).isAlphanum = false := by decide
  have h4 : Lexer.keywords.lookup (String.mk []) = none := by decide
  simp only [Lexer.step, h1, h2, if_true, if_false, Lexer.readIdentifier, Lexer.readAlnum, h3,
    h4]
  rfl

theorem Lexer.loop_underscore (cs : List Char) : ∀ (fuel line : Nat) (toks : List Token),
    Lexer.loop fuel ⟨'_' :: cs, line, toks⟩ = none := by
  intro fuel
  induction fuel with
  | zero => intro line toks; rfl
  | succ k ih =>
    intro line toks
    unfold Lexer.loop
    simp only [Lexer.step_underscore]
    exact ih _ _

/-- C8 (the code at the failing input): in a state whose next character is `_`
an iteration of the main loop of `tokenize` pushes an identifier with the empty
lexeme and leaves the read position where it was; hence on every source that
starts with `_` the loop does not end within any number of iterations. -/
theorem tokenize_underscore_diverges :
    (∀ (cs : List Char) (line : Nat) (toks : List Token),
      (Lexer.step ⟨'_' :: cs, line, toks⟩ '_' cs).rest = '_' :: cs) ∧
    (∀ (fuel : Nat) (cs : List Char), Lexer.tokenize fuel ('_' :: cs) = none) := by
  constructor
  · intro cs line toks
    rw [Lexer.step_underscore]
  · intro fuel cs
    simp [Lexer.tokenize, Lexer.loop_underscore]

theorem Lexer.step_tokens_ignored (st : Lexer.State) (c : Char) (cs : List Char)
    (h : Lexer.isIgnored c = true) : Lexer.step st c cs = ⟨cs, st.line, st.tokens⟩ := by
  simp only [Lexer.isIgnored, Bool.not_eq_true', Bool.or_eq_false_iff, beq_eq_false_iff_ne,
    ne_eq] at h
  obtain ⟨⟨⟨⟨⟨⟨h1, h2⟩, h3⟩, h4⟩, h5⟩, h6⟩, h7⟩ := h
  simp [Lexer.step, h1, h2, h3, h4, h5, h6, h7]

theorem Lexer.step_tokens_not_ignored (st : Lexer.State) (c : Char) (cs : List Char)
    (h : Lexer.isIgnored c = false) : (Lexer.step st c cs).tokens ≠ [] := by
  unfold Lexer.step
  split
  · simp
  · split
    · simp
    · split
      · simp
      · split
        · simp
        · split
          · simp
          · rename_i h1 h2 h3 h4 h5
            simp only [not_or, Bool.not_eq_true] at h1 h2
            simp [Lexer.isIgnored, h1.1, h1.2, h2.1, h2.2, h3, h4, h5] at h

theorem Lexer.loop_tokens_nonempty : ∀ (fuel : Nat) (st r : Lexer.State),
    Lexer.loop fuel st = some r →
    (st.tokens ≠ [] ∨ ∃ c ∈ st.rest, Lexer.isIgnored c = false) → r.tokens ≠ [] := by
  intro fuel
  induction fuel with
  | zero =>
    intro st r h hs
    unfold Lexer.loop at h
    cases hr : st.rest with
    | nil =>
      simp only [hr, Option.some.injEq] at h
      subst h
      simpa [hr] using hs
    | cons c cs => simp [hr] at h
  | succ k ih =>
    intro st r h hs
    unfold Lexer.loop at h
    cases hr : st.rest with
    | nil =>
      simp only [hr, Option.some.injEq] at h
      subst h
      simpa [hr] using hs
    | cons c cs =>
      simp only [hr] at h
      apply ih _ _ h
      cases hc : Lexer.isIgnored c with
      | false => exact Or.inl (Lexer.step_tokens_not_ignored st c cs hc)
      | true =>
        rw [Lexer.step_tokens_ignored st c cs hc]
        rcases hs with hs | ⟨d, hd, hd2⟩
        · exact Or.inl hs
        · right
          rw [hr] at hd
          rcases List.mem_cons.mp hd with e | e
          · subst e; rw [hc] at hd2; cases hd2
          · exact ⟨d, e, hd2⟩

theorem Lexer.loop_tokens_empty : ∀ (fuel : Nat) (st r : Lexer.State),
    Lexer.loop fuel st = some r → st.tokens = [] →
    (∀ c ∈ st.rest, Lexer.isIgnored c = true) → r.tokens = [] := by
  intro fuel
  induction fuel with
  | zero =>
    intro st r h hs _
    unfold Lexer.loop at h
    cases hr : st.rest with
    | nil =>
      simp only [hr, Option.some.injEq] at h
      subst h
      exact hs
    | cons c cs => simp [hr] at h
  | succ k ih =>
    intro st r h hs hi
    unfold Lexer.loop at h
    cases hr : st.rest with
    | nil =>
      simp only [hr, Option.some.injEq] at h
      subst h
      exact hs
    | cons c cs =>
      simp only [hr] at h
      rw [hr] at hi
      rw [Lexer.step_tokens_ignored st c cs (hi c (List.mem_cons_self _ _))] at h
      exact ih _ _ h hs (fun d hd => hi d (List.mem_cons_of_mem _ hd))

theorem Lexer.finish_eq_nil (st : Lexer.State) : Lexer.finish st = [] ↔ st.tokens = [] := by
  unfold Lexer.finish
  cases h : st.tokens.getLast? with
  | none => simp
  | some t =>
    have hne : st.tokens ≠ [] := by
      intro e
      rw [e] at h
      cases h
    by_cases ht : t.type = .END_OF_LINE <;> simp [ht, hne]

theorem Lexer.finish_last (st : Lexer.State) (h : st.tokens ≠ []) :
    ∃ t, (Lexer.finish st).getLast? = some t ∧ t.type = .END_OF_LINE := by
  unfold Lexer.finish
  cases hl : st.tokens.getLast? with
  | none =>
    rw [List.getLast?_eq_none_iff] at hl
    exact absurd hl h
  | some t =>
    by_cases ht : t.type = .END_OF_LINE
    · exact ⟨t, by simp [ht, hl], ht⟩
    · exact ⟨⟨.END_OF_LINE, "EOL", st.line⟩, by simp [ht], rfl⟩

/-- C9 (counterexample): on the empty source, and on a source made only of
ignored characters, `tokenize` returns the empty sequence. -/
theorem tokenize_empty_source :
    Lexer.tokenize 0 "".data = some [] ∧ Lexer.tokenize 3 " \t;".data = some [] := by
  decide

/-- C9 (amended): whenever `tokenize` returns, the token sequence is empty
exactly when the source consists of ignored characters only (in particular for
the empty source), and every non-empty result has a last token of kind
`END_OF_LINE`, whether or not the source ends with a newline. -/
theorem tokenize_empty_or_ends_with_eol (fuel : Nat) (source : List Char) (toks : List Token)
    (h : Lexer.tokenize fuel source = some toks) :
    (toks = [] ↔ ∀ c ∈ source, Lexer.isIgnored c = true) ∧
    (toks ≠ [] → ∃ t, toks.getLast? = some t ∧ t.type = .END_OF_LINE) := by
  unfold Lexer.tokenize at h
  cases hl : Lexer.loop fuel ⟨source, 1, []⟩ with
  | none => simp [hl] at h
  | some r =>
    simp only [hl, Option.map_some', Option.some.injEq] at h
    subst h
    refine ⟨?_, ?_⟩
    · rw [Lexer.finish_eq_nil]
      constructor
      · intro hr c hc
        by_contra hn
        have hn2 : Lexer.isIgnored c = false := by simpa using hn
        exact Lexer.loop_tokens_nonempty fuel _ r hl (Or.inr ⟨c, hc, hn2⟩) hr
      · intro hi
        exact Lexer.loop_tokens_empty fuel _ r hl rfl hi
    · intro hne
      apply Lexer.finish_last
      intro e
      exact hne ((Lexer.finish_eq_nil r).mpr e)

/-- C9 (witness): the source `inc x`, which has no final newline. -/
theorem tokenize_empty_or_ends_with_eol_witness :
    Lexer.tokenize 5 "inc x".data
      = some [⟨.INSTRUCTION, "inc", 1⟩, ⟨.IDENTIFIER, "x", 1⟩, ⟨.END_OF_LINE, "EOL", 1⟩] ∧
    (([⟨.INSTRUCTION, "inc", 1⟩, ⟨.IDENTIFIER, "x", 1⟩, ⟨.END_OF_LINE, "EOL", 1⟩] : List Token)
        = [] ↔ ∀ c ∈ "inc x".data, Lexer.isIgnored c = true) ∧
    (([⟨.INSTRUCTION, "inc", 1⟩, ⟨.IDENTIFIER, "x", 1⟩, ⟨.END_OF_LINE, "EOL", 1⟩] : List Token)
        ≠ [] → ∃ t,
      ([⟨.INSTRUCTION, "inc", 1⟩, ⟨.IDENTIFIER, "x", 1⟩, ⟨.END_OF_LINE, "EOL", 1⟩]
        : List Token).getLast? = some t ∧ t.type = .END_OF_LINE) :=
  ⟨by decide, tokenize_empty_or_ends_with_eol 5 "inc x".data _ (by decide)⟩

/-! ## The payload of `p` / `pl` -/

theorem SemanticAnalyzer.analyze_ok {stof : String → Option Nat} {s0 symbols : SymbolTable}
    {ast : List InstructionNode} (h : SemanticAnalyzer.analyze stof s0 ast = .ok symbols) :
    SemanticAnalyzer.firstPass ast s0 0 = .ok symbols ∧
    SemanticAnalyzer.secondPass stof symbols ast = .ok () := by
  unfold SemanticAnalyzer.analyze at h
  split at h
  · cases h
  · rename_i s1 h1
    split at h
    · cases h
    · rename_i u h2
      injection h with h
      subst h
      exact ⟨h1, h2⟩

theorem SemanticAnalyzer.secondPass_ok {stof : String → Option Nat} {symbols : SymbolTable} :
    ∀ {ast : List InstructionNode}, SemanticAnalyzer.secondPass stof symbols ast = .ok () →
    ∀ node ∈ ast, SemanticAnalyzer.checkNode stof symbols node = .ok () := by
  intro ast
  induction ast with
  | nil => intro _ node hn; cases hn
  | cons a rest ih =>
    intro h node hn
    unfold SemanticAnalyzer.secondPass at h
    split at h
    · rename_i u hu
      rcases List.mem_cons.mp hn with e | e
      · subst e; exact hu
      · exact ih h node e
    · cases h
    · cases h

theorem SemanticAnalyzer.processCv_ok {s s1 : SymbolTable} {node : InstructionNode}
    (h : SemanticAnalyzer.processCv s node = .ok s1) :
    ∃ a b ty, node.operands = [a, b] ∧ s.addVariable a.value ty = .ok s1 := by
  unfold SemanticAnalyzer.processCv at h
  split at h
  · rename_i a b hab
    split at h
    · cases h
    · split at h
      · cases h
      · rename_i ty hty
        exact ⟨a, b, ty, hab, h⟩
  · cases h

theorem SemanticAnalyzer.processDfp_ok {s s1 : SymbolTable} {node : InstructionNode} {addr : Nat}
    (h : SemanticAnalyzer.processDfp s node addr = .ok s1) :
    ∃ l, node.operands = [l] ∧ s.addLabel l.value addr = .ok s1 := by
  unfold SemanticAnalyzer.processDfp at h
  split at h
  · rename_i l hl
    exact ⟨l, hl, h⟩
  · cases h

theorem SemanticAnalyzer.firstPass_shape :
    ∀ {ast : List InstructionNode} {s s1 : SymbolTable} {addr : Nat},
    SemanticAnalyzer.firstPass ast s addr = .ok s1 →
    ∀ node ∈ ast,
      (node.instruction.value = "cv" → ∃ a b, node.operands = [a, b]) ∧
      (node.instruction.value = "dfp" → ∃ l, node.operands = [l]) := by
  intro ast
  induction ast with
  | nil => intro _ _ _ _ node hn; cases hn
  | cons a rest ih =>
    intro s s1 addr h node hn
    unfold SemanticAnalyzer.firstPass at h
    split at h
    · rename_i hcv
      split at h
      · cases h
      · rename_i s2 h2
        rcases List.mem_cons.mp hn with e | e
        · subst e
          obtain ⟨x, y, _, hxy, _⟩ := SemanticAnalyzer.processCv_ok h2
          exact ⟨fun _ => ⟨x, y, hxy⟩, fun hd => by simp [hcv] at hd⟩
        · exact ih h node e
    · rename_i hcv
      split at h
      · rename_i hdfp
        split at h
        · cases h
        · rename_i s2 h2
          rcases List.mem_cons.mp hn with e | e
          · subst e
            obtain ⟨l, hl, _⟩ := SemanticAnalyzer.processDfp_ok h2
            exact ⟨fun hc => absurd hc hcv, fun _ => ⟨l, hl⟩⟩
          · exact ih h node e
      · rename_i hdfp
        rcases List.mem_cons.mp hn with e | e
        · subst e
          exact ⟨fun hc => absurd hc hcv, fun hd => absurd hd hdfp⟩
        · exact ih h node e

theorem SemanticAnalyzer.validateOperandCount_ok {node : InstructionNode} {n : Nat}
    (h : SemanticAnalyzer.validateOperandCount node n = .ok ()) : node.operands.length = n := by
  unfold SemanticAnalyzer.validateOperandCount at h
  split at h
  · cases h
  · rename_i hn
    simpa using hn

theorem SemanticAnalyzer.validateArithmeticOp_shape {stof : String → Option Nat}
    {symbols : SymbolTable} {node : InstructionNode} {op : String}
    (h : SemanticAnalyzer.validateArithmeticOp stof symbols node op = .ok ()) :
    ∃ a b, node.operands = [a, b] ∧ b.isValue := by
  unfold SemanticAnalyzer.validateArithmeticOp at h
  split at h
  · rename_i a b hab
    refine ⟨a, b, hab, ?_⟩
    split at h
    · cases h
    · split at h
      · rename_i hl; exact Or.inl hl
      · split at h
        · rename_i hi; exact Or.inr hi
        · cases h
  · rename_i hne
    have := SemanticAnalyzer.validateOperandCount_ok h
    match hops : node.operands, this with
    | [a, b], _ => exact absurd hops (hne a b)

theorem SemanticAnalyzer.validateIncDec_shape {symbols : SymbolTable} {node : InstructionNode}
    (h : SemanticAnalyzer.validateIncDec symbols node = .ok ()) :
    ∃ a, node.operands = [a] := by
  unfold SemanticAnalyzer.validateIncDec at h
  split at h
  · rename_i a ha; exact ⟨a, ha⟩
  · rename_i hne
    have := SemanticAnalyzer.validateOperandCount_ok h
    match hops : node.operands, this with
    | [a], _ => exact absurd hops (hne a)

theorem SemanticAnalyzer.validatePrintLoop_shape {symbols : SymbolTable} :
    ∀ {ops : List Token}, SemanticAnalyzer.validatePrintLoop symbols ops = .ok () →
    ∀ op ∈ ops, op.type = .STRING ∨ op.type = .IDENTIFIER := by
  intro ops
  induction ops with
  | nil => intro _ op hop; cases hop
  | cons a rest ih =>
    intro h op hop
    unfold SemanticAnalyzer.validatePrintLoop at h
    split at h
    · cases h
    · rename_i hk
      have ha : a.type = .STRING ∨ a.type = .IDENTIFIER := by
        by_contra hc
        exact hk ⟨fun e => hc (Or.inl e), fun e => hc (Or.inr e)⟩
      split at h
      · split at h
        · cases h
        · rcases List.mem_cons.mp hop with e | e
          · subst e; exact ha
          · exact ih h op e
      · rcases List.mem_cons.mp hop with e | e
        · subst e; exact ha
        · exact ih h op e

theorem SemanticAnalyzer.validateKeyOp_shape {symbols : SymbolTable} {node : InstructionNode}
    (h : SemanticAnalyzer.validateKeyOp symbols node = .ok ()) :
    ∃ a, node.operands = [a] ∧ a.isValue := by
  unfold SemanticAnalyzer.validateKeyOp at h
  split at h
  · rename_i a ha
    refine ⟨a, ha, ?_⟩
    split at h
    · rename_i hl; exact Or.inl hl
    · split at h
      · rename_i hi; exact Or.inr hi
      · cases h
  · rename_i hne
    have := SemanticAnalyzer.validateOperandCount_ok h
    match hops : node.operands, this with
    | [a], _ => exact absurd hops (hne a)

theorem SemanticAnalyzer.checkDl_shape {symbols : SymbolTable} {node : InstructionNode}
    (h : SemanticAnalyzer.checkDl symbols node = .ok ()) :
    ∃ a, node.operands = [a] ∧ a.isValue := by
  unfold SemanticAnalyzer.checkDl at h
  split at h
  · rename_i a ha
    refine ⟨a, ha, ?_⟩
    split at h
    · rename_i hl; exact Or.inl hl
    · split at h
      · rename_i hi; exact Or.inr hi
      · cases h
  · rename_i hne
    have := SemanticAnalyzer.validateOperandCount_ok h
    match hops : node.operands, this with
    | [a], _ => exact absurd hops (hne a)

theorem SemanticAnalyzer.checkIkd_shape {symbols : SymbolTable} {node : InstructionNode}
    (h : SemanticAnalyzer.checkIkd symbols node = .ok ()) :
    ∃ a b, node.operands = [a, b] := by
  unfold SemanticAnalyzer.checkIkd at h
  split at h
  · rename_i a b hab; exact ⟨a, b, hab⟩
  · rename_i hne
    have := SemanticAnalyzer.validateOperandCount_ok h
    match hops : node.operands, this with
    | [a, b], _ => exact absurd hops (hne a b)

theorem SemanticAnalyzer.checkMvmLoop_shape {symbols : SymbolTable} :
    ∀ {ops : List Token}, SemanticAnalyzer.checkMvmLoop symbols ops = .ok () →
    ∀ op ∈ ops, op.isValue := by
  intro ops
  induction ops with
  | nil => intro _ op hop; cases hop
  | cons a rest ih =>
    intro h op hop
    unfold SemanticAnalyzer.checkMvmLoop at h
    split at h
    · rename_i hl
      split at h
      · cases h
      · rcases List.mem_cons.mp hop with e | e
        · subst e; exact Or.inl hl
        · exact ih h op e
    · split at h
      · rename_i hi
        split at h
        · cases h
        · split at h
          · cases h
          · rcases List.mem_cons.mp hop with e | e
            · subst e; exact Or.inr hi
            · exact ih h op e
      · cases h

theorem SemanticAnalyzer.checkMvm_shape {symbols : SymbolTable} {node : InstructionNode}
    (h : SemanticAnalyzer.checkMvm symbols node = .ok ()) :
    ∃ a b, node.operands = [a, b] ∧ a.isValue ∧ b.isValue := by
  unfold SemanticAnalyzer.checkMvm at h
  split at h
  · cases h
  · rename_i u hu
    have hlen := SemanticAnalyzer.validateOperandCount_ok hu
    have hv := SemanticAnalyzer.checkMvmLoop_shape h
    match hops : node.operands, hlen with
    | [a, b], _ =>
      rw [hops] at hv
      exact ⟨a, b, rfl, hv a (by simp), hv b (by simp)⟩

theorem SemanticAnalyzer.checkJmp_ok {symbols : SymbolTable} {node : InstructionNode}
    (h : SemanticAnalyzer.checkJmp symbols node = .ok ()) :
    ∃ l a, node.operands = [l] ∧ symbols.labels.lookup l.value = some a := by
  unfold SemanticAnalyzer.checkJmp at h
  split at h
  · rename_i l hl
    split at h
    · cases h
    · rename_i a ha
      refine ⟨l, a, hl, ?_⟩
      unfold SymbolTable.getLabelAddress at ha
      split at ha
      · cases ha
      · rename_i b hb
        injection ha with ha
        rw [hb, ha]
  · rename_i hne
    have := SemanticAnalyzer.validateOperandCount_ok h
    match hops : node.operands, this with
    | [a], _ => exact absurd hops (hne a)

theorem SemanticAnalyzer.validateConditionalJump_shape {symbols : SymbolTable}
    {node : InstructionNode}
    (h : SemanticAnalyzer.validateConditionalJump symbols node = .ok ()) :
    ∃ a b t f, node.operands = [a, b, t, f] := by
  unfold SemanticAnalyzer.validateConditionalJump at h
  split at h
  · rename_i a b t f hab; exact ⟨a, b, t, f, hab⟩
  · rename_i hne
    have := SemanticAnalyzer.validateOperandCount_ok h
    match hops : node.operands, this with
    | [a, b, t, f], _ => exact absurd hops (hne a b t f)

theorem SemanticAnalyzer.shaped_of_check {stof : String → Option Nat} {symbols : SymbolTable}
    {node : InstructionNode}
    (hck : SemanticAnalyzer.checkNode stof symbols node = .ok ())
    (hcv : node.instruction.value = "cv" → ∃ a b, node.operands = [a, b])
    (hdfp : node.instruction.value = "dfp" → ∃ l, node.operands = [l]) : node.Shaped := by
  refine ⟨hcv, ?_, ?_, ?_, ?_, ?_, ?_, ?_, ?_⟩
  · intro hm
    simp only [List.mem_cons, List.mem_singleton, List.not_mem_nil, or_false] at hm
    rcases hm with h | h | h | h | h | h <;>
      · simp [SemanticAnalyzer.checkNode, h] at hck
        exact SemanticAnalyzer.validateArithmeticOp_shape hck
  · intro hm
    simp only [List.mem_cons, List.mem_singleton, List.not_mem_nil, or_false] at hm
    rcases hm with h | h <;>
      · simp [SemanticAnalyzer.checkNode, h] at hck
        exact SemanticAnalyzer.validateIncDec_shape hck
  · intro hm
    simp only [List.mem_cons, List.mem_singleton, List.not_mem_nil, or_false] at hm
    rcases hm with h | h <;>
      · simp [SemanticAnalyzer.checkNode, h] at hck
        exact SemanticAnalyzer.validatePrintLoop_shape hck
  · intro hm
    simp only [List.mem_cons, List.mem_singleton, List.not_mem_nil, or_false] at hm
    rcases hm with h | h | h
    · simp [SemanticAnalyzer.checkNode, h] at hck
      exact SemanticAnalyzer.validateKeyOp_shape hck
    · simp [SemanticAnalyzer.checkNode, h] at hck
      exact SemanticAnalyzer.validateKeyOp_shape hck
    · simp [SemanticAnalyzer.checkNode, h] at hck
      exact SemanticAnalyzer.checkDl_shape hck
  · intro h
    simp [SemanticAnalyzer.checkNode, h] at hck
    exact SemanticAnalyzer.checkIkd_shape hck
  · intro h
    simp [SemanticAnalyzer.checkNode, h] at hck
    exact SemanticAnalyzer.checkMvm_shape hck
  · intro hm
    simp only [List.mem_cons, List.mem_singleton, List.not_mem_nil, or_false] at hm
    rcases hm with h | h
    · exact hdfp h
    · simp [SemanticAnalyzer.checkNode, h] at hck
      obtain ⟨l, _, hl, _⟩ := SemanticAnalyzer.checkJmp_ok hck
      exact ⟨l, hl⟩
  · intro hm
    simp only [List.mem_cons, List.mem_singleton, List.not_mem_nil, or_false] at hm
    rcases hm with h | h | h | h | h <;>
      · simp [SemanticAnalyzer.checkNode, h] at hck
        exact SemanticAnalyzer.validateConditionalJump_shape hck

/-- Every node of a list that the analyzer accepts has the operand shape of its
mnemonic and passes its second-pass check against the final table. -/
theorem SemanticAnalyzer.accepted_node {stof : String → Option Nat} {s0 symbols : SymbolTable}
    {ast : List InstructionNode} (h : SemanticAnalyzer.analyze stof s0 ast = .ok symbols)
    {node : InstructionNode} (hn : node ∈ ast) :
    node.Shaped ∧ SemanticAnalyzer.checkNode stof symbols node = .ok () := by
  obtain ⟨h1, h2⟩ := SemanticAnalyzer.analyze_ok h
  have hck := SemanticAnalyzer.secondPass_ok h2 node hn
  have hsh := SemanticAnalyzer.firstPass_shape h1 node hn
  exact ⟨SemanticAnalyzer.shaped_of_check hck hsh.1 hsh.2, hck⟩

/-! ## Sizes of the emitted encodings -/

theorem CodeGenerator.emitUI32_length (v : Nat) : (CodeGenerator.emitUI32 v).length = 4 := rfl

theorem CodeGenerator.emitString_length (s : String) :
    (CodeGenerator.emitString s).length = 4 + s.length := by
  unfold CodeGenerator.emitString
  rw [List.length_append, List.length_map, CodeGenerator.emitUI32_length]
  rfl

theorem CodeGenerator.emitVariable_length {symbols : SymbolTable} {t : Token} {b : List Nat}
    (h : CodeGenerator.emitVariable symbols t = .ok b) : b.length = 4 := by
  unfold CodeGenerator.emitVariable at h
  split at h
  · cases h
  · injection h with h
    rw [← h]; rfl

theorem CodeGenerator.emitLabel_length {labels : List (String × Nat)} {t : Token} {b : List Nat}
    (h : CodeGenerator.emitLabel labels t = .ok b) : b.length = 4 := by
  unfold CodeGenerator.emitLabel at h
  split at h
  · cases h
  · injection h with h
    rw [← h]; rfl

theorem CodeGenerator.inferLiteralType_cases (v : String) :
    CodeGenerator.inferLiteralType v = .F32 ∨ CodeGenerator.inferLiteralType v = .I32 ∨
    CodeGenerator.inferLiteralType v = .UI32 := by
  unfold CodeGenerator.inferLiteralType
  split
  · exact Or.inl rfl
  · split
    · exact Or.inr (Or.inl rfl)
    · exact Or.inr (Or.inr rfl)

theorem CodeGenerator.emitLiteral_length {stof : String → Option Nat} {v : String}
    {b : List Nat}
    (h : CodeGenerator.emitLiteral stof v (CodeGenerator.inferLiteralType v) = .ok b) :
    b.length = 5 := by
  rcases CodeGenerator.inferLiteralType_cases v with e | e | e <;>
    · rw [e] at h
      unfold CodeGenerator.emitLiteral at h
      simp only at h
      split at h
      · cases h
      · injection h with h
        rw [← h]; rfl

theorem CodeGenerator.operandSize_literal {t : Token} (h : t.type = .LITERAL) :
    CodeGenerator.operandSize t = .ok 5 := by
  unfold CodeGenerator.operandSize
  rcases CodeGenerator.inferLiteralType_cases t.value with e | e | e <;> simp [h, e]

theorem CodeGenerator.operandSize_identifier {t : Token} (h : t.type = .IDENTIFIER) :
    CodeGenerator.operandSize t = .ok 4 := by
  simp [CodeGenerator.operandSize, h]

/-- For a value operand the emitted encoding has the length that `operandSize`
computes, which is the operand size of the table. -/
theorem CodeGenerator.emitOperand_length {stof : String → Option Nat} {symbols : SymbolTable}
    {labels : List (String × Nat)} {t : Token} {b : List Nat} (hv : t.isValue)
    (h : CodeGenerator.emitOperand stof symbols labels t = .ok b) :
    CodeGenerator.operandSize t = .ok b.length ∧ tableOperandSize t = some b.length := by
  unfold CodeGenerator.emitOperand at h
  rcases hv with hl | hi
  · rw [if_pos hl] at h
    rw [CodeGenerator.emitLiteral_length h, CodeGenerator.operandSize_literal hl]
    simp [tableOperandSize, hl]
  · have hnl : t.type ≠ .LITERAL := by rw [hi]; decide
    rw [if_neg hnl, if_pos hi] at h
    have hb : b.length = 4 := by
      split at h
      · exact CodeGenerator.emitVariable_length h
      · exact CodeGenerator.emitLabel_length h
    rw [hb, CodeGenerator.operandSize_identifier hi]
    simp [tableOperandSize, hi]

theorem CodeGenerator.seq2_ok {a b : Except Err (List Nat)} {c : List Nat}
    (h : CodeGenerator.seq2 a b = .ok c) : ∃ x y, a = .ok x ∧ b = .ok y ∧ c = x ++ y := by
  cases a with
  | error e => simp [CodeGenerator.seq2] at h
  | ok x =>
    cases b with
    | error e => simp [CodeGenerator.seq2] at h
    | ok y =>
      simp only [CodeGenerator.seq2, Except.ok.injEq] at h
      exact ⟨x, y, rfl, rfl, h.symm⟩

theorem CodeGenerator.emitPrint_length {symbols : SymbolTable} :
    ∀ {ops : List Token} {b : List Nat},
    (∀ op ∈ ops, op.type = .STRING ∨ op.type = .IDENTIFIER) →
    CodeGenerator.emitPrint symbols ops = .ok b →
    CodeGenerator.printSize ops = b.length ∧ tablePrintSize ops = some b.length := by
  intro ops
  induction ops with
  | nil =>
    intro b _ h
    simp only [CodeGenerator.emitPrint, Except.ok.injEq] at h
    subst h
    exact ⟨rfl, rfl⟩
  | cons op rest ih =>
    intro b hk h
    unfold CodeGenerator.emitPrint at h
    simp only at h
    split at h
    · cases h
    · rename_i x hx
      split at h
      · cases h
      · rename_i y hy
        injection h with h
        obtain ⟨i1, i2⟩ := ih (fun o ho => hk o (List.mem_cons_of_mem _ ho)) hy
        subst h
        unfold CodeGenerator.printSize tablePrintSize
        rw [i1, i2]
        by_cases hs : op.type = .STRING
        · simp only [hs, if_true, Except.ok.injEq] at hx
          subst hx
          simp [hs, CodeGenerator.emitString_length]
        · have hi : op.type = .IDENTIFIER := by
            rcases hk op (List.mem_cons_self _ _) with e | e
            · exact absurd e hs
            · exact e
          simp only [hs, if_false] at hx
          simp [hs, hi, CodeGenerator.emitVariable_length hx]

theorem CodeGenerator.opcode_known {s : String} {op : Instruction}
    (h : CodeGenerator.instructionToOpcode s = .ok op) : s ∈ knownMnemonics := by
  by_contra hn
  simp only [knownMnemonics, List.mem_cons, List.mem_singleton, List.not_mem_nil, or_false,
    not_or] at hn
  simp [CodeGenerator.instructionToOpcode, hn] at h

theorem InstructionNode.operand_zero {node : InstructionNode} {a : Token} {l : List Token}
    (h : node.operands = a :: l) : node.operand 0 = .ok a := by
  simp [InstructionNode.operand, h]

theorem InstructionNode.operand_one {node : InstructionNode} {a b : Token} {l : List Token}
    (h : node.operands = a :: b :: l) : node.operand 1 = .ok b := by
  simp [InstructionNode.operand, h]

theorem InstructionNode.operand_two {node : InstructionNode} {a b c : Token} {l : List Token}
    (h : node.operands = a :: b :: c :: l) : node.operand 2 = .ok c := by
  simp [InstructionNode.operand, h]

theorem InstructionNode.operand_three {node : InstructionNode} {a b c d : Token}
    {l : List Token} (h : node.operands = a :: b :: c :: d :: l) : node.operand 3 = .ok d := by
  simp [InstructionNode.operand, h]

theorem Except.bind_ok_eq {α β : Type} (a : α) (f : α → Except Err β) :
    (Except.ok a : Except Err α).bind f = f a := rfl

/-- The size pass and the emit pass on one node: for a node with the operand
shape of its mnemonic, the bytes that `generateInstruction` appends are as many
as `calculateInstructionSize` computes, and, for every mnemonic but `dfp`, as
many as the size table of the specification gives. -/
theorem CodeGenerator.size_of_generate {stof : String → Option Nat} {symbols : SymbolTable}
    {labels : List (String × Nat)} {node : InstructionNode} {bytes : List Nat}
    (hs : node.Shaped)
    (hg : CodeGenerator.generateInstruction stof symbols labels node = .ok bytes) :
    CodeGenerator.calculateInstructionSize node = .ok bytes.length ∧
    (node.instruction.value ≠ "dfp" → tableSize node = some bytes.length) := by
  unfold CodeGenerator.generateInstruction at hg
  split at hg
  · cases hg
  · rename_i opcode hop
    split at hg
    · cases hg
    · rename_i payload hp
      injection hg with hg
      subst hg
      have hk := CodeGenerator.opcode_known hop
      obtain ⟨s1, s2, s3, s4, s5, s6, s7, s8, s9⟩ := hs
      simp only [knownMnemonics, List.mem_cons, List.mem_singleton, List.not_mem_nil,
        or_false] at hk
      have hgroup : node.instruction.value = "cv" ∨
          node.instruction.value ∈ ["av", "aav", "sav", "mav", "dav", "moav"] ∨
          node.instruction.value ∈ ["inc", "dec"] ∨
          node.instruction.value ∈ ["p", "pl"] ∨
          node.instruction.value ∈ ["pk", "rk", "dl"] ∨
          node.instruction.value = "ikd" ∨
          node.instruction.value = "mvm" ∨
          node.instruction.value = "dfp" ∨
          node.instruction.value = "jmp" ∨
          node.instruction.value ∈ ["cejmp", "cgjmp", "cljmp", "cegjmp", "celjmp"] ∨
          node.instruction.value = "nop" := by
        rcases hk with hm | hm | hm | hm | hm | hm | hm | hm | hm | hm | hm | hm | hm | hm |
          hm | hm | hm | hm | hm | hm | hm | hm | hm | hm <;> simp [hm]
      clear hk
      rcases hgroup with hm | hm | hm | hm | hm | hm | hm | hm | hm | hm | hm
      -- cv
      · obtain ⟨a, b, hab⟩ := s1 hm
        simp only [CodeGenerator.emitPayload, hm, if_true, InstructionNode.operand_zero hab]
          at hp
        split at hp
        · cases hp
        · injection hp with hp
          subst hp
          simp [CodeGenerator.calculateInstructionSize, tableSize, hm,
            InstructionNode.operand_zero hab, hab, CodeGenerator.emitString_length]
          omega
      -- av, aav, sav, mav, dav, moav
      · obtain ⟨a, b, hab, hv⟩ := s2 hm
        simp only [List.mem_cons, List.mem_singleton, List.not_mem_nil, or_false] at hm
        have hp2 : CodeGenerator.seq2 (CodeGenerator.emitVariable symbols a)
            (CodeGenerator.emitOperand stof symbols labels b) = .ok payload := by
          rcases hm with h | h | h | h | h | h <;>
            simpa [CodeGenerator.emitPayload, h, InstructionNode.operand_zero hab,
              InstructionNode.operand_one hab, Except.bind_ok_eq] using hp
        obtain ⟨x, y, hx, hy, hxy⟩ := CodeGenerator.seq2_ok hp2
        subst hxy
        have lx := CodeGenerator.emitVariable_length hx
        obtain ⟨ly, lt⟩ := CodeGenerator.emitOperand_length hv hy
        rcases hm with h | h | h | h | h | h <;>
          · simp [CodeGenerator.calculateInstructionSize, tableSize, h,
              InstructionNode.operand_one hab, hab, ly, lt, lx, Instruction.code]
            omega
      -- inc, dec
      · obtain ⟨a, hab⟩ := s3 hm
        simp only [List.mem_cons, List.mem_singleton, List.not_mem_nil, or_false] at hm
        have hp2 : CodeGenerator.emitVariable symbols a = .ok payload := by
          rcases hm with h | h <;>
            simpa [CodeGenerator.emitPayload, h, InstructionNode.operand_zero hab,
              Except.bind_ok_eq] using hp
        have lx := CodeGenerator.emitVariable_length hp2
        rcases hm with h | h <;>
          simp [CodeGenerator.calculateInstructionSize, tableSize, h, lx]
      -- p, pl
      · have hk := s4 hm
        simp only [List.mem_cons, List.mem_singleton, List.not_mem_nil, or_false] at hm
        have hp2 : CodeGenerator.emitPrint symbols node.operands = .ok payload := by
          rcases hm with h | h <;> simpa [CodeGenerator.emitPayload, h] using hp
        obtain ⟨l1, l2⟩ := CodeGenerator.emitPrint_length hk hp2
        rcases hm with h | h <;>
          · simp [CodeGenerator.calculateInstructionSize, tableSize, h, l1, l2]
            omega
      -- pk, rk, dl
      · obtain ⟨a, hab, hv⟩ := s5 hm
        simp only [List.mem_cons, List.mem_singleton, List.not_mem_nil, or_false] at hm
        have hp2 : CodeGenerator.emitOperand stof symbols labels a = .ok payload := by
          rcases hm with h | h | h <;>
            simpa [CodeGenerator.emitPayload, h, InstructionNode.operand_zero hab,
              Except.bind_ok_eq] using hp
        obtain ⟨ly, lt⟩ := CodeGenerator.emitOperand_length hv hp2
        rcases hm with h | h | h <;>
          · simp [CodeGenerator.calculateInstructionSize, tableSize, h,
              InstructionNode.operand_zero hab, hab, ly, lt]
            omega
      -- ikd
      · obtain ⟨a, b, hab⟩ := s6 hm
        have hp2 : CodeGenerator.seq2 (CodeGenerator.emitVariable symbols a)
            (CodeGenerator.emitVariable symbols b) = .ok payload := by
          simpa [CodeGenerator.emitPayload, hm, InstructionNode.operand_zero hab,
            InstructionNode.operand_one hab, Except.bind_ok_eq] using hp
        obtain ⟨x, y, hx, hy, hxy⟩ := CodeGenerator.seq2_ok hp2
        subst hxy
        have lx := CodeGenerator.emitVariable_length hx
        have ly := CodeGenerator.emitVariable_length hy
        simp [CodeGenerator.calculateInstructionSize, tableSize, hm, lx, ly]
      -- mvm
      · obtain ⟨a, b, hab, hva, hvb⟩ := s7 hm
        have hp2 : CodeGenerator.seq2 (CodeGenerator.emitOperand stof symbols labels a)
            (CodeGenerator.emitOperand stof symbols labels b) = .ok payload := by
          simpa [CodeGenerator.emitPayload, hm, InstructionNode.operand_zero hab,
            InstructionNode.operand_one hab, Except.bind_ok_eq] using hp
        obtain ⟨x, y, hx, hy, hxy⟩ := CodeGenerator.seq2_ok hp2
        subst hxy
        obtain ⟨lx, tx⟩ := CodeGenerator.emitOperand_length hva hx
        obtain ⟨ly, ty⟩ := CodeGenerator.emitOperand_length hvb hy
        simp [CodeGenerator.calculateInstructionSize, tableSize, hm,
          InstructionNode.operand_zero hab, InstructionNode.operand_one hab, hab, lx, ly, tx, ty]
        omega
      -- dfp
      · have hp2 : payload = [] := by
          simpa [CodeGenerator.emitPayload, hm] using hp.symm
        subst hp2
        simp [CodeGenerator.calculateInstructionSize, hm]
      -- jmp
      · obtain ⟨a, hab⟩ := s8 (by simp [hm])
        have hp2 : CodeGenerator.emitLabel labels a = .ok payload := by
          simpa [CodeGenerator.emitPayload, hm, InstructionNode.operand_zero hab,
            Except.bind_ok_eq] using hp
        have lx := CodeGenerator.emitLabel_length hp2
        simp [CodeGenerator.calculateInstructionSize, tableSize, hm, lx]
      -- cejmp, cgjmp, cljmp, cegjmp, celjmp
      · obtain ⟨a, b, t, f, hab⟩ := s9 hm
        simp only [List.mem_cons, List.mem_singleton, List.not_mem_nil, or_false] at hm
        have hp2 : CodeGenerator.seq2
            (CodeGenerator.seq2 (CodeGenerator.emitVariable symbols a)
              (CodeGenerator.emitVariable symbols b))
            (CodeGenerator.seq2 (CodeGenerator.emitLabel labels t)
              (CodeGenerator.emitLabel labels f)) = .ok payload := by
          rcases hm with h | h | h | h | h <;>
            simpa [CodeGenerator.emitPayload, h, InstructionNode.operand_zero hab,
              InstructionNode.operand_one hab, InstructionNode.operand_two hab,
              InstructionNode.operand_three hab, Except.bind_ok_eq] using hp
        obtain ⟨x, y, hx, hy, hxy⟩ := CodeGenerator.seq2_ok hp2
        obtain ⟨x1, x2, hx1, hx2, hx12⟩ := CodeGenerator.seq2_ok hx
        obtain ⟨y1, y2, hy1, hy2, hy12⟩ := CodeGenerator.seq2_ok hy
        subst hxy hx12 hy12
        have l1 := CodeGenerator.emitVariable_length hx1
        have l2 := CodeGenerator.emitVariable_length hx2
        have l3 := CodeGenerator.emitLabel_length hy1
        have l4 := CodeGenerator.emitLabel_length hy2
        rcases hm with h | h | h | h | h <;>
          simp [CodeGenerator.calculateInstructionSize, tableSize, h, l1, l2, l3, l4]
      -- nop
      · have hp2 : payload = [] := by
          simpa [CodeGenerator.emitPayload, hm] using hp.symm
        subst hp2
        simp [CodeGenerator.calculateInstructionSize, tableSize, hm]

/-- C3: for every node of an analyzer-accepted instruction list whose mnemonic
is not `dfp`, whatever the label map, the number of bytes that
`generateInstruction` appends is the size that the table of the specification
gives for the node. -/
theorem emitted_size_matches_table (stof : String → Option Nat) (ast : List InstructionNode)
    (symbols : SymbolTable) (labels : List (String × Nat)) (node : InstructionNode)
    (bytes : List Nat)
    (hacc : SemanticAnalyzer.analyze stof SymbolTable.empty ast = .ok symbols)
    (hn : node ∈ ast) (hd : node.instruction.value ≠ "dfp")
    (hg : CodeGenerator.generateInstruction stof symbols labels node = .ok bytes) :
    tableSize node = some bytes.length :=
  (CodeGenerator.size_of_generate (SemanticAnalyzer.accepted_node hacc hn).1 hg).2 hd

/-- C3 (witness): the node `av a 5` of the accepted list `cv a ui8; av a 5`. -/
theorem emitted_size_matches_table_witness :
    SemanticAnalyzer.analyze stofNone SymbolTable.empty
        [⟨⟨.INSTRUCTION, "cv", 1⟩, [⟨.IDENTIFIER, "a", 1⟩, ⟨.TYPE, "ui8", 1⟩]⟩,
         ⟨⟨.INSTRUCTION, "av", 2⟩, [⟨.IDENTIFIER, "a", 2⟩, ⟨.LITERAL, "5", 2⟩]⟩]
      = .ok ⟨[("a", ⟨.UI8, 1, 0⟩)], [], 1⟩ ∧
    CodeGenerator.generateInstruction stofNone ⟨[("a", ⟨.UI8, 1, 0⟩)], [], 1⟩ []
        ⟨⟨.INSTRUCTION, "av", 2⟩, [⟨.IDENTIFIER, "a", 2⟩, ⟨.LITERAL, "5", 2⟩]⟩
      = .ok [1, 0, 0, 0, 0, 6, 5, 0, 0, 0] ∧
    tableSize ⟨⟨.INSTRUCTION, "av", 2⟩, [⟨.IDENTIFIER, "a", 2⟩, ⟨.LITERAL, "5", 2⟩]⟩
      = some ([1, 0, 0, 0, 0, 6, 5, 0, 0, 0] : List Nat).length :=
  ⟨by decide, by decide,
   emitted_size_matches_table stofNone
    [⟨⟨.INSTRUCTION, "cv", 1⟩, [⟨.IDENTIFIER, "a", 1⟩, ⟨.TYPE, "ui8", 1⟩]⟩,
     ⟨⟨.INSTRUCTION, "av", 2⟩, [⟨.IDENTIFIER, "a", 2⟩, ⟨.LITERAL, "5", 2⟩]⟩]
    ⟨[("a", ⟨.UI8, 1, 0⟩)], [], 1⟩ []
    ⟨⟨.INSTRUCTION, "av", 2⟩, [⟨.IDENTIFIER, "a", 2⟩, ⟨.LITERAL, "5", 2⟩]⟩
    [1, 0, 0, 0, 0, 6, 5, 0, 0, 0] (by decide) (by decide) (by decide) (by decide)⟩

/-! ## Literal ranges -/

theorem Std.scanSign_spec (t : List Char) :
    ∃ sign, t = sign ++ (Std.scanSign t).2 ∧
      ((sign = [] ∧ (Std.scanSign t).1 = false) ∨ (sign = ['+'] ∧ (Std.scanSign t).1 = false) ∨
        (sign = ['-'] ∧ (Std.scanSign t).1 = true)) := by
  unfold Std.scanSign
  split
  · exact ⟨['-'], rfl, Or.inr (Or.inr ⟨rfl, rfl⟩)⟩
  · exact ⟨['+'], rfl, Or.inr (Or.inl ⟨rfl, rfl⟩)⟩
  · exact ⟨[], rfl, Or.inl ⟨rfl, rfl⟩⟩

/-- The shape of a lexeme on which `scanInteger` converts: white space, an
optional sign, a non-empty run of digits whose value is the magnitude, and a
rest that does not start with a digit. -/
theorem Std.scanInteger_some {s : List Char} {neg : Bool} {mag : Nat}
    (h : Std.scanInteger s = some (neg, mag)) :
    ∃ ws sign ds rest, s = ws ++ sign ++ ds ++ rest ∧ (∀ c ∈ ws, Std.isSpace c = true) ∧
      ((sign = [] ∧ neg = false) ∨ (sign = ['+'] ∧ neg = false) ∨ (sign = ['-'] ∧ neg = true)) ∧
      ds ≠ [] ∧ (∀ c ∈ ds, c.isDigit = true) ∧ (∀ c, rest.head? = some c → c.isDigit = false) ∧
      mag = Std.digitsValue ds := by
  unfold Std.scanInteger at h
  simp only at h
  split at h
  · cases h
  · rename_i hds
    simp only [Option.some.injEq, Prod.mk.injEq] at h
    obtain ⟨hneg, hmag⟩ := h
    obtain ⟨sign, hu, hsg⟩ := Std.scanSign_spec (s.dropWhile Std.isSpace)
    rw [hneg] at hsg
    refine ⟨s.takeWhile Std.isSpace, sign,
      (Std.scanSign (s.dropWhile Std.isSpace)).2.takeWhile Char.isDigit,
      (Std.scanSign (s.dropWhile Std.isSpace)).2.dropWhile Char.isDigit, ?_,
      fun c hc => List.mem_takeWhile_imp hc, hsg, hds,
      fun c hc => List.mem_takeWhile_imp hc, ?_, hmag.symm⟩
    · rw [List.append_assoc, List.append_assoc, List.takeWhile_append_dropWhile, ← hu,
        List.takeWhile_append_dropWhile]
    · intro c hc
      have := List.head?_dropWhile_not Char.isDigit (Std.scanSign (s.dropWhile Std.isSpace)).2
      rw [hc] at this
      simpa using this

theorem Std.stoi_ok {s : String} {v : Int} (h : Std.stoi s = .ok v) :
    ∃ neg mag, Std.scanInteger s.data = some (neg, mag) ∧ v = Std.signedValue (neg, mag) := by
  unfold Std.stoi at h
  split at h
  · cases h
  · rename_i r hr
    split at h
    · cases h
    · split at h
      · cases h
      · injection h with h
        exact ⟨r.1, r.2, hr, h.symm⟩

theorem Std.stol_ok {s : String} {v : Int} (h : Std.stol s = .ok v) :
    ∃ neg mag, Std.scanInteger s.data = some (neg, mag) ∧ v = Std.signedValue (neg, mag) := by
  unfold Std.stol at h
  split at h
  · cases h
  · rename_i r hr
    split at h
    · cases h
    · injection h with h
      exact ⟨r.1, r.2, hr, h.symm⟩

theorem Std.stoul_ok {s : String} {v : Nat} (h : Std.stoul s = .ok v) :
    ∃ neg mag, Std.scanInteger s.data = some (neg, mag) ∧ (neg = false → v = mag) := by
  unfold Std.stoul at h
  split at h
  · cases h
  · rename_i r hr
    split at h
    · cases h
    · injection h with h
      refine ⟨r.1, r.2, hr, fun hn => ?_⟩
      rw [← h, hn]
      simp

/-- From a successful scan and the bounds that the validators check to the
statement about the leading integer of the lexeme. -/
theorem Std.range_of_scan {s : List Char} {neg : Bool} {mag : Nat} {lo hi : Int}
    {unsigned : Bool} (h : Std.scanInteger s = some (neg, mag))
    (hpos : neg = false → lo ≤ (mag : Int) ∧ (mag : Int) ≤ hi)
    (hneg : neg = true → unsigned = false → lo ≤ -(mag : Int) ∧ -(mag : Int) ≤ hi) :
    ∃ ws sign ds rest, s = ws ++ sign ++ ds ++ rest ∧ (∀ c ∈ ws, Std.isSpace c = true) ∧
      (sign = [] ∨ sign = ['+'] ∨ sign = ['-']) ∧
      ds ≠ [] ∧ (∀ c ∈ ds, c.isDigit = true) ∧ (∀ c, rest.head? = some c → c.isDigit = false) ∧
      (sign ≠ ['-'] → lo ≤ (Std.digitsValue ds : Int) ∧ (Std.digitsValue ds : Int) ≤ hi) ∧
      (sign = ['-'] → unsigned = false →
        lo ≤ -(Std.digitsValue ds : Int) ∧ -(Std.digitsValue ds : Int) ≤ hi) := by
  obtain ⟨ws, sign, ds, rest, h1, h2, h3, h4, h5, h6, h7⟩ := Std.scanInteger_some h
  subst h7
  refine ⟨ws, sign, ds, rest, h1, h2, ?_, h4, h5, h6, ?_, ?_⟩
  · rcases h3 with h3 | h3 | h3
    · exact Or.inl h3.1
    · exact Or.inr (Or.inl h3.1)
    · exact Or.inr (Or.inr h3.1)
  · intro hs
    rcases h3 with h3 | h3 | h3
    · exact hpos h3.2
    · exact hpos h3.2
    · exact absurd h3.1 hs
  · intro hs hu
    rcases h3 with h3 | h3 | h3
    · rw [h3.1] at hs; cases hs
    · rw [h3.1] at hs; simp at hs
    · exact hneg h3.2 hu

theorem SemanticAnalyzer.validateLiteral_ok {stof : String → Option Nat} {literal : String}
    {type : Ty} (h : SemanticAnalyzer.validateLiteral stof literal type = .ok ()) :
    SemanticAnalyzer.validateLiteralSwitch stof literal type = .ok () := by
  unfold SemanticAnalyzer.validateLiteral at h
  split at h
  · rename_i u hu; exact hu
  · cases h
  · split at h <;> cases h

theorem SemanticAnalyzer.signed_ok {s : String} {lo hi : Int} {f : String → Except Err Int}
    (hf : ∀ v, f s = .ok v →
      ∃ neg mag, Std.scanInteger s.data = some (neg, mag) ∧ v = Std.signedValue (neg, mag))
    (h : (match f s with
      | .error e => (.error e : Except Err Unit)
      | .ok value => if value < lo ∨ value > hi then .error (.exn "") else .ok ()) = .ok ()) :
    ∃ neg mag, Std.scanInteger s.data = some (neg, mag) ∧
      (neg = false → lo ≤ (mag : Int) ∧ (mag : Int) ≤ hi) ∧
      (neg = true → lo ≤ -(mag : Int) ∧ -(mag : Int) ≤ hi) := by
  split at h
  · cases h
  · rename_i v hv
    split at h
    · cases h
    · rename_i hr
      obtain ⟨neg, mag, hs, hval⟩ := hf v hv
      refine ⟨neg, mag, hs, ?_, ?_⟩
      · intro hn
        subst hn
        simp only [Std.signedValue, Bool.false_eq_true, if_false] at hval
        subst hval
        omega
      · intro hn
        subst hn
        simp only [Std.signedValue, if_true] at hval
        subst hval
        omega

theorem SemanticAnalyzer.unsigned_ok {s : String} {hi : Nat}
    (h : (match Std.stoul s with
      | .error e => (.error e : Except Err Unit)
      | .ok value => if value > hi then .error (.exn "") else .ok ()) = .ok ()) :
    ∃ neg mag, Std.scanInteger s.data = some (neg, mag) ∧
      (neg = false → (0 : Int) ≤ (mag : Int) ∧ (mag : Int) ≤ (hi : Int)) := by
  split at h
  · cases h
  · rename_i v hv
    split at h
    · cases h
    · rename_i hr
      obtain ⟨neg, mag, hs, hval⟩ := Std.stoul_ok hv
      refine ⟨neg, mag, hs, fun hn => ?_⟩
      have := hval hn
      subst this
      omega

/-- The negation that `std::stoul` applies after a `-` sign: the clean decimal
integer `-18446744073709551615`, whose value is negative, is accepted for `UI8`
(it converts to 1). -/
theorem SemanticAnalyzer.validateLiteral_negated_unsigned :
    SemanticAnalyzer.validateLiteral stofNone "-18446744073709551615" .UI8 = .ok () ∧
    isCleanDecimal "-18446744073709551615".data = true ∧
    cleanValue "-18446744073709551615".data = -18446744073709551615 := by
  decide

/-- C10 (counterexample): `validateLiteral` accepts the lexeme `1.5` for `UI8`,
and `1.5` is not a clean decimal integer. -/
theorem validateLiteral_accepts_unclean :
    SemanticAnalyzer.validateLiteral stofNone "1.5" .UI8 = .ok () ∧
    isCleanDecimal "1.5".data = false := by
  decide

/-- C10 (amended): if `validateLiteral` accepts a lexeme for an integer type
with tabulated range `lo .. hi`, then the lexeme consists of optional white
space, an optional sign, one or more digits, and a rest that does not start with
a digit and is ignored (so the lexeme need not be a clean decimal integer); and
the value of this leading integer lies within `lo .. hi` whenever the sign is
not `-`, and also with the sign `-` when the type is signed. -/
theorem literal_range_sound (stof : String → Option Nat) (lexeme : String) (type : Ty)
    (lo hi : Int) (hT : intRange type = some (lo, hi))
    (h : SemanticAnalyzer.validateLiteral stof lexeme type = .ok ()) :
    ∃ ws sign ds rest, lexeme.data = ws ++ sign ++ ds ++ rest ∧
      (∀ c ∈ ws, Std.isSpace c = true) ∧
      (sign = [] ∨ sign = ['+'] ∨ sign = ['-']) ∧
      ds ≠ [] ∧ (∀ c ∈ ds, c.isDigit = true) ∧ (∀ c, rest.head? = some c → c.isDigit = false) ∧
      (sign ≠ ['-'] → lo ≤ (Std.digitsValue ds : Int) ∧ (Std.digitsValue ds : Int) ≤ hi) ∧
      (sign = ['-'] → type.isUnsigned = false →
        lo ≤ -(Std.digitsValue ds : Int) ∧ -(Std.digitsValue ds : Int) ≤ hi) := by
  have hsw := SemanticAnalyzer.validateLiteral_ok h
  cases type
  case NT => simp [intRange] at hT
  case STR => simp [intRange] at hT
  case F32 => simp [intRange] at hT
  case I8 =>
    simp only [intRange, Option.some.injEq, Prod.mk.injEq] at hT
    obtain ⟨rfl, rfl⟩ := hT
    obtain ⟨neg, mag, hs, hp, hn⟩ := SemanticAnalyzer.signed_ok (fun v => Std.stoi_ok) hsw
    exact Std.range_of_scan hs hp (fun a _ => hn a)
  case I16 =>
    simp only [intRange, Option.some.injEq, Prod.mk.injEq] at hT
    obtain ⟨rfl, rfl⟩ := hT
    obtain ⟨neg, mag, hs, hp, hn⟩ := SemanticAnalyzer.signed_ok (fun v => Std.stoi_ok) hsw
    exact Std.range_of_scan hs hp (fun a _ => hn a)
  case I32 =>
    simp only [intRange, Option.some.injEq, Prod.mk.injEq] at hT
    obtain ⟨rfl, rfl⟩ := hT
    obtain ⟨neg, mag, hs, hp, hn⟩ := SemanticAnalyzer.signed_ok (fun v => Std.stol_ok) hsw
    exact Std.range_of_scan hs hp (fun a _ => hn a)
  case UI8 =>
    simp only [intRange, Option.some.injEq, Prod.mk.injEq] at hT
    obtain ⟨rfl, rfl⟩ := hT
    obtain ⟨neg, mag, hs, hp⟩ := SemanticAnalyzer.unsigned_ok hsw
    exact Std.range_of_scan hs hp (fun _ hu => by simp [Ty.isUnsigned] at hu)
  case UI16 =>
    simp only [intRange, Option.some.injEq, Prod.mk.injEq] at hT
    obtain ⟨rfl, rfl⟩ := hT
    obtain ⟨neg, mag, hs, hp⟩ := SemanticAnalyzer.unsigned_ok hsw
    exact Std.range_of_scan hs hp (fun _ hu => by simp [Ty.isUnsigned] at hu)
  case UI32 =>
    simp only [intRange, Option.some.injEq, Prod.mk.injEq] at hT
    obtain ⟨rfl, rfl⟩ := hT
    obtain ⟨neg, mag, hs, hp⟩ := SemanticAnalyzer.unsigned_ok hsw
    exact Std.range_of_scan hs hp (fun _ hu => by simp [Ty.isUnsigned] at hu)

/-! ## Labels: the first pass of the analyzer -/

theorem SymbolTable.addVariable_labels {s s1 : SymbolTable} {name : String} {ty : Ty}
    (h : s.addVariable name ty = .ok s1) : s1.labels = s.labels := by
  unfold SymbolTable.addVariable at h
  split at h
  · cases h
  · injection h with h
    rw [← h]

theorem SymbolTable.addLabel_ok {s s1 : SymbolTable} {name : String} {addr : Nat}
    (h : s.addLabel name addr = .ok s1) :
    s.labels.lookup name = none ∧ s1.labels = (name, addr) :: s.labels := by
  unfold SymbolTable.addLabel at h
  split at h
  · cases h
  · rename_i hl
    injection h with h
    rw [← h]
    exact ⟨hl, rfl⟩

theorem InstructionNode.definedLabel_of_ne {node : InstructionNode}
    (h : node.instruction.value ≠ "dfp") : node.definedLabel = none := by
  simp [InstructionNode.definedLabel, h]

/-- The labels of the table after the first pass are those it had before and
those that the `dfp` nodes define; the latter are pairwise distinct and were not
in the table before. -/
theorem SemanticAnalyzer.firstPass_labels :
    ∀ {ast : List InstructionNode} {s s1 : SymbolTable} {addr : Nat},
    SemanticAnalyzer.firstPass ast s addr = .ok s1 →
    (∀ L, (s1.labels.lookup L).isSome = true →
      (s.labels.lookup L).isSome = true ∨ L ∈ ast.filterMap InstructionNode.definedLabel) ∧
    (ast.filterMap InstructionNode.definedLabel).Nodup ∧
    (∀ L ∈ ast.filterMap InstructionNode.definedLabel, s.labels.lookup L = none) := by
  intro ast
  induction ast with
  | nil =>
    intro s s1 addr h
    simp only [SemanticAnalyzer.firstPass, Except.ok.injEq] at h
    subst h
    simp
  | cons node rest ih =>
    intro s s1 addr h
    unfold SemanticAnalyzer.firstPass at h
    split at h
    · rename_i hcv
      have hnd : node.instruction.value ≠ "dfp" := by rw [hcv]; decide
      split at h
      · cases h
      · rename_i s2 h2
        obtain ⟨_, _, ty, _, hadd⟩ := SemanticAnalyzer.processCv_ok h2
        have hl := SymbolTable.addVariable_labels hadd
        have := ih h
        rw [hl] at this
        simpa [List.filterMap_cons, InstructionNode.definedLabel_of_ne hnd] using this
    · split at h
      · rename_i hdfp
        split at h
        · cases h
        · rename_i s2 h2
          obtain ⟨l, hops, hadd⟩ := SemanticAnalyzer.processDfp_ok h2
          obtain ⟨hnone, hl⟩ := SymbolTable.addLabel_ok hadd
          have hdef : node.definedLabel = some l.value := by
            simp [InstructionNode.definedLabel, hdfp, hops]
          obtain ⟨i1, i2, i3⟩ := ih h
          rw [hl] at i1 i3
          simp only [List.filterMap_cons, hdef]
          refine ⟨?_, ?_, ?_⟩
          · intro L hL
            rcases i1 L hL with e | e
            · rw [List.lookup_cons] at e
              by_cases hk : L = l.value
              · right; rw [hk]; exact List.mem_cons_self _ _
              · have : (L == l.value) = false := by simpa using hk
                rw [this] at e
                exact Or.inl e
            · exact Or.inr (List.mem_cons_of_mem _ e)
          · rw [List.nodup_cons]
            refine ⟨fun hm => ?_, i2⟩
            have := i3 _ hm
            simp at this
          · intro L hL
            rcases List.mem_cons.mp hL with e | e
            · rw [e]; exact hnone
            · have := i3 L e
              rw [List.lookup_cons] at this
              by_cases hk : L = l.value
              · rw [hk] at this; simp at this
              · have hb : (L == l.value) = false := by simpa using hk
                rw [hb] at this
                exact this
      · rename_i hdfp
        have := ih h
        simpa [List.filterMap_cons, InstructionNode.definedLabel_of_ne hdfp] using this

/-! ## Labels: the size pass of the generator -/

theorem CodeGenerator.buildLabelMapFrom_cons {node : InstructionNode}
    {rest : List InstructionNode} {addr : Nat} {labels m : List (String × Nat)}
    (h : CodeGenerator.buildLabelMapFrom (node :: rest) addr labels = .ok m) :
    ∃ size, CodeGenerator.calculateInstructionSize node = .ok size ∧
      ((node.definedLabel = none ∧
          CodeGenerator.buildLabelMapFrom rest (addr + size) labels = .ok m) ∨
        ∃ L, node.definedLabel = some L ∧
          CodeGenerator.buildLabelMapFrom rest (addr + size) ((L, addr) :: labels) = .ok m) := by
  unfold CodeGenerator.buildLabelMapFrom at h
  simp only at h
  by_cases hd : node.instruction.value = "dfp"
  · simp only [hd, if_true] at h
    cases hops : node.operands with
    | nil => simp [InstructionNode.operand, hops] at h
    | cons l tl =>
      simp only [InstructionNode.operand_zero hops] at h
      split at h
      · cases h
      · rename_i size hsz
        refine ⟨size, hsz, Or.inr ⟨l.value, ?_, h⟩⟩
        simp [InstructionNode.definedLabel, hd, hops]
  · simp only [hd, if_false] at h
    split at h
    · cases h
    · rename_i size hsz
      exact ⟨size, hsz, Or.inl ⟨InstructionNode.definedLabel_of_ne hd, h⟩⟩

/-- Nodes that do not define `L` leave the address of `L` in the label map as it
is. -/
theorem CodeGenerator.buildLabelMapFrom_lookup_of_not_defined {L : String} :
    ∀ {ast : List InstructionNode} {addr : Nat} {labels m : List (String × Nat)},
    CodeGenerator.buildLabelMapFrom ast addr labels = .ok m →
    (∀ n ∈ ast, n.definedLabel ≠ some L) → m.lookup L = labels.lookup L := by
  intro ast
  induction ast with
  | nil =>
    intro addr labels m h _
    simp only [CodeGenerator.buildLabelMapFrom, Except.ok.injEq] at h
    rw [h]
  | cons node rest ih =>
    intro addr labels m h hn
    obtain ⟨size, _, hc | ⟨K, hK, hc⟩⟩ := CodeGenerator.buildLabelMapFrom_cons h
    · exact ih hc.2 (fun n hm => hn n (List.mem_cons_of_mem _ hm))
    · rw [ih hc (fun n hm => hn n (List.mem_cons_of_mem _ hm)), List.lookup_cons]
      have hne : L ≠ K := by
        intro e
        apply hn node (List.mem_cons_self _ _)
        rw [hK, e]
      have : (L == K) = false := by simpa using hne
      rw [this]

theorem CodeGenerator.generateAll_cons {stof : String → Option Nat} {symbols : SymbolTable}
    {labels : List (String × Nat)} {node : InstructionNode} {rest : List InstructionNode}
    {out : List Nat}
    (h : CodeGenerator.generateAll stof symbols labels (node :: rest) = .ok out) :
    ∃ a b, CodeGenerator.generateInstruction stof symbols labels node = .ok a ∧
      CodeGenerator.generateAll stof symbols labels rest = .ok b ∧ out = a ++ b := by
  unfold CodeGenerator.generateAll at h
  split at h
  · cases h
  · rename_i a ha
    split at h
    · cases h
    · rename_i b hb
      injection h with h
      exact ⟨a, b, ha, hb, h.symm⟩

theorem CodeGenerator.generateAll_append {stof : String → Option Nat} {symbols : SymbolTable}
    {labels : List (String × Nat)} :
    ∀ {a1 a2 : List InstructionNode} {out : List Nat},
    CodeGenerator.generateAll stof symbols labels (a1 ++ a2) = .ok out →
    ∃ p q, CodeGenerator.generateAll stof symbols labels a1 = .ok p ∧
      CodeGenerator.generateAll stof symbols labels a2 = .ok q ∧ out = p ++ q := by
  intro a1
  induction a1 with
  | nil =>
    intro a2 out h
    exact ⟨[], out, rfl, h, rfl⟩
  | cons node rest ih =>
    intro a2 out h
    obtain ⟨a, b, ha, hb, hab⟩ := CodeGenerator.generateAll_cons h
    obtain ⟨p, q, hp, hq, hpq⟩ := ih hb
    refine ⟨a ++ p, q, ?_, hq, ?_⟩
    · simp [CodeGenerator.generateAll, ha, hp]
    · rw [hab, hpq, List.append_assoc]

/-- The size pass runs in step with the emit pass: after a prefix of shaped
nodes for which the emit pass appends `p`, the running address has advanced by
the length of `p`. -/
theorem CodeGenerator.buildLabelMapFrom_skip {stof : String → Option Nat}
    {symbols : SymbolTable} {lab : List (String × Nat)} :
    ∀ {a1 rest : List InstructionNode} {addr : Nat} {labels m : List (String × Nat)}
      {p : List Nat},
    CodeGenerator.buildLabelMapFrom (a1 ++ rest) addr labels = .ok m →
    (∀ n ∈ a1, n.Shaped) →
    CodeGenerator.generateAll stof symbols lab a1 = .ok p →
    ∃ labels1, CodeGenerator.buildLabelMapFrom rest (addr + p.length) labels1 = .ok m := by
  intro a1
  induction a1 with
  | nil =>
    intro rest addr labels m p h _ hg
    simp only [CodeGenerator.generateAll, Except.ok.injEq] at hg
    subst hg
    exact ⟨labels, by simpa using h⟩
  | cons node tl ih =>
    intro rest addr labels m p h hs hg
    obtain ⟨a, b, ha, hb, hab⟩ := CodeGenerator.generateAll_cons hg
    have hsz := (CodeGenerator.size_of_generate (hs node (List.mem_cons_self _ _)) ha).1
    rw [List.cons_append] at h
    obtain ⟨size, hsize, hc⟩ := CodeGenerator.buildLabelMapFrom_cons h
    rw [hsz] at hsize
    injection hsize with hsize
    subst hsize
    have hs2 : ∀ n ∈ tl, n.Shaped := fun n hn => hs n (List.mem_cons_of_mem _ hn)
    rcases hc with hc | ⟨K, _, hc⟩
    · obtain ⟨l1, hl1⟩ := ih hc.2 hs2 hb
      exact ⟨l1, by rw [hab, List.length_append, ← Nat.add_assoc]; exact hl1⟩
    · obtain ⟨l1, hl1⟩ := ih hc hs2 hb
      exact ⟨l1, by rw [hab, List.length_append, ← Nat.add_assoc]; exact hl1⟩

/-! ## The address emitted for a jump -/

theorem InstructionNode.definedLabel_some {node : InstructionNode} {L : String}
    (h : node.definedLabel = some L) : node.instruction.value = "dfp" := by
  unfold InstructionNode.definedLabel at h
  by_contra hn
  simp [hn] at h

/-- In an accepted list the label of a `jmp` node is defined by exactly one
node. -/
theorem SemanticAnalyzer.jmp_label_defined {stof : String → Option Nat} {symbols : SymbolTable}
    {ast : List InstructionNode} {j : InstructionNode}
    (hacc : SemanticAnalyzer.analyze stof SymbolTable.empty ast = .ok symbols)
    (hj : j ∈ ast) (hjm : j.instruction.value = "jmp") :
    ∃ l a1 d a2, j.operands = [l] ∧ ast = a1 ++ d :: a2 ∧ d.definedLabel = some l.value ∧
      ∀ n ∈ a1 ++ a2, n.definedLabel ≠ some l.value := by
  obtain ⟨hfp, _⟩ := SemanticAnalyzer.analyze_ok hacc
  have hck := (SemanticAnalyzer.accepted_node hacc hj).2
  simp [SemanticAnalyzer.checkNode, hjm] at hck
  obtain ⟨l, a, hops, hlook⟩ := SemanticAnalyzer.checkJmp_ok hck
  obtain ⟨f1, f2, _⟩ := SemanticAnalyzer.firstPass_labels hfp
  have hmem : l.value ∈ ast.filterMap InstructionNode.definedLabel := by
    rcases f1 l.value (by rw [hlook]; rfl) with e | e
    · simp [SymbolTable.empty] at e
    · exact e
  obtain ⟨d, hd, hdl⟩ := List.mem_filterMap.mp hmem
  obtain ⟨a1, a2, hsplit⟩ := List.append_of_mem hd
  refine ⟨l, a1, d, a2, hops, hsplit, hdl, ?_⟩
  rw [hsplit, List.filterMap_append, List.filterMap_cons, hdl] at f2
  have hnd := (List.nodup_cons.mp (List.nodup_middle.mp f2)).1
  intro n hn hc
  apply hnd
  rw [← List.filterMap_append]
  exact List.mem_filterMap.mpr ⟨n, hn, hc⟩

/-- The address that the size pass records for a label is the length of what
the emit pass appends for the nodes before the node that defines it. -/
theorem CodeGenerator.buildLabelMap_lookup {stof : String → Option Nat} {symbols : SymbolTable}
    {lab labels : List (String × Nat)} {a1 a2 : List InstructionNode} {d : InstructionNode}
    {L : String} {pd : List Nat}
    (hb : CodeGenerator.buildLabelMap (a1 ++ d :: a2) = .ok labels)
    (hs : ∀ n ∈ a1, n.Shaped) (hd : d.definedLabel = some L)
    (hu : ∀ n ∈ a2, n.definedLabel ≠ some L)
    (hg : CodeGenerator.generateAll stof symbols lab a1 = .ok pd) :
    labels.lookup L = some pd.length := by
  unfold CodeGenerator.buildLabelMap at hb
  obtain ⟨l1, h1⟩ := CodeGenerator.buildLabelMapFrom_skip hb hs hg
  obtain ⟨size, _, hc | ⟨K, hK, hc⟩⟩ := CodeGenerator.buildLabelMapFrom_cons h1
  · rw [hd] at hc
    cases hc.1
  · rw [hd] at hK
    injection hK with hK
    subst hK
    rw [CodeGenerator.buildLabelMapFrom_lookup_of_not_defined hc hu]
    simp

theorem CodeGenerator.generateInstruction_jmp {stof : String → Option Nat}
    {symbols : SymbolTable} {labels : List (String × Nat)} {j : InstructionNode} {l : Token}
    {addr : Nat} (hjm : j.instruction.value = "jmp") (hops : j.operands = [l])
    (hl : labels.lookup l.value = some addr) :
    CodeGenerator.generateInstruction stof symbols labels j
      = .ok (0x10 :: CodeGenerator.emitUI32 addr) := by
  simp [CodeGenerator.generateInstruction, CodeGenerator.instructionToOpcode,
    CodeGenerator.emitPayload, hjm, InstructionNode.operand_zero hops, Except.bind_ok_eq,
    CodeGenerator.emitLabel, hl, Instruction.code]

/-- C1 (the code at the failing input): the list `dfp start; nop; jmp start` is
accepted and
generates `0f ff 10 00 00 00 00`; the instruction following `dfp start` begins
at offset 1 (what is generated for `dfp start` alone is one byte long), but the
four address bytes emitted for the `jmp` are those of 0, not those of 1. -/
theorem jmp_address_not_following_instruction :
    SemanticAnalyzer.analyze stofNone SymbolTable.empty
        [⟨⟨.INSTRUCTION, "dfp", 1⟩, [⟨.IDENTIFIER, "start", 1⟩]⟩,
         ⟨⟨.INSTRUCTION, "nop", 2⟩, []⟩,
         ⟨⟨.INSTRUCTION, "jmp", 3⟩, [⟨.IDENTIFIER, "start", 3⟩]⟩]
      = .ok ⟨[], [("start", 0)], 0⟩ ∧
    CodeGenerator.generate stofNone ⟨[], [("start", 0)], 0⟩
        [⟨⟨.INSTRUCTION, "dfp", 1⟩, [⟨.IDENTIFIER, "start", 1⟩]⟩,
         ⟨⟨.INSTRUCTION, "nop", 2⟩, []⟩,
         ⟨⟨.INSTRUCTION, "jmp", 3⟩, [⟨.IDENTIFIER, "start", 3⟩]⟩]
      = .ok ([0x0f] ++ [0xff] ++ 0x10 :: [0, 0, 0, 0]) ∧
    CodeGenerator.generateAll stofNone ⟨[], [("start", 0)], 0⟩ [("start", 0)]
        [⟨⟨.INSTRUCTION, "dfp", 1⟩, [⟨.IDENTIFIER, "start", 1⟩]⟩] = .ok [0x0f] ∧
    ([0, 0, 0, 0] : List Nat) = CodeGenerator.emitUI32 0 ∧
    ([0, 0, 0, 0] : List Nat) ≠ CodeGenerator.emitUI32 ([0x0f] : List Nat).length := by
  decide

/-- For every instruction list accepted by the analyzer on which
`generate` returns, and every `jmp` node in it with label operand `l`, exactly
one node `d` of the list defines `l` (a `dfp` node whose operand has the lexeme
of `l`), and the four bytes emitted after the opcode `10` of the `jmp` are the
little-endian bytes (`emitUI32`) of the length of `pd`, the output generated for
the nodes before `d`: the address is the byte offset at which the opcode byte
`0f` of the `dfp` node itself is emitted, and the instruction following the
`dfp` begins one byte later. -/
theorem jmp_address_is_dfp_offset (stof : String → Option Nat) (ast : List InstructionNode)
    (symbols : SymbolTable) (out : List Nat) (b1 : List InstructionNode) (j : InstructionNode)
    (b2 : List InstructionNode)
    (hacc : SemanticAnalyzer.analyze stof SymbolTable.empty ast = .ok symbols)
    (hgen : CodeGenerator.generate stof symbols ast = .ok out)
    (hj : ast = b1 ++ j :: b2) (hjm : j.instruction.value = "jmp") :
    ∃ (l : Token) (a1 : List InstructionNode) (d : InstructionNode) (a2 : List InstructionNode)
      (labels : List (String × Nat)) (pd td pj tj : List Nat),
      j.operands = [l] ∧ ast = a1 ++ d :: a2 ∧ d.definedLabel = some l.value ∧
      (∀ n ∈ a1 ++ a2, n.definedLabel ≠ some l.value) ∧
      CodeGenerator.buildLabelMap ast = .ok labels ∧
      CodeGenerator.generateAll stof symbols labels a1 = .ok pd ∧
      CodeGenerator.generateAll stof symbols labels a2 = .ok td ∧
      CodeGenerator.generateAll stof symbols labels b1 = .ok pj ∧
      CodeGenerator.generateAll stof symbols labels b2 = .ok tj ∧
      out = pd ++ 0x0f :: td ∧
      out = pj ++ 0x10 :: (CodeGenerator.emitUI32 pd.length ++ tj) := by
  have hjmem : j ∈ ast := by rw [hj]; simp
  obtain ⟨l, a1, d, a2, hops, hsplit, hdl, huniq⟩ :=
    SemanticAnalyzer.jmp_label_defined hacc hjmem hjm
  unfold CodeGenerator.generate at hgen
  split at hgen
  · cases hgen
  · rename_i labels hlab
    -- the output around the defining node
    have hgd := hgen
    rw [hsplit] at hgd
    obtain ⟨pd, qd, hpd, hqd, hout⟩ := CodeGenerator.generateAll_append hgd
    obtain ⟨bd, td, hbd, htd, hq⟩ := CodeGenerator.generateAll_cons hqd
    rw [CodeGenerator.generateInstruction_dfp stof symbols labels d
      (InstructionNode.definedLabel_some hdl)] at hbd
    injection hbd with hbd
    subst hbd
    -- the address recorded for the label
    have hshape : ∀ n ∈ a1, n.Shaped := fun n hn =>
      (SemanticAnalyzer.accepted_node hacc (by rw [hsplit]; simp [hn])).1
    have hlook : labels.lookup l.value = some pd.length := by
      rw [hsplit] at hlab
      exact CodeGenerator.buildLabelMap_lookup hlab hshape hdl
        (fun n hn => huniq n (List.mem_append_right _ hn)) hpd
    -- the output around the jump
    have hgj := hgen
    rw [hj] at hgj
    obtain ⟨pj, qj, hpj, hqj, hout2⟩ := CodeGenerator.generateAll_append hgj
    obtain ⟨bj, tj, hbj, htj, hq2⟩ := CodeGenerator.generateAll_cons hqj
    rw [CodeGenerator.generateInstruction_jmp hjm hops hlook] at hbj
    injection hbj with hbj
    subst hbj
    refine ⟨l, a1, d, a2, labels, pd, td, pj, tj, hops, hsplit, hdl, huniq, hlab, hpd, htd,
      hpj, htj, ?_, ?_⟩
    · rw [hout, hq]; rfl
    · rw [hout2, hq2]; rfl

/-- The forward jump of the accepted list `jmp end; nop; dfp end`. -/
theorem jmp_address_is_dfp_offset_witness :
    SemanticAnalyzer.analyze stofNone SymbolTable.empty
        [⟨⟨.INSTRUCTION, "jmp", 1⟩, [⟨.IDENTIFIER, "end", 1⟩]⟩,
         ⟨⟨.INSTRUCTION, "nop", 2⟩, []⟩,
         ⟨⟨.INSTRUCTION, "dfp", 3⟩, [⟨.IDENTIFIER, "end", 3⟩]⟩]
      = .ok ⟨[], [("end", 2)], 0⟩ ∧
    CodeGenerator.generate stofNone ⟨[], [("end", 2)], 0⟩
        [⟨⟨.INSTRUCTION, "jmp", 1⟩, [⟨.IDENTIFIER, "end", 1⟩]⟩,
         ⟨⟨.INSTRUCTION, "nop", 2⟩, []⟩,
         ⟨⟨.INSTRUCTION, "dfp", 3⟩, [⟨.IDENTIFIER, "end", 3⟩]⟩]
      = .ok [0x10, 6, 0, 0, 0, 0xff, 0x0f] ∧
    ∃ (l : Token) (a1 : List InstructionNode) (d : InstructionNode) (a2 : List InstructionNode)
      (labels : List (String × Nat)) (pd td pj tj : List Nat),
      (⟨⟨.INSTRUCTION, "jmp", 1⟩, [⟨.IDENTIFIER, "end", 1⟩]⟩ : InstructionNode).operands = [l] ∧
      [⟨⟨.INSTRUCTION, "jmp", 1⟩, [⟨.IDENTIFIER, "end", 1⟩]⟩,
         ⟨⟨.INSTRUCTION, "nop", 2⟩, []⟩,
         ⟨⟨.INSTRUCTION, "dfp", 3⟩, [⟨.IDENTIFIER, "end", 3⟩]⟩] = a1 ++ d :: a2 ∧
      d.definedLabel = some l.value ∧
      (∀ n ∈ a1 ++ a2, n.definedLabel ≠ some l.value) ∧
      CodeGenerator.buildLabelMap
        [⟨⟨.INSTRUCTION, "jmp", 1⟩, [⟨.IDENTIFIER, "end", 1⟩]⟩,
         ⟨⟨.INSTRUCTION, "nop", 2⟩, []⟩,
         ⟨⟨.INSTRUCTION, "dfp", 3⟩, [⟨.IDENTIFIER, "end", 3⟩]⟩] = .ok labels ∧
      CodeGenerator.generateAll stofNone ⟨[], [("end", 2)], 0⟩ labels a1 = .ok pd ∧
      CodeGenerator.generateAll stofNone ⟨[], [("end", 2)], 0⟩ labels a2 = .ok td ∧
      CodeGenerator.generateAll stofNone ⟨[], [("end", 2)], 0⟩ labels [] = .ok pj ∧
      CodeGenerator.generateAll stofNone ⟨[], [("end", 2)], 0⟩ labels
        [⟨⟨.INSTRUCTION, "nop", 2⟩, []⟩,
         ⟨⟨.INSTRUCTION, "dfp", 3⟩, [⟨.IDENTIFIER, "end", 3⟩]⟩] = .ok tj ∧
      [0x10, 6, 0, 0, 0, 0xff, 0x0f] = pd ++ 0x0f :: td ∧
      [0x10, 6, 0, 0, 0, 0xff, 0x0f] = pj ++ 0x10 :: (CodeGenerator.emitUI32 pd.length ++ tj) :=
  ⟨by decide, by decide,
   jmp_address_is_dfp_offset stofNone
    [⟨⟨.INSTRUCTION, "jmp", 1⟩, [⟨.IDENTIFIER, "end", 1⟩]⟩,
     ⟨⟨.INSTRUCTION, "nop", 2⟩, []⟩,
     ⟨⟨.INSTRUCTION, "dfp", 3⟩, [⟨.IDENTIFIER, "end", 3⟩]⟩]
    ⟨[], [("end", 2)], 0⟩ [0x10, 6, 0, 0, 0, 0xff, 0x0f] []
    ⟨⟨.INSTRUCTION, "jmp", 1⟩, [⟨.IDENTIFIER, "end", 1⟩]⟩
    [⟨⟨.INSTRUCTION, "nop", 2⟩, []⟩, ⟨⟨.INSTRUCTION, "dfp", 3⟩, [⟨.IDENTIFIER, "end", 3⟩]⟩]
    (by decide) (by decide) rfl rfl⟩

/-- C10 (witness): the lexeme `200` for `UI8`. -/
theorem literal_range_sound_witness :
    intRange .UI8 = some (0, 255) ∧
    SemanticAnalyzer.validateLiteral stofNone "200" .UI8 = .ok () ∧
    ∃ ws sign ds rest, "200".data = ws ++ sign ++ ds ++ rest ∧
      (∀ c ∈ ws, Std.isSpace c = true) ∧
      (sign = [] ∨ sign = ['+'] ∨ sign = ['-']) ∧
      ds ≠ [] ∧ (∀ c ∈ ds, c.isDigit = true) ∧ (∀ c, rest.head? = some c → c.isDigit = false) ∧
      (sign ≠ ['-'] → (0 : Int) ≤ (Std.digitsValue ds : Int) ∧ (Std.digitsValue ds : Int) ≤ 255) ∧
      (sign = ['-'] → Ty.isUnsigned .UI8 = false →
        (0 : Int) ≤ -(Std.digitsValue ds : Int) ∧ -(Std.digitsValue ds : Int) ≤ 255) :=
  ⟨rfl, by decide, literal_range_sound stofNone "200" .UI8 0 255 rfl (by decide)⟩

/-! ## The symbol table: offsets -/

theorem SymbolTable.addVariables_spec : ∀ (decls : List (String × Ty)) (t0 : SymbolTable),
    (decls.map Prod.fst).Nodup → (∀ d ∈ decls, t0.vars.lookup d.1 = none) →
    ∃ t, SymbolTable.addVariables decls t0 = .ok t ∧
      t.currentOffset = t0.currentOffset + declaredSize decls ∧
      t.labels = t0.labels ∧
      (∀ name, name ∉ decls.map Prod.fst → t.vars.lookup name = t0.vars.lookup name) ∧
      (∀ pre name type post, decls = pre ++ (name, type) :: post →
        t.vars.lookup name
          = some ⟨type, SymbolTable.getTypeSize type, t0.currentOffset + declaredSize pre⟩) := by
  intro decls
  induction decls with
  | nil =>
    intro t0 _ _
    refine ⟨t0, rfl, by simp [declaredSize], rfl, fun _ _ => rfl, ?_⟩
    intro pre name type post h
    cases pre <;> cases h
  | cons d rest ih =>
    intro t0 hnd hfresh
    obtain ⟨name0, type0⟩ := d
    have hn0 : t0.vars.lookup name0 = none := hfresh (name0, type0) (List.mem_cons_self _ _)
    simp only [List.map_cons, List.nodup_cons] at hnd
    obtain ⟨hnotin, hnd⟩ := hnd
    have hadd : t0.addVariable name0 type0 = .ok
        ⟨(name0, ⟨type0, SymbolTable.getTypeSize type0, t0.currentOffset⟩) :: t0.vars,
          t0.labels, t0.currentOffset + SymbolTable.getTypeSize type0⟩ := by
      simp [SymbolTable.addVariable, hn0]
    have hfresh1 : ∀ d ∈ rest, List.lookup d.1
        ((name0, (⟨type0, SymbolTable.getTypeSize type0, t0.currentOffset⟩ : VariableInfo))
          :: t0.vars) = none := by
      intro d hd
      rw [List.lookup_cons]
      have hne : d.1 ≠ name0 := fun e => hnotin (e ▸ List.mem_map_of_mem Prod.fst hd)
      have hb : (d.1 == name0) = false := by simpa using hne
      rw [hb]
      exact hfresh d (List.mem_cons_of_mem _ hd)
    obtain ⟨t, h1, h2, h3, h4, h5⟩ := ih
      ⟨(name0, ⟨type0, SymbolTable.getTypeSize type0, t0.currentOffset⟩) :: t0.vars,
        t0.labels, t0.currentOffset + SymbolTable.getTypeSize type0⟩ hnd hfresh1
    refine ⟨t, ?_, ?_, h3, ?_, ?_⟩
    · simp only [SymbolTable.addVariables, hadd]
      exact h1
    · rw [h2]
      simp only [declaredSize, List.map_cons, List.sum_cons]
      omega
    · intro name hname
      simp only [List.map_cons, List.mem_cons, not_or] at hname
      rw [h4 name hname.2, List.lookup_cons]
      have hb : (name == name0) = false := by simpa using hname.1
      rw [hb]
    · intro pre name type post h
      cases pre with
      | nil =>
        simp only [List.nil_append, List.cons.injEq, Prod.mk.injEq] at h
        obtain ⟨⟨rfl, rfl⟩, _⟩ := h
        rw [h4 name0 hnotin]
        simp [declaredSize]
      | cons p pre =>
        simp only [List.cons_append, List.cons.injEq] at h
        obtain ⟨rfl, hrest⟩ := h
        rw [h5 pre name type post hrest]
        simp only [declaredSize, List.map_cons, List.sum_cons]
        congr 2
        omega

theorem SymbolTable.addVariables_nodup : ∀ (decls : List (String × Ty)) (t0 t : SymbolTable),
    SymbolTable.addVariables decls t0 = .ok t →
    (decls.map Prod.fst).Nodup ∧ ∀ d ∈ decls, t0.vars.lookup d.1 = none := by
  intro decls
  induction decls with
  | nil => intro t0 t _; simp
  | cons d rest ih =>
    intro t0 t h
    unfold SymbolTable.addVariables at h
    cases hadd : t0.addVariable d.1 d.2 with
    | error e => simp [hadd] at h
    | ok t1 =>
      simp only [hadd] at h
      obtain ⟨i1, i2⟩ := ih t1 t h
      unfold SymbolTable.addVariable at hadd
      cases hl : t0.vars.lookup d.1 with
      | some v => simp [hl] at hadd
      | none =>
        simp only [hl, Except.ok.injEq] at hadd
        subst hadd
        simp only at i2
        have hfr : ∀ e ∈ rest, e.1 ≠ d.1 ∧ t0.vars.lookup e.1 = none := by
          intro e he
          have := i2 e he
          rw [List.lookup_cons] at this
          by_cases hk : e.1 = d.1
          · rw [hk] at this; simp at this
          · have hb : (e.1 == d.1) = false := by simpa using hk
            rw [hb] at this
            exact ⟨hk, this⟩
        refine ⟨?_, ?_⟩
        · simp only [List.map_cons, List.nodup_cons]
          refine ⟨?_, i1⟩
          intro hm
          obtain ⟨e, he, hee⟩ := List.mem_map.mp hm
          exact (hfr e he).1 hee
        · intro e he
          rcases List.mem_cons.mp he with rfl | he
          · exact hl
          · exact (hfr e he).2

/-- C13: starting from an empty `SymbolTable`, the calls of `addVariable` for the
declarations `decls` in order all succeed exactly when the names are pairwise
distinct; then, for every declaration `(name, type)` of the list, `getVariable`
returns a record whose type is `type`, whose size is the size of `type` and whose
offset is the sum of the sizes of the declarations before it, and
`getTotalMemorySize` is the sum of all sizes.  The sizes are 1 for I8/UI8, 2 for
I16/UI16, 4 for I32/UI32/F32 and 0 for NT/STR. -/
theorem symbol_offset_invariant (decls : List (String × Ty)) :
    ((∃ t, SymbolTable.addVariables decls SymbolTable.empty = .ok t) ↔
      (decls.map Prod.fst).Nodup) ∧
    (∀ t, SymbolTable.addVariables decls SymbolTable.empty = .ok t →
      (∀ pre name type post, decls = pre ++ (name, type) :: post →
        t.getVariable name = .ok ⟨type, SymbolTable.getTypeSize type, declaredSize pre⟩) ∧
      t.getTotalMemorySize = declaredSize decls) ∧
    (SymbolTable.getTypeSize .I8 = 1 ∧ SymbolTable.getTypeSize .UI8 = 1 ∧
      SymbolTable.getTypeSize .I16 = 2 ∧ SymbolTable.getTypeSize .UI16 = 2 ∧
      SymbolTable.getTypeSize .I32 = 4 ∧ SymbolTable.getTypeSize .UI32 = 4 ∧
      SymbolTable.getTypeSize .F32 = 4 ∧ SymbolTable.getTypeSize .NT = 0 ∧
      SymbolTable.getTypeSize .STR = 0) := by
  refine ⟨⟨?_, ?_⟩, ?_, by decide⟩
  · rintro ⟨t, h⟩
    exact (SymbolTable.addVariables_nodup decls _ t h).1
  · intro hnd
    obtain ⟨t, h, _⟩ := SymbolTable.addVariables_spec decls SymbolTable.empty hnd
      (fun _ _ => rfl)
    exact ⟨t, h⟩
  · intro t h
    obtain ⟨hnd, hfr⟩ := SymbolTable.addVariables_nodup decls _ t h
    obtain ⟨t1, h1, h2, _, _, h5⟩ := SymbolTable.addVariables_spec decls SymbolTable.empty hnd hfr
    rw [h] at h1
    injection h1 with h1
    subst h1
    refine ⟨?_, ?_⟩
    · intro pre name type post hd
      have := h5 pre name type post hd
      simp only [SymbolTable.empty, Nat.zero_add] at this
      simp [SymbolTable.getVariable, this]
    · simpa [SymbolTable.getTotalMemorySize, SymbolTable.empty] using h2

/-- C13 (witness): the declarations `a : ui8`, `b : i32`, `c : i16`. -/
theorem symbol_offset_invariant_witness :
    SymbolTable.addVariables [("a", .UI8), ("b", .I32), ("c", .I16)] SymbolTable.empty
      = .ok ⟨[("c", ⟨.I16, 2, 5⟩), ("b", ⟨.I32, 4, 1⟩), ("a", ⟨.UI8, 1, 0⟩)], [], 7⟩ ∧
    (∀ pre name type post, [("a", Ty.UI8), ("b", Ty.I32), ("c", Ty.I16)]
        = pre ++ (name, type) :: post →
      SymbolTable.getVariable
          ⟨[("c", ⟨.I16, 2, 5⟩), ("b", ⟨.I32, 4, 1⟩), ("a", ⟨.UI8, 1, 0⟩)], [], 7⟩ name
        = .ok ⟨type, SymbolTable.getTypeSize type, declaredSize pre⟩) ∧
    SymbolTable.getTotalMemorySize
        ⟨[("c", ⟨.I16, 2, 5⟩), ("b", ⟨.I32, 4, 1⟩), ("a", ⟨.UI8, 1, 0⟩)], [], 7⟩
      = declaredSize [("a", .UI8), ("b", .I32), ("c", .I16)] :=
  ⟨by decide,
   (symbol_offset_invariant [("a", .UI8), ("b", .I32), ("c", .I16)]).2.1 _ (by decide)⟩

/-! ## The opcode table -/

theorem CodeGenerator.instructionToOpcode_mnemonic {s : String} {op : Instruction}
    (h : CodeGenerator.instructionToOpcode s = .ok op) : op.mnemonic = s := by
  have hk := CodeGenerator.opcode_known h
  simp only [knownMnemonics, List.mem_cons, List.mem_singleton, List.not_mem_nil,
    or_false] at hk
  rcases hk with hm | hm | hm | hm | hm | hm | hm | hm | hm | hm | hm | hm | hm | hm |
    hm | hm | hm | hm | hm | hm | hm | hm | hm | hm <;>
    · subst hm
      simp only [CodeGenerator.instructionToOpcode] at h
      injection h with h
      rw [← h]
      rfl

theorem CodeGenerator.instructionToOpcode_of_known {s : String} (h : s ∈ knownMnemonics) :
    ∃ op, CodeGenerator.instructionToOpcode s = .ok op := by
  simp only [knownMnemonics, List.mem_cons, List.mem_singleton, List.not_mem_nil,
    or_false] at h
  rcases h with hm | hm | hm | hm | hm | hm | hm | hm | hm | hm | hm | hm | hm | hm |
    hm | hm | hm | hm | hm | hm | hm | hm | hm | hm <;>
    · subst hm
      exact ⟨_, rfl⟩

theorem Instruction.code_injective (a b : Instruction) (h : a.code = b.code) : a = b := by
  cases a <;> cases b <;> first | rfl | (simp [Instruction.code] at h)

theorem CodeGenerator.generateInstruction_head {stof : String → Option Nat}
    {symbols : SymbolTable} {labels : List (String × Nat)} {node : InstructionNode}
    {bytes : List Nat}
    (h : CodeGenerator.generateInstruction stof symbols labels node = .ok bytes) :
    ∃ op payload, CodeGenerator.instructionToOpcode node.instruction.value = .ok op ∧
      bytes = op.code :: payload := by
  unfold CodeGenerator.generateInstruction at h
  cases ho : CodeGenerator.instructionToOpcode node.instruction.value with
  | error e => simp [ho] at h
  | ok op =>
    simp only [ho] at h
    cases hp : CodeGenerator.emitPayload stof symbols labels node with
    | error e => simp [hp] at h
    | ok payload =>
      simp only [hp, Except.ok.injEq] at h
      exact ⟨op, payload, rfl, h.symm⟩

/-- C14: `instructionToOpcode` is defined exactly on the 24 reserved mnemonics,
is injective on them (distinct mnemonics get opcodes with distinct numeric
codes), and maps each mnemonic to the code of the table `cv=0, av=1, .., dl=22,
nop=255`; and the first byte that `generateInstruction` appends for a node
(a `dfp` node or not) is the code of the opcode of its mnemonic. -/
theorem opcode_table :
    (∀ s, (∃ op, CodeGenerator.instructionToOpcode s = .ok op) ↔ s ∈ knownMnemonics) ∧
    (∀ s1 s2 op1 op2, CodeGenerator.instructionToOpcode s1 = .ok op1 →
      CodeGenerator.instructionToOpcode s2 = .ok op2 → op1.code = op2.code → s1 = s2) ∧
    (∀ s code, (s, code) ∈ opcodeTable →
      ∃ op, CodeGenerator.instructionToOpcode s = .ok op ∧ op.code = code) ∧
    opcodeTable.map Prod.fst = knownMnemonics ∧
    (∀ (stof : String → Option Nat) (symbols : SymbolTable) (labels : List (String × Nat))
      (node : InstructionNode) (bytes : List Nat),
      CodeGenerator.generateInstruction stof symbols labels node = .ok bytes →
      ∃ op, CodeGenerator.instructionToOpcode node.instruction.value = .ok op ∧
        bytes.head? = some op.code) := by
  refine ⟨?_, ?_, ?_, rfl, ?_⟩
  · intro s
    constructor
    · rintro ⟨op, h⟩
      exact CodeGenerator.opcode_known h
    · exact CodeGenerator.instructionToOpcode_of_known
  · intro s1 s2 op1 op2 h1 h2 hc
    rw [← CodeGenerator.instructionToOpcode_mnemonic h1,
      ← CodeGenerator.instructionToOpcode_mnemonic h2, Instruction.code_injective op1 op2 hc]
  · intro s code h
    simp only [opcodeTable, List.mem_cons, List.mem_singleton, List.not_mem_nil, or_false,
      Prod.mk.injEq] at h
    rcases h with h | h | h | h | h | h | h | h | h | h | h | h | h | h |
      h | h | h | h | h | h | h | h | h | h <;>
      · obtain ⟨rfl, rfl⟩ := h
        exact ⟨_, rfl, rfl⟩
  · intro stof symbols labels node bytes h
    obtain ⟨op, payload, ho, hb⟩ := CodeGenerator.generateInstruction_head h
    exact ⟨op, ho, by rw [hb]; rfl⟩

/-- C14 (witness): the mnemonics `jmp` and `nop`, and the node `inc a`. -/
theorem opcode_table_witness :
    CodeGenerator.instructionToOpcode "jmp" = .ok .JMP ∧
    CodeGenerator.instructionToOpcode "nop" = .ok .NOP ∧
    (Instruction.JMP.code = Instruction.NOP.code → "jmp" = "nop") ∧
    CodeGenerator.generateInstruction stofNone ⟨[("a", ⟨.UI8, 1, 0⟩)], [], 1⟩ []
        ⟨⟨.INSTRUCTION, "inc", 1⟩, [⟨.IDENTIFIER, "a", 1⟩]⟩ = .ok [7, 0, 0, 0, 0] ∧
    ∃ op, CodeGenerator.instructionToOpcode
        (⟨⟨.INSTRUCTION, "inc", 1⟩, [⟨.IDENTIFIER, "a", 1⟩]⟩ : InstructionNode).instruction.value
          = .ok op ∧
      ([7, 0, 0, 0, 0] : List Nat).head? = some op.code :=
  ⟨rfl, rfl, opcode_table.2.1 "jmp" "nop" .JMP .NOP rfl rfl, by decide,
   opcode_table.2.2.2.2 stofNone ⟨[("a", ⟨.UI8, 1, 0⟩)], [], 1⟩ []
    ⟨⟨.INSTRUCTION, "inc", 1⟩, [⟨.IDENTIFIER, "a", 1⟩]⟩ [7, 0, 0, 0, 0] (by decide)⟩

/-! ## Error scenarios of the analyzer -/

theorem s5_tokens : ∃ toks ast,
    Lexer.tokenize "cv a ui8\n cv a ui8\n".length "cv a ui8\n cv a ui8\n".data = some toks ∧
    Parser.parse toks = .ok ast ∧
    (∀ stof, SemanticAnalyzer.analyze stof SymbolTable.empty ast
      = .error (.exn "Redeclaration of variable \x27a\x27")) ∧
    SemanticAnalyzer.firstPass ast SymbolTable.empty 0
      = .error (.exn "Redeclaration of variable \x27a\x27") :=
  ⟨_, _, rfl, rfl, fun _ => rfl, rfl⟩

/-- C18 (the code at the failing input): on the source of scenario S5 the lexer
and the parser succeed and the analysis fails in its first pass; the message of
the pipeline is exactly `Redeclaration of variable 'a'`, which names the
variable and carries no line number. -/
theorem s5_redeclaration_without_line (stof : String → Option Nat) (n : Nat) :
    compile ("cv a ui8\n cv a ui8\n".length + n) stof "cv a ui8\n cv a ui8\n"
      = some (.error (.exn "Redeclaration of variable \x27a\x27")) ∧
    ∃ toks ast,
      Lexer.tokenize "cv a ui8\n cv a ui8\n".length "cv a ui8\n cv a ui8\n".data = some toks ∧
      Parser.parse toks = .ok ast ∧
      SemanticAnalyzer.firstPass ast SymbolTable.empty 0
        = .error (.exn "Redeclaration of variable \x27a\x27") := by
  obtain ⟨toks, ast, h1, h2, h3, h4⟩ := s5_tokens
  refine ⟨?_, toks, ast, h1, h2, h4⟩
  rw [compile_of_tokenize h1]
  simp only [compileTokens, h2, h3]

/-- C19: on the source of scenario S6 the lexer and the parser succeed and the
semantic analysis fails; the message of the pipeline is exactly
`At instruction av (line 2): Value 300 out of range for type ui8`. -/
theorem s6_out_of_range_literal (stof : String → Option Nat) (n : Nat) :
    compile ("cv a ui8\n av a 300\n".length + n) stof "cv a ui8\n av a 300\n"
      = some (.error (.exn "At instruction av (line 2): Value 300 out of range for type ui8")) ∧
    ∃ toks ast,
      Lexer.tokenize "cv a ui8\n av a 300\n".length "cv a ui8\n av a 300\n".data = some toks ∧
      Parser.parse toks = .ok ast ∧
      SemanticAnalyzer.analyze stof SymbolTable.empty ast
        = .error (.exn "At instruction av (line 2): Value 300 out of range for type ui8") := by
  have h : ∃ toks ast,
      Lexer.tokenize "cv a ui8\n av a 300\n".length "cv a ui8\n av a 300\n".data = some toks ∧
      Parser.parse toks = .ok ast ∧
      SemanticAnalyzer.analyze stof SymbolTable.empty ast
        = .error (.exn "At instruction av (line 2): Value 300 out of range for type ui8") :=
    ⟨_, _, rfl, rfl, rfl⟩
  obtain ⟨toks, ast, h1, h2, h3⟩ := h
  refine ⟨?_, toks, ast, h1, h2, h3⟩
  rw [compile_of_tokenize h1]
  simp only [compileTokens, h2, h3]

/-! ## Declarations in the first pass -/

/-- C20 (counterexample): for the nodes `cv v nt` and `cv v str`, whose second
operand is a `TYPE` token, the first pass fails with `Invalid type specifier`
and declares nothing. -/
theorem cv_nt_and_str_fail :
    SemanticAnalyzer.firstPass
        [⟨⟨.INSTRUCTION, "cv", 1⟩, [⟨.IDENTIFIER, "v", 1⟩, ⟨.TYPE, "nt", 1⟩]⟩]
        SymbolTable.empty 0 = .error (.exn "Invalid type specifier") ∧
    SemanticAnalyzer.firstPass
        [⟨⟨.INSTRUCTION, "cv", 1⟩, [⟨.IDENTIFIER, "v", 1⟩, ⟨.TYPE, "str", 1⟩]⟩]
        SymbolTable.empty 0 = .error (.exn "Invalid type specifier") := by
  decide

theorem SemanticAnalyzer.stringToType_of_mem {s : String} {ty : Ty}
    (h : (s, ty) ∈ variableTypeNames) : SemanticAnalyzer.stringToType s = .ok ty := by
  simp only [variableTypeNames, List.mem_cons, List.mem_singleton, List.not_mem_nil, or_false,
    Prod.mk.injEq] at h
  rcases h with h | h | h | h | h | h | h <;>
    · obtain ⟨rfl, rfl⟩ := h
      rfl

/-- C20 (amended): for every `cv` node with exactly two operands whose second
operand is a `TYPE` token, the first pass, from any table and address, does the
following.  If the token names one of the seven types i8, ui8, i16, ui16, i32,
ui32, f32 and the name is not yet declared, the variable is declared with that
type, with the size of that type and at the current offset, which advances by
the size; labels are untouched.  If the token names `nt` or `str`, the first
pass fails with `Invalid type specifier`. -/
theorem cv_declares_variable (symbols : SymbolTable) (addr : Nat) (mnemonic name typeTok : Token)
    (rest : List InstructionNode)
    (hm : mnemonic.value = "cv") (ht : typeTok.type = .TYPE) :
    (∀ ty, (typeTok.value, ty) ∈ variableTypeNames → symbols.vars.lookup name.value = none →
      SemanticAnalyzer.firstPass (⟨mnemonic, [name, typeTok]⟩ :: rest) symbols addr
        = SemanticAnalyzer.firstPass rest
            ⟨(name.value, ⟨ty, SymbolTable.getTypeSize ty, symbols.currentOffset⟩)
                :: symbols.vars,
              symbols.labels, symbols.currentOffset + SymbolTable.getTypeSize ty⟩
            (addr + 1) ∧
      SymbolTable.getVariable
          ⟨(name.value, ⟨ty, SymbolTable.getTypeSize ty, symbols.currentOffset⟩)
              :: symbols.vars,
            symbols.labels, symbols.currentOffset + SymbolTable.getTypeSize ty⟩ name.value
        = .ok ⟨ty, SymbolTable.getTypeSize ty, symbols.currentOffset⟩) ∧
    (typeTok.value = "nt" ∨ typeTok.value = "str" →
      SemanticAnalyzer.firstPass (⟨mnemonic, [name, typeTok]⟩ :: rest) symbols addr
        = .error (.exn "Invalid type specifier")) := by
  constructor
  · intro ty hty hfresh
    have hs := SemanticAnalyzer.stringToType_of_mem hty
    constructor
    · simp [SemanticAnalyzer.firstPass, hm, SemanticAnalyzer.processCv, ht, hs,
        SymbolTable.addVariable, hfresh]
    · simp [SymbolTable.getVariable]
  · intro h
    rcases h with h | h <;>
      simp [SemanticAnalyzer.firstPass, hm, SemanticAnalyzer.processCv, ht, h,
        SemanticAnalyzer.stringToType]

/-- C20 (witness): the node `cv n i16` after a declared `m : ui8`, and the node
`cv v nt`. -/
theorem cv_declares_variable_witness :
    (SemanticAnalyzer.firstPass
        [⟨⟨.INSTRUCTION, "cv", 2⟩, [⟨.IDENTIFIER, "n", 2⟩, ⟨.TYPE, "i16", 2⟩]⟩]
        ⟨[("m", ⟨.UI8, 1, 0⟩)], [], 1⟩ 1
      = SemanticAnalyzer.firstPass []
          ⟨[("n", ⟨.I16, SymbolTable.getTypeSize .I16, 1⟩), ("m", ⟨.UI8, 1, 0⟩)], [],
            1 + SymbolTable.getTypeSize .I16⟩ (1 + 1) ∧
      SymbolTable.getVariable
          ⟨[("n", ⟨.I16, SymbolTable.getTypeSize .I16, 1⟩), ("m", ⟨.UI8, 1, 0⟩)], [],
            1 + SymbolTable.getTypeSize .I16⟩ "n"
        = .ok ⟨.I16, SymbolTable.getTypeSize .I16, 1⟩) ∧
    SemanticAnalyzer.firstPass
        [⟨⟨.INSTRUCTION, "cv", 1⟩, [⟨.IDENTIFIER, "v", 1⟩, ⟨.TYPE, "nt", 1⟩]⟩]
        SymbolTable.empty 0 = .error (.exn "Invalid type specifier") :=
  ⟨(cv_declares_variable ⟨[("m", ⟨.UI8, 1, 0⟩)], [], 1⟩ 1 ⟨.INSTRUCTION, "cv", 2⟩
      ⟨.IDENTIFIER, "n", 2⟩ ⟨.TYPE, "i16", 2⟩ [] rfl rfl).1 .I16 (by decide) (by decide),
   (cv_declares_variable SymbolTable.empty 0 ⟨.INSTRUCTION, "cv", 1⟩
      ⟨.IDENTIFIER, "v", 1⟩ ⟨.TYPE, "nt", 1⟩ [] rfl rfl).2 (Or.inl rfl)⟩

/-! ## Literal ranges: clean decimal lexemes -/

theorem Std.digit_toNat {c : Char} (h : c.isDigit = true) : 48 ≤ c.toNat ∧ c.toNat ≤ 57 := by
  simp only [Char.isDigit, Bool.and_eq_true, decide_eq_true_eq] at h
  obtain ⟨h1, h2⟩ := h
  have h1' : (48 : UInt32).toNat ≤ c.val.toNat := h1
  have h2' : c.val.toNat ≤ (57 : UInt32).toNat := h2
  exact ⟨h1', h2'⟩

theorem Std.digit_not_space {c : Char} (h : c.isDigit = true) : Std.isSpace c = false := by
  have := Std.digit_toNat h
  have hne : c ≠ ' ' := by
    intro e
    rw [e] at h
    exact absurd h (by decide)
  simp only [Std.isSpace, hne, false_or, decide_eq_false_iff_not, not_and]
  omega

theorem Std.digit_ne {c d : Char} (h : c.isDigit = true) (hd : d.isDigit = false) : c ≠ d := by
  intro e
  rw [e, hd] at h
  cases h

theorem Std.scanSign_digit {c : Char} (cs : List Char) (h : c.isDigit = true) :
    Std.scanSign (c :: cs) = (false, c :: cs) := by
  have h1 : c ≠ '-' := Std.digit_ne h (by decide)
  have h2 : c ≠ '+' := Std.digit_ne h (by decide)
  unfold Std.scanSign
  split
  · rename_i u hu
    injection hu with hu _
    exact absurd hu h1
  · rename_i u hu
    injection hu with hu _
    exact absurd hu h2
  · rfl

/-- On a non-empty run of digits `scanInteger` converts the whole run. -/
theorem Std.scanInteger_digits {ds : List Char} (hne : ds ≠ [])
    (hd : ∀ c ∈ ds, c.isDigit = true) : Std.scanInteger ds = some (false, Std.digitsValue ds) := by
  cases ds with
  | nil => exact absurd rfl hne
  | cons c cs =>
    have hc := hd c (List.mem_cons_self _ _)
    have hdrop : (c :: cs).dropWhile Std.isSpace = c :: cs := by
      rw [List.dropWhile_cons_of_neg (by rw [Std.digit_not_space hc]; simp)]
    have htake : (c :: cs).takeWhile Char.isDigit = c :: cs :=
      List.takeWhile_eq_self_iff.mpr hd
    simp [Std.scanInteger, hdrop, Std.scanSign_digit cs hc, htake]

/-- On `-` followed by a non-empty run of digits `scanInteger` converts the whole
lexeme, with the sign. -/
theorem Std.scanInteger_minus_digits {ds : List Char} (hne : ds ≠ [])
    (hd : ∀ c ∈ ds, c.isDigit = true) :
    Std.scanInteger ('-' :: ds) = some (true, Std.digitsValue ds) := by
  have hdrop : ('-' :: ds).dropWhile Std.isSpace = '-' :: ds := by
    rw [List.dropWhile_cons_of_neg (by decide)]
  have htake : ds.takeWhile Char.isDigit = ds := List.takeWhile_eq_self_iff.mpr hd
  simp [Std.scanInteger, hdrop, Std.scanSign, htake, hne]

/-- The two forms of a clean decimal integer, with what `scanInteger` converts
and the value of the lexeme in each. -/
theorem isCleanDecimal_cases {s : List Char} (h : isCleanDecimal s = true) :
    (∃ ds, s = '-' :: ds ∧ ds ≠ [] ∧ (∀ c ∈ ds, c.isDigit = true) ∧
      Std.scanInteger s = some (true, Std.digitsValue ds) ∧
      cleanValue s = -(Std.digitsValue ds : Int)) ∨
    (s ≠ [] ∧ (∀ c ∈ s, c.isDigit = true) ∧
      Std.scanInteger s = some (false, Std.digitsValue s) ∧
      cleanValue s = (Std.digitsValue s : Int)) := by
  unfold isCleanDecimal at h
  split at h
  · rename_i ds
    simp only [Bool.and_eq_true, Bool.not_eq_true', List.isEmpty_eq_false, List.all_eq_true]
      at h
    have hne : ds ≠ [] := by
      intro e
      rw [e] at h
      simp at h
    exact Or.inl ⟨ds, rfl, hne, h.2, Std.scanInteger_minus_digits hne h.2, rfl⟩
  · rename_i hnm
    simp only [Bool.and_eq_true, Bool.not_eq_true', List.isEmpty_eq_false, List.all_eq_true]
      at h
    have hne : s ≠ [] := by
      intro e
      rw [e] at h
      simp at h
    refine Or.inr ⟨hne, h.2, Std.scanInteger_digits hne h.2, ?_⟩
    unfold cleanValue
    split
    · rename_i ds
      exact absurd rfl (hnm ds)
    · rfl

theorem Std.stoi_eval {s : String} {r : Bool × Nat} (h : Std.scanInteger s.data = some r) :
    Std.stoi s = if Std.signedValue r < -(2 : Int) ^ 31 ∨ Std.signedValue r > (2 : Int) ^ 31 - 1
      then .error (.exn "stoi") else .ok (Std.signedValue r) := by
  unfold Std.stoi
  simp only [h]
  by_cases h1 : Std.signedValue r < -(2 : Int) ^ 63 ∨ Std.signedValue r > (2 : Int) ^ 63 - 1
  · have h2 : Std.signedValue r < -(2 : Int) ^ 31 ∨ Std.signedValue r > (2 : Int) ^ 31 - 1 := by
      omega
    rw [if_pos h1, if_pos h2]
  · rw [if_neg h1]

theorem Std.stol_eval {s : String} {r : Bool × Nat} (h : Std.scanInteger s.data = some r) :
    Std.stol s = if Std.signedValue r < -(2 : Int) ^ 63 ∨ Std.signedValue r > (2 : Int) ^ 63 - 1
      then .error (.exn "stol") else .ok (Std.signedValue r) := by
  unfold Std.stol
  simp only [h]

theorem Std.stoul_eval {s : String} {r : Bool × Nat} (h : Std.scanInteger s.data = some r) :
    Std.stoul s = if r.2 > 2 ^ 64 - 1 then .error (.exn "stoul")
      else .ok (if r.1 then (2 ^ 64 - r.2) % 2 ^ 64 else r.2) := by
  unfold Std.stoul
  simp only [h]

/-- What the `switch` of `validateLiteral` computes on a lexeme on which
`scanInteger` converts, for each integer type: acceptance is a comparison of
the converted value with the bounds of the type. -/
theorem SemanticAnalyzer.validateLiteralSwitch_scan (stof : String → Option Nat) {s : String}
    {neg : Bool} {m : Nat} {type : Ty} {lo hi : Int}
    (h : Std.scanInteger s.data = some (neg, m)) (hT : intRange type = some (lo, hi)) :
    (type.isUnsigned = false →
      (SemanticAnalyzer.validateLiteralSwitch stof s type = .ok () ↔
        lo ≤ Std.signedValue (neg, m) ∧ Std.signedValue (neg, m) ≤ hi)) ∧
    (type.isUnsigned = true →
      (SemanticAnalyzer.validateLiteralSwitch stof s type = .ok () ↔
        m ≤ 2 ^ 64 - 1 ∧ ((if neg then (2 ^ 64 - m) % 2 ^ 64 else m : Nat) : Int) ≤ hi)) ∧
    (SemanticAnalyzer.validateLiteralSwitch stof s type = .ok () ∨
      ∃ msg, SemanticAnalyzer.validateLiteralSwitch stof s type = .error (.exn msg)) := by
  have hsigned : ∀ (a b : Int), -(2 : Int) ^ 31 ≤ a → b ≤ (2 : Int) ^ 31 - 1 →
      ((match Std.stoi s with
        | .error e => (.error e : Except Err Unit)
        | .ok value => if value < a ∨ value > b then .error (.exn "") else .ok ()) = .ok () ↔
        a ≤ Std.signedValue (neg, m) ∧ Std.signedValue (neg, m) ≤ b) ∧
      ((match Std.stoi s with
        | .error e => (.error e : Except Err Unit)
        | .ok value => if value < a ∨ value > b then .error (.exn "") else .ok ()) = .ok () ∨
        ∃ msg, (match Std.stoi s with
        | .error e => (.error e : Except Err Unit)
        | .ok value => if value < a ∨ value > b then .error (.exn "") else .ok ())
          = .error (.exn msg)) := by
    intro a b ha hb
    rw [Std.stoi_eval h]
    by_cases h1 : Std.signedValue (neg, m) < -(2 : Int) ^ 31 ∨
        Std.signedValue (neg, m) > (2 : Int) ^ 31 - 1
    · rw [if_pos h1]
      refine ⟨⟨(fun hc => by cases hc), (fun hc => by omega)⟩, Or.inr ⟨_, rfl⟩⟩
    · rw [if_neg h1]
      simp only
      by_cases h2 : Std.signedValue (neg, m) < a ∨ Std.signedValue (neg, m) > b
      · rw [if_pos h2]
        refine ⟨⟨(fun hc => by cases hc), (fun hc => by omega)⟩, Or.inr ⟨_, rfl⟩⟩
      · rw [if_neg h2]
        refine ⟨⟨fun _ => by omega, fun _ => rfl⟩, Or.inl rfl⟩
  have hunsigned : ∀ (b : Nat),
      ((match Std.stoul s with
        | .error e => (.error e : Except Err Unit)
        | .ok value => if value > b then .error (.exn "") else .ok ()) = .ok () ↔
        m ≤ 2 ^ 64 - 1 ∧ ((if neg then (2 ^ 64 - m) % 2 ^ 64 else m : Nat) : Int) ≤ (b : Int)) ∧
      ((match Std.stoul s with
        | .error e => (.error e : Except Err Unit)
        | .ok value => if value > b then .error (.exn "") else .ok ()) = .ok () ∨
        ∃ msg, (match Std.stoul s with
        | .error e => (.error e : Except Err Unit)
        | .ok value => if value > b then .error (.exn "") else .ok ()) = .error (.exn msg)) := by
    intro b
    rw [Std.stoul_eval h]
    simp only
    by_cases h1 : m > 2 ^ 64 - 1
    · rw [if_pos h1]
      refine ⟨⟨(fun hc => by cases hc), (fun hc => by omega)⟩, Or.inr ⟨_, rfl⟩⟩
    · rw [if_neg h1]
      simp only
      by_cases h2 : (if neg = true then (2 ^ 64 - m) % 2 ^ 64 else m) > b
      · rw [if_pos h2]
        refine ⟨⟨(fun hc => by cases hc), (fun hc => ?_)⟩, Or.inr ⟨_, rfl⟩⟩
        have := hc.2
        omega
      · rw [if_neg h2]
        refine ⟨⟨fun _ => ⟨by omega, by omega⟩, fun _ => rfl⟩, Or.inl rfl⟩
  cases type
  case NT => simp [intRange] at hT
  case STR => simp [intRange] at hT
  case F32 => simp [intRange] at hT
  case I8 =>
    simp only [intRange, Option.some.injEq, Prod.mk.injEq] at hT
    obtain ⟨rfl, rfl⟩ := hT
    have := hsigned (-128) 127 (by norm_num) (by norm_num)
    exact ⟨fun _ => this.1, fun hu => by simp [Ty.isUnsigned] at hu, this.2⟩
  case I16 =>
    simp only [intRange, Option.some.injEq, Prod.mk.injEq] at hT
    obtain ⟨rfl, rfl⟩ := hT
    have := hsigned (-32768) 32767 (by norm_num) (by norm_num)
    exact ⟨fun _ => this.1, fun hu => by simp [Ty.isUnsigned] at hu, this.2⟩
  case I32 =>
    simp only [intRange, Option.some.injEq, Prod.mk.injEq] at hT
    obtain ⟨rfl, rfl⟩ := hT
    have key : SemanticAnalyzer.validateLiteralSwitch stof s .I32
        = if Std.signedValue (neg, m) < -2147483648 ∨ Std.signedValue (neg, m) > 2147483647
          then .error (.exn (if Std.signedValue (neg, m) < -(2 : Int) ^ 63 ∨
            Std.signedValue (neg, m) > (2 : Int) ^ 63 - 1 then "stol" else ""))
          else .ok () := by
      show SemanticAnalyzer.validateI32 s = _
      unfold SemanticAnalyzer.validateI32
      rw [Std.stol_eval h]
      by_cases h1 : Std.signedValue (neg, m) < -(2 : Int) ^ 63 ∨
          Std.signedValue (neg, m) > (2 : Int) ^ 63 - 1
      · have h2 : Std.signedValue (neg, m) < -2147483648 ∨
            Std.signedValue (neg, m) > 2147483647 := by omega
        rw [if_pos h1, if_pos h2, if_pos h1]
      · rw [if_neg h1]
        simp only
        by_cases h2 : Std.signedValue (neg, m) < -2147483648 ∨
            Std.signedValue (neg, m) > 2147483647
        · rw [if_pos h2, if_pos h2, if_neg h1]
        · rw [if_neg h2, if_neg h2]
    rw [key]
    by_cases h2 : Std.signedValue (neg, m) < -2147483648 ∨
        Std.signedValue (neg, m) > 2147483647
    · rw [if_pos h2]
      exact ⟨fun _ => ⟨(fun hc => by cases hc), (fun hc => by omega)⟩,
        fun hu => by simp [Ty.isUnsigned] at hu, Or.inr ⟨_, rfl⟩⟩
    · rw [if_neg h2]
      exact ⟨fun _ => ⟨fun _ => by omega, fun _ => rfl⟩,
        fun hu => by simp [Ty.isUnsigned] at hu, Or.inl rfl⟩
  case UI8 =>
    simp only [intRange, Option.some.injEq, Prod.mk.injEq] at hT
    obtain ⟨rfl, rfl⟩ := hT
    have := hunsigned 255
    exact ⟨fun hu => by simp [Ty.isUnsigned] at hu, fun _ => this.1, this.2⟩
  case UI16 =>
    simp only [intRange, Option.some.injEq, Prod.mk.injEq] at hT
    obtain ⟨rfl, rfl⟩ := hT
    have := hunsigned 65535
    exact ⟨fun hu => by simp [Ty.isUnsigned] at hu, fun _ => this.1, this.2⟩
  case UI32 =>
    simp only [intRange, Option.some.injEq, Prod.mk.injEq] at hT
    obtain ⟨rfl, rfl⟩ := hT
    have := hunsigned 4294967295
    exact ⟨fun hu => by simp [Ty.isUnsigned] at hu, fun _ => this.1, this.2⟩

theorem SemanticAnalyzer.typeToString_integer {type : Ty} {lo hi : Int}
    (hT : intRange type = some (lo, hi)) :
    SemanticAnalyzer.typeToString type = .ok (integerTypeName type) := by
  cases type <;> first | rfl | (simp [intRange] at hT)

theorem SemanticAnalyzer.validateLiteral_of_switch_ok {stof : String → Option Nat}
    {s : String} {type : Ty} (h : SemanticAnalyzer.validateLiteralSwitch stof s type = .ok ()) :
    SemanticAnalyzer.validateLiteral stof s type = .ok () := by
  simp [SemanticAnalyzer.validateLiteral, h]

theorem SemanticAnalyzer.validateLiteral_of_switch_exn {stof : String → Option Nat}
    {s : String} {type : Ty} {lo hi : Int} {msg : String}
    (hT : intRange type = some (lo, hi))
    (h : SemanticAnalyzer.validateLiteralSwitch stof s type = .error (.exn msg)) :
    SemanticAnalyzer.validateLiteral stof s type
      = .error (.exn ("Value " ++ s ++ " out of range for type " ++ integerTypeName type)) := by
  simp [SemanticAnalyzer.validateLiteral, h, SemanticAnalyzer.typeToString_integer hT]

/-- Completeness of the literal ranges on clean decimal lexemes, for every
integer type with range `lo .. hi`: a lexeme whose value is in range is
accepted, and a lexeme whose value is out of range is rejected with the message
`Value <lexeme> out of range for type <t>`, unless the type is unsigned and the
value lies in `-(2^64 - 1) .. hi - 2^64`, where `std::stoul` wraps it into the
range. -/
theorem SemanticAnalyzer.literal_range_complete (stof : String → Option Nat) (s : String)
    (type : Ty) (lo hi : Int) (hT : intRange type = some (lo, hi))
    (hc : isCleanDecimal s.data = true) :
    (lo ≤ cleanValue s.data ∧ cleanValue s.data ≤ hi →
      SemanticAnalyzer.validateLiteral stof s type = .ok ()) ∧
    ((cleanValue s.data < lo ∨ hi < cleanValue s.data) →
      ¬ (type.isUnsigned = true ∧ -((2 : Int) ^ 64 - 1) ≤ cleanValue s.data ∧
          cleanValue s.data ≤ hi - (2 : Int) ^ 64) →
      SemanticAnalyzer.validateLiteral stof s type
        = .error (.exn ("Value " ++ s ++ " out of range for type " ++ integerTypeName type))) := by
  have hlo : lo ≤ 0 ∧ 0 ≤ hi ∧ hi ≤ 4294967295 ∧ (type.isUnsigned = true → lo = 0) := by
    cases type <;> simp [intRange] at hT <;> obtain ⟨rfl, rfl⟩ := hT <;>
      simp [Ty.isUnsigned]
  have main : ∀ (neg : Bool) (m : Nat), Std.scanInteger s.data = some (neg, m) →
      cleanValue s.data = Std.signedValue (neg, m) → (neg = true ∨ cleanValue s.data = (m : Int)) →
      (lo ≤ cleanValue s.data ∧ cleanValue s.data ≤ hi →
        SemanticAnalyzer.validateLiteral stof s type = .ok ()) ∧
      ((cleanValue s.data < lo ∨ hi < cleanValue s.data) →
        ¬ (type.isUnsigned = true ∧ -((2 : Int) ^ 64 - 1) ≤ cleanValue s.data ∧
            cleanValue s.data ≤ hi - (2 : Int) ^ 64) →
        SemanticAnalyzer.validateLiteral stof s type
          = .error (.exn ("Value " ++ s ++ " out of range for type " ++
              integerTypeName type))) := by
    intro neg m hscan hval hsign
    obtain ⟨hs, hu, hres⟩ := SemanticAnalyzer.validateLiteralSwitch_scan stof hscan hT
    have hv : cleanValue s.data = if neg then -(m : Int) else (m : Int) := by
      rw [hval]; rfl
    have hacc : SemanticAnalyzer.validateLiteralSwitch stof s type = .ok () ↔
        (lo ≤ cleanValue s.data ∧ cleanValue s.data ≤ hi) ∨
        (type.isUnsigned = true ∧ -((2 : Int) ^ 64 - 1) ≤ cleanValue s.data ∧
          cleanValue s.data ≤ hi - (2 : Int) ^ 64) := by
      cases hun : type.isUnsigned with
      | false =>
        rw [hs hun, ← hval]
        simp
      | true =>
        rw [hu hun]
        have hl0 := hlo.2.2.2 hun
        cases neg with
        | true =>
          simp only [if_true] at hv ⊢
          constructor
          · rintro ⟨h1, h2⟩
            by_cases hm : m = 0
            · left; omega
            · right; exact ⟨trivial, by omega, by omega⟩
          · rintro (⟨h1, h2⟩ | ⟨_, h1, h2⟩)
            · have : m = 0 := by omega
              subst this
              exact ⟨by norm_num, by simpa using hlo.2.1⟩
            · exact ⟨by omega, by omega⟩
        | false =>
          simp only [Bool.false_eq_true, if_false] at hv ⊢
          constructor
          · rintro ⟨h1, h2⟩
            left; omega
          · rintro (⟨h1, h2⟩ | ⟨_, h1, h2⟩)
            · exact ⟨by omega, by omega⟩
            · omega
    constructor
    · intro hin
      exact SemanticAnalyzer.validateLiteral_of_switch_ok (hacc.mpr (Or.inl hin))
    · intro hout hnw
      rcases hres with hok | ⟨msg, hmsg⟩
      · rcases hacc.mp hok with h1 | h1
        · omega
        · exact absurd h1 hnw
      · exact SemanticAnalyzer.validateLiteral_of_switch_exn hT hmsg
  rcases isCleanDecimal_cases hc with ⟨ds, _, _, _, hscan, hval⟩ | ⟨_, _, hscan, hval⟩
  · exact main true _ hscan (by rw [hval]; rfl) (Or.inl rfl)
  · exact main false _ hscan (by rw [hval]; rfl) (Or.inr hval)

/-- C11 (the code at the failing input): the lexeme `-18446744073709551615` is a
clean decimal integer whose value is negative, hence outside the range of every
unsigned type, and `validateLiteral` accepts it for `UI8`, `UI16` and `UI32`,
whatever `stof` is. -/
theorem negative_literal_accepted_for_unsigned (stof : String → Option Nat) :
    SemanticAnalyzer.validateLiteral stof "-18446744073709551615" .UI8 = .ok () ∧
    SemanticAnalyzer.validateLiteral stof "-18446744073709551615" .UI16 = .ok () ∧
    SemanticAnalyzer.validateLiteral stof "-18446744073709551615" .UI32 = .ok () ∧
    isCleanDecimal "-18446744073709551615".data = true ∧
    cleanValue "-18446744073709551615".data = -18446744073709551615 ∧
    intRange .UI8 = some (0, 255) ∧ intRange .UI16 = some (0, 65535) ∧
    intRange .UI32 = some (0, 4294967295) :=
  ⟨rfl, rfl, rfl, by decide, by decide, rfl, rfl, rfl⟩

/-! ## Literal values in the emitted bytes -/

theorem littleEndianValue_emitUI32 (v : Nat) :
    littleEndianValue (CodeGenerator.emitUI32 v) = v % 2 ^ 32 := by
  simp only [CodeGenerator.emitUI32, littleEndianValue]
  omega

theorem asInt32_emitI32 (v : Int) (h1 : -(2 : Int) ^ 31 ≤ v) (h2 : v ≤ (2 : Int) ^ 31 - 1) :
    asInt32 (littleEndianValue (CodeGenerator.emitI32 v)) = v := by
  unfold CodeGenerator.emitI32
  rw [littleEndianValue_emitUI32]
  have hnn : 0 ≤ v % 2 ^ 32 := Int.emod_nonneg _ (by norm_num)
  have hlt : v % 2 ^ 32 < 2 ^ 32 := Int.emod_lt_of_pos _ (by norm_num)
  obtain ⟨k, hk⟩ := Int.eq_ofNat_of_zero_le hnn
  rw [hk, Int.toNat_ofNat]
  have hk2 : k < 2 ^ 32 := by
    have : (k : Int) < 2 ^ 32 := by rw [← hk]; exact hlt
    exact_mod_cast this
  rw [Nat.mod_eq_of_lt hk2]
  unfold asInt32
  split
  · rename_i hs
    omega
  · rename_i hs
    omega

theorem CodeGenerator.inferLiteralType_minus_digits {ds : List Char}
    (hd : ∀ c ∈ ds, c.isDigit = true) :
    CodeGenerator.inferLiteralType (String.mk ('-' :: ds)) = .I32 := by
  have hdot : '.' ∉ ('-' :: ds) := by
    intro hm
    rcases List.mem_cons.mp hm with e | e
    · exact absurd e (by decide)
    · exact absurd (hd _ e) (by decide)
  simp [CodeGenerator.inferLiteralType, hdot]

theorem CodeGenerator.inferLiteralType_digits {ds : List Char} (hne : ds ≠ [])
    (hd : ∀ c ∈ ds, c.isDigit = true) :
    CodeGenerator.inferLiteralType (String.mk ds) = .UI32 := by
  have hdot : '.' ∉ ds := fun hm => absurd (hd _ hm) (by decide)
  cases ds with
  | nil => exact absurd rfl hne
  | cons c cs =>
    have hc : c ≠ '-' := Std.digit_ne (hd c (List.mem_cons_self _ _)) (by decide)
    simp [CodeGenerator.inferLiteralType, hdot, hc]

/-- Fidelity of an emitted literal: for a clean decimal lexeme that the analyzer
accepts against an integer type, the bytes of `emitLiteral` are the tag `I32`
(after a `-`) or `UI32` and four bytes whose little-endian reading, in two's
complement for `I32`, is the value of the lexeme. -/
theorem CodeGenerator.emitLiteral_fidelity {stof : String → Option Nat} {s : String}
    {type : Ty} {lo hi : Int} {bytes : List Nat}
    (hT : intRange type = some (lo, hi)) (hc : isCleanDecimal s.data = true)
    (hv : SemanticAnalyzer.validateLiteralSwitch stof s type = .ok ())
    (he : CodeGenerator.emitLiteral stof s (CodeGenerator.inferLiteralType s) = .ok bytes) :
    ∃ value4 : List Nat, value4.length = 4 ∧
      ((s.data.head? = some '-' ∧ bytes = Ty.I32.code :: value4 ∧
          asInt32 (littleEndianValue value4) = cleanValue s.data) ∨
        (s.data.head? ≠ some '-' ∧ bytes = Ty.UI32.code :: value4 ∧
          (littleEndianValue value4 : Int) = cleanValue s.data)) := by
  have hb : -(2 : Int) ^ 31 ≤ lo ∧ 0 ≤ hi ∧ hi ≤ 4294967295 ∧
      (type.isUnsigned = false → hi ≤ 2147483647) ∧ (type.isUnsigned = true → lo = 0) := by
    cases type <;> simp [intRange] at hT <;> obtain ⟨rfl, rfl⟩ := hT <;>
      simp [Ty.isUnsigned]
  have hs : s = String.mk s.data := rfl
  rcases isCleanDecimal_cases hc with ⟨ds, hsd, hne, hd, hscan, hval⟩ | ⟨hne, hd, hscan, hval⟩
  · -- a lexeme with a leading minus: tag I32, value from `std::stol`
    obtain ⟨h1, h2, _⟩ := SemanticAnalyzer.validateLiteralSwitch_scan stof hscan hT
    have hty : CodeGenerator.inferLiteralType s = .I32 := by
      rw [hs, hsd]
      exact CodeGenerator.inferLiteralType_minus_digits hd
    rw [hty] at he
    simp only [CodeGenerator.emitLiteral, Std.stol_eval hscan] at he
    split at he
    · cases he
    · rename_i v hvol
      split at hvol
      · cases hvol
      · rename_i hrange
        injection hvol with hvol
        injection he with he
        have hsv : Std.signedValue (true, Std.digitsValue ds) = -(Std.digitsValue ds : Int) := rfl
        rw [hsv] at hvol hrange
        have hin : -(2 : Int) ^ 31 ≤ v ∧ v ≤ (2 : Int) ^ 31 - 1 := by
          cases hun : type.isUnsigned with
          | false =>
            have := (h1 hun).mp hv
            rw [hsv] at this
            have := hb.2.2.2.1 hun
            omega
          | true =>
            have := (h2 hun).mp hv
            simp only [if_true] at this
            have hm0 : Std.digitsValue ds = 0 := by omega
            rw [hm0] at hvol
            omega
        refine ⟨CodeGenerator.emitI32 v, rfl, Or.inl ⟨by rw [hsd]; rfl, he.symm, ?_⟩⟩
        rw [asInt32_emitI32 v hin.1 hin.2, hval, ← hvol]
  · -- a lexeme of digits: tag UI32, value from `std::stoul`
    obtain ⟨h1, h2, _⟩ := SemanticAnalyzer.validateLiteralSwitch_scan stof hscan hT
    have hty : CodeGenerator.inferLiteralType s = .UI32 := by
      rw [hs]
      exact CodeGenerator.inferLiteralType_digits hne hd
    rw [hty] at he
    simp only [CodeGenerator.emitLiteral, Std.stoul_eval hscan] at he
    split at he
    · cases he
    · rename_i v hvol
      split at hvol
      · cases hvol
      · rename_i hrange
        injection hvol with hvol
        injection he with he
        simp only [Bool.false_eq_true, if_false] at hvol
        have hin : v ≤ 4294967295 := by
          cases hun : type.isUnsigned with
          | false =>
            have := (h1 hun).mp hv
            have hsv : Std.signedValue (false, Std.digitsValue s.data)
                = (Std.digitsValue s.data : Int) := rfl
            rw [hsv] at this
            have := hb.2.2.2.1 hun
            omega
          | true =>
            have := (h2 hun).mp hv
            simp only [Bool.false_eq_true, if_false] at this
            omega
        have hhead : s.data.head? ≠ some '-' := by
          cases hsd : s.data with
          | nil => simp
          | cons c cs =>
            have hc : c ≠ '-' :=
              Std.digit_ne (hd c (by rw [hsd]; exact List.mem_cons_self _ _)) (by decide)
            simpa using hc
        refine ⟨CodeGenerator.emitUI32 v, rfl, Or.inr ⟨hhead, he.symm, ?_⟩⟩
        rw [littleEndianValue_emitUI32, hval, hvol, Nat.mod_eq_of_lt (by omega)]

/-- Emission returns on a clean decimal lexeme that the analyzer accepted against
an integer type, unless the type is unsigned and the value of the lexeme is
negative. -/
theorem CodeGenerator.emitLiteral_returns {stof : String → Option Nat} {s : String}
    {type : Ty} {lo hi : Int}
    (hT : intRange type = some (lo, hi)) (hc : isCleanDecimal s.data = true)
    (hv : SemanticAnalyzer.validateLiteralSwitch stof s type = .ok ())
    (hs : type.isUnsigned = false ∨ 0 ≤ cleanValue s.data) :
    ∃ bytes, CodeGenerator.emitLiteral stof s (CodeGenerator.inferLiteralType s) = .ok bytes := by
  have hb : -(2 : Int) ^ 31 ≤ lo ∧ 0 ≤ hi ∧ hi ≤ 4294967295 ∧
      (type.isUnsigned = false → hi ≤ 2147483647) ∧ (type.isUnsigned = true → lo = 0) := by
    cases type <;> simp [intRange] at hT <;> obtain ⟨rfl, rfl⟩ := hT <;>
      simp [Ty.isUnsigned]
  have hsd0 : s = String.mk s.data := rfl
  rcases isCleanDecimal_cases hc with ⟨ds, hsd, hne, hd, hscan, hval⟩ | ⟨hne, hd, hscan, hval⟩
  · obtain ⟨h1, h2, _⟩ := SemanticAnalyzer.validateLiteralSwitch_scan stof hscan hT
    have hty : CodeGenerator.inferLiteralType s = .I32 := by
      rw [hsd0, hsd]
      exact CodeGenerator.inferLiteralType_minus_digits hd
    have hsv : Std.signedValue (true, Std.digitsValue ds) = -(Std.digitsValue ds : Int) := rfl
    have hin : ¬ (Std.signedValue (true, Std.digitsValue ds) < -(2 : Int) ^ 63 ∨
        Std.signedValue (true, Std.digitsValue ds) > (2 : Int) ^ 63 - 1) := by
      rw [hsv]
      cases hun : type.isUnsigned with
      | false =>
        have := (h1 hun).mp hv
        rw [hsv] at this
        have := hb.2.2.2.1 hun
        omega
      | true =>
        rcases hs with e | e
        · rw [hun] at e; cases e
        · rw [hval] at e
          omega
    rw [hty]
    simp only [CodeGenerator.emitLiteral, Std.stol_eval hscan, if_neg hin]
    exact ⟨_, rfl⟩
  · obtain ⟨h1, h2, _⟩ := SemanticAnalyzer.validateLiteralSwitch_scan stof hscan hT
    have hty : CodeGenerator.inferLiteralType s = .UI32 := by
      rw [hsd0]
      exact CodeGenerator.inferLiteralType_digits hne hd
    have hin : ¬ ((false, Std.digitsValue s.data).2 > 2 ^ 64 - 1) := by
      cases hun : type.isUnsigned with
      | false =>
        have := (h1 hun).mp hv
        have hsv : Std.signedValue (false, Std.digitsValue s.data)
            = (Std.digitsValue s.data : Int) := rfl
        rw [hsv] at this
        have := hb.2.2.2.1 hun
        simp only
        omega
      | true =>
        have := (h2 hun).mp hv
        simp only
        omega
    rw [hty]
    simp only [CodeGenerator.emitLiteral, Std.stoul_eval hscan, if_neg hin]
    exact ⟨_, rfl⟩

theorem SemanticAnalyzer.checkMvmLoop_literal {symbols : SymbolTable} :
    ∀ {ops : List Token}, SemanticAnalyzer.checkMvmLoop symbols ops = .ok () →
    ∀ t ∈ ops, t.type = .LITERAL → SemanticAnalyzer.validateI32 t.value = .ok () := by
  intro ops
  induction ops with
  | nil => intro _ t ht; cases ht
  | cons a rest ih =>
    intro h t ht hl
    unfold SemanticAnalyzer.checkMvmLoop at h
    by_cases ha : a.type = .LITERAL
    · rw [if_pos ha] at h
      cases hv : SemanticAnalyzer.validateI32 a.value with
      | error e => simp [hv] at h
      | ok u =>
        simp only [hv] at h
        rcases List.mem_cons.mp ht with e | e
        · rw [e]; exact hv
        · exact ih h t e hl
    · rw [if_neg ha] at h
      rcases List.mem_cons.mp ht with e | e
      · rw [e] at hl; exact absurd hl ha
      · split at h
        · split at h
          · cases h
          · split at h
            · cases h
            · exact ih h t e hl
        · cases h

/-- A literal operand of a node that passes its second-pass check has passed the
range check of the type given by `literalCheckType`. -/
theorem SemanticAnalyzer.literal_checked {stof : String → Option Nat} {symbols : SymbolTable}
    {node : InstructionNode} {i : Nat} {t : Token} {type : Ty}
    (hck : SemanticAnalyzer.checkNode stof symbols node = .ok ())
    (hty : literalCheckType symbols node i = some type)
    (hop : node.operands.get? i = some t) (hl : t.type = .LITERAL) :
    SemanticAnalyzer.validateLiteralSwitch stof t.value type = .ok () := by
  unfold literalCheckType at hty
  simp only at hty
  by_cases c0 : node.instruction.value = "av" ∨ node.instruction.value = "aav" ∨
      node.instruction.value = "sav" ∨ node.instruction.value = "mav" ∨
      node.instruction.value = "dav" ∨ node.instruction.value = "moav"
  · rw [if_pos c0] at hty
    by_cases hi : i = 1
    · subst hi
      rw [if_pos rfl] at hty
      have hv : ∃ op, SemanticAnalyzer.validateArithmeticOp stof symbols node op = .ok () := by
        rcases c0 with h | h | h | h | h | h
        · exact ⟨"av", by simpa [SemanticAnalyzer.checkNode, h] using hck⟩
        · exact ⟨"AAV", by simpa [SemanticAnalyzer.checkNode, h] using hck⟩
        · exact ⟨"SAV", by simpa [SemanticAnalyzer.checkNode, h] using hck⟩
        · exact ⟨"MAV", by simpa [SemanticAnalyzer.checkNode, h] using hck⟩
        · exact ⟨"DAV", by simpa [SemanticAnalyzer.checkNode, h] using hck⟩
        · exact ⟨"MOAV", by simpa [SemanticAnalyzer.checkNode, h] using hck⟩
      obtain ⟨op, hv⟩ := hv
      obtain ⟨a, b, hab, _⟩ := SemanticAnalyzer.validateArithmeticOp_shape hv
      rw [hab] at hop hty
      simp only [List.get?_cons_succ, List.get?_cons_zero, Option.some.injEq] at hop
      subst hop
      simp only [SemanticAnalyzer.validateArithmeticOp, hab] at hv
      cases hg : SemanticAnalyzer.getVariable symbols a with
      | error e => simp [hg] at hv
      | ok varInfo =>
        simp only [hg, hl, if_true] at hv
        have hlook : symbols.vars.lookup a.value = some varInfo := by
          unfold SemanticAnalyzer.getVariable SymbolTable.getVariable at hg
          split at hg
          · cases hg
          · split at hg
            · cases hg
            · rename_i v hv2
              injection hg with hg
              rw [hv2, hg]
        simp only [List.head?_cons, hlook, Option.map_some', Option.some.injEq] at hty
        subst hty
        exact SemanticAnalyzer.validateLiteral_ok hv
    · rw [if_neg hi] at hty
      cases hty
  rw [if_neg c0] at hty
  simp only [not_or] at c0
  obtain ⟨n1, n2, n3, n4, n5, n6⟩ := c0
  by_cases c1 : node.instruction.value = "pk" ∨ node.instruction.value = "rk"
  · rw [if_pos c1] at hty
    by_cases hi : i = 0
    · subst hi
      simp only [if_true, Option.some.injEq] at hty
      subst hty
      have hv : SemanticAnalyzer.validateKeyOp symbols node = .ok () := by
        rcases c1 with h | h <;> simpa [SemanticAnalyzer.checkNode, h] using hck
      obtain ⟨a, hab, _⟩ := SemanticAnalyzer.validateKeyOp_shape hv
      rw [hab] at hop
      simp only [List.get?_cons_zero, Option.some.injEq] at hop
      subst hop
      simpa [SemanticAnalyzer.validateKeyOp, hab, hl] using hv
    · rw [if_neg hi] at hty
      cases hty
  rw [if_neg c1] at hty
  simp only [not_or] at c1
  by_cases c2 : node.instruction.value = "dl"
  · rw [if_pos c2] at hty
    by_cases hi : i = 0
    · subst hi
      simp only [if_true, Option.some.injEq] at hty
      subst hty
      have hv : SemanticAnalyzer.checkDl symbols node = .ok () := by
        simpa [SemanticAnalyzer.checkNode, c2] using hck
      obtain ⟨a, hab, _⟩ := SemanticAnalyzer.checkDl_shape hv
      rw [hab] at hop
      simp only [List.get?_cons_zero, Option.some.injEq] at hop
      subst hop
      simpa [SemanticAnalyzer.checkDl, hab, hl] using hv
    · rw [if_neg hi] at hty
      cases hty
  rw [if_neg c2] at hty
  by_cases c3 : node.instruction.value = "mvm"
  · rw [if_pos c3] at hty
    by_cases hi : i = 0 ∨ i = 1
    · rw [if_pos hi] at hty
      injection hty with hty
      subst hty
      have hv : SemanticAnalyzer.checkMvm symbols node = .ok () := by
        simpa [SemanticAnalyzer.checkNode, c3] using hck
      unfold SemanticAnalyzer.checkMvm at hv
      cases hcnt : SemanticAnalyzer.validateOperandCount node 2 with
      | error e => simp [hcnt] at hv
      | ok u =>
        simp only [hcnt] at hv
        exact SemanticAnalyzer.checkMvmLoop_literal hv t (List.get?_mem hop) hl
    · rw [if_neg hi] at hty
      cases hty
  · rw [if_neg c3] at hty
    cases hty

/-- C12 (the code at the failing input): with a `stof` that accepts `5000000000`,
as `std::stof`
does, the list `cv f f32; av f 5000000000` is accepted and generated; the literal
is emitted with the tag `06` (UI32) and the value bytes `00 f2 05 2a`, whose
little-endian reading 705032704 is not the value 5000000000 of the lexeme. -/
theorem literal_value_truncated :
    SemanticAnalyzer.analyze stofSample SymbolTable.empty
        [⟨⟨.INSTRUCTION, "cv", 1⟩, [⟨.IDENTIFIER, "f", 1⟩, ⟨.TYPE, "f32", 1⟩]⟩,
         ⟨⟨.INSTRUCTION, "av", 2⟩, [⟨.IDENTIFIER, "f", 2⟩, ⟨.LITERAL, "5000000000", 2⟩]⟩]
      = .ok ⟨[("f", ⟨.F32, 4, 0⟩)], [], 4⟩ ∧
    CodeGenerator.generate stofSample ⟨[("f", ⟨.F32, 4, 0⟩)], [], 4⟩
        [⟨⟨.INSTRUCTION, "cv", 1⟩, [⟨.IDENTIFIER, "f", 1⟩, ⟨.TYPE, "f32", 1⟩]⟩,
         ⟨⟨.INSTRUCTION, "av", 2⟩, [⟨.IDENTIFIER, "f", 2⟩, ⟨.LITERAL, "5000000000", 2⟩]⟩]
      = .ok ([0, 1, 0, 0, 0, 0x66, 7] ++ [1, 0, 0, 0, 0] ++ 0x06 :: [0x00, 0xf2, 0x05, 0x2a]) ∧
    littleEndianValue [0x00, 0xf2, 0x05, 0x2a] = 705032704 ∧
    isCleanDecimal "5000000000".data = true ∧
    cleanValue "5000000000".data = 5000000000 := by
  decide

/-- For every analyzer-accepted instruction list and every
literal operand in it whose lexeme is a clean decimal integer and which the
analyzer checks against an integer type (every literal operand of `pk`, `rk`,
`dl` and `mvm`, and the literal operand of an assignment to a variable of an
integer type): `emitOperand` returns unless that type is unsigned and the value
of the lexeme is negative, and whenever it returns, it returns the tag `05`
(I32) for a lexeme with a leading `-` and the tag `06` (UI32) otherwise,
followed by four bytes whose little-endian reading, as two's complement for I32
and unsigned for UI32, is the value of the lexeme. -/
theorem literal_value_fidelity (stof : String → Option Nat) (ast : List InstructionNode)
    (symbols : SymbolTable) (labels : List (String × Nat)) (node : InstructionNode) (i : Nat)
    (t : Token) (type : Ty) (lo hi : Int)
    (hacc : SemanticAnalyzer.analyze stof SymbolTable.empty ast = .ok symbols)
    (hn : node ∈ ast) (hop : node.operands.get? i = some t) (hl : t.type = .LITERAL)
    (hc : isCleanDecimal t.value.data = true)
    (hty : literalCheckType symbols node i = some type) (hT : intRange type = some (lo, hi)) :
    ((type.isUnsigned = false ∨ 0 ≤ cleanValue t.value.data) →
      ∃ bytes, CodeGenerator.emitOperand stof symbols labels t = .ok bytes) ∧
    ∀ bytes, CodeGenerator.emitOperand stof symbols labels t = .ok bytes →
      ∃ value4 : List Nat, value4.length = 4 ∧
        ((t.value.data.head? = some '-' ∧ bytes = Ty.I32.code :: value4 ∧
            asInt32 (littleEndianValue value4) = cleanValue t.value.data) ∨
          (t.value.data.head? ≠ some '-' ∧ bytes = Ty.UI32.code :: value4 ∧
            (littleEndianValue value4 : Int) = cleanValue t.value.data)) := by
  have hck := (SemanticAnalyzer.accepted_node hacc hn).2
  have hv := SemanticAnalyzer.literal_checked hck hty hop hl
  have hem : CodeGenerator.emitOperand stof symbols labels t
      = CodeGenerator.emitLiteral stof t.value (CodeGenerator.inferLiteralType t.value) := by
    simp [CodeGenerator.emitOperand, hl]
  rw [hem]
  exact ⟨fun hs => CodeGenerator.emitLiteral_returns hT hc hv hs,
    fun bytes he => CodeGenerator.emitLiteral_fidelity hT hc hv he⟩

/-- The literal `-5` of the accepted list `cv a i8; av a -5` is
emitted as `05 fb ff ff ff`. -/
theorem literal_value_fidelity_witness :
    SemanticAnalyzer.analyze stofNone SymbolTable.empty
        [⟨⟨.INSTRUCTION, "cv", 1⟩, [⟨.IDENTIFIER, "a", 1⟩, ⟨.TYPE, "i8", 1⟩]⟩,
         ⟨⟨.INSTRUCTION, "av", 2⟩, [⟨.IDENTIFIER, "a", 2⟩, ⟨.LITERAL, "-5", 2⟩]⟩]
      = .ok ⟨[("a", ⟨.I8, 1, 0⟩)], [], 1⟩ ∧
    CodeGenerator.emitOperand stofNone ⟨[("a", ⟨.I8, 1, 0⟩)], [], 1⟩ [] ⟨.LITERAL, "-5", 2⟩
      = .ok [5, 0xfb, 0xff, 0xff, 0xff] ∧
    (((Ty.I8).isUnsigned = false ∨ 0 ≤ cleanValue (⟨.LITERAL, "-5", 2⟩ : Token).value.data) →
      ∃ bytes, CodeGenerator.emitOperand stofNone ⟨[("a", ⟨.I8, 1, 0⟩)], [], 1⟩ []
        ⟨.LITERAL, "-5", 2⟩ = .ok bytes) ∧
    ∀ bytes, CodeGenerator.emitOperand stofNone ⟨[("a", ⟨.I8, 1, 0⟩)], [], 1⟩ []
        ⟨.LITERAL, "-5", 2⟩ = .ok bytes →
      ∃ value4 : List Nat, value4.length = 4 ∧
        (((⟨.LITERAL, "-5", 2⟩ : Token).value.data.head? = some '-' ∧
            bytes = Ty.I32.code :: value4 ∧
            asInt32 (littleEndianValue value4)
              = cleanValue (⟨.LITERAL, "-5", 2⟩ : Token).value.data) ∨
          ((⟨.LITERAL, "-5", 2⟩ : Token).value.data.head? ≠ some '-' ∧
            bytes = Ty.UI32.code :: value4 ∧
            (littleEndianValue value4 : Int)
              = cleanValue (⟨.LITERAL, "-5", 2⟩ : Token).value.data)) :=
  ⟨by decide, by decide,
   literal_value_fidelity stofNone
    [⟨⟨.INSTRUCTION, "cv", 1⟩, [⟨.IDENTIFIER, "a", 1⟩, ⟨.TYPE, "i8", 1⟩]⟩,
     ⟨⟨.INSTRUCTION, "av", 2⟩, [⟨.IDENTIFIER, "a", 2⟩, ⟨.LITERAL, "-5", 2⟩]⟩]
    ⟨[("a", ⟨.I8, 1, 0⟩)], [], 1⟩ []
    ⟨⟨.INSTRUCTION, "av", 2⟩, [⟨.IDENTIFIER, "a", 2⟩, ⟨.LITERAL, "-5", 2⟩]⟩ 1
    ⟨.LITERAL, "-5", 2⟩ .I8 (-128) 127
    (by decide) (by decide) (by decide) rfl (by decide) (by decide) rfl⟩

/-! ## The parser against the operand grammar -/

theorem Parser.parseError_exn {all : List Token} (rest : List Token) (msg : String)
    (h : all ≠ []) :
    ∃ m, Parser.parseError all rest msg = .exn m := by
  unfold Parser.parseError
  cases rest with
  | cons t ts => exact ⟨_, rfl⟩
  | nil =>
    cases hl : all.getLast? with
    | none => exact absurd (List.getLast?_eq_none_iff.mp hl) h
    | some t => exact ⟨_, rfl⟩

theorem Parser.consume_eval {all : List Token} (h : all ≠ []) (rest : List Token)
    (k : TokenType) (msg : String) :
    (∃ t ts, rest = t :: ts ∧ t.type = k ∧ Parser.consume all rest k msg = .ok (t, ts)) ∨
    ((rest = [] ∨ ∃ t ts, rest = t :: ts ∧ t.type ≠ k) ∧
      ∃ m, Parser.consume all rest k msg = .error (.exn m)) := by
  unfold Parser.consume
  cases rest with
  | nil =>
    obtain ⟨m, hm⟩ := Parser.parseError_exn ([]) msg h
    exact Or.inr ⟨Or.inl rfl, m, by rw [hm]⟩
  | cons t ts =>
    by_cases hk : t.type = k
    · exact Or.inl ⟨t, ts, rfl, hk, by simp [hk]⟩
    · obtain ⟨m, hm⟩ := Parser.parseError_exn (t :: ts) msg h
      exact Or.inr ⟨Or.inr ⟨t, ts, rfl, hk⟩, m, by simp [hk, hm]⟩

theorem Parser.consumeValueOperand_eval {all : List Token} (h : all ≠ []) (rest : List Token) :
    (∃ t ts, rest = t :: ts ∧ OperandKind.value.admits t = true ∧
      Parser.consumeValueOperand all rest = .ok (t, ts)) ∨
    (rest = [] ∧ Parser.consumeValueOperand all rest = .error .ub) ∨
    ((∃ t ts, rest = t :: ts ∧ OperandKind.value.admits t = false) ∧
      ∃ m, Parser.consumeValueOperand all rest = .error (.exn m)) := by
  unfold Parser.consumeValueOperand
  cases rest with
  | nil => exact Or.inr (Or.inl ⟨rfl, rfl⟩)
  | cons t ts =>
    by_cases hk : t.type = .LITERAL ∨ t.type = .IDENTIFIER
    · exact Or.inl ⟨t, ts, rfl, by simpa [OperandKind.admits] using hk, by simp [hk]⟩
    · obtain ⟨m, hm⟩ := Parser.parseError_exn (t :: ts)
        "Expected literal value or variable" h
      exact Or.inr (Or.inr ⟨⟨t, ts, rfl, by simpa [OperandKind.admits] using hk⟩, m,
        by simp [hk, hm]⟩)

theorem matchKinds_cons_prepend (acc : List Token) (k : OperandKind) (ks : List OperandKind)
    (t : Token) (ts : List Token) (hk : k.admits t = true) :
    (matchKinds (k :: ks) (t :: ts)).prepend acc = (matchKinds ks ts).prepend (acc ++ [t]) := by
  cases k <;>
    · simp only [matchKinds, hk, if_true]
      cases matchKinds ks ts <;> simp [ParseOutcome.prepend]

theorem matchKinds_cons_reject (k : OperandKind) (ks : List OperandKind)
    (t : Token) (ts : List Token) (hk : k.admits t = false) :
    matchKinds (k :: ks) (t :: ts) = .failed := by
  cases k <;> simp [matchKinds, hk]

/-- One step of a fixed shape: an identifier read with `consumeIdentifier`,
followed by a continuation that agrees with the rest of the shape. -/
theorem Parser.step_identifier {all : List Token} (h : all ≠ []) (rest : List Token)
    (msg : String) (ks : List OperandKind) (acc : List Token)
    (f : Token × List Token → Except Err (List Token × List Token))
    (hf : ∀ t ts, ParseOutcome.of (f (t, ts)) = (matchKinds ks ts).prepend (acc ++ [t])) :
    ParseOutcome.of (Parser.consumeIdentifier all rest msg >>= f)
      = (matchKinds (.identifier :: ks) rest).prepend acc := by
  unfold Parser.consumeIdentifier
  rcases Parser.consume_eval h rest .IDENTIFIER msg with ⟨t, ts, rfl, hk, hc⟩ |
    ⟨hr, m, hc⟩
  · rw [hc, matchKinds_cons_prepend acc _ ks t ts (by simp [OperandKind.admits, hk]), ← hf]
    rfl
  · rw [hc]
    rcases hr with rfl | ⟨t, ts, rfl, hk⟩
    · rfl
    · rw [matchKinds_cons_reject _ ks t ts (by simp [OperandKind.admits, hk])]
      rfl

theorem Parser.step_type {all : List Token} (h : all ≠ []) (rest : List Token)
    (msg : String) (ks : List OperandKind) (acc : List Token)
    (f : Token × List Token → Except Err (List Token × List Token))
    (hf : ∀ t ts, ParseOutcome.of (f (t, ts)) = (matchKinds ks ts).prepend (acc ++ [t])) :
    ParseOutcome.of (Parser.consumeType all rest msg >>= f)
      = (matchKinds (.type :: ks) rest).prepend acc := by
  unfold Parser.consumeType
  rcases Parser.consume_eval h rest .TYPE msg with ⟨t, ts, rfl, hk, hc⟩ | ⟨hr, m, hc⟩
  · rw [hc, matchKinds_cons_prepend acc _ ks t ts (by simp [OperandKind.admits, hk]), ← hf]
    rfl
  · rw [hc]
    rcases hr with rfl | ⟨t, ts, rfl, hk⟩
    · rfl
    · rw [matchKinds_cons_reject _ ks t ts (by simp [OperandKind.admits, hk])]
      rfl

theorem Parser.step_value {all : List Token} (h : all ≠ []) (rest : List Token)
    (ks : List OperandKind) (acc : List Token)
    (f : Token × List Token → Except Err (List Token × List Token))
    (hf : ∀ t ts, ParseOutcome.of (f (t, ts)) = (matchKinds ks ts).prepend (acc ++ [t])) :
    ParseOutcome.of (Parser.consumeValueOperand all rest >>= f)
      = (matchKinds (.value :: ks) rest).prepend acc := by
  rcases Parser.consumeValueOperand_eval h rest with ⟨t, ts, rfl, hk, hc⟩ | ⟨rfl, hc⟩ |
    ⟨⟨t, ts, rfl, hk⟩, m, hc⟩
  · rw [hc, matchKinds_cons_prepend acc _ ks t ts hk, ← hf]
    rfl
  · rw [hc]
    rfl
  · rw [hc, matchKinds_cons_reject _ ks t ts hk]
    rfl

theorem Parser.step_done (ops : List Token) (r : List Token) :
    ParseOutcome.of (pure (ops, r) : Except Err (List Token × List Token))
      = (matchKinds [] r).prepend ops := by
  simp [matchKinds, ParseOutcome.prepend, ParseOutcome.of, pure, Except.pure]

theorem ParseOutcome.prepend_nil (o : ParseOutcome) : o.prepend [] = o := by
  cases o <;> simp [ParseOutcome.prepend]

theorem Parser.parseCv_outcome {all : List Token} (h : all ≠ []) (rest : List Token) :
    ParseOutcome.of (Parser.parseCv all rest) = matchKinds [.identifier, .type] rest := by
  rw [← ParseOutcome.prepend_nil (matchKinds _ rest)]
  unfold Parser.parseCv
  apply Parser.step_identifier h
  intro a r1
  apply Parser.step_type h
  intro b r2
  exact Parser.step_done _ _

theorem Parser.parseAv_outcome {all : List Token} (h : all ≠ []) (rest : List Token) :
    ParseOutcome.of (Parser.parseAv all rest) = matchKinds [.identifier, .value] rest := by
  rw [← ParseOutcome.prepend_nil (matchKinds _ rest)]
  unfold Parser.parseAv
  apply Parser.step_identifier h
  intro a r1
  apply Parser.step_value h
  intro b r2
  exact Parser.step_done _ _

theorem Parser.parseIncDec_outcome {all : List Token} (h : all ≠ []) (rest : List Token) :
    ParseOutcome.of (Parser.parseIncDec all rest) = matchKinds [.identifier] rest := by
  rw [← ParseOutcome.prepend_nil (matchKinds _ rest)]
  unfold Parser.parseIncDec
  apply Parser.step_identifier h
  intro a r1
  exact Parser.step_done _ _

theorem Parser.parseIkd_outcome {all : List Token} (h : all ≠ []) (rest : List Token) :
    ParseOutcome.of (Parser.parseIkd all rest) = matchKinds [.identifier, .identifier] rest := by
  rw [← ParseOutcome.prepend_nil (matchKinds _ rest)]
  unfold Parser.parseIkd
  apply Parser.step_identifier h
  intro a r1
  apply Parser.step_identifier h
  intro b r2
  exact Parser.step_done _ _

theorem Parser.parseMvm_outcome {all : List Token} (h : all ≠ []) (rest : List Token) :
    ParseOutcome.of (Parser.parseMvm all rest) = matchKinds [.value, .value] rest := by
  rw [← ParseOutcome.prepend_nil (matchKinds _ rest)]
  unfold Parser.parseMvm
  apply Parser.step_value h
  intro a r1
  apply Parser.step_value h
  intro b r2
  exact Parser.step_done _ _

theorem Parser.parseDfp_outcome {all : List Token} (h : all ≠ []) (rest : List Token) :
    ParseOutcome.of (Parser.parseDfp all rest) = matchKinds [.identifier] rest := by
  rw [← ParseOutcome.prepend_nil (matchKinds _ rest)]
  unfold Parser.parseDfp
  apply Parser.step_identifier h
  intro a r1
  exact Parser.step_done _ _

theorem Parser.parseConditionalJmp_outcome {all : List Token} (h : all ≠ [])
    (rest : List Token) :
    ParseOutcome.of (Parser.parseConditionalJmp all rest)
      = matchKinds [.identifier, .identifier, .identifier, .identifier] rest := by
  rw [← ParseOutcome.prepend_nil (matchKinds _ rest)]
  unfold Parser.parseConditionalJmp
  apply Parser.step_identifier h
  intro a r1
  apply Parser.step_identifier h
  intro b r2
  apply Parser.step_identifier h
  intro c r3
  apply Parser.step_identifier h
  intro d r4
  exact Parser.step_done _ _

theorem Parser.parseDl_outcome {all : List Token} (h : all ≠ []) (rest : List Token) :
    ParseOutcome.of (Parser.parseDl all rest) = matchKinds [.value] rest := by
  rw [← ParseOutcome.prepend_nil (matchKinds _ rest)]
  unfold Parser.parseDl
  apply Parser.step_value h
  intro a r1
  exact Parser.step_done _ _

theorem Parser.parseKeyOperation_outcome {all : List Token} (h : all ≠ [])
    (rest : List Token) :
    ParseOutcome.of (Parser.parseKeyOperation all rest) = matchKinds [.value] rest := by
  unfold Parser.parseKeyOperation
  cases rest with
  | nil => rfl
  | cons t ts =>
    by_cases hk : t.type = .LITERAL ∨ t.type = .IDENTIFIER
    · simp [hk, matchKinds, OperandKind.admits, ParseOutcome.of]
    · obtain ⟨m, hm⟩ := Parser.parseError_exn (t :: ts)
        "Key operation requires literal or variable" h
      simp [hk, hm, matchKinds, OperandKind.admits, ParseOutcome.of]

theorem Parser.parseNop_outcome {all : List Token} (h : all ≠ []) (rest : List Token) :
    ParseOutcome.of (Parser.parseNop all rest) = matchNop rest := by
  unfold Parser.parseNop matchNop
  cases rest with
  | nil => rfl
  | cons t ts =>
    by_cases hk : t.type = .END_OF_LINE
    · simp [hk, ParseOutcome.of]
    · obtain ⟨m, hm⟩ := Parser.parseError_exn (t :: ts)
        "NOP instruction takes no operands" h
      simp [hk, hm, ParseOutcome.of]

theorem Parser.parsePrintLoop_eval : ∀ (rest : List Token),
    Parser.parsePrintLoop rest
      = if rest.dropWhile Token.isPrintable = [] then .error .ub
        else .ok (rest.takeWhile Token.isPrintable, rest.dropWhile Token.isPrintable) := by
  intro rest
  induction rest with
  | nil => rfl
  | cons t ts ih =>
    unfold Parser.parsePrintLoop
    by_cases hk : t.type = .STRING ∨ t.type = .IDENTIFIER
    · have hp : t.isPrintable = true := by simpa [Token.isPrintable] using hk
      rw [if_pos hk, ih, List.dropWhile_cons_of_pos hp, List.takeWhile_cons_of_pos hp]
      by_cases hd : ts.dropWhile Token.isPrintable = []
      · simp [hd]
      · simp [hd]
    · have hp : ¬ (t.isPrintable = true) := by simpa [Token.isPrintable] using hk
      rw [if_neg hk, List.dropWhile_cons_of_neg hp, List.takeWhile_cons_of_neg hp]
      simp

theorem Parser.parsePrint_outcome {all : List Token} (h : all ≠ []) (rest : List Token) :
    ParseOutcome.of (Parser.parsePrint all rest) = matchPrint rest := by
  unfold Parser.parsePrint matchPrint
  rw [Parser.parsePrintLoop_eval]
  by_cases hd : rest.dropWhile Token.isPrintable = []
  · simp [hd, ParseOutcome.of]
  · by_cases ht : rest.takeWhile Token.isPrintable = []
    · obtain ⟨m, hm⟩ := Parser.parseError_exn (rest.dropWhile Token.isPrintable)
        "Print instruction requires at least one operand" h
      simp [hd, ht, hm, ParseOutcome.of]
    · simp [hd, ht, ParseOutcome.of]

/-- The operand parsers of `parseInstruction` refine the operand grammar of the
specification: for every mnemonic lexeme and every read position, the outcome
of `parseOperands` is the outcome of `matchOperands`. -/
theorem Parser.parseOperands_outcome {all : List Token} (h : all ≠ []) (rest : List Token)
    (inst : String) :
    ParseOutcome.of (Parser.parseOperands all rest inst) = matchOperands inst rest := by
  unfold Parser.parseOperands matchOperands
  by_cases c0 : inst = "cv"
  · subst c0
    simp [fixedOperandShape, Parser.parseCv_outcome h]
  rw [if_neg c0]
  by_cases c1 : inst = "av"
  · subst c1
    simp [fixedOperandShape, Parser.parseAv_outcome h]
  rw [if_neg c1]
  by_cases c2 : inst = "aav" ∨ inst = "sav" ∨ inst = "mav" ∨ inst = "dav" ∨ inst = "moav"
  · rw [if_pos c2]
    rcases c2 with c | c | c | c | c <;>
      · subst c
        simp [fixedOperandShape, Parser.parseAv_outcome h]
  rw [if_neg c2]
  by_cases c3 : inst = "inc" ∨ inst = "dec"
  · rw [if_pos c3]
    rcases c3 with c | c <;>
      · subst c
        simp [fixedOperandShape, Parser.parseIncDec_outcome h]
  rw [if_neg c3]
  by_cases c4 : inst = "p" ∨ inst = "pl"
  · rw [if_pos c4, if_pos c4]
    exact Parser.parsePrint_outcome h rest
  rw [if_neg c4, if_neg c4]
  by_cases c5 : inst = "pk" ∨ inst = "rk"
  · rw [if_pos c5]
    rcases c5 with c | c <;>
      · subst c
        simp [fixedOperandShape, Parser.parseKeyOperation_outcome h]
  rw [if_neg c5]
  by_cases c6 : inst = "ikd"
  · subst c6
    simp [fixedOperandShape, Parser.parseIkd_outcome h]
  rw [if_neg c6]
  by_cases c7 : inst = "mvm"
  · subst c7
    simp [fixedOperandShape, Parser.parseMvm_outcome h]
  rw [if_neg c7]
  by_cases c8 : inst = "dfp"
  · subst c8
    simp [fixedOperandShape, Parser.parseDfp_outcome h]
  rw [if_neg c8]
  by_cases c9 : inst = "jmp"
  · subst c9
    simp [fixedOperandShape, Parser.parseDfp_outcome h]
  rw [if_neg c9]
  by_cases c10 : inst = "cejmp" ∨ inst = "cgjmp" ∨ inst = "cljmp" ∨ inst = "cegjmp" ∨
      inst = "celjmp"
  · rw [if_pos c10]
    rcases c10 with c | c | c | c | c <;>
      · subst c
        simp [fixedOperandShape, Parser.parseConditionalJmp_outcome h]
  rw [if_neg c10]
  by_cases c11 : inst = "dl"
  · subst c11
    simp [fixedOperandShape, Parser.parseDl_outcome h]
  rw [if_neg c11]
  by_cases c12 : inst = "nop"
  · subst c12
    simp [Parser.parseNop_outcome h]
  rw [if_neg c12, if_neg c12]
  obtain ⟨m, hm⟩ := Parser.parseError_exn (rest) ("Unknown instruction " ++ inst) h
  simp only [not_or] at c2 c3 c5 c10
  simp [fixedOperandShape, c0, c1, c2, c3, c5, c6, c7, c8, c9, c10, c11, c12, hm,
    ParseOutcome.of]

/-! ## The operand grammar -/

theorem matchKinds_ok_iff : ∀ (ks : List OperandKind) (rest ops r : List Token),
    matchKinds ks rest = .ok ops r ↔
      rest = ops ++ r ∧ List.Forall₂ (fun k t => OperandKind.admits k t = true) ks ops := by
  intro ks
  induction ks with
  | nil =>
    intro rest ops r
    simp only [matchKinds, ParseOutcome.ok.injEq, List.forall₂_nil_left_iff]
    constructor
    · rintro ⟨rfl, rfl⟩
      exact ⟨rfl, rfl⟩
    · rintro ⟨h1, rfl⟩
      exact ⟨rfl, by simpa using h1⟩
  | cons k ks ih =>
    intro rest ops r
    cases rest with
    | nil =>
      constructor
      · intro h
        cases k <;> simp [matchKinds] at h
      · rintro ⟨h1, h2⟩
        cases h2 with
        | cons _ _ => simp at h1
    | cons t ts =>
      by_cases hk : k.admits t = true
      · have hm : matchKinds (k :: ks) (t :: ts)
            = (match matchKinds ks ts with
              | .ok ops r => .ok (t :: ops) r
              | o => o) := by
          cases k <;> simp [matchKinds, hk]
        rw [hm]
        constructor
        · intro h
          cases hr : matchKinds ks ts with
          | ok ops1 r1 =>
            rw [hr] at h
            simp only [ParseOutcome.ok.injEq] at h
            obtain ⟨rfl, rfl⟩ := h
            obtain ⟨i1, i2⟩ := (ih ts ops1 r1).mp hr
            exact ⟨by rw [i1]; rfl, List.Forall₂.cons hk i2⟩
          | failed => rw [hr] at h; cases h
          | outOfBounds => rw [hr] at h; cases h
        · rintro ⟨h1, h2⟩
          cases h2 with
          | cons ha hrest =>
            rename_i t1 ops1
            simp only [List.cons_append, List.cons.injEq] at h1
            obtain ⟨rfl, h1⟩ := h1
            rw [(ih ts ops1 r).mpr ⟨h1, hrest⟩]
      · have hk' : k.admits t = false := by simpa using hk
        rw [matchKinds_cons_reject k ks t ts hk']
        constructor
        · intro h; cases h
        · rintro ⟨h1, h2⟩
          cases h2 with
          | cons ha hrest =>
            simp only [List.cons_append, List.cons.injEq] at h1
            obtain ⟨rfl, _⟩ := h1
            exact absurd ha hk

theorem OperandKind.admits_type {k : OperandKind} {t : Token} (h : k.admits t = true) :
    t.type = .IDENTIFIER ∨ t.type = .TYPE ∨ t.type = .LITERAL := by
  cases k
  · exact Or.inl (by simpa [OperandKind.admits] using h)
  · exact Or.inr (Or.inl (by simpa [OperandKind.admits] using h))
  · rcases (by simpa [OperandKind.admits] using h : t.type = .LITERAL ∨ t.type = .IDENTIFIER)
      with e | e
    · exact Or.inr (Or.inr e)
    · exact Or.inl e

/-- A token is an operand token when its kind is one an operand can have. -/
theorem matchKinds_outOfBounds : ∀ (ks : List OperandKind) (rest : List Token),
    matchKinds ks rest = .outOfBounds →
    ∀ x ∈ rest, x.type = .IDENTIFIER ∨ x.type = .TYPE ∨ x.type = .LITERAL := by
  intro ks
  induction ks with
  | nil => intro rest h; simp [matchKinds] at h
  | cons k ks ih =>
    intro rest h x hx
    cases rest with
    | nil => cases hx
    | cons t ts =>
      by_cases hk : k.admits t = true
      · have hm : matchKinds (k :: ks) (t :: ts)
            = (match matchKinds ks ts with
              | .ok ops r => .ok (t :: ops) r
              | o => o) := by
          cases k <;> simp [matchKinds, hk]
        rw [hm] at h
        have h2 : matchKinds ks ts = .outOfBounds := by
          cases hr : matchKinds ks ts with
          | ok ops1 r1 => rw [hr] at h; cases h
          | failed => rw [hr] at h; cases h
          | outOfBounds => rfl
        rcases List.mem_cons.mp hx with e | e
        · rw [e]; exact OperandKind.admits_type hk
        · exact ih ts h2 x e
      · have hk' : k.admits t = false := by simpa using hk
        rw [matchKinds_cons_reject k ks t ts hk'] at h
        cases h

theorem forall₂_admits_mem {ks : List OperandKind} {ops : List Token}
    (h : List.Forall₂ (fun k t => OperandKind.admits k t = true) ks ops) :
    ∀ x ∈ ops, ∃ k, OperandKind.admits k x = true := by
  induction h with
  | nil => intro x hx; cases hx
  | cons ha _ ih =>
    intro x hx
    rcases List.mem_cons.mp hx with e | e
    · rw [e]; exact ⟨_, ha⟩
    · exact ih x e

theorem hasOperandShape_types {inst : String} {ops : List Token}
    (h : hasOperandShape inst ops) :
    ∀ x ∈ ops, x.type = .IDENTIFIER ∨ x.type = .TYPE ∨ x.type = .LITERAL ∨ x.type = .STRING := by
  unfold hasOperandShape at h
  split at h
  · intro x hx
    have := h.2 x hx
    rcases (by simpa [Token.isPrintable] using this : x.type = .STRING ∨ x.type = .IDENTIFIER)
      with e | e
    · exact Or.inr (Or.inr (Or.inr e))
    · exact Or.inl e
  · obtain ⟨ks, _, hf⟩ := h
    intro x hx
    obtain ⟨k, hk⟩ := forall₂_admits_mem hf x hx
    rcases OperandKind.admits_type hk with e | e | e
    · exact Or.inl e
    · exact Or.inr (Or.inl e)
    · exact Or.inr (Or.inr (Or.inl e))

theorem matchPrint_ok_iff (rest ops r : List Token) :
    matchPrint rest = .ok ops r ↔
      rest = ops ++ r ∧ ops ≠ [] ∧ (∀ t ∈ ops, t.isPrintable = true) ∧
      ∃ e r1, r = e :: r1 ∧ e.isPrintable = false := by
  unfold matchPrint
  constructor
  · intro h
    by_cases hd : rest.dropWhile Token.isPrintable = []
    · simp [hd] at h
    · rw [if_neg hd] at h
      by_cases ht : rest.takeWhile Token.isPrintable = []
      · simp [ht] at h
      · rw [if_neg ht] at h
        simp only [ParseOutcome.ok.injEq] at h
        obtain ⟨rfl, rfl⟩ := h
        refine ⟨(List.takeWhile_append_dropWhile _ _).symm, ht,
          fun t ht2 => List.mem_takeWhile_imp ht2, ?_⟩
        cases hdw : rest.dropWhile Token.isPrintable with
        | nil => exact absurd hdw hd
        | cons e r1 =>
          refine ⟨e, r1, rfl, ?_⟩
          have := List.head?_dropWhile_not Token.isPrintable rest
          rw [hdw] at this
          simpa using this
  · rintro ⟨rfl, hne, hall, e, r1, rfl, he⟩
    have htake : (ops ++ e :: r1).takeWhile Token.isPrintable = ops := by
      rw [List.takeWhile_append_of_pos hall]
      simp [List.takeWhile_cons, he]
    have hdrop : (ops ++ e :: r1).dropWhile Token.isPrintable = e :: r1 := by
      rw [List.dropWhile_append_of_pos hall]
      simp [List.dropWhile_cons, he]
    simp [htake, hdrop, hne]

theorem matchPrint_outOfBounds {rest : List Token} (h : matchPrint rest = .outOfBounds) :
    ∀ x ∈ rest, x.isPrintable = true := by
  unfold matchPrint at h
  by_cases hd : rest.dropWhile Token.isPrintable = []
  · exact List.dropWhile_eq_nil_iff.mp hd
  · rw [if_neg hd] at h
    by_cases ht : rest.takeWhile Token.isPrintable = []
    · simp [ht] at h
    · simp [ht] at h

/-- The operand grammar accepts exactly the token runs of the prescribed shape:
`matchOperands` returns the operands `ops` and the position `r` if and only if
the tokens at the read position are `ops` followed by `r`, `ops` has the shape
of the mnemonic, and, for `p` / `pl` and `nop`, `r` starts with a token that
ends the operands (not printable, respectively an `END_OF_LINE`). -/
theorem matchOperands_ok_iff (inst : String) (rest ops r : List Token) :
    matchOperands inst rest = .ok ops r ↔
      rest = ops ++ r ∧ hasOperandShape inst ops ∧
      (inst = "p" ∨ inst = "pl" → ∃ e r1, r = e :: r1 ∧ e.isPrintable = false) ∧
      (inst = "nop" → ∃ e r1, r = e :: r1 ∧ e.type = .END_OF_LINE) := by
  unfold matchOperands hasOperandShape
  by_cases hp : inst = "p" ∨ inst = "pl"
  · have hn : inst ≠ "nop" := by rcases hp with e | e <;> rw [e] <;> decide
    rw [if_pos hp, if_pos hp, matchPrint_ok_iff]
    constructor
    · rintro ⟨h1, h2, h3, h4⟩
      exact ⟨h1, ⟨h2, h3⟩, fun _ => h4, fun e => absurd e hn⟩
    · rintro ⟨h1, ⟨h2, h3⟩, h4, _⟩
      exact ⟨h1, h2, h3, h4 hp⟩
  · rw [if_neg hp, if_neg hp]
    by_cases hn : inst = "nop"
    · subst hn
      simp only [if_true, fixedOperandShape]
      unfold matchNop
      cases rest with
      | nil =>
        constructor
        · intro h; cases h
        · rintro ⟨h1, _, _, h4⟩
          obtain ⟨e, r1, rfl, _⟩ := h4 trivial
          cases ops <;> simp at h1
      | cons t ts =>
        by_cases hk : t.type = .END_OF_LINE
        · simp only [hk, if_true, ParseOutcome.ok.injEq]
          constructor
          · rintro ⟨rfl, rfl⟩
            exact ⟨rfl, ⟨[], by simp, List.Forall₂.nil⟩, fun h => absurd h hp,
              fun _ => ⟨t, ts, rfl, hk⟩⟩
          · rintro ⟨h1, ⟨ks, hks, hf⟩, _, _⟩
            simp at hks
            subst hks
            cases hf
            exact ⟨rfl, by simpa using h1⟩
        · simp only [hk, if_false]
          constructor
          · intro h; cases h
          · rintro ⟨h1, ⟨ks, hks, hf⟩, _, h4⟩
            simp at hks
            subst hks
            cases hf
            obtain ⟨e, r1, rfl, he⟩ := h4 trivial
            simp only [List.nil_append, List.cons.injEq] at h1
            rw [h1.1] at hk
            exact absurd he hk
    · rw [if_neg hn]
      cases hks : fixedOperandShape inst with
      | none =>
        simp only
        constructor
        · intro h; cases h
        · rintro ⟨_, ⟨ks, h, _⟩, _⟩
          cases h
      | some ks =>
        simp only [matchKinds_ok_iff]
        constructor
        · rintro ⟨h1, h2⟩
          exact ⟨h1, ⟨ks, rfl, h2⟩, fun h => absurd h hp, fun h => absurd h hn⟩
        · rintro ⟨h1, ⟨ks2, h2, h3⟩, _, _⟩
          injection h2 with h2
          subst h2
          exact ⟨h1, h3⟩

theorem matchOperands_outOfBounds {inst : String} {rest : List Token}
    (h : matchOperands inst rest = .outOfBounds) :
    ∀ x ∈ rest, x.type = .IDENTIFIER ∨ x.type = .TYPE ∨ x.type = .LITERAL ∨ x.type = .STRING := by
  unfold matchOperands at h
  by_cases hp : inst = "p" ∨ inst = "pl"
  · rw [if_pos hp] at h
    intro x hx
    have := matchPrint_outOfBounds h x hx
    rcases (by simpa [Token.isPrintable] using this : x.type = .STRING ∨ x.type = .IDENTIFIER)
      with e | e
    · exact Or.inr (Or.inr (Or.inr e))
    · exact Or.inl e
  · rw [if_neg hp] at h
    by_cases hn : inst = "nop"
    · rw [if_pos hn] at h
      unfold matchNop at h
      cases rest with
      | nil => intro x hx; cases hx
      | cons t ts =>
        simp only at h
        split at h <;> cases h
    · rw [if_neg hn] at h
      cases hks : fixedOperandShape inst with
      | none => rw [hks] at h; cases h
      | some ks =>
        rw [hks] at h
        intro x hx
        rcases matchKinds_outOfBounds ks rest h x hx with e | e | e
        · exact Or.inl e
        · exact Or.inr (Or.inl e)
        · exact Or.inr (Or.inr (Or.inl e))

/-! ## The parser: one instruction, and the whole program -/

theorem ParseOutcome.of_ok {x : Except Err (List Token × List Token)} {ops r : List Token}
    (h : ParseOutcome.of x = .ok ops r) : x = .ok (ops, r) := by
  cases x with
  | error e => cases e <;> cases h
  | ok a =>
    simp only [ParseOutcome.of, ParseOutcome.ok.injEq] at h
    obtain ⟨rfl, rfl⟩ := h
    rfl

/-- What `parseInstruction` returns, from the outcome of the operand grammar on
the tokens after the mnemonic: a node when the operands match and an
`END_OF_LINE` follows them, a read out of bounds when the grammar reads past the
end of the vector, and a `ParseError` otherwise. -/
theorem Parser.parseInstruction_eval {all : List Token} (h : all ≠ []) (t : Token)
    (ts : List Token) :
    (∃ ops e r, matchOperands t.value ts = .ok ops (e :: r) ∧ e.type = .END_OF_LINE ∧
      Parser.parseInstruction all (t :: ts) = .ok (⟨t, ops⟩, r)) ∨
    (matchOperands t.value ts = .outOfBounds ∧
      Parser.parseInstruction all (t :: ts) = .error .ub) ∨
    (∃ msg, Parser.parseInstruction all (t :: ts) = .error (.exn msg)) := by
  have ho := Parser.parseOperands_outcome h ts t.value
  have hdef : Parser.parseInstruction all (t :: ts)
      = (Parser.parseOperands all ts t.value >>= fun r =>
          Parser.consume all r.2 .END_OF_LINE "Expected end of line after instruction"
            >>= fun e => pure (⟨t, r.1⟩, e.2)) := rfl
  rw [hdef]
  cases hp : Parser.parseOperands all ts t.value with
  | error e =>
    rw [hp] at ho
    cases e with
    | exn m => exact Or.inr (Or.inr ⟨m, rfl⟩)
    | ub => exact Or.inr (Or.inl ⟨ho.symm, rfl⟩)
  | ok a =>
    rw [hp] at ho
    have hbind : ((Except.ok a : Except Err (List Token × List Token)) >>= fun r =>
          Parser.consume all r.2 .END_OF_LINE "Expected end of line after instruction"
            >>= fun e => (pure (⟨t, r.1⟩, e.2) : Except Err (InstructionNode × List Token)))
        = (Parser.consume all a.2 .END_OF_LINE "Expected end of line after instruction"
            >>= fun e => pure (⟨t, a.1⟩, e.2)) := rfl
    rw [hbind]
    rcases Parser.consume_eval h a.2 .END_OF_LINE "Expected end of line after instruction" with
      ⟨e, r, ha, he, hc⟩ | ⟨_, m, hc⟩
    · refine Or.inl ⟨a.1, e, r, ?_, he, ?_⟩
      · rw [← ho, ← ha]; rfl
      · rw [hc]; rfl
    · refine Or.inr (Or.inr ⟨m, ?_⟩)
      rw [hc]; rfl

/-- The lines that `parseInstruction` accepts: the mnemonic token, operand
tokens of the shape of its lexeme, and an `END_OF_LINE` token. -/
theorem Parser.parseInstruction_ok_iff {all : List Token} (h : all ≠ []) (t : Token)
    (ts r : List Token) (node : InstructionNode) :
    Parser.parseInstruction all (t :: ts) = .ok (node, r) ↔
      ∃ ops e, ts = ops ++ e :: r ∧ e.type = .END_OF_LINE ∧
        hasOperandShape t.value ops ∧ node = ⟨t, ops⟩ := by
  constructor
  · intro hok
    rcases Parser.parseInstruction_eval h t ts with ⟨ops, e, r1, hm, he, hp⟩ | ⟨_, hp⟩ | ⟨m, hp⟩
    · rw [hp] at hok
      injection hok with hok
      injection hok with h1 h2
      subst h1 h2
      obtain ⟨hts, hshape, _⟩ := (matchOperands_ok_iff _ _ _ _).mp hm
      exact ⟨ops, e, hts, he, hshape, rfl⟩
    · rw [hp] at hok; cases hok
    · rw [hp] at hok; cases hok
  · rintro ⟨ops, e, hts, he, hshape, rfl⟩
    have hm : matchOperands t.value ts = .ok ops (e :: r) := by
      refine (matchOperands_ok_iff _ _ _ _).mpr ⟨hts, hshape, fun _ => ⟨e, r, rfl, ?_⟩,
        fun _ => ⟨e, r, rfl, he⟩⟩
      simp [Token.isPrintable, he]
    rcases Parser.parseInstruction_eval h t ts with ⟨ops1, e1, r1, hm1, _, hp⟩ | ⟨hm1, _⟩ | ⟨m, hp⟩
    · rw [hm] at hm1
      simp only [ParseOutcome.ok.injEq, List.cons.injEq] at hm1
      obtain ⟨rfl, rfl, rfl⟩ := hm1
      exact hp
    · rw [hm] at hm1; cases hm1
    · exfalso
      have ho := Parser.parseOperands_outcome h ts t.value
      rw [hm] at ho
      have hpo := ParseOutcome.of_ok ho
      have hdef : Parser.parseInstruction all (t :: ts)
          = (Parser.parseOperands all ts t.value >>= fun r =>
              Parser.consume all r.2 .END_OF_LINE "Expected end of line after instruction"
                >>= fun e => pure (⟨t, r.1⟩, e.2)) := rfl
      rw [hdef, hpo] at hp
      have hc : Parser.consume all (e :: r) .END_OF_LINE
          "Expected end of line after instruction" = .ok (e, r) := by
        simp [Parser.consume, he]
      have hbind : ((Except.ok (ops, e :: r) : Except Err (List Token × List Token)) >>=
            fun r => Parser.consume all r.2 .END_OF_LINE "Expected end of line after instruction"
              >>= fun e => (pure (⟨t, r.1⟩, e.2) : Except Err (InstructionNode × List Token)))
          = (Parser.consume all (e :: r) .END_OF_LINE "Expected end of line after instruction"
              >>= fun e => pure (⟨t, ops⟩, e.2)) := rfl
      rw [hbind, hc] at hp
      cases hp

/-- Every node of a program returned by the loop of `parse` has the operand
shape of its mnemonic. -/
theorem Parser.parseLoop_shape {all : List Token} (h : all ≠ []) :
    ∀ (c : Nat) (rest : List Token) (program : List InstructionNode),
      Parser.parseLoop c all rest = .ok program →
      ∀ node ∈ program, hasOperandShape node.instruction.value node.operands := by
  intro c
  induction c with
  | zero =>
    intro rest program hp
    cases rest with
    | nil =>
      simp only [Parser.parseLoop] at hp
      injection hp with hp
      subst hp
      intro node hn; cases hn
    | cons t ts => simp [Parser.parseLoop] at hp
  | succ c ih =>
    intro rest program hp
    cases rest with
    | nil =>
      simp only [Parser.parseLoop] at hp
      injection hp with hp
      subst hp
      intro node hn; cases hn
    | cons t ts =>
      simp only [Parser.parseLoop] at hp
      cases hi : Parser.parseInstruction all (t :: ts) with
      | error e => rw [hi] at hp; cases hp
      | ok a =>
        rw [hi] at hp
        simp only at hp
        cases hl : Parser.parseLoop c all a.2 with
        | error e => rw [hl] at hp; cases hp
        | ok p =>
          rw [hl] at hp
          simp only at hp
          injection hp with hp
          subst hp
          obtain ⟨ops, e, _, _, hshape, hnode⟩ :=
            (Parser.parseInstruction_ok_iff h t ts a.2 a.1).mp hi
          intro node hn
          rcases List.mem_cons.mp hn with e1 | e1
          · rw [e1, hnode]; exact hshape
          · exact ih a.2 p hl node e1

theorem matchOperands_unknown {inst : String} (h : inst ∉ knownMnemonics) (rest : List Token) :
    matchOperands inst rest = .failed := by
  simp only [knownMnemonics, List.mem_cons, List.mem_singleton, List.not_mem_nil, not_or,
    or_false] at h
  simp [matchOperands, fixedOperandShape, h]

/-- A token sequence that holds a `COMMA` token whose lexeme is not a mnemonic
makes the loop of `parse` throw a `ParseError`: no rule consumes the token. -/
theorem Parser.parseLoop_comma {all : List Token} (h : all ≠ []) (x : Token)
    (hk : x.type = .COMMA) (hv : x.value ∉ knownMnemonics) :
    ∀ (c : Nat) (rest : List Token), rest.length ≤ c → x ∈ rest →
      ∃ msg, Parser.parseLoop c all rest = .error (.exn msg) := by
  intro c
  induction c with
  | zero =>
    intro rest hlen hx
    cases rest with
    | nil => cases hx
    | cons t ts => simp at hlen
  | succ c ih =>
    intro rest hlen hx
    cases rest with
    | nil => cases hx
    | cons t ts =>
      simp only [Parser.parseLoop]
      rcases Parser.parseInstruction_eval h t ts with ⟨ops, e, r, hm, he, hp⟩ | ⟨hm, _⟩ | ⟨m, hp⟩
      · obtain ⟨hts, hshape, _⟩ := (matchOperands_ok_iff _ _ _ _).mp hm
        have hxt : x ≠ t := by
          intro e1
          rw [← e1, matchOperands_unknown hv] at hm
          cases hm
        have hxr : x ∈ r := by
          rcases List.mem_cons.mp hx with e1 | e1
          · exact absurd e1 hxt
          · rw [hts] at e1
            rcases List.mem_append.mp e1 with e2 | e2
            · have := hasOperandShape_types hshape x e2
              rw [hk] at this
              simp at this
            · rcases List.mem_cons.mp e2 with e3 | e3
              · rw [e3, he] at hk; cases hk
              · exact e3
        have hlen2 : r.length ≤ c := by
          have := congrArg List.length hts
          simp at this hlen
          omega
        obtain ⟨msg, hmsg⟩ := ih r hlen2 hxr
        rw [hp]
        simp only [hmsg]
        exact ⟨msg, rfl⟩
      · exfalso
        have hxt : x ≠ t := by
          intro e1
          rw [← e1, matchOperands_unknown hv] at hm
          cases hm
        rcases List.mem_cons.mp hx with e1 | e1
        · exact hxt e1
        · have := matchOperands_outOfBounds hm x e1
          rw [hk] at this
          simp at this
      · rw [hp]
        exact ⟨m, rfl⟩

/-! ## The parser: the claims on mnemonics, operand shapes and commas -/

/-- C15 (the code at the failing input): the source `"nop"` in double quotes,
followed by a newline, is a line that begins with a `STRING` token, not an
`INSTRUCTION` token; the lexer returns that token with the lexeme `nop`, and
`Parser::parse` succeeds with one node whose mnemonic token has kind `STRING`;
the whole pipeline returns the byte `ff`. -/
theorem string_token_parsed_as_mnemonic (stof : String → Option Nat) (n : Nat) :
    Lexer.tokenize ("\"nop\"\n".length + n) "\"nop\"\n".data
      = some [⟨.STRING, "nop", 1⟩, ⟨.END_OF_LINE, "EOL", 1⟩] ∧
    Parser.parse [⟨.STRING, "nop", 1⟩, ⟨.END_OF_LINE, "EOL", 1⟩]
      = .ok [⟨⟨.STRING, "nop", 1⟩, []⟩] ∧
    (⟨⟨.STRING, "nop", 1⟩, []⟩ : InstructionNode).instruction.type ≠ .INSTRUCTION ∧
    compile ("\"nop\"\n".length + n) stof "\"nop\"\n" = some (.ok [0xff]) := by
  have h1 : Lexer.tokenize "\"nop\"\n".length "\"nop\"\n".data
      = some [⟨.STRING, "nop", 1⟩, ⟨.END_OF_LINE, "EOL", 1⟩] := by decide
  refine ⟨Lexer.tokenize_add h1 n, by decide, by decide, ?_⟩
  rw [compile_of_tokenize h1]
  rfl

/-- C16: for every token sequence, in particular every one produced by the
lexer, on which `Parser::parse` succeeds, the operand list of every node has the
shape prescribed for the lexeme of its mnemonic token: `cv` = [Identifier,
Type]; `av`/`aav`/`sav`/`mav`/`dav`/`moav` = [Identifier, Literal-or-Identifier];
`inc`/`dec` = [Identifier]; `p`/`pl` = one or more tokens, each String or
Identifier; `pk`/`rk`/`dl` = [Literal-or-Identifier]; `ikd` = [Identifier,
Identifier]; `mvm` = two Literal-or-Identifier tokens; `dfp`/`jmp` =
[Identifier]; the five conditional jumps = four Identifiers; `nop` = no operand. -/
theorem operand_shapes (tokens : List Token) (program : List InstructionNode)
    (h : Parser.parse tokens = .ok program) :
    ∀ node ∈ program, hasOperandShape node.instruction.value node.operands := by
  cases tokens with
  | nil =>
    have : program = [] := by
      simp only [Parser.parse, Parser.parseLoop] at h
      injection h with h
      exact h.symm
    subst this
    intro node hn; cases hn
  | cons t ts =>
    exact Parser.parseLoop_shape (List.cons_ne_nil t ts) _ _ program h

/-- C16 (witness): the tokens that the lexer returns for the three lines
`cv a ui8`, `p "hi" a` and `mvm 5 -5`. -/
theorem operand_shapes_witness :
    Lexer.tokenize 40 "cv a ui8\np \"hi\" a\nmvm 5 -5\n".data
      = some [⟨.INSTRUCTION, "cv", 1⟩, ⟨.IDENTIFIER, "a", 1⟩, ⟨.TYPE, "ui8", 1⟩,
          ⟨.END_OF_LINE, "EOL", 1⟩,
          ⟨.INSTRUCTION, "p", 2⟩, ⟨.STRING, "hi", 2⟩, ⟨.IDENTIFIER, "a", 2⟩,
          ⟨.END_OF_LINE, "EOL", 2⟩,
          ⟨.INSTRUCTION, "mvm", 3⟩, ⟨.LITERAL, "5", 3⟩, ⟨.LITERAL, "-5", 3⟩,
          ⟨.END_OF_LINE, "EOL", 3⟩] ∧
    ∀ node ∈ [(⟨⟨.INSTRUCTION, "cv", 1⟩, [⟨.IDENTIFIER, "a", 1⟩, ⟨.TYPE, "ui8", 1⟩]⟩
          : InstructionNode),
        ⟨⟨.INSTRUCTION, "p", 2⟩, [⟨.STRING, "hi", 2⟩, ⟨.IDENTIFIER, "a", 2⟩]⟩,
        ⟨⟨.INSTRUCTION, "mvm", 3⟩, [⟨.LITERAL, "5", 3⟩, ⟨.LITERAL, "-5", 3⟩]⟩],
      hasOperandShape node.instruction.value node.operands :=
  ⟨by decide,
   operand_shapes
    [⟨.INSTRUCTION, "cv", 1⟩, ⟨.IDENTIFIER, "a", 1⟩, ⟨.TYPE, "ui8", 1⟩,
      ⟨.END_OF_LINE, "EOL", 1⟩,
      ⟨.INSTRUCTION, "p", 2⟩, ⟨.STRING, "hi", 2⟩, ⟨.IDENTIFIER, "a", 2⟩,
      ⟨.END_OF_LINE, "EOL", 2⟩,
      ⟨.INSTRUCTION, "mvm", 3⟩, ⟨.LITERAL, "5", 3⟩, ⟨.LITERAL, "-5", 3⟩,
      ⟨.END_OF_LINE, "EOL", 3⟩]
    [⟨⟨.INSTRUCTION, "cv", 1⟩, [⟨.IDENTIFIER, "a", 1⟩, ⟨.TYPE, "ui8", 1⟩]⟩,
      ⟨⟨.INSTRUCTION, "p", 2⟩, [⟨.STRING, "hi", 2⟩, ⟨.IDENTIFIER, "a", 2⟩]⟩,
      ⟨⟨.INSTRUCTION, "mvm", 3⟩, [⟨.LITERAL, "5", 3⟩, ⟨.LITERAL, "-5", 3⟩]⟩]
    (by decide)⟩

/-- C17 (counterexample): the tokens of the line `av a 5` parse to one node;
with a `COMMA` token inserted between the two operands, as the lexer returns
for `av a, 5`, `Parser::parse` throws the `ParseError`
`Line 1: Expected literal value or variable`. -/
theorem comma_between_operands_fails :
    Lexer.tokenize 10 "av a 5\n".data
      = some [⟨.INSTRUCTION, "av", 1⟩, ⟨.IDENTIFIER, "a", 1⟩, ⟨.LITERAL, "5", 1⟩,
          ⟨.END_OF_LINE, "EOL", 1⟩] ∧
    Parser.parse [⟨.INSTRUCTION, "av", 1⟩, ⟨.IDENTIFIER, "a", 1⟩, ⟨.LITERAL, "5", 1⟩,
        ⟨.END_OF_LINE, "EOL", 1⟩]
      = .ok [⟨⟨.INSTRUCTION, "av", 1⟩, [⟨.IDENTIFIER, "a", 1⟩, ⟨.LITERAL, "5", 1⟩]⟩] ∧
    Lexer.tokenize 10 "av a, 5\n".data
      = some [⟨.INSTRUCTION, "av", 1⟩, ⟨.IDENTIFIER, "a", 1⟩, ⟨.COMMA, ",", 1⟩,
          ⟨.LITERAL, "5", 1⟩, ⟨.END_OF_LINE, "EOL", 1⟩] ∧
    Parser.parse [⟨.INSTRUCTION, "av", 1⟩, ⟨.IDENTIFIER, "a", 1⟩, ⟨.COMMA, ",", 1⟩,
        ⟨.LITERAL, "5", 1⟩, ⟨.END_OF_LINE, "EOL", 1⟩]
      = .error (.exn "Line 1: Expected literal value or variable") := by
  decide

/-- C17 (amended): commas are significant to the parser, because no grammar
rule consumes a `COMMA` token: `Parser::parse` throws a `ParseError`, and yields
no instruction list, on every token sequence that holds a `COMMA` token whose
lexeme is not a mnemonic (the lexer gives every `COMMA` token the lexeme `,`);
in particular it does so when such a token is inserted between two adjacent
operand tokens of an instruction of a sequence that parses successfully. -/
theorem comma_rejected (pre post : List Token) (comma : Token) (hk : comma.type = .COMMA)
    (hv : comma.value ∉ knownMnemonics) :
    ∃ msg, Parser.parse (pre ++ comma :: post) = .error (.exn msg) := by
  have hne : pre ++ comma :: post ≠ [] := by simp
  exact Parser.parseLoop_comma hne comma hk hv _ _ (Nat.le_refl _) (by simp)

/-- C17 (witness): the lexer's comma token, inserted between the two operands
of the line `av a 5`. -/
theorem comma_rejected_witness :
    (⟨.COMMA, ",", 1⟩ : Token).type = .COMMA ∧
    (⟨.COMMA, ",", 1⟩ : Token).value ∉ knownMnemonics ∧
    ∃ msg, Parser.parse ([⟨.INSTRUCTION, "av", 1⟩, ⟨.IDENTIFIER, "a", 1⟩] ++
      (⟨.COMMA, ",", 1⟩ : Token) :: [⟨.LITERAL, "5", 1⟩, ⟨.END_OF_LINE, "EOL", 1⟩])
        = .error (.exn msg) :=
  ⟨rfl, by decide,
   comma_rejected [⟨.INSTRUCTION, "av", 1⟩, ⟨.IDENTIFIER, "a", 1⟩]
    [⟨.LITERAL, "5", 1⟩, ⟨.END_OF_LINE, "EOL", 1⟩] ⟨.COMMA, ",", 1⟩ rfl (by decide)⟩

/-! ## The second pass: assignments between variables, and `ikd` -/

theorem SemanticAnalyzer.getVariable_identifier {symbols : SymbolTable} {t : Token}
    (h : t.type = .IDENTIFIER) :
    SemanticAnalyzer.getVariable symbols t = symbols.getVariable t.value := by
  simp [SemanticAnalyzer.getVariable, h]

theorem SemanticAnalyzer.validateTypeMatch_ok (expected actual : Ty) :
    SemanticAnalyzer.validateTypeMatch expected actual = .ok () ↔ expected = actual := by
  unfold SemanticAnalyzer.validateTypeMatch
  by_cases h : expected = actual
  · simp [h]
  · simp only [ne_eq, h, not_false_eq_true, if_true, iff_false]
    cases typeToString expected <;> cases typeToString actual <;> simp

/-- The check that the second pass runs on an assignment node with two
identifier operands. -/
theorem SemanticAnalyzer.checkNode_assignment {stof : String → Option Nat}
    {symbols : SymbolTable} {node : InstructionNode} {a b : Token}
    (hm : node.instruction.value ∈ ["av", "aav", "sav", "mav", "dav", "moav"])
    (hops : node.operands = [a, b]) (ha : a.type = .IDENTIFIER) (hb : b.type = .IDENTIFIER) :
    SemanticAnalyzer.checkNode stof symbols node =
      match symbols.getVariable a.value with
      | .error e => .error e
      | .ok va =>
        match symbols.getVariable b.value with
        | .error e => .error e
        | .ok vb => SemanticAnalyzer.validateTypeMatch va.type vb.type := by
  simp only [List.mem_cons, List.mem_singleton, List.not_mem_nil, or_false] at hm
  rcases hm with hm | hm | hm | hm | hm | hm <;>
    · simp [SemanticAnalyzer.checkNode, hm, SemanticAnalyzer.validateArithmeticOp, hops,
        SemanticAnalyzer.getVariable, ha, hb]

/-- C21: for every `av`/`aav`/`sav`/`mav`/`dav`/`moav` node whose two operands
are both `IDENTIFIER` tokens, the check of the second pass succeeds if and only
if both names are declared variables and their declared types are identical. -/
theorem assignment_types_must_match (stof : String → Option Nat) (symbols : SymbolTable)
    (node : InstructionNode) (a b : Token)
    (hm : node.instruction.value ∈ ["av", "aav", "sav", "mav", "dav", "moav"])
    (hops : node.operands = [a, b]) (ha : a.type = .IDENTIFIER) (hb : b.type = .IDENTIFIER) :
    SemanticAnalyzer.checkNode stof symbols node = .ok () ↔
      ∃ va vb, symbols.getVariable a.value = .ok va ∧ symbols.getVariable b.value = .ok vb ∧
        va.type = vb.type := by
  rw [SemanticAnalyzer.checkNode_assignment hm hops ha hb]
  cases h1 : symbols.getVariable a.value with
  | error e => simp
  | ok va =>
    cases h2 : symbols.getVariable b.value with
    | error e => simp
    | ok vb => simp [SemanticAnalyzer.validateTypeMatch_ok]

/-- C21 (witness): with `x : i16`, `y : i16` and `z : ui16` declared, the check
of `sav x y` succeeds and the check of `sav x z` fails with a type mismatch. -/
theorem assignment_types_must_match_witness :
    (SemanticAnalyzer.checkNode stofNone
        ⟨[("z", ⟨.UI16, 2, 4⟩), ("y", ⟨.I16, 2, 2⟩), ("x", ⟨.I16, 2, 0⟩)], [], 6⟩
        ⟨⟨.INSTRUCTION, "sav", 4⟩, [⟨.IDENTIFIER, "x", 4⟩, ⟨.IDENTIFIER, "y", 4⟩]⟩ = .ok () ↔
      ∃ va vb,
        SymbolTable.getVariable
          ⟨[("z", ⟨.UI16, 2, 4⟩), ("y", ⟨.I16, 2, 2⟩), ("x", ⟨.I16, 2, 0⟩)], [], 6⟩
          (⟨.IDENTIFIER, "x", 4⟩ : Token).value = .ok va ∧
        SymbolTable.getVariable
          ⟨[("z", ⟨.UI16, 2, 4⟩), ("y", ⟨.I16, 2, 2⟩), ("x", ⟨.I16, 2, 0⟩)], [], 6⟩
          (⟨.IDENTIFIER, "y", 4⟩ : Token).value = .ok vb ∧
        va.type = vb.type) ∧
    SemanticAnalyzer.checkNode stofNone
        ⟨[("z", ⟨.UI16, 2, 4⟩), ("y", ⟨.I16, 2, 2⟩), ("x", ⟨.I16, 2, 0⟩)], [], 6⟩
        ⟨⟨.INSTRUCTION, "sav", 4⟩, [⟨.IDENTIFIER, "x", 4⟩, ⟨.IDENTIFIER, "y", 4⟩]⟩ = .ok () ∧
    SemanticAnalyzer.checkNode stofNone
        ⟨[("z", ⟨.UI16, 2, 4⟩), ("y", ⟨.I16, 2, 2⟩), ("x", ⟨.I16, 2, 0⟩)], [], 6⟩
        ⟨⟨.INSTRUCTION, "sav", 5⟩, [⟨.IDENTIFIER, "x", 5⟩, ⟨.IDENTIFIER, "z", 5⟩]⟩
      = .error (.exn "Type mismatch: expected i16, got ui16") :=
  ⟨assignment_types_must_match stofNone
      ⟨[("z", ⟨.UI16, 2, 4⟩), ("y", ⟨.I16, 2, 2⟩), ("x", ⟨.I16, 2, 0⟩)], [], 6⟩
      ⟨⟨.INSTRUCTION, "sav", 4⟩, [⟨.IDENTIFIER, "x", 4⟩, ⟨.IDENTIFIER, "y", 4⟩]⟩
      ⟨.IDENTIFIER, "x", 4⟩ ⟨.IDENTIFIER, "y", 4⟩ (by decide) rfl rfl rfl,
   by decide, by decide⟩

/-- C22: for every `ikd` node with two `IDENTIFIER` operands, the check of the
second pass succeeds if and only if the first operand names a declared variable,
of any type, and the second names a declared variable whose type is `UI8`. -/
theorem ikd_result_must_be_ui8 (stof : String → Option Nat) (symbols : SymbolTable)
    (node : InstructionNode) (key res : Token)
    (hm : node.instruction.value = "ikd") (hops : node.operands = [key, res])
    (hk : key.type = .IDENTIFIER) (hr : res.type = .IDENTIFIER) :
    SemanticAnalyzer.checkNode stof symbols node = .ok () ↔
      (∃ vk, symbols.getVariable key.value = .ok vk) ∧
      ∃ vr, symbols.getVariable res.value = .ok vr ∧ vr.type = .UI8 := by
  have hck : SemanticAnalyzer.checkNode stof symbols node
      = SemanticAnalyzer.checkIkd symbols node := by
    simp [SemanticAnalyzer.checkNode, hm]
  rw [hck]
  simp only [SemanticAnalyzer.checkIkd, hops, SemanticAnalyzer.getVariable_identifier hk,
    SemanticAnalyzer.getVariable_identifier hr]
  cases h1 : symbols.getVariable key.value with
  | error e => simp
  | ok vk =>
    cases h2 : symbols.getVariable res.value with
    | error e => simp
    | ok vr =>
      simp only [SemanticAnalyzer.validateTypeMatch_ok]
      constructor
      · intro h
        exact ⟨⟨vk, rfl⟩, vr, rfl, h.symm⟩
      · rintro ⟨_, vr1, h3, h4⟩
        injection h3 with h3
        rw [h3]
        exact h4.symm

/-- C22 (witness): with `k : i32` and `r : ui8` declared, the check of `ikd k r`
succeeds and the check of `ikd r k` fails with a type mismatch. -/
theorem ikd_result_must_be_ui8_witness :
    (SemanticAnalyzer.checkNode stofNone ⟨[("r", ⟨.UI8, 1, 4⟩), ("k", ⟨.I32, 4, 0⟩)], [], 5⟩
        ⟨⟨.INSTRUCTION, "ikd", 3⟩, [⟨.IDENTIFIER, "k", 3⟩, ⟨.IDENTIFIER, "r", 3⟩]⟩ = .ok () ↔
      (∃ vk, SymbolTable.getVariable ⟨[("r", ⟨.UI8, 1, 4⟩), ("k", ⟨.I32, 4, 0⟩)], [], 5⟩
        (⟨.IDENTIFIER, "k", 3⟩ : Token).value = .ok vk) ∧
      ∃ vr, SymbolTable.getVariable ⟨[("r", ⟨.UI8, 1, 4⟩), ("k", ⟨.I32, 4, 0⟩)], [], 5⟩
        (⟨.IDENTIFIER, "r", 3⟩ : Token).value = .ok vr ∧ vr.type = .UI8) ∧
    SemanticAnalyzer.checkNode stofNone ⟨[("r", ⟨.UI8, 1, 4⟩), ("k", ⟨.I32, 4, 0⟩)], [], 5⟩
        ⟨⟨.INSTRUCTION, "ikd", 3⟩, [⟨.IDENTIFIER, "k", 3⟩, ⟨.IDENTIFIER, "r", 3⟩]⟩ = .ok () ∧
    SemanticAnalyzer.checkNode stofNone ⟨[("r", ⟨.UI8, 1, 4⟩), ("k", ⟨.I32, 4, 0⟩)], [], 5⟩
        ⟨⟨.INSTRUCTION, "ikd", 4⟩, [⟨.IDENTIFIER, "r", 4⟩, ⟨.IDENTIFIER, "k", 4⟩]⟩
      = .error (.exn "Type mismatch: expected ui8, got i32") :=
  ⟨ikd_result_must_be_ui8 stofNone ⟨[("r", ⟨.UI8, 1, 4⟩), ("k", ⟨.I32, 4, 0⟩)], [], 5⟩
      ⟨⟨.INSTRUCTION, "ikd", 3⟩, [⟨.IDENTIFIER, "k", 3⟩, ⟨.IDENTIFIER, "r", 3⟩]⟩
      ⟨.IDENTIFIER, "k", 3⟩ ⟨.IDENTIFIER, "r", 3⟩ rfl rfl rfl rfl,
   by decide, by decide⟩

/-! ## Labels: resolution in the second pass -/

/-- Every label that the table had before the first pass, and every label that
a `dfp` node of the list defines, is in the table after the first pass. -/
theorem SemanticAnalyzer.firstPass_labels_defined :
    ∀ {ast : List InstructionNode} {s s1 : SymbolTable} {addr : Nat},
    SemanticAnalyzer.firstPass ast s addr = .ok s1 →
    ∀ L, ((s.labels.lookup L).isSome = true ∨ L ∈ ast.filterMap InstructionNode.definedLabel) →
      (s1.labels.lookup L).isSome = true := by
  intro ast
  induction ast with
  | nil =>
    intro s s1 addr h L hL
    simp only [SemanticAnalyzer.firstPass, Except.ok.injEq] at h
    subst h
    simpa using hL
  | cons node rest ih =>
    intro s s1 addr h L hL
    unfold SemanticAnalyzer.firstPass at h
    split at h
    · rename_i hcv
      have hnd : node.instruction.value ≠ "dfp" := by rw [hcv]; decide
      split at h
      · cases h
      · rename_i s2 h2
        obtain ⟨_, _, ty, _, hadd⟩ := SemanticAnalyzer.processCv_ok h2
        have hl := SymbolTable.addVariable_labels hadd
        apply ih h L
        rw [hl]
        simpa [List.filterMap_cons, InstructionNode.definedLabel_of_ne hnd] using hL
    · split at h
      · rename_i hdfp
        split at h
        · cases h
        · rename_i s2 h2
          obtain ⟨l, hops, hadd⟩ := SemanticAnalyzer.processDfp_ok h2
          obtain ⟨hnone, hl⟩ := SymbolTable.addLabel_ok hadd
          have hdef : node.definedLabel = some l.value := by
            simp [InstructionNode.definedLabel, hdfp, hops]
          apply ih h L
          rw [hl, List.lookup_cons]
          simp only [List.filterMap_cons, hdef, List.mem_cons] at hL
          by_cases hk : L = l.value
          · left
            have : (L == l.value) = true := by simpa using hk
            rw [this]
            rfl
          · have hb : (L == l.value) = false := by simpa using hk
            rw [hb]
            rcases hL with e | e | e
            · exact Or.inl e
            · exact absurd e hk
            · exact Or.inr e
      · rename_i hdfp
        apply ih h L
        simpa [List.filterMap_cons, InstructionNode.definedLabel_of_ne hdfp] using hL

/-- After a first pass from the empty table, the declared labels are exactly
the labels that the `dfp` nodes of the list define. -/
theorem SemanticAnalyzer.firstPass_label_iff {ast : List InstructionNode}
    {symbols : SymbolTable}
    (h : SemanticAnalyzer.firstPass ast SymbolTable.empty 0 = .ok symbols) (L : String) :
    (∃ addr, symbols.getLabelAddress L = .ok addr) ↔
      ∃ d ∈ ast, d.definedLabel = some L := by
  have hmem : L ∈ ast.filterMap InstructionNode.definedLabel ↔
      ∃ d ∈ ast, d.definedLabel = some L := by
    simp [List.mem_filterMap]
  rw [← hmem]
  unfold SymbolTable.getLabelAddress
  constructor
  · rintro ⟨addr, ha⟩
    have hs : (symbols.labels.lookup L).isSome = true := by
      cases hl : symbols.labels.lookup L with
      | none => rw [hl] at ha; cases ha
      | some a => rfl
    rcases (SemanticAnalyzer.firstPass_labels h).1 L hs with e | e
    · simp [SymbolTable.empty] at e
    · exact e
  · intro hL
    have := SemanticAnalyzer.firstPass_labels_defined h L (Or.inr hL)
    cases hl : symbols.labels.lookup L with
    | none => rw [hl] at this; cases this
    | some a => exact ⟨a, rfl⟩

theorem SymbolTable.getLabelAddress_undefined {symbols : SymbolTable} {L : String}
    (h : ¬ ∃ addr, symbols.getLabelAddress L = .ok addr) :
    symbols.getLabelAddress L = .error (.exn ("Undefined label \x27" ++ L ++ "\x27")) := by
  unfold SymbolTable.getLabelAddress at h ⊢
  cases hl : symbols.labels.lookup L with
  | none => rfl
  | some a => rw [hl] at h; exact absurd ⟨a, rfl⟩ h

/-- C23: label resolution is position-independent.  Given an instruction list
on which the first pass succeeds, the second-pass check of a `jmp L` node
succeeds if and only if the list contains a `dfp L` node, anywhere in the list,
and fails with `Undefined label 'L'` otherwise; the check of a conditional jump
`a b t f` succeeds if and only if `a` and `b` are identifiers that name declared
variables and the list contains a `dfp` node for `t` and one for `f`. -/
theorem label_resolution_position_independent (stof : String → Option Nat)
    (ast : List InstructionNode) (symbols : SymbolTable)
    (h : SemanticAnalyzer.firstPass ast SymbolTable.empty 0 = .ok symbols) :
    (∀ (j : InstructionNode) (l : Token), j.instruction.value = "jmp" → j.operands = [l] →
      (SemanticAnalyzer.checkNode stof symbols j = .ok () ↔
        ∃ pre d post, ast = pre ++ d :: post ∧ d.definedLabel = some l.value) ∧
      ((¬ ∃ d ∈ ast, d.definedLabel = some l.value) →
        SemanticAnalyzer.checkNode stof symbols j
          = .error (.exn ("Undefined label \x27" ++ l.value ++ "\x27")))) ∧
    (∀ (j : InstructionNode) (a b t f : Token),
      j.instruction.value ∈ ["cejmp", "cgjmp", "cljmp", "cegjmp", "celjmp"] →
      j.operands = [a, b, t, f] →
      (SemanticAnalyzer.checkNode stof symbols j = .ok () ↔
        (a.type = .IDENTIFIER ∧ ∃ va, symbols.getVariable a.value = .ok va) ∧
        (b.type = .IDENTIFIER ∧ ∃ vb, symbols.getVariable b.value = .ok vb) ∧
        (∃ pre d post, ast = pre ++ d :: post ∧ d.definedLabel = some t.value) ∧
        (∃ pre d post, ast = pre ++ d :: post ∧ d.definedLabel = some f.value)) ∧
      (a.type = .IDENTIFIER → (∃ va, symbols.getVariable a.value = .ok va) →
        b.type = .IDENTIFIER → (∃ vb, symbols.getVariable b.value = .ok vb) →
        ((¬ ∃ d ∈ ast, d.definedLabel = some t.value) →
          SemanticAnalyzer.checkNode stof symbols j
            = .error (.exn ("Undefined label \x27" ++ t.value ++ "\x27"))) ∧
        ((∃ d ∈ ast, d.definedLabel = some t.value) →
          (¬ ∃ d ∈ ast, d.definedLabel = some f.value) →
          SemanticAnalyzer.checkNode stof symbols j
            = .error (.exn ("Undefined label \x27" ++ f.value ++ "\x27"))))) := by
  have hsplit : ∀ L, (∃ pre d post, ast = pre ++ d :: post ∧ d.definedLabel = some L) ↔
      ∃ d ∈ ast, d.definedLabel = some L := by
    intro L
    constructor
    · rintro ⟨pre, d, post, rfl, hd⟩
      exact ⟨d, by simp, hd⟩
    · rintro ⟨d, hmem, hd⟩
      obtain ⟨pre, post, e⟩ := List.append_of_mem hmem
      exact ⟨pre, d, post, e, hd⟩
  have hiff := SemanticAnalyzer.firstPass_label_iff h
  constructor
  · intro j l hjm hops
    have hck : SemanticAnalyzer.checkNode stof symbols j
        = match symbols.getLabelAddress l.value with
          | .error e => .error e
          | .ok _ => .ok () := by
      simp [SemanticAnalyzer.checkNode, hjm, SemanticAnalyzer.checkJmp, hops]
    rw [hck, hsplit, ← hiff]
    constructor
    · cases hl : symbols.getLabelAddress l.value with
      | error e => simp
      | ok a => simp
    · intro hno
      rw [SymbolTable.getLabelAddress_undefined hno]
  · intro j a b t f hjm hops
    have hck : SemanticAnalyzer.checkNode stof symbols j
        = SemanticAnalyzer.validateConditionalJump symbols j := by
      simp only [List.mem_cons, List.mem_singleton, List.not_mem_nil, or_false] at hjm
      rcases hjm with e | e | e | e | e <;> simp [SemanticAnalyzer.checkNode, e]
    rw [hck, hsplit, hsplit, ← hiff, ← hiff]
    simp only [SemanticAnalyzer.validateConditionalJump, hops, SemanticAnalyzer.getVariable]
    constructor
    · by_cases ha : a.type = .IDENTIFIER
      · by_cases hb : b.type = .IDENTIFIER
        · cases h1 : symbols.getVariable a.value with
          | error e => simp [ha]
          | ok va =>
            cases h2 : symbols.getVariable b.value with
            | error e => simp [ha, hb]
            | ok vb =>
              cases h3 : symbols.getLabelAddress t.value with
              | error e => simp [ha, hb]
              | ok x =>
                cases h4 : symbols.getLabelAddress f.value with
                | error e => simp [ha, hb]
                | ok y => simp [ha, hb]
        · cases h1 : symbols.getVariable a.value <;> simp [ha, hb]
      · simp [ha]
    · rintro ha ⟨va, h1⟩ hb ⟨vb, h2⟩
      constructor
      · intro hno
        simp [ha, hb, h1, h2, SymbolTable.getLabelAddress_undefined hno]
      · rintro ⟨x, h3⟩ hno
        simp [ha, hb, h1, h2, h3, SymbolTable.getLabelAddress_undefined hno]

/-- C23 (witness): in the list `jmp end; nop; dfp end` the `dfp` follows the
jump; the check of `jmp end` succeeds and the check of `jmp nowhere` fails with
`Undefined label 'nowhere'`. -/
theorem label_resolution_position_independent_witness :
    SemanticAnalyzer.firstPass
        [⟨⟨.INSTRUCTION, "jmp", 1⟩, [⟨.IDENTIFIER, "end", 1⟩]⟩,
         ⟨⟨.INSTRUCTION, "nop", 2⟩, []⟩,
         ⟨⟨.INSTRUCTION, "dfp", 3⟩, [⟨.IDENTIFIER, "end", 3⟩]⟩]
        SymbolTable.empty 0 = .ok ⟨[], [("end", 2)], 0⟩ ∧
    (SemanticAnalyzer.checkNode stofNone ⟨[], [("end", 2)], 0⟩
        ⟨⟨.INSTRUCTION, "jmp", 1⟩, [⟨.IDENTIFIER, "end", 1⟩]⟩ = .ok () ↔
      ∃ pre d post,
        [(⟨⟨.INSTRUCTION, "jmp", 1⟩, [⟨.IDENTIFIER, "end", 1⟩]⟩ : InstructionNode),
         ⟨⟨.INSTRUCTION, "nop", 2⟩, []⟩,
         ⟨⟨.INSTRUCTION, "dfp", 3⟩, [⟨.IDENTIFIER, "end", 3⟩]⟩] = pre ++ d :: post ∧
        d.definedLabel = some (⟨.IDENTIFIER, "end", 1⟩ : Token).value) ∧
    SemanticAnalyzer.checkNode stofNone ⟨[], [("end", 2)], 0⟩
        ⟨⟨.INSTRUCTION, "jmp", 1⟩, [⟨.IDENTIFIER, "end", 1⟩]⟩ = .ok () ∧
    SemanticAnalyzer.checkNode stofNone ⟨[], [("end", 2)], 0⟩
        ⟨⟨.INSTRUCTION, "jmp", 4⟩, [⟨.IDENTIFIER, "nowhere", 4⟩]⟩
      = .error (.exn "Undefined label \x27nowhere\x27") :=
  ⟨by decide,
   ((label_resolution_position_independent stofNone
      [⟨⟨.INSTRUCTION, "jmp", 1⟩, [⟨.IDENTIFIER, "end", 1⟩]⟩,
       ⟨⟨.INSTRUCTION, "nop", 2⟩, []⟩,
       ⟨⟨.INSTRUCTION, "dfp", 3⟩, [⟨.IDENTIFIER, "end", 3⟩]⟩]
      ⟨[], [("end", 2)], 0⟩ (by decide)).1
      ⟨⟨.INSTRUCTION, "jmp", 1⟩, [⟨.IDENTIFIER, "end", 1⟩]⟩ ⟨.IDENTIFIER, "end", 1⟩ rfl rfl).1,
   by decide, by decide⟩

/-! ## The second pass: the message of a failed check -/

theorem Std.stoi_ne_ub (s : String) : Std.stoi s ≠ .error .ub := by
  unfold Std.stoi
  split <;> (try split) <;> (try split) <;> simp

theorem Std.stol_ne_ub (s : String) : Std.stol s ≠ .error .ub := by
  unfold Std.stol
  split <;> (try split) <;> simp

theorem Std.stoul_ne_ub (s : String) : Std.stoul s ≠ .error .ub := by
  unfold Std.stoul
  split <;> (try split) <;> simp

theorem SemanticAnalyzer.validateOperandCount_ne_ub (node : InstructionNode) (n : Nat) :
    SemanticAnalyzer.validateOperandCount node n ≠ .error .ub := by
  unfold SemanticAnalyzer.validateOperandCount
  split <;> simp

theorem SemanticAnalyzer.validateTypeMatch_ne_ub (a b : Ty) :
    SemanticAnalyzer.validateTypeMatch a b ≠ .error .ub := by
  cases a <;> cases b <;> decide

theorem SemanticAnalyzer.getVariable_ne_ub (symbols : SymbolTable) (t : Token) :
    SemanticAnalyzer.getVariable symbols t ≠ .error .ub := by
  unfold SemanticAnalyzer.getVariable SymbolTable.getVariable
  split
  · simp
  · split <;> simp

theorem SymbolTable.getLabelAddress_ne_ub (symbols : SymbolTable) (L : String) :
    symbols.getLabelAddress L ≠ .error .ub := by
  unfold SymbolTable.getLabelAddress
  split <;> simp

theorem SemanticAnalyzer.validateI8_ne_ub (s : String) :
    SemanticAnalyzer.validateI8 s ≠ .error .ub := by
  unfold SemanticAnalyzer.validateI8
  have := Std.stoi_ne_ub s
  split
  · rename_i e he; rw [he] at this; simpa using this
  · split <;> simp

theorem SemanticAnalyzer.validateI16_ne_ub (s : String) :
    SemanticAnalyzer.validateI16 s ≠ .error .ub := by
  unfold SemanticAnalyzer.validateI16
  have := Std.stoi_ne_ub s
  split
  · rename_i e he; rw [he] at this; simpa using this
  · split <;> simp

theorem SemanticAnalyzer.validateI32_ne_ub (s : String) :
    SemanticAnalyzer.validateI32 s ≠ .error .ub := by
  unfold SemanticAnalyzer.validateI32
  have := Std.stol_ne_ub s
  split
  · rename_i e he; rw [he] at this; simpa using this
  · split <;> simp

theorem SemanticAnalyzer.validateUI8_ne_ub (s : String) :
    SemanticAnalyzer.validateUI8 s ≠ .error .ub := by
  unfold SemanticAnalyzer.validateUI8
  have := Std.stoul_ne_ub s
  split
  · rename_i e he; rw [he] at this; simpa using this
  · split <;> simp

theorem SemanticAnalyzer.validateUI16_ne_ub (s : String) :
    SemanticAnalyzer.validateUI16 s ≠ .error .ub := by
  unfold SemanticAnalyzer.validateUI16
  have := Std.stoul_ne_ub s
  split
  · rename_i e he; rw [he] at this; simpa using this
  · split <;> simp

theorem SemanticAnalyzer.validateUI32_ne_ub (s : String) :
    SemanticAnalyzer.validateUI32 s ≠ .error .ub := by
  unfold SemanticAnalyzer.validateUI32
  have := Std.stoul_ne_ub s
  split
  · rename_i e he; rw [he] at this; simpa using this
  · split <;> simp

theorem SemanticAnalyzer.validateLiteral_ne_ub (stof : String → Option Nat) (s : String)
    (type : Ty) : SemanticAnalyzer.validateLiteral stof s type ≠ .error .ub := by
  have hsw : SemanticAnalyzer.validateLiteralSwitch stof s type ≠ .error .ub := by
    cases type <;> simp only [SemanticAnalyzer.validateLiteralSwitch]
    · simp
    · exact SemanticAnalyzer.validateI8_ne_ub s
    · exact SemanticAnalyzer.validateUI8_ne_ub s
    · exact SemanticAnalyzer.validateI16_ne_ub s
    · exact SemanticAnalyzer.validateUI16_ne_ub s
    · exact SemanticAnalyzer.validateI32_ne_ub s
    · exact SemanticAnalyzer.validateUI32_ne_ub s
    · unfold SemanticAnalyzer.validateF32
      split <;> simp
    · simp
  unfold SemanticAnalyzer.validateLiteral
  split
  · simp
  · rename_i he; exact absurd he hsw
  · cases type <;> simp [SemanticAnalyzer.typeToString]

theorem SemanticAnalyzer.validateArithmeticOp_ne_ub (stof : String → Option Nat)
    (symbols : SymbolTable) (node : InstructionNode) (op : String) :
    SemanticAnalyzer.validateArithmeticOp stof symbols node op ≠ .error .ub := by
  unfold SemanticAnalyzer.validateArithmeticOp
  split
  · rename_i target operand _
    have h1 := SemanticAnalyzer.getVariable_ne_ub symbols target
    split
    · rename_i e he; rw [he] at h1; simpa using h1
    · split
      · exact SemanticAnalyzer.validateLiteral_ne_ub _ _ _
      · split
        · have h2 := SemanticAnalyzer.getVariable_ne_ub symbols operand
          split
          · rename_i e he; rw [he] at h2; simpa using h2
          · exact SemanticAnalyzer.validateTypeMatch_ne_ub _ _
        · simp
  · exact SemanticAnalyzer.validateOperandCount_ne_ub _ _

theorem SemanticAnalyzer.validateIncDec_ne_ub (symbols : SymbolTable) (node : InstructionNode) :
    SemanticAnalyzer.validateIncDec symbols node ≠ .error .ub := by
  unfold SemanticAnalyzer.validateIncDec
  split
  · rename_i target _
    have h1 := SemanticAnalyzer.getVariable_ne_ub symbols target
    split
    · rename_i e he; rw [he] at h1; simpa using h1
    · simp
  · exact SemanticAnalyzer.validateOperandCount_ne_ub _ _

theorem SemanticAnalyzer.validatePrintLoop_ne_ub (symbols : SymbolTable) :
    ∀ ops : List Token, SemanticAnalyzer.validatePrintLoop symbols ops ≠ .error .ub := by
  intro ops
  induction ops with
  | nil => simp [SemanticAnalyzer.validatePrintLoop]
  | cons t ts ih =>
    unfold SemanticAnalyzer.validatePrintLoop
    split
    · simp
    · split
      · have h1 := SemanticAnalyzer.getVariable_ne_ub symbols t
        split
        · rename_i e he; rw [he] at h1; simpa using h1
        · exact ih
      · exact ih

theorem SemanticAnalyzer.validateKeyOp_ne_ub (symbols : SymbolTable) (node : InstructionNode) :
    SemanticAnalyzer.validateKeyOp symbols node ≠ .error .ub := by
  unfold SemanticAnalyzer.validateKeyOp
  split
  · rename_i operand _
    split
    · exact SemanticAnalyzer.validateUI8_ne_ub _
    · split
      · have h1 := SemanticAnalyzer.getVariable_ne_ub symbols operand
        split
        · rename_i e he; rw [he] at h1; simpa using h1
        · exact SemanticAnalyzer.validateTypeMatch_ne_ub _ _
      · simp
  · exact SemanticAnalyzer.validateOperandCount_ne_ub _ _

theorem SemanticAnalyzer.checkIkd_ne_ub (symbols : SymbolTable) (node : InstructionNode) :
    SemanticAnalyzer.checkIkd symbols node ≠ .error .ub := by
  unfold SemanticAnalyzer.checkIkd
  split
  · rename_i key res _
    have h1 := SemanticAnalyzer.getVariable_ne_ub symbols key
    have h2 := SemanticAnalyzer.getVariable_ne_ub symbols res
    split
    · rename_i e he; rw [he] at h1; simpa using h1
    · split
      · rename_i e he; rw [he] at h2; simpa using h2
      · exact SemanticAnalyzer.validateTypeMatch_ne_ub _ _
  · exact SemanticAnalyzer.validateOperandCount_ne_ub _ _

theorem SemanticAnalyzer.checkMvmLoop_ne_ub (symbols : SymbolTable) :
    ∀ ops : List Token, SemanticAnalyzer.checkMvmLoop symbols ops ≠ .error .ub := by
  intro ops
  induction ops with
  | nil => simp [SemanticAnalyzer.checkMvmLoop]
  | cons t ts ih =>
    unfold SemanticAnalyzer.checkMvmLoop
    split
    · have h1 := SemanticAnalyzer.validateI32_ne_ub t.value
      split
      · rename_i e he; rw [he] at h1; simpa using h1
      · exact ih
    · split
      · have h1 := SemanticAnalyzer.getVariable_ne_ub symbols t
        split
        · rename_i e he; rw [he] at h1; simpa using h1
        · rename_i var _
          have h2 := SemanticAnalyzer.validateTypeMatch_ne_ub .I32 var.type
          split
          · rename_i e he; rw [he] at h2; simpa using h2
          · exact ih
      · simp

theorem SemanticAnalyzer.checkMvm_ne_ub (symbols : SymbolTable) (node : InstructionNode) :
    SemanticAnalyzer.checkMvm symbols node ≠ .error .ub := by
  unfold SemanticAnalyzer.checkMvm
  have h1 := SemanticAnalyzer.validateOperandCount_ne_ub node 2
  split
  · rename_i e he; rw [he] at h1; simpa using h1
  · exact SemanticAnalyzer.checkMvmLoop_ne_ub _ _

theorem SemanticAnalyzer.checkJmp_ne_ub (symbols : SymbolTable) (node : InstructionNode) :
    SemanticAnalyzer.checkJmp symbols node ≠ .error .ub := by
  unfold SemanticAnalyzer.checkJmp
  split
  · rename_i label _
    have h1 := SymbolTable.getLabelAddress_ne_ub symbols label.value
    split
    · rename_i e he; rw [he] at h1; simpa using h1
    · simp
  · exact SemanticAnalyzer.validateOperandCount_ne_ub _ _

theorem SemanticAnalyzer.validateConditionalJump_ne_ub (symbols : SymbolTable)
    (node : InstructionNode) :
    SemanticAnalyzer.validateConditionalJump symbols node ≠ .error .ub := by
  unfold SemanticAnalyzer.validateConditionalJump
  split
  · rename_i a b t f _
    have h1 := SemanticAnalyzer.getVariable_ne_ub symbols a
    have h2 := SemanticAnalyzer.getVariable_ne_ub symbols b
    have h3 := SymbolTable.getLabelAddress_ne_ub symbols t.value
    have h4 := SymbolTable.getLabelAddress_ne_ub symbols f.value
    split
    · rename_i e he; rw [he] at h1; simpa using h1
    · split
      · rename_i e he; rw [he] at h2; simpa using h2
      · split
        · rename_i e he; rw [he] at h3; simpa using h3
        · split
          · rename_i e he; rw [he] at h4; simpa using h4
          · simp
  · exact SemanticAnalyzer.validateOperandCount_ne_ub _ _

theorem SemanticAnalyzer.checkDl_ne_ub (symbols : SymbolTable) (node : InstructionNode) :
    SemanticAnalyzer.checkDl symbols node ≠ .error .ub := by
  unfold SemanticAnalyzer.checkDl
  split
  · rename_i operand _
    split
    · exact SemanticAnalyzer.validateUI32_ne_ub _
    · split
      · have h1 := SemanticAnalyzer.getVariable_ne_ub symbols operand
        split
        · rename_i e he; rw [he] at h1; simpa using h1
        · exact SemanticAnalyzer.validateTypeMatch_ne_ub _ _
      · simp
  · exact SemanticAnalyzer.validateOperandCount_ne_ub _ _

/-- No check of the second pass reads an operand out of bounds: a check that
fails throws an exception. -/
theorem SemanticAnalyzer.checkNode_ne_ub (stof : String → Option Nat) (symbols : SymbolTable)
    (node : InstructionNode) : SemanticAnalyzer.checkNode stof symbols node ≠ .error .ub := by
  unfold SemanticAnalyzer.checkNode
  simp only
  by_cases c0 : node.instruction.value = "av"
  · rw [if_pos c0]; exact SemanticAnalyzer.validateArithmeticOp_ne_ub _ _ _ _
  rw [if_neg c0]
  by_cases c1 : node.instruction.value = "aav"
  · rw [if_pos c1]; exact SemanticAnalyzer.validateArithmeticOp_ne_ub _ _ _ _
  rw [if_neg c1]
  by_cases c2 : node.instruction.value = "sav"
  · rw [if_pos c2]; exact SemanticAnalyzer.validateArithmeticOp_ne_ub _ _ _ _
  rw [if_neg c2]
  by_cases c3 : node.instruction.value = "mav"
  · rw [if_pos c3]; exact SemanticAnalyzer.validateArithmeticOp_ne_ub _ _ _ _
  rw [if_neg c3]
  by_cases c4 : node.instruction.value = "dav"
  · rw [if_pos c4]; exact SemanticAnalyzer.validateArithmeticOp_ne_ub _ _ _ _
  rw [if_neg c4]
  by_cases c5 : node.instruction.value = "moav"
  · rw [if_pos c5]; exact SemanticAnalyzer.validateArithmeticOp_ne_ub _ _ _ _
  rw [if_neg c5]
  by_cases c6 : node.instruction.value = "inc"
  · rw [if_pos c6]; exact SemanticAnalyzer.validateIncDec_ne_ub _ _
  rw [if_neg c6]
  by_cases c7 : node.instruction.value = "dec"
  · rw [if_pos c7]; exact SemanticAnalyzer.validateIncDec_ne_ub _ _
  rw [if_neg c7]
  by_cases c8 : node.instruction.value = "p"
  · rw [if_pos c8]; exact SemanticAnalyzer.validatePrintLoop_ne_ub _ _
  rw [if_neg c8]
  by_cases c9 : node.instruction.value = "pl"
  · rw [if_pos c9]; exact SemanticAnalyzer.validatePrintLoop_ne_ub _ _
  rw [if_neg c9]
  by_cases c10 : node.instruction.value = "pk"
  · rw [if_pos c10]; exact SemanticAnalyzer.validateKeyOp_ne_ub _ _
  rw [if_neg c10]
  by_cases c11 : node.instruction.value = "rk"
  · rw [if_pos c11]; exact SemanticAnalyzer.validateKeyOp_ne_ub _ _
  rw [if_neg c11]
  by_cases c12 : node.instruction.value = "ikd"
  · rw [if_pos c12]; exact SemanticAnalyzer.checkIkd_ne_ub _ _
  rw [if_neg c12]
  by_cases c13 : node.instruction.value = "mvm"
  · rw [if_pos c13]; exact SemanticAnalyzer.checkMvm_ne_ub _ _
  rw [if_neg c13]
  by_cases c14 : node.instruction.value = "jmp"
  · rw [if_pos c14]; exact SemanticAnalyzer.checkJmp_ne_ub _ _
  rw [if_neg c14]
  by_cases c15 : node.instruction.value = "cejmp"
  · rw [if_pos c15]; exact SemanticAnalyzer.validateConditionalJump_ne_ub _ _
  rw [if_neg c15]
  by_cases c16 : node.instruction.value = "cgjmp"
  · rw [if_pos c16]; exact SemanticAnalyzer.validateConditionalJump_ne_ub _ _
  rw [if_neg c16]
  by_cases c17 : node.instruction.value = "cljmp"
  · rw [if_pos c17]; exact SemanticAnalyzer.validateConditionalJump_ne_ub _ _
  rw [if_neg c17]
  by_cases c18 : node.instruction.value = "cegjmp"
  · rw [if_pos c18]; exact SemanticAnalyzer.validateConditionalJump_ne_ub _ _
  rw [if_neg c18]
  by_cases c19 : node.instruction.value = "celjmp"
  · rw [if_pos c19]; exact SemanticAnalyzer.validateConditionalJump_ne_ub _ _
  rw [if_neg c19]
  by_cases c20 : node.instruction.value = "dl"
  · rw [if_pos c20]; exact SemanticAnalyzer.checkDl_ne_ub _ _
  rw [if_neg c20]
  simp

theorem SemanticAnalyzer.secondPass_first_failure {stof : String → Option Nat}
    {symbols : SymbolTable} {node : InstructionNode} (post : List InstructionNode) {d : String}
    (hn : SemanticAnalyzer.checkNode stof symbols node = .error (.exn d)) :
    ∀ pre : List InstructionNode,
      (∀ n ∈ pre, SemanticAnalyzer.checkNode stof symbols n = .ok ()) →
      SemanticAnalyzer.secondPass stof symbols (pre ++ node :: post)
        = .error (.exn ("At instruction " ++ node.instruction.value ++ " (line " ++
            toString node.instruction.line ++ "): " ++ d)) := by
  intro pre
  induction pre with
  | nil =>
    intro _
    simp [SemanticAnalyzer.secondPass, hn]
  | cons n rest ih =>
    intro hpre
    have h1 := hpre n (List.mem_cons_self _ _)
    simp only [List.cons_append, SemanticAnalyzer.secondPass, h1]
    exact ih (fun m hm => hpre m (List.mem_cons_of_mem _ hm))

theorem SemanticAnalyzer.first_failing_node {stof : String → Option Nat}
    {symbols : SymbolTable} :
    ∀ ast : List InstructionNode,
      (∃ n ∈ ast, SemanticAnalyzer.checkNode stof symbols n ≠ .ok ()) →
      ∃ pre node post d, ast = pre ++ node :: post ∧
        (∀ n ∈ pre, SemanticAnalyzer.checkNode stof symbols n = .ok ()) ∧
        SemanticAnalyzer.checkNode stof symbols node = .error (.exn d) := by
  intro ast
  induction ast with
  | nil => rintro ⟨n, hn, _⟩; cases hn
  | cons a rest ih =>
    rintro ⟨n, hn, hne⟩
    cases hc : SemanticAnalyzer.checkNode stof symbols a with
    | error e =>
      cases e with
      | ub => exact absurd hc (SemanticAnalyzer.checkNode_ne_ub stof symbols a)
      | exn d => exact ⟨[], a, rest, d, rfl, (fun _ h => by cases h), hc⟩
    | ok u =>
      have hn2 : n ∈ rest := by
        rcases List.mem_cons.mp hn with e | e
        · rw [e, hc] at hne; exact absurd rfl hne
        · exact e
      obtain ⟨pre, node, post, d, h1, h2, h3⟩ := ih ⟨n, hn2, hne⟩
      refine ⟨a :: pre, node, post, d, by rw [h1]; rfl, ?_, h3⟩
      intro m hm
      rcases List.mem_cons.mp hm with e | e
      · rw [e]; exact hc
      · exact h2 m e

/-- C24: after a first pass that succeeds, whenever the second-pass check of a
node fails with the detail message `d` and the checks of all nodes before it
succeed, `SemanticAnalyzer::analyze` fails with the message exactly
`At instruction <mnemonic> (line N): d`, where `<mnemonic>` is the lexeme and
`N` the line of the mnemonic token of that node; and whenever the check of some
node fails, there is such a first failing node, and its check fails with a
thrown exception. -/
theorem second_pass_error_wrapping (stof : String → Option Nat) (s0 symbols : SymbolTable)
    (ast : List InstructionNode)
    (h : SemanticAnalyzer.firstPass ast s0 0 = .ok symbols) :
    (∀ (pre : List InstructionNode) (node : InstructionNode) (post : List InstructionNode)
        (d : String),
      ast = pre ++ node :: post →
      (∀ n ∈ pre, SemanticAnalyzer.checkNode stof symbols n = .ok ()) →
      SemanticAnalyzer.checkNode stof symbols node = .error (.exn d) →
      SemanticAnalyzer.analyze stof s0 ast
        = .error (.exn ("At instruction " ++ node.instruction.value ++ " (line " ++
            toString node.instruction.line ++ "): " ++ d))) ∧
    ((∃ n ∈ ast, SemanticAnalyzer.checkNode stof symbols n ≠ .ok ()) →
      ∃ pre node post d, ast = pre ++ node :: post ∧
        (∀ n ∈ pre, SemanticAnalyzer.checkNode stof symbols n = .ok ()) ∧
        SemanticAnalyzer.checkNode stof symbols node = .error (.exn d)) := by
  refine ⟨?_, SemanticAnalyzer.first_failing_node ast⟩
  intro pre node post d hast hpre hn
  have hsp := SemanticAnalyzer.secondPass_first_failure post hn pre hpre
  rw [← hast] at hsp
  simp only [SemanticAnalyzer.analyze, h, hsp]

/-- C24 (witness): in `cv a ui8; inc a; inc b; inc c` the checks of `inc b` and
`inc c` both fail; the message of `analyze` is that of `inc b`, on line 3. -/
theorem second_pass_error_wrapping_witness :
    SemanticAnalyzer.firstPass
        [⟨⟨.INSTRUCTION, "cv", 1⟩, [⟨.IDENTIFIER, "a", 1⟩, ⟨.TYPE, "ui8", 1⟩]⟩,
         ⟨⟨.INSTRUCTION, "inc", 2⟩, [⟨.IDENTIFIER, "a", 2⟩]⟩,
         ⟨⟨.INSTRUCTION, "inc", 3⟩, [⟨.IDENTIFIER, "b", 3⟩]⟩,
         ⟨⟨.INSTRUCTION, "inc", 4⟩, [⟨.IDENTIFIER, "c", 4⟩]⟩]
        SymbolTable.empty 0 = .ok ⟨[("a", ⟨.UI8, 1, 0⟩)], [], 1⟩ ∧
    SemanticAnalyzer.checkNode stofNone ⟨[("a", ⟨.UI8, 1, 0⟩)], [], 1⟩
        ⟨⟨.INSTRUCTION, "inc", 3⟩, [⟨.IDENTIFIER, "b", 3⟩]⟩
      = .error (.exn "Undefined variable \x27b\x27") ∧
    SemanticAnalyzer.checkNode stofNone ⟨[("a", ⟨.UI8, 1, 0⟩)], [], 1⟩
        ⟨⟨.INSTRUCTION, "inc", 4⟩, [⟨.IDENTIFIER, "c", 4⟩]⟩
      = .error (.exn "Undefined variable \x27c\x27") ∧
    SemanticAnalyzer.analyze stofNone SymbolTable.empty
        [⟨⟨.INSTRUCTION, "cv", 1⟩, [⟨.IDENTIFIER, "a", 1⟩, ⟨.TYPE, "ui8", 1⟩]⟩,
         ⟨⟨.INSTRUCTION, "inc", 2⟩, [⟨.IDENTIFIER, "a", 2⟩]⟩,
         ⟨⟨.INSTRUCTION, "inc", 3⟩, [⟨.IDENTIFIER, "b", 3⟩]⟩,
         ⟨⟨.INSTRUCTION, "inc", 4⟩, [⟨.IDENTIFIER, "c", 4⟩]⟩]
      = .error (.exn ("At instruction " ++
          (⟨⟨.INSTRUCTION, "inc", 3⟩, [⟨.IDENTIFIER, "b", 3⟩]⟩ : InstructionNode).instruction.value
          ++ " (line " ++ toString
          (⟨⟨.INSTRUCTION, "inc", 3⟩, [⟨.IDENTIFIER, "b", 3⟩]⟩ : InstructionNode).instruction.line
          ++ "): " ++ "Undefined variable \x27b\x27")) ∧
    ("At instruction " ++
        (⟨⟨.INSTRUCTION, "inc", 3⟩, [⟨.IDENTIFIER, "b", 3⟩]⟩ : InstructionNode).instruction.value
        ++ " (line " ++ toString
        (⟨⟨.INSTRUCTION, "inc", 3⟩, [⟨.IDENTIFIER, "b", 3⟩]⟩ : InstructionNode).instruction.line
        ++ "): " ++ "Undefined variable \x27b\x27")
      = "At instruction inc (line 3): Undefined variable \x27b\x27" :=
  ⟨by decide, by decide, by decide,
   (second_pass_error_wrapping stofNone SymbolTable.empty ⟨[("a", ⟨.UI8, 1, 0⟩)], [], 1⟩
      [⟨⟨.INSTRUCTION, "cv", 1⟩, [⟨.IDENTIFIER, "a", 1⟩, ⟨.TYPE, "ui8", 1⟩]⟩,
       ⟨⟨.INSTRUCTION, "inc", 2⟩, [⟨.IDENTIFIER, "a", 2⟩]⟩,
       ⟨⟨.INSTRUCTION, "inc", 3⟩, [⟨.IDENTIFIER, "b", 3⟩]⟩,
       ⟨⟨.INSTRUCTION, "inc", 4⟩, [⟨.IDENTIFIER, "c", 4⟩]⟩] (by decide)).1
      [⟨⟨.INSTRUCTION, "cv", 1⟩, [⟨.IDENTIFIER, "a", 1⟩, ⟨.TYPE, "ui8", 1⟩]⟩,
       ⟨⟨.INSTRUCTION, "inc", 2⟩, [⟨.IDENTIFIER, "a", 2⟩]⟩]
      ⟨⟨.INSTRUCTION, "inc", 3⟩, [⟨.IDENTIFIER, "b", 3⟩]⟩
      [⟨⟨.INSTRUCTION, "inc", 4⟩, [⟨.IDENTIFIER, "c", 4⟩]⟩]
      "Undefined variable \x27b\x27" rfl (by decide) (by decide),
   by decide⟩

/-! ## The symbol table: declarations -/

/-- The transition `addVariableRun` and the result `addVariable` describe the
same call: the call returns exactly when no exception is recorded, and the table
it returns is the table after the call. -/
theorem SymbolTable.addVariable_eq_run (t : SymbolTable) (name : String) (type : Ty) :
    t.addVariable name type =
      match (t.addVariableRun name type).2 with
      | none => .ok (t.addVariableRun name type).1
      | some e => .error e := by
  unfold SymbolTable.addVariable SymbolTable.addVariableRun
  cases h : t.vars.lookup name <;> simp

theorem SymbolTable.addLabel_eq_run (t : SymbolTable) (name : String) (address : Nat) :
    t.addLabel name address =
      match (t.addLabelRun name address).2 with
      | none => .ok (t.addLabelRun name address).1
      | some e => .error e := by
  unfold SymbolTable.addLabel SymbolTable.addLabelRun
  cases h : t.labels.lookup name <;> simp

theorem SymbolTable.lookup_cons_ne {α : Type} {name n : String} {v : α}
    {l : List (String × α)} (h : n ≠ name) :
    List.lookup n ((name, v) :: l) = List.lookup n l := by
  rw [List.lookup_cons]
  have : (n == name) = false := by simpa using h
  rw [this]

/-- C26: `addVariable(name, _)` throws if and only if `name` is already a
declared variable, and `addLabel(name, _)` throws if and only if `name` is
already a declared label; after a call that throws the table is the table
before the call; after a call of `addVariable` that returns, the record of
`name` holds the given type, the size of that type and, as offset, the previous
total, the total is larger by the size, and the records of all other names and
all labels are as before; after a call of `addLabel` that returns, the address of `name` is
the given address and the addresses of all other labels are as before. -/
theorem once_only_declaration (t : SymbolTable) (name : String) (type : Ty) (address : Nat) :
    (((t.addVariableRun name type).2.isSome = true ↔ t.isVariable name = true) ∧
      ((∃ e, t.addVariable name type = .error e) ↔ t.isVariable name = true) ∧
      (t.isVariable name = true → (t.addVariableRun name type).1 = t) ∧
      (t.isVariable name = false →
        t.addVariable name type = .ok (t.addVariableRun name type).1 ∧
        (t.addVariableRun name type).1.getVariable name
          = .ok ⟨type, SymbolTable.getTypeSize type, t.getTotalMemorySize⟩ ∧
        (t.addVariableRun name type).1.getTotalMemorySize
          = t.getTotalMemorySize + SymbolTable.getTypeSize type ∧
        (∀ n, n ≠ name → (t.addVariableRun name type).1.getVariable n = t.getVariable n) ∧
        (t.addVariableRun name type).1.labels = t.labels)) ∧
    (((t.addLabelRun name address).2.isSome = true ↔
        ∃ a, t.getLabelAddress name = .ok a) ∧
      ((∃ e, t.addLabel name address = .error e) ↔ ∃ a, t.getLabelAddress name = .ok a) ∧
      ((∃ a, t.getLabelAddress name = .ok a) → (t.addLabelRun name address).1 = t) ∧
      ((¬ ∃ a, t.getLabelAddress name = .ok a) →
        t.addLabel name address = .ok (t.addLabelRun name address).1 ∧
        (t.addLabelRun name address).1.getLabelAddress name = .ok address ∧
        (∀ n, n ≠ name →
          (t.addLabelRun name address).1.getLabelAddress n = t.getLabelAddress n) ∧
        (t.addLabelRun name address).1.vars = t.vars ∧
        (t.addLabelRun name address).1.currentOffset = t.currentOffset)) := by
  have hv : t.isVariable name = (t.vars.lookup name).isSome := rfl
  have hl : (∃ a, t.getLabelAddress name = .ok a) ↔ (t.labels.lookup name).isSome = true := by
    unfold SymbolTable.getLabelAddress
    cases t.labels.lookup name <;> simp
  refine ⟨⟨?_, ?_, ?_, ?_⟩, ⟨?_, ?_, ?_, ?_⟩⟩
  · rw [hv]
    unfold SymbolTable.addVariableRun
    cases t.vars.lookup name <;> simp
  · rw [hv, SymbolTable.addVariable_eq_run]
    unfold SymbolTable.addVariableRun
    cases t.vars.lookup name <;> simp
  · rw [hv]
    unfold SymbolTable.addVariableRun
    cases t.vars.lookup name <;> simp
  · rw [hv, SymbolTable.addVariable_eq_run]
    unfold SymbolTable.addVariableRun SymbolTable.getTotalMemorySize
    cases h : t.vars.lookup name with
    | some v => simp
    | none =>
      intro _
      simp only [Option.isSome_none, Bool.false_eq_true, if_false]
      refine ⟨trivial, ?_, trivial, ?_, trivial⟩
      · simp [SymbolTable.getVariable]
      · intro n hn
        simp [SymbolTable.getVariable, SymbolTable.lookup_cons_ne hn]
  · rw [hl]
    unfold SymbolTable.addLabelRun
    cases t.labels.lookup name <;> simp
  · rw [hl, SymbolTable.addLabel_eq_run]
    unfold SymbolTable.addLabelRun
    cases t.labels.lookup name <;> simp
  · rw [hl]
    unfold SymbolTable.addLabelRun
    cases t.labels.lookup name <;> simp
  · rw [hl, SymbolTable.addLabel_eq_run]
    unfold SymbolTable.addLabelRun
    cases h : t.labels.lookup name with
    | some v => simp
    | none =>
      intro _
      simp only [Option.isSome_none, Bool.false_eq_true, if_false]
      refine ⟨trivial, ?_, ?_, trivial, trivial⟩
      · simp [SymbolTable.getLabelAddress]
      · intro n hn
        simp [SymbolTable.getLabelAddress, SymbolTable.lookup_cons_ne hn]

/-- C26 (witness): in a table that holds the variable `x` and the label `l`,
declaring `x` or `l` again throws and leaves the table as it was, and declaring
the variable `y : i16` records it at offset 1 and raises the total to 3. -/
theorem once_only_declaration_witness :
    (SymbolTable.addVariableRun ⟨[("x", ⟨.UI8, 1, 0⟩)], [("l", 7)], 1⟩ "x" .I32).1
      = ⟨[("x", ⟨.UI8, 1, 0⟩)], [("l", 7)], 1⟩ ∧
    (SymbolTable.addLabelRun ⟨[("x", ⟨.UI8, 1, 0⟩)], [("l", 7)], 1⟩ "l" 9).1
      = ⟨[("x", ⟨.UI8, 1, 0⟩)], [("l", 7)], 1⟩ ∧
    SymbolTable.addVariable ⟨[("x", ⟨.UI8, 1, 0⟩)], [("l", 7)], 1⟩ "x" .I32
      = .error (.exn "Redeclaration of variable \x27x\x27") ∧
    SymbolTable.addLabel ⟨[("x", ⟨.UI8, 1, 0⟩)], [("l", 7)], 1⟩ "l" 9
      = .error (.exn "Redeclaration of label \x27l\x27") ∧
    SymbolTable.addVariable ⟨[("x", ⟨.UI8, 1, 0⟩)], [("l", 7)], 1⟩ "y" .I16
      = .ok ⟨[("y", ⟨.I16, 2, 1⟩), ("x", ⟨.UI8, 1, 0⟩)], [("l", 7)], 3⟩ :=
  ⟨(once_only_declaration ⟨[("x", ⟨.UI8, 1, 0⟩)], [("l", 7)], 1⟩ "x" .I32 0).1.2.2.1
      (by decide),
   (once_only_declaration ⟨[("x", ⟨.UI8, 1, 0⟩)], [("l", 7)], 1⟩ "l" .I32 9).2.2.2.1
      ⟨7, by decide⟩,
   by decide, by decide, by decide⟩

/-- C27: the variables and the labels are separate namespaces.  A call of
`addLabel`, whether it returns or throws, changes the result of `getVariable`
and of `isVariable` for no name and leaves `getTotalMemorySize` as it was; a
call of `addVariable`, whether it returns or throws, changes the result of
`getLabelAddress` for no name; a name that is a declared variable and not yet a
label can be declared as a label without error, and a name that is a declared
label and not yet a variable can be declared as a variable without error, and
is then both. -/
theorem namespaces_are_separate (t : SymbolTable) (name : String) (type : Ty) (address : Nat) :
    (∀ n, (t.addLabelRun name address).1.getVariable n = t.getVariable n ∧
      (t.addLabelRun name address).1.isVariable n = t.isVariable n) ∧
    (t.addLabelRun name address).1.getTotalMemorySize = t.getTotalMemorySize ∧
    (∀ n, (t.addVariableRun name type).1.getLabelAddress n = t.getLabelAddress n) ∧
    (t.isVariable name = true → (¬ ∃ a, t.getLabelAddress name = .ok a) →
      ∃ t1, t.addLabel name address = .ok t1 ∧ t1.isVariable name = true ∧
        t1.getVariable name = t.getVariable name ∧ t1.getLabelAddress name = .ok address) ∧
    ((∃ a, t.getLabelAddress name = .ok a) → t.isVariable name = false →
      ∃ t1, t.addVariable name type = .ok t1 ∧ t1.isVariable name = true ∧
        t1.getLabelAddress name = t.getLabelAddress name) := by
  have hl : (∃ a, t.getLabelAddress name = .ok a) ↔ (t.labels.lookup name).isSome = true := by
    unfold SymbolTable.getLabelAddress
    cases t.labels.lookup name <;> simp
  refine ⟨?_, ?_, ?_, ?_, ?_⟩
  · intro n
    unfold SymbolTable.addLabelRun
    cases t.labels.lookup name <;> simp [SymbolTable.getVariable, SymbolTable.isVariable]
  · unfold SymbolTable.addLabelRun
    cases t.labels.lookup name <;> simp [SymbolTable.getTotalMemorySize]
  · intro n
    unfold SymbolTable.addVariableRun
    cases t.vars.lookup name <;> simp [SymbolTable.getLabelAddress]
  · intro hv hno
    rw [hl] at hno
    have hnone : t.labels.lookup name = none := by
      cases h : t.labels.lookup name with
      | none => rfl
      | some a => rw [h] at hno; simp at hno
    refine ⟨⟨t.vars, (name, address) :: t.labels, t.currentOffset⟩, ?_, hv, rfl, ?_⟩
    · simp [SymbolTable.addLabel, hnone]
    · simp [SymbolTable.getLabelAddress]
  · intro _ hv
    have hnone : t.vars.lookup name = none := by
      unfold SymbolTable.isVariable at hv
      cases h : t.vars.lookup name with
      | none => rfl
      | some a => rw [h] at hv; simp at hv
    refine ⟨⟨(name, ⟨type, SymbolTable.getTypeSize type, t.currentOffset⟩) :: t.vars,
      t.labels, t.currentOffset + SymbolTable.getTypeSize type⟩, ?_, ?_, rfl⟩
    · simp [SymbolTable.addVariable, hnone]
    · simp [SymbolTable.isVariable]

/-- C27 (witness): in a table where `x` is a variable, `x` is declared as a
label without error; in a table where `l` is a label, `l` is declared as a
variable without error. -/
theorem namespaces_are_separate_witness :
    (∃ t1, SymbolTable.addLabel ⟨[("x", ⟨.UI8, 1, 0⟩)], [("l", 7)], 1⟩ "x" 3 = .ok t1 ∧
      t1.isVariable "x" = true ∧
      t1.getVariable "x"
        = SymbolTable.getVariable ⟨[("x", ⟨.UI8, 1, 0⟩)], [("l", 7)], 1⟩ "x" ∧
      t1.getLabelAddress "x" = .ok 3) ∧
    (∃ t1, SymbolTable.addVariable ⟨[("x", ⟨.UI8, 1, 0⟩)], [("l", 7)], 1⟩ "l" .I16 = .ok t1 ∧
      t1.isVariable "l" = true ∧
      t1.getLabelAddress "l"
        = SymbolTable.getLabelAddress ⟨[("x", ⟨.UI8, 1, 0⟩)], [("l", 7)], 1⟩ "l") ∧
    SymbolTable.addLabel ⟨[("x", ⟨.UI8, 1, 0⟩)], [("l", 7)], 1⟩ "x" 3
      = .ok ⟨[("x", ⟨.UI8, 1, 0⟩)], [("x", 3), ("l", 7)], 1⟩ :=
  ⟨(namespaces_are_separate ⟨[("x", ⟨.UI8, 1, 0⟩)], [("l", 7)], 1⟩ "x" .I16 3).2.2.2.1
      (by decide) (by simp [SymbolTable.getLabelAddress, List.lookup]),
   (namespaces_are_separate ⟨[("x", ⟨.UI8, 1, 0⟩)], [("l", 7)], 1⟩ "l" .I16 3).2.2.2.2
      ⟨7, by decide⟩ (by decide),
   by decide⟩

/-! ## The code generator reads only the variable records of the table -/

theorem SymbolTable.lookup_eq_of_getVariable {s1 s2 : SymbolTable}
    (h : ∀ name, s1.getVariable name = s2.getVariable name) (name : String) :
    s1.vars.lookup name = s2.vars.lookup name := by
  have := h name
  unfold SymbolTable.getVariable at this
  cases h1 : s1.vars.lookup name <;> cases h2 : s2.vars.lookup name <;>
    simp [h1, h2] at this ⊢
  exact this

theorem CodeGenerator.emitVariable_congr {s1 s2 : SymbolTable}
    (h : ∀ name, s1.getVariable name = s2.getVariable name) (t : Token) :
    CodeGenerator.emitVariable s1 t = CodeGenerator.emitVariable s2 t := by
  simp only [CodeGenerator.emitVariable, h]

theorem CodeGenerator.emitOperand_congr {s1 s2 : SymbolTable}
    (h : ∀ name, s1.getVariable name = s2.getVariable name) (stof : String → Option Nat)
    (labels : List (String × Nat)) (t : Token) :
    CodeGenerator.emitOperand stof s1 labels t = CodeGenerator.emitOperand stof s2 labels t := by
  simp only [CodeGenerator.emitOperand, SymbolTable.isVariable,
    SymbolTable.lookup_eq_of_getVariable h, CodeGenerator.emitVariable_congr h]

theorem CodeGenerator.emitPrint_congr {s1 s2 : SymbolTable}
    (h : ∀ name, s1.getVariable name = s2.getVariable name) :
    ∀ ops : List Token, CodeGenerator.emitPrint s1 ops = CodeGenerator.emitPrint s2 ops := by
  intro ops
  induction ops with
  | nil => rfl
  | cons t ts ih =>
    simp only [CodeGenerator.emitPrint, ih, CodeGenerator.emitVariable_congr h]

theorem CodeGenerator.emitPayload_congr {s1 s2 : SymbolTable}
    (h : ∀ name, s1.getVariable name = s2.getVariable name) (stof : String → Option Nat)
    (labels : List (String × Nat)) (node : InstructionNode) :
    CodeGenerator.emitPayload stof s1 labels node
      = CodeGenerator.emitPayload stof s2 labels node := by
  have hv : CodeGenerator.emitVariable s1 = CodeGenerator.emitVariable s2 :=
    funext (CodeGenerator.emitVariable_congr h)
  have ho : CodeGenerator.emitOperand stof s1 labels = CodeGenerator.emitOperand stof s2 labels :=
    funext (CodeGenerator.emitOperand_congr h stof labels)
  have hp : CodeGenerator.emitPrint s1 = CodeGenerator.emitPrint s2 :=
    funext (CodeGenerator.emitPrint_congr h)
  have hg : s1.getVariable = s2.getVariable := funext h
  simp only [CodeGenerator.emitPayload, hv, ho, hp, hg]

theorem CodeGenerator.generateAll_congr {s1 s2 : SymbolTable}
    (h : ∀ name, s1.getVariable name = s2.getVariable name) (stof : String → Option Nat)
    (labels : List (String × Nat)) :
    ∀ ast : List InstructionNode,
      CodeGenerator.generateAll stof s1 labels ast
        = CodeGenerator.generateAll stof s2 labels ast := by
  intro ast
  induction ast with
  | nil => rfl
  | cons node rest ih =>
    simp only [CodeGenerator.generateAll, CodeGenerator.generateInstruction,
      CodeGenerator.emitPayload_congr h, ih]

/-- C28: the code generator never reads the label addresses of the analyzer.
For every instruction list and any two symbol tables that agree on all variable
records, whatever labels and addresses and whatever total they hold,
`CodeGenerator::generate` has the same outcome: the same byte vector, or the
same exception. -/
theorem generate_ignores_table_labels (stof : String → Option Nat) (s1 s2 : SymbolTable)
    (ast : List InstructionNode)
    (h : ∀ name, s1.getVariable name = s2.getVariable name) :
    CodeGenerator.generate stof s1 ast = CodeGenerator.generate stof s2 ast := by
  unfold CodeGenerator.generate
  cases CodeGenerator.buildLabelMap ast with
  | error e => rfl
  | ok labels => exact CodeGenerator.generateAll_congr h stof labels ast

/-- C28 (witness): for `dfp l; jmp l` the table of the analyzer, which holds
`l` at the instruction index 0, and a table that holds `l` at 99 and another
label give the same six bytes. -/
theorem generate_ignores_table_labels_witness :
    (∀ name, SymbolTable.getVariable ⟨[("a", ⟨.UI8, 1, 0⟩)], [("l", 0)], 1⟩ name
      = SymbolTable.getVariable ⟨[("a", ⟨.UI8, 1, 0⟩)], [("m", 5), ("l", 99)], 1⟩ name) ∧
    CodeGenerator.generate stofNone ⟨[("a", ⟨.UI8, 1, 0⟩)], [("l", 0)], 1⟩
        [⟨⟨.INSTRUCTION, "dfp", 1⟩, [⟨.IDENTIFIER, "l", 1⟩]⟩,
         ⟨⟨.INSTRUCTION, "jmp", 2⟩, [⟨.IDENTIFIER, "l", 2⟩]⟩]
      = CodeGenerator.generate stofNone ⟨[("a", ⟨.UI8, 1, 0⟩)], [("m", 5), ("l", 99)], 1⟩
        [⟨⟨.INSTRUCTION, "dfp", 1⟩, [⟨.IDENTIFIER, "l", 1⟩]⟩,
         ⟨⟨.INSTRUCTION, "jmp", 2⟩, [⟨.IDENTIFIER, "l", 2⟩]⟩] ∧
    CodeGenerator.generate stofNone ⟨[("a", ⟨.UI8, 1, 0⟩)], [("m", 5), ("l", 99)], 1⟩
        [⟨⟨.INSTRUCTION, "dfp", 1⟩, [⟨.IDENTIFIER, "l", 1⟩]⟩,
         ⟨⟨.INSTRUCTION, "jmp", 2⟩, [⟨.IDENTIFIER, "l", 2⟩]⟩]
      = .ok [0x0f, 0x10, 0, 0, 0, 0] :=
  ⟨fun _ => rfl,
   generate_ignores_table_labels stofNone ⟨[("a", ⟨.UI8, 1, 0⟩)], [("l", 0)], 1⟩
    ⟨[("a", ⟨.UI8, 1, 0⟩)], [("m", 5), ("l", 99)], 1⟩
    [⟨⟨.INSTRUCTION, "dfp", 1⟩, [⟨.IDENTIFIER, "l", 1⟩]⟩,
     ⟨⟨.INSTRUCTION, "jmp", 2⟩, [⟨.IDENTIFIER, "l", 2⟩]⟩] (fun _ => rfl),
   by decide⟩

/-! ## The size pass and the emit pass -/

theorem CodeGenerator.operandSize_value {t : Token} (h : t.isValue) :
    ∃ n, CodeGenerator.operandSize t = .ok n := by
  rcases h with e | e
  · exact ⟨5, CodeGenerator.operandSize_literal e⟩
  · exact ⟨4, CodeGenerator.operandSize_identifier e⟩

/-- The size pass returns on every node of the shape that the analysis
establishes. -/
theorem CodeGenerator.calculateInstructionSize_shaped {node : InstructionNode}
    (hs : node.Shaped) : ∃ n, CodeGenerator.calculateInstructionSize node = .ok n := by
  obtain ⟨hcv, hav, _, _, hpk, _, hmvm, _, _⟩ := hs
  unfold CodeGenerator.calculateInstructionSize
  simp only
  by_cases c0 : node.instruction.value = "cv"
  · obtain ⟨a, b, hops⟩ := hcv c0
    rw [if_pos c0, InstructionNode.operand_zero hops]
    exact ⟨_, rfl⟩
  rw [if_neg c0]
  by_cases c1 : node.instruction.value = "av" ∨ node.instruction.value = "aav" ∨
      node.instruction.value = "sav" ∨ node.instruction.value = "mav" ∨
      node.instruction.value = "dav" ∨ node.instruction.value = "moav"
  · obtain ⟨a, b, hops, hb⟩ := hav (by simpa using c1)
    obtain ⟨n, hn⟩ := CodeGenerator.operandSize_value hb
    rw [if_pos c1, InstructionNode.operand_one hops]
    simp only [hn]
    exact ⟨_, rfl⟩
  rw [if_neg c1]
  by_cases c2 : node.instruction.value = "inc" ∨ node.instruction.value = "dec"
  · rw [if_pos c2]; exact ⟨_, rfl⟩
  rw [if_neg c2]
  by_cases c3 : node.instruction.value = "p" ∨ node.instruction.value = "pl"
  · rw [if_pos c3]; exact ⟨_, rfl⟩
  rw [if_neg c3]
  by_cases c4 : node.instruction.value = "pk" ∨ node.instruction.value = "rk" ∨
      node.instruction.value = "dl"
  · obtain ⟨a, hops, ha⟩ := hpk (by simpa using c4)
    obtain ⟨n, hn⟩ := CodeGenerator.operandSize_value ha
    rw [if_pos c4, InstructionNode.operand_zero hops]
    simp only [hn]
    exact ⟨_, rfl⟩
  rw [if_neg c4]
  by_cases c5 : node.instruction.value = "ikd"
  · rw [if_pos c5]; exact ⟨_, rfl⟩
  rw [if_neg c5]
  by_cases c6 : node.instruction.value = "mvm"
  · obtain ⟨a, b, hops, ha, hb⟩ := hmvm c6
    obtain ⟨n, hn⟩ := CodeGenerator.operandSize_value ha
    obtain ⟨m, hm⟩ := CodeGenerator.operandSize_value hb
    rw [if_pos c6, InstructionNode.operand_zero hops, InstructionNode.operand_one hops]
    simp only [hn, hm]
    exact ⟨_, rfl⟩
  rw [if_neg c6]
  by_cases c7 : node.instruction.value = "jmp"
  · rw [if_pos c7]; exact ⟨_, rfl⟩
  rw [if_neg c7]
  by_cases c8 : node.instruction.value = "cejmp" ∨ node.instruction.value = "cgjmp" ∨
      node.instruction.value = "cljmp" ∨ node.instruction.value = "cegjmp" ∨
      node.instruction.value = "celjmp"
  · rw [if_pos c8]; exact ⟨_, rfl⟩
  rw [if_neg c8]
  exact ⟨_, rfl⟩

/-- The size pass returns on every list of shaped nodes. -/
theorem CodeGenerator.buildLabelMapFrom_shaped :
    ∀ (ast : List InstructionNode) (addr : Nat) (labels : List (String × Nat)),
      (∀ n ∈ ast, n.Shaped) → ∃ m, CodeGenerator.buildLabelMapFrom ast addr labels = .ok m := by
  intro ast
  induction ast with
  | nil => intro addr labels _; exact ⟨labels, rfl⟩
  | cons node rest ih =>
    intro addr labels hs
    have hn := hs node (List.mem_cons_self _ _)
    obtain ⟨size, hsize⟩ := CodeGenerator.calculateInstructionSize_shaped hn
    have hrest : ∀ n ∈ rest, n.Shaped := fun n h => hs n (List.mem_cons_of_mem _ h)
    unfold CodeGenerator.buildLabelMapFrom
    by_cases hd : node.instruction.value = "dfp"
    · obtain ⟨l, hops⟩ := hn.2.2.2.2.2.2.2.1 (by simp [hd])
      simp only [hd, if_true, InstructionNode.operand_zero hops, hsize]
      exact ih _ _ hrest
    · simp only [hd, if_false, hsize]
      exact ih _ _ hrest

/-- The bytes that the emit pass appends for a list of shaped nodes are as many
as the sizes that the size pass computes for the nodes add up to. -/
theorem CodeGenerator.generateAll_length {stof : String → Option Nat} {symbols : SymbolTable}
    {labels : List (String × Nat)} :
    ∀ (ast : List InstructionNode) (out : List Nat),
      (∀ n ∈ ast, n.Shaped) → CodeGenerator.generateAll stof symbols labels ast = .ok out →
      ∃ sizes : List Nat,
        List.Forall₂ (fun node n => CodeGenerator.calculateInstructionSize node = .ok n)
          ast sizes ∧
        out.length = sizes.sum := by
  intro ast
  induction ast with
  | nil =>
    intro out _ h
    simp only [CodeGenerator.generateAll, Except.ok.injEq] at h
    subst h
    exact ⟨[], List.Forall₂.nil, rfl⟩
  | cons node rest ih =>
    intro out hs h
    obtain ⟨a, b, ha, hb, hout⟩ := CodeGenerator.generateAll_cons h
    obtain ⟨sizes, hf, hlen⟩ := ih b (fun n hn => hs n (List.mem_cons_of_mem _ hn)) hb
    have hsz := (CodeGenerator.size_of_generate (hs node (List.mem_cons_self _ _)) ha).1
    refine ⟨a.length :: sizes, List.Forall₂.cons hsz hf, ?_⟩
    rw [hout, List.length_append, List.sum_cons, hlen]

/-- C30: the size pass and the emit pass agree.  For every analyzer-accepted
instruction list the size pass returns: `calculateInstructionSize` returns a
size for every node and `buildLabelMap` returns a map.  The number of bytes that
`generateInstruction` appends for a node, whenever it returns, is that size.
Whenever `generate` returns, the length of its output is the sum of the sizes of
all nodes, and the address that `buildLabelMap` records for the label of each
`dfp` node is the length of the output emitted for the nodes before it. -/
theorem size_pass_agrees_with_emit_pass (stof : String → Option Nat)
    (ast : List InstructionNode) (symbols : SymbolTable)
    (hacc : SemanticAnalyzer.analyze stof SymbolTable.empty ast = .ok symbols) :
    (∀ node ∈ ast, ∃ n, CodeGenerator.calculateInstructionSize node = .ok n ∧
      ∀ labels bytes, CodeGenerator.generateInstruction stof symbols labels node = .ok bytes →
        bytes.length = n) ∧
    (∃ labels, CodeGenerator.buildLabelMap ast = .ok labels) ∧
    (∀ out, CodeGenerator.generate stof symbols ast = .ok out →
      (∃ sizes : List Nat,
        List.Forall₂ (fun node n => CodeGenerator.calculateInstructionSize node = .ok n)
          ast sizes ∧
        out.length = sizes.sum) ∧
      ∀ (a1 : List InstructionNode) (d : InstructionNode) (a2 : List InstructionNode)
          (L : String),
        ast = a1 ++ d :: a2 → d.definedLabel = some L →
        ∃ labels pd, CodeGenerator.buildLabelMap ast = .ok labels ∧
          CodeGenerator.generateAll stof symbols labels a1 = .ok pd ∧
          labels.lookup L = some pd.length) := by
  have hshaped : ∀ n ∈ ast, n.Shaped := fun n hn => (SemanticAnalyzer.accepted_node hacc hn).1
  refine ⟨?_, CodeGenerator.buildLabelMapFrom_shaped ast 0 [] hshaped, ?_⟩
  · intro node hn
    obtain ⟨n, hsz⟩ := CodeGenerator.calculateInstructionSize_shaped (hshaped node hn)
    refine ⟨n, hsz, ?_⟩
    intro labels bytes hg
    have := (CodeGenerator.size_of_generate (hshaped node hn) hg).1
    rw [hsz] at this
    injection this with this
    exact this.symm
  · intro out hgen
    unfold CodeGenerator.generate at hgen
    cases hb : CodeGenerator.buildLabelMap ast with
    | error e => rw [hb] at hgen; cases hgen
    | ok labels =>
      rw [hb] at hgen
      simp only at hgen
      refine ⟨CodeGenerator.generateAll_length ast out hshaped hgen, ?_⟩
      intro a1 d a2 L hsplit hd
      rw [hsplit] at hgen
      obtain ⟨pd, q, hpd, _, _⟩ := CodeGenerator.generateAll_append hgen
      refine ⟨labels, pd, rfl, hpd, ?_⟩
      obtain ⟨hfp, _⟩ := SemanticAnalyzer.analyze_ok hacc
      obtain ⟨_, f2, _⟩ := SemanticAnalyzer.firstPass_labels hfp
      rw [hsplit, List.filterMap_append, List.filterMap_cons, hd] at f2
      have hnd := (List.nodup_cons.mp (List.nodup_middle.mp f2)).1
      have hu : ∀ n ∈ a2, n.definedLabel ≠ some L := by
        intro n hn hc
        apply hnd
        exact List.mem_append_right _ (List.mem_filterMap.mpr ⟨n, hn, hc⟩)
      rw [hsplit] at hb
      exact CodeGenerator.buildLabelMap_lookup hb
        (fun n hn => hshaped n (by rw [hsplit]; exact List.mem_append_left _ hn)) hd hu hpd

/-- C30 (witness): the accepted list `cv a ui8; dfp l; av a 5; jmp l`: the sizes
are 7, 1, 10 and 5, the output has 23 bytes, and the label `l` is recorded at
the address 7, the length of the bytes emitted for `cv a ui8`. -/
theorem size_pass_agrees_with_emit_pass_witness :
    SemanticAnalyzer.analyze stofNone SymbolTable.empty
        [⟨⟨.INSTRUCTION, "cv", 1⟩, [⟨.IDENTIFIER, "a", 1⟩, ⟨.TYPE, "ui8", 1⟩]⟩,
         ⟨⟨.INSTRUCTION, "dfp", 2⟩, [⟨.IDENTIFIER, "l", 2⟩]⟩,
         ⟨⟨.INSTRUCTION, "av", 3⟩, [⟨.IDENTIFIER, "a", 3⟩, ⟨.LITERAL, "5", 3⟩]⟩,
         ⟨⟨.INSTRUCTION, "jmp", 4⟩, [⟨.IDENTIFIER, "l", 4⟩]⟩]
      = .ok ⟨[("a", ⟨.UI8, 1, 0⟩)], [("l", 1)], 1⟩ ∧
    CodeGenerator.generate stofNone ⟨[("a", ⟨.UI8, 1, 0⟩)], [("l", 1)], 1⟩
        [⟨⟨.INSTRUCTION, "cv", 1⟩, [⟨.IDENTIFIER, "a", 1⟩, ⟨.TYPE, "ui8", 1⟩]⟩,
         ⟨⟨.INSTRUCTION, "dfp", 2⟩, [⟨.IDENTIFIER, "l", 2⟩]⟩,
         ⟨⟨.INSTRUCTION, "av", 3⟩, [⟨.IDENTIFIER, "a", 3⟩, ⟨.LITERAL, "5", 3⟩]⟩,
         ⟨⟨.INSTRUCTION, "jmp", 4⟩, [⟨.IDENTIFIER, "l", 4⟩]⟩]
      = .ok [0, 1, 0, 0, 0, 0x61, 2, 0x0f, 1, 0, 0, 0, 0, 6, 5, 0, 0, 0, 0x10, 7, 0, 0, 0] ∧
    CodeGenerator.buildLabelMap
        [⟨⟨.INSTRUCTION, "cv", 1⟩, [⟨.IDENTIFIER, "a", 1⟩, ⟨.TYPE, "ui8", 1⟩]⟩,
         ⟨⟨.INSTRUCTION, "dfp", 2⟩, [⟨.IDENTIFIER, "l", 2⟩]⟩,
         ⟨⟨.INSTRUCTION, "av", 3⟩, [⟨.IDENTIFIER, "a", 3⟩, ⟨.LITERAL, "5", 3⟩]⟩,
         ⟨⟨.INSTRUCTION, "jmp", 4⟩, [⟨.IDENTIFIER, "l", 4⟩]⟩] = .ok [("l", 7)] ∧
    ∃ sizes : List Nat,
      List.Forall₂ (fun node n => CodeGenerator.calculateInstructionSize node = .ok n)
        [⟨⟨.INSTRUCTION, "cv", 1⟩, [⟨.IDENTIFIER, "a", 1⟩, ⟨.TYPE, "ui8", 1⟩]⟩,
         ⟨⟨.INSTRUCTION, "dfp", 2⟩, [⟨.IDENTIFIER, "l", 2⟩]⟩,
         ⟨⟨.INSTRUCTION, "av", 3⟩, [⟨.IDENTIFIER, "a", 3⟩, ⟨.LITERAL, "5", 3⟩]⟩,
         ⟨⟨.INSTRUCTION, "jmp", 4⟩, [⟨.IDENTIFIER, "l", 4⟩]⟩] sizes ∧
      ([0, 1, 0, 0, 0, 0x61, 2, 0x0f, 1, 0, 0, 0, 0, 6, 5, 0, 0, 0, 0x10, 7, 0, 0, 0]
        : List Nat).length = sizes.sum :=
  ⟨by decide, by decide, by decide,
   ((size_pass_agrees_with_emit_pass stofNone
      [⟨⟨.INSTRUCTION, "cv", 1⟩, [⟨.IDENTIFIER, "a", 1⟩, ⟨.TYPE, "ui8", 1⟩]⟩,
       ⟨⟨.INSTRUCTION, "dfp", 2⟩, [⟨.IDENTIFIER, "l", 2⟩]⟩,
       ⟨⟨.INSTRUCTION, "av", 3⟩, [⟨.IDENTIFIER, "a", 3⟩, ⟨.LITERAL, "5", 3⟩]⟩,
       ⟨⟨.INSTRUCTION, "jmp", 4⟩, [⟨.IDENTIFIER, "l", 4⟩]⟩]
      ⟨[("a", ⟨.UI8, 1, 0⟩)], [("l", 1)], 1⟩ (by decide)).2.2
      [0, 1, 0, 0, 0, 0x61, 2, 0x0f, 1, 0, 0, 0, 0, 6, 5, 0, 0, 0, 0x10, 7, 0, 0, 0]
      (by decide)).1⟩

/-! ## Code generation after a successful analysis -/

theorem negative_unsigned_tokens : ∃ toks ast symbols,
    Lexer.tokenize "cv a ui8\nav a -18446744073709551615\n".length
      "cv a ui8\nav a -18446744073709551615\n".data = some toks ∧
    toks = [⟨.INSTRUCTION, "cv", 1⟩, ⟨.IDENTIFIER, "a", 1⟩, ⟨.TYPE, "ui8", 1⟩,
      ⟨.END_OF_LINE, "EOL", 1⟩,
      ⟨.INSTRUCTION, "av", 2⟩, ⟨.IDENTIFIER, "a", 2⟩, ⟨.LITERAL, "-18446744073709551615", 2⟩,
      ⟨.END_OF_LINE, "EOL", 2⟩] ∧
    Parser.parse toks = .ok ast ∧
    ast = [⟨⟨.INSTRUCTION, "cv", 1⟩, [⟨.IDENTIFIER, "a", 1⟩, ⟨.TYPE, "ui8", 1⟩]⟩,
      ⟨⟨.INSTRUCTION, "av", 2⟩,
        [⟨.IDENTIFIER, "a", 2⟩, ⟨.LITERAL, "-18446744073709551615", 2⟩]⟩] ∧
    symbols = ⟨[("a", ⟨.UI8, 1, 0⟩)], [], 1⟩ ∧
    (∀ stof, SemanticAnalyzer.analyze stof SymbolTable.empty ast = .ok symbols) ∧
    (∀ stof, CodeGenerator.generate stof symbols ast = .error (.exn "stol")) :=
  ⟨_, _, _, rfl, rfl, rfl, rfl, rfl, fun _ => rfl, fun _ => rfl⟩

/-- C29 (the code at the failing input): on the source `cv a ui8`, `av a
-18446744073709551615` the lexer and the parser succeed and
`SemanticAnalyzer::analyze` succeeds, for every `stof`; `CodeGenerator::generate`
with the resulting symbol table then throws, from `std::stol` in `emitLiteral`,
and the pipeline fails with the message `stol`. -/
theorem generate_fails_after_analysis (stof : String → Option Nat) (n : Nat) :
    compile ("cv a ui8\nav a -18446744073709551615\n".length + n) stof
        "cv a ui8\nav a -18446744073709551615\n" = some (.error (.exn "stol")) ∧
    Parser.parse [⟨.INSTRUCTION, "cv", 1⟩, ⟨.IDENTIFIER, "a", 1⟩, ⟨.TYPE, "ui8", 1⟩,
        ⟨.END_OF_LINE, "EOL", 1⟩,
        ⟨.INSTRUCTION, "av", 2⟩, ⟨.IDENTIFIER, "a", 2⟩,
        ⟨.LITERAL, "-18446744073709551615", 2⟩, ⟨.END_OF_LINE, "EOL", 2⟩]
      = .ok [⟨⟨.INSTRUCTION, "cv", 1⟩, [⟨.IDENTIFIER, "a", 1⟩, ⟨.TYPE, "ui8", 1⟩]⟩,
          ⟨⟨.INSTRUCTION, "av", 2⟩,
            [⟨.IDENTIFIER, "a", 2⟩, ⟨.LITERAL, "-18446744073709551615", 2⟩]⟩] ∧
    SemanticAnalyzer.analyze stof SymbolTable.empty
        [⟨⟨.INSTRUCTION, "cv", 1⟩, [⟨.IDENTIFIER, "a", 1⟩, ⟨.TYPE, "ui8", 1⟩]⟩,
          ⟨⟨.INSTRUCTION, "av", 2⟩,
            [⟨.IDENTIFIER, "a", 2⟩, ⟨.LITERAL, "-18446744073709551615", 2⟩]⟩]
      = .ok ⟨[("a", ⟨.UI8, 1, 0⟩)], [], 1⟩ ∧
    CodeGenerator.generate stof ⟨[("a", ⟨.UI8, 1, 0⟩)], [], 1⟩
        [⟨⟨.INSTRUCTION, "cv", 1⟩, [⟨.IDENTIFIER, "a", 1⟩, ⟨.TYPE, "ui8", 1⟩]⟩,
          ⟨⟨.INSTRUCTION, "av", 2⟩,
            [⟨.IDENTIFIER, "a", 2⟩, ⟨.LITERAL, "-18446744073709551615", 2⟩]⟩]
      = .error (.exn "stol") := by
  obtain ⟨toks, ast, symbols, h1, h2, h3, h4, h5, h6, h7⟩ := negative_unsigned_tokens
  subst h2 h4 h5
  refine ⟨?_, h3, h6 stof, h7 stof⟩
  rw [compile_of_tokenize h1]
  simp only [compileTokens, h3, h6 stof, h7 stof]

/-! ## The lexer: line numbers -/

theorem countEndOfLine_append (a b : List Token) :
    countEndOfLine (a ++ b) = countEndOfLine a + countEndOfLine b := by
  simp [countEndOfLine, List.filter_append]

theorem Lexer.keywords_not_eol {id : String} {k : TokenType}
    (h : Lexer.keywords.lookup id = some k) : k ≠ .END_OF_LINE := by
  intro hk
  have hall : ∀ p ∈ Lexer.keywords, p.2 ≠ TokenType.END_OF_LINE := by decide
  have hmem : (id, k) ∈ Lexer.keywords := by
    have : ∀ (l : List (String × TokenType)), l.lookup id = some k → (id, k) ∈ l := by
      intro l
      induction l with
      | nil => intro h; cases h
      | cons p ps ih =>
        intro h
        rw [List.lookup_cons] at h
        by_cases hp : id = p.1
        · have hb : (id == p.1) = true := by simpa using hp
          rw [hb] at h
          injection h with h
          rw [hp, ← h]
          exact List.mem_cons_self _ _
        · have hb : (id == p.1) = false := by simpa using hp
          rw [hb] at h
          exact List.mem_cons_of_mem _ (ih h)
    exact this _ h
  exact hall _ hmem hk

theorem Lexer.linesCounted_push {st : Lexer.State} (h : Lexer.LinesCounted st) (t : Token)
    (ht : t.line = st.line) :
    ∀ pre x post, st.tokens ++ [t] = pre ++ x :: post → x.line = 1 + countEndOfLine pre := by
  intro pre x post heq
  rcases List.eq_nil_or_concat post with hp | ⟨post1, y, hp⟩
  · subst hp
    have h1 : st.tokens ++ [t] = pre ++ [x] := heq
    have e1 := List.append_inj_left' h1 rfl
    have e2 := List.append_inj_right' h1 rfl
    simp only [List.cons.injEq, and_true] at e2
    rw [← e2, ht, h.1, e1]
  · subst hp
    have h1 : st.tokens ++ [t] = (pre ++ x :: post1) ++ [y] := by
      rw [heq]; simp
    have e1 := List.append_inj_left' h1 rfl
    exact h.2 pre x post1 e1

theorem Lexer.step_linesCounted {st : Lexer.State} {c : Char} {cs : List Char}
    (h : Lexer.LinesCounted st) : Lexer.LinesCounted (Lexer.step st c cs) := by
  have hpush : ∀ (t : Token) (r : List Char), t.line = st.line → t.type ≠ .END_OF_LINE →
      Lexer.LinesCounted ⟨r, st.line, st.tokens ++ [t]⟩ := by
    intro t r hl hty
    refine ⟨?_, Lexer.linesCounted_push h t hl⟩
    simp only [countEndOfLine_append]
    have : countEndOfLine [t] = 0 := by simp [countEndOfLine, hty]
    rw [this, Nat.add_zero]
    exact h.1
  unfold Lexer.step
  split
  · apply hpush
    · unfold Lexer.readNumber
      split <;> rfl
    · unfold Lexer.readNumber
      split <;> simp
  · split
    · apply hpush
      · unfold Lexer.readIdentifier
        simp only
        split <;> rfl
      · unfold Lexer.readIdentifier
        simp only
        split
        · rename_i k hk
          exact Lexer.keywords_not_eol hk
        · simp
    · split
      · apply hpush
        · rfl
        · simp [Lexer.readString]
      · split
        · apply hpush
          · rfl
          · simp
        · split
          · refine ⟨?_, Lexer.linesCounted_push h _ rfl⟩
            simp only [countEndOfLine_append]
            have : countEndOfLine [(⟨.END_OF_LINE, "EOL", st.line⟩ : Token)] = 1 := by
              simp [countEndOfLine]
            rw [this, h.1]
            omega
          · exact h

theorem Lexer.loop_linesCounted :
    ∀ (fuel : Nat) (st st1 : Lexer.State), Lexer.LinesCounted st →
      Lexer.loop fuel st = some st1 → Lexer.LinesCounted st1 := by
  intro fuel
  induction fuel with
  | zero =>
    intro st st1 h hl
    unfold Lexer.loop at hl
    split at hl
    · injection hl with hl; rw [← hl]; exact h
    · cases hl
  | succ fuel ih =>
    intro st st1 h hl
    unfold Lexer.loop at hl
    split at hl
    · injection hl with hl; rw [← hl]; exact h
    · exact ih _ _ (Lexer.step_linesCounted h) hl

/-- What `tokenize` stores as the line of a token: 1 plus the number of
`END_OF_LINE` tokens before it in the returned vector.  Newline characters
inside a string literal produce no token and are not counted. -/
theorem Lexer.tokenize_line {fuel : Nat} {source : List Char} {toks : List Token}
    (h : Lexer.tokenize fuel source = some toks) :
    ∀ pre t post, toks = pre ++ t :: post → t.line = 1 + countEndOfLine pre := by
  unfold Lexer.tokenize at h
  cases hl : Lexer.loop fuel ⟨source, 1, []⟩ with
  | none => rw [hl] at h; cases h
  | some st =>
    rw [hl] at h
    simp only [Option.map_some', Option.some.injEq] at h
    have hinv : Lexer.LinesCounted st := by
      apply Lexer.loop_linesCounted fuel _ _ _ hl
      refine ⟨rfl, ?_⟩
      intro pre t post e
      cases pre <;> cases e
    subst h
    unfold Lexer.finish
    split
    · exact hinv.2
    · split
      · exact Lexer.linesCounted_push hinv _ rfl
      · exact hinv.2

/-- C25 (the code at the failing input): in the source `"a`, newline, `b" nop`,
newline, the mnemonic `nop` starts at offset 6, after one newline character (the
one inside the string literal), so it starts on line 2; `tokenize` returns the
`nop` token, and the `END_OF_LINE` token after it, with line 1. -/
theorem line_after_multiline_string (n : Nat) :
    Lexer.tokenize ("\"a\nb\" nop\n".length + n) "\"a\nb\" nop\n".data
      = some [⟨.STRING, "a\nb", 1⟩, ⟨.INSTRUCTION, "nop", 1⟩, ⟨.END_OF_LINE, "EOL", 1⟩] ∧
    "\"a\nb\" nop\n".data.drop 6 = "nop\n".data ∧
    startLine "\"a\nb\" nop\n".data 6 = 2 ∧
    "\"a\nb\" nop\n".data.drop 9 = "\n".data ∧
    startLine "\"a\nb\" nop\n".data 9 = 2 := by
  have h1 : Lexer.tokenize "\"a\nb\" nop\n".length "\"a\nb\" nop\n".data
      = some [⟨.STRING, "a\nb", 1⟩, ⟨.INSTRUCTION, "nop", 1⟩, ⟨.END_OF_LINE, "EOL", 1⟩] := by
    decide
  exact ⟨Lexer.tokenize_add h1 n, by decide, by decide, by decide, by decide⟩

/-! ## Where code generation can fail after a successful analysis -/

theorem SymbolTable.addVariable_vars {s s1 : SymbolTable} {name : String} {ty : Ty}
    (h : s.addVariable name ty = .ok s1) :
    s1.vars = (name, ⟨ty, SymbolTable.getTypeSize ty, s.currentOffset⟩) :: s.vars := by
  unfold SymbolTable.addVariable at h
  split at h
  · cases h
  · injection h with h
    rw [← h]

theorem SymbolTable.addLabel_vars {s s1 : SymbolTable} {name : String} {addr : Nat}
    (h : s.addLabel name addr = .ok s1) : s1.vars = s.vars := by
  unfold SymbolTable.addLabel at h
  split at h
  · cases h
  · injection h with h
    rw [← h]

theorem SymbolTable.lookup_cons_isSome {α : Type} {name n : String} {v : α}
    {l : List (String × α)} (h : (List.lookup n l).isSome = true ∨ n = name) :
    (List.lookup n ((name, v) :: l)).isSome = true := by
  rw [List.lookup_cons]
  by_cases hk : n = name
  · have : (n == name) = true := by simpa using hk
    rw [this]; rfl
  · have : (n == name) = false := by simpa using hk
    rw [this]
    rcases h with e | e
    · exact e
    · exact absurd e hk

/-- Every variable that the table had before the first pass, and every variable
that a `cv` node of the list declares, is in the table after the first pass. -/
theorem SemanticAnalyzer.firstPass_vars_defined :
    ∀ {ast : List InstructionNode} {s s1 : SymbolTable} {addr : Nat},
    SemanticAnalyzer.firstPass ast s addr = .ok s1 →
    ∀ name, ((s.vars.lookup name).isSome = true ∨
        ∃ node ∈ ast, node.instruction.value = "cv" ∧ ∃ a b, node.operands = [a, b] ∧
          a.value = name) →
      (s1.vars.lookup name).isSome = true := by
  intro ast
  induction ast with
  | nil =>
    intro s s1 addr h name hn
    simp only [SemanticAnalyzer.firstPass, Except.ok.injEq] at h
    subst h
    simpa using hn
  | cons node rest ih =>
    intro s s1 addr h name hn
    have hstep : ∀ s2 : SymbolTable,
        ((s.vars.lookup name).isSome = true → (s2.vars.lookup name).isSome = true) →
        ((node.instruction.value = "cv" ∧ ∃ a b, node.operands = [a, b] ∧ a.value = name) →
          (s2.vars.lookup name).isSome = true) →
        (s2.vars.lookup name).isSome = true ∨
          ∃ n ∈ rest, n.instruction.value = "cv" ∧ ∃ a b, n.operands = [a, b] ∧
            a.value = name := by
      intro s2 h1 h2
      rcases hn with e | ⟨n, hmem, hcv, hops⟩
      · exact Or.inl (h1 e)
      · rcases List.mem_cons.mp hmem with e | e
        · subst e
          exact Or.inl (h2 ⟨hcv, hops⟩)
        · exact Or.inr ⟨n, e, hcv, hops⟩
    unfold SemanticAnalyzer.firstPass at h
    split at h
    · rename_i hcv
      split at h
      · cases h
      · rename_i s2 h2
        obtain ⟨a, b, ty, hops, hadd⟩ := SemanticAnalyzer.processCv_ok h2
        have hv := SymbolTable.addVariable_vars hadd
        apply ih h name
        apply hstep s2
        · intro e
          rw [hv]
          exact SymbolTable.lookup_cons_isSome (Or.inl e)
        · rintro ⟨_, a1, b1, hops1, hname⟩
          rw [hops] at hops1
          simp only [List.cons.injEq, and_true] at hops1
          rw [hv]
          apply SymbolTable.lookup_cons_isSome
          right
          rw [← hname, hops1.1]
    · rename_i hncv
      split at h
      · split at h
        · cases h
        · rename_i s2 h2
          obtain ⟨l, _, hadd⟩ := SemanticAnalyzer.processDfp_ok h2
          have hv := SymbolTable.addLabel_vars hadd
          apply ih h name
          apply hstep s2
          · intro e; rw [hv]; exact e
          · rintro ⟨hcv, _⟩; exact absurd hcv hncv
      · apply ih h name
        apply hstep s
        · exact id
        · rintro ⟨hcv, _⟩; exact absurd hcv hncv

/-- Every label that a `dfp` node of the list defines is in the map that the
size pass builds. -/
theorem CodeGenerator.buildLabelMapFrom_defined :
    ∀ {ast : List InstructionNode} {addr : Nat} {labels m : List (String × Nat)},
    CodeGenerator.buildLabelMapFrom ast addr labels = .ok m →
    ∀ L, ((labels.lookup L).isSome = true ∨ L ∈ ast.filterMap InstructionNode.definedLabel) →
      (m.lookup L).isSome = true := by
  intro ast
  induction ast with
  | nil =>
    intro addr labels m h L hL
    simp only [CodeGenerator.buildLabelMapFrom, Except.ok.injEq] at h
    subst h
    simpa using hL
  | cons node rest ih =>
    intro addr labels m h L hL
    obtain ⟨size, _, ⟨hnone, hrest⟩ | ⟨K, hK, hrest⟩⟩ := CodeGenerator.buildLabelMapFrom_cons h
    · apply ih hrest L
      simpa [List.filterMap_cons, hnone] using hL
    · apply ih hrest L
      simp only [List.filterMap_cons, hK, List.mem_cons] at hL
      rcases hL with e | e | e
      · exact Or.inl (SymbolTable.lookup_cons_isSome (Or.inl e))
      · exact Or.inl (SymbolTable.lookup_cons_isSome (Or.inr e))
      · exact Or.inr e

theorem CodeGenerator.emitVariable_returns {symbols : SymbolTable} {t : Token} {v : VariableInfo}
    (h : symbols.getVariable t.value = .ok v) :
    ∃ b, CodeGenerator.emitVariable symbols t = .ok b := by
  simp [CodeGenerator.emitVariable, h]

theorem CodeGenerator.emitLabel_returns {labels : List (String × Nat)} {t : Token}
    (h : (labels.lookup t.value).isSome = true) :
    ∃ b, CodeGenerator.emitLabel labels t = .ok b := by
  unfold CodeGenerator.emitLabel
  cases hl : labels.lookup t.value with
  | none => rw [hl] at h; cases h
  | some a => exact ⟨_, rfl⟩

theorem SemanticAnalyzer.getVariable_ok {symbols : SymbolTable} {t : Token} {v : VariableInfo}
    (h : SemanticAnalyzer.getVariable symbols t = .ok v) :
    t.type = .IDENTIFIER ∧ symbols.getVariable t.value = .ok v := by
  unfold SemanticAnalyzer.getVariable at h
  split at h
  · cases h
  · rename_i ht
    exact ⟨by simpa using ht, h⟩

theorem SemanticAnalyzer.validateArithmeticOp_facts {stof : String → Option Nat}
    {symbols : SymbolTable} {node : InstructionNode} {op : String}
    (h : SemanticAnalyzer.validateArithmeticOp stof symbols node op = .ok ()) :
    ∃ a b va, node.operands = [a, b] ∧ symbols.getVariable a.value = .ok va ∧
      CheckedValue symbols b := by
  unfold SemanticAnalyzer.validateArithmeticOp at h
  split at h
  · rename_i a b hops
    cases h1 : SemanticAnalyzer.getVariable symbols a with
    | error e => rw [h1] at h; cases h
    | ok va =>
      rw [h1] at h
      simp only at h
      refine ⟨a, b, va, hops, (SemanticAnalyzer.getVariable_ok h1).2, ?_⟩
      by_cases hl : b.type = .LITERAL
      · exact Or.inl hl
      · rw [if_neg hl] at h
        by_cases hi : b.type = .IDENTIFIER
        · rw [if_pos hi] at h
          cases h2 : SemanticAnalyzer.getVariable symbols b with
          | error e => rw [h2] at h; cases h
          | ok vb => exact Or.inr ⟨hi, vb, (SemanticAnalyzer.getVariable_ok h2).2⟩
        · rw [if_neg hi] at h; cases h
  · rename_i hne
    unfold SemanticAnalyzer.validateOperandCount at h
    split at h
    · cases h
    · rename_i hlen
      exfalso
      have hlen2 : node.operands.length = 2 := by simpa using hlen
      match hops : node.operands, hlen2 with
      | [a, b], _ => exact hne a b hops

theorem SemanticAnalyzer.validateIncDec_facts {symbols : SymbolTable} {node : InstructionNode}
    (h : SemanticAnalyzer.validateIncDec symbols node = .ok ()) :
    ∃ a va, node.operands = [a] ∧ symbols.getVariable a.value = .ok va := by
  obtain ⟨a, hops⟩ := SemanticAnalyzer.validateIncDec_shape h
  simp only [SemanticAnalyzer.validateIncDec, hops] at h
  cases h1 : SemanticAnalyzer.getVariable symbols a with
  | error e => rw [h1] at h; cases h
  | ok va => exact ⟨a, va, hops, (SemanticAnalyzer.getVariable_ok h1).2⟩

theorem SemanticAnalyzer.validatePrintLoop_facts {symbols : SymbolTable} :
    ∀ {ops : List Token}, SemanticAnalyzer.validatePrintLoop symbols ops = .ok () →
    ∀ op ∈ ops, op.type = .STRING ∨ ∃ v, symbols.getVariable op.value = .ok v := by
  intro ops
  induction ops with
  | nil => intro _ op hop; cases hop
  | cons t ts ih =>
    intro h op hop
    unfold SemanticAnalyzer.validatePrintLoop at h
    split at h
    · cases h
    · rename_i hty
      by_cases hi : t.type = .IDENTIFIER
      · rw [if_pos hi] at h
        cases h1 : SemanticAnalyzer.getVariable symbols t with
        | error e => rw [h1] at h; cases h
        | ok v =>
          rw [h1] at h
          rcases List.mem_cons.mp hop with e | e
          · rw [e]; exact Or.inr ⟨v, (SemanticAnalyzer.getVariable_ok h1).2⟩
          · exact ih h op e
      · rw [if_neg hi] at h
        rcases List.mem_cons.mp hop with e | e
        · rw [e]
          left
          by_contra hs
          exact hty ⟨hs, hi⟩
        · exact ih h op e

theorem SemanticAnalyzer.value_check_facts {symbols : SymbolTable} {a : Token}
    {lit : Except Err Unit} {ty : VariableInfo → Except Err Unit} {msg : String}
    (h : (if a.type = .LITERAL then lit
      else if a.type = .IDENTIFIER then
        match SemanticAnalyzer.getVariable symbols a with
        | .error e => .error e
        | .ok var => ty var
      else .error (.exn msg)) = .ok ()) : CheckedValue symbols a := by
  by_cases hl : a.type = .LITERAL
  · exact Or.inl hl
  · rw [if_neg hl] at h
    by_cases hi : a.type = .IDENTIFIER
    · rw [if_pos hi] at h
      cases h1 : SemanticAnalyzer.getVariable symbols a with
      | error e => rw [h1] at h; cases h
      | ok v => exact Or.inr ⟨hi, v, (SemanticAnalyzer.getVariable_ok h1).2⟩
    · rw [if_neg hi] at h; cases h

theorem SemanticAnalyzer.validateKeyOp_facts {symbols : SymbolTable} {node : InstructionNode}
    (h : SemanticAnalyzer.validateKeyOp symbols node = .ok ()) :
    ∃ a, node.operands = [a] ∧ CheckedValue symbols a := by
  obtain ⟨a, hops, _⟩ := SemanticAnalyzer.validateKeyOp_shape h
  simp only [SemanticAnalyzer.validateKeyOp, hops] at h
  exact ⟨a, hops, SemanticAnalyzer.value_check_facts h⟩

theorem SemanticAnalyzer.checkDl_facts {symbols : SymbolTable} {node : InstructionNode}
    (h : SemanticAnalyzer.checkDl symbols node = .ok ()) :
    ∃ a, node.operands = [a] ∧ CheckedValue symbols a := by
  obtain ⟨a, hops, _⟩ := SemanticAnalyzer.checkDl_shape h
  simp only [SemanticAnalyzer.checkDl, hops] at h
  exact ⟨a, hops, SemanticAnalyzer.value_check_facts h⟩

theorem SemanticAnalyzer.checkIkd_facts {symbols : SymbolTable} {node : InstructionNode}
    (h : SemanticAnalyzer.checkIkd symbols node = .ok ()) :
    ∃ a b va vb, node.operands = [a, b] ∧ symbols.getVariable a.value = .ok va ∧
      symbols.getVariable b.value = .ok vb := by
  obtain ⟨a, b, hops⟩ := SemanticAnalyzer.checkIkd_shape h
  simp only [SemanticAnalyzer.checkIkd, hops] at h
  cases h1 : SemanticAnalyzer.getVariable symbols a with
  | error e => rw [h1] at h; cases h
  | ok va =>
    rw [h1] at h
    cases h2 : SemanticAnalyzer.getVariable symbols b with
    | error e => rw [h2] at h; cases h
    | ok vb =>
      exact ⟨a, b, va, vb, hops, (SemanticAnalyzer.getVariable_ok h1).2,
        (SemanticAnalyzer.getVariable_ok h2).2⟩

theorem SemanticAnalyzer.checkMvmLoop_facts {symbols : SymbolTable} :
    ∀ {ops : List Token}, SemanticAnalyzer.checkMvmLoop symbols ops = .ok () →
    ∀ op ∈ ops, CheckedValue symbols op := by
  intro ops
  induction ops with
  | nil => intro _ op hop; cases hop
  | cons t ts ih =>
    intro h op hop
    unfold SemanticAnalyzer.checkMvmLoop at h
    by_cases hl : t.type = .LITERAL
    · rw [if_pos hl] at h
      cases h1 : SemanticAnalyzer.validateI32 t.value with
      | error e => rw [h1] at h; cases h
      | ok u =>
        rw [h1] at h
        rcases List.mem_cons.mp hop with e | e
        · rw [e]; exact Or.inl hl
        · exact ih h op e
    · rw [if_neg hl] at h
      by_cases hi : t.type = .IDENTIFIER
      · rw [if_pos hi] at h
        cases h1 : SemanticAnalyzer.getVariable symbols t with
        | error e => rw [h1] at h; cases h
        | ok v =>
          rw [h1] at h
          simp only at h
          cases h2 : SemanticAnalyzer.validateTypeMatch .I32 v.type with
          | error e => rw [h2] at h; cases h
          | ok u =>
            rw [h2] at h
            rcases List.mem_cons.mp hop with e | e
            · rw [e]; exact Or.inr ⟨hi, v, (SemanticAnalyzer.getVariable_ok h1).2⟩
            · exact ih h op e
      · rw [if_neg hi] at h; cases h

theorem SemanticAnalyzer.checkMvm_facts {symbols : SymbolTable} {node : InstructionNode}
    (h : SemanticAnalyzer.checkMvm symbols node = .ok ()) :
    ∃ a b, node.operands = [a, b] ∧ CheckedValue symbols a ∧ CheckedValue symbols b := by
  obtain ⟨a, b, hops, _, _⟩ := SemanticAnalyzer.checkMvm_shape h
  unfold SemanticAnalyzer.checkMvm at h
  cases h1 : SemanticAnalyzer.validateOperandCount node 2 with
  | error e => rw [h1] at h; cases h
  | ok u =>
    rw [h1, hops] at h
    have hf := SemanticAnalyzer.checkMvmLoop_facts h
    exact ⟨a, b, hops, hf a (by simp), hf b (by simp)⟩

theorem SemanticAnalyzer.validateConditionalJump_facts {symbols : SymbolTable}
    {node : InstructionNode}
    (h : SemanticAnalyzer.validateConditionalJump symbols node = .ok ()) :
    ∃ a b t f va vb, node.operands = [a, b, t, f] ∧ symbols.getVariable a.value = .ok va ∧
      symbols.getVariable b.value = .ok vb ∧
      (symbols.labels.lookup t.value).isSome = true ∧
      (symbols.labels.lookup f.value).isSome = true := by
  obtain ⟨a, b, t, f, hops⟩ := SemanticAnalyzer.validateConditionalJump_shape h
  simp only [SemanticAnalyzer.validateConditionalJump, hops] at h
  cases h1 : SemanticAnalyzer.getVariable symbols a with
  | error e => rw [h1] at h; cases h
  | ok va =>
    rw [h1] at h
    cases h2 : SemanticAnalyzer.getVariable symbols b with
    | error e => rw [h2] at h; cases h
    | ok vb =>
      rw [h2] at h
      simp only [SymbolTable.getLabelAddress] at h
      cases h3 : symbols.labels.lookup t.value with
      | none => rw [h3] at h; cases h
      | some x =>
        rw [h3] at h
        cases h4 : symbols.labels.lookup f.value with
        | none => rw [h4] at h; cases h
        | some y =>
          exact ⟨a, b, t, f, va, vb, hops, (SemanticAnalyzer.getVariable_ok h1).2,
            (SemanticAnalyzer.getVariable_ok h2).2, by rw [h3]; rfl, by rw [h4]; rfl⟩

theorem SymbolTable.isVariable_of_getVariable {symbols : SymbolTable} {name : String}
    {v : VariableInfo} (h : symbols.getVariable name = .ok v) :
    symbols.isVariable name = true := by
  unfold SymbolTable.getVariable at h
  unfold SymbolTable.isVariable
  cases hl : symbols.vars.lookup name with
  | none => rw [hl] at h; cases h
  | some x => rfl

theorem CodeGenerator.emitOperand_returns {stof : String → Option Nat} {symbols : SymbolTable}
    {labels : List (String × Nat)} {t : Token} (hc : CheckedValue symbols t)
    (hlit : t.type = .LITERAL →
      ∃ b, CodeGenerator.emitLiteral stof t.value (CodeGenerator.inferLiteralType t.value)
        = .ok b) :
    ∃ b, CodeGenerator.emitOperand stof symbols labels t = .ok b := by
  unfold CodeGenerator.emitOperand
  rcases hc with hl | ⟨hi, v, hv⟩
  · rw [if_pos hl]
    exact hlit hl
  · have hnl : ¬ t.type = .LITERAL := by rw [hi]; decide
    rw [if_neg hnl, if_pos hi, SymbolTable.isVariable_of_getVariable hv]
    exact CodeGenerator.emitVariable_returns hv

theorem CodeGenerator.emitPrint_returns {symbols : SymbolTable} :
    ∀ ops : List Token,
      (∀ op ∈ ops, op.type = .STRING ∨ ∃ v, symbols.getVariable op.value = .ok v) →
      ∃ b, CodeGenerator.emitPrint symbols ops = .ok b := by
  intro ops
  induction ops with
  | nil => intro _; exact ⟨[], rfl⟩
  | cons t ts ih =>
    intro h
    obtain ⟨b, hb⟩ := ih (fun op hop => h op (List.mem_cons_of_mem _ hop))
    unfold CodeGenerator.emitPrint
    by_cases hs : t.type = .STRING
    · simp only [hs, if_true, hb]
      exact ⟨_, rfl⟩
    · rcases h t (List.mem_cons_self _ _) with e | ⟨v, hv⟩
      · exact absurd e hs
      · obtain ⟨a, ha⟩ := CodeGenerator.emitVariable_returns hv
        simp only [hs, if_false, ha, hb]
        exact ⟨_, rfl⟩

theorem CodeGenerator.seq2_returns {a b : Except Err (List Nat)}
    (ha : ∃ x, a = .ok x) (hb : ∃ y, b = .ok y) : ∃ z, CodeGenerator.seq2 a b = .ok z := by
  obtain ⟨x, rfl⟩ := ha
  obtain ⟨y, rfl⟩ := hb
  exact ⟨x ++ y, rfl⟩

/-- After a successful check, the emission of the payload of a node can only
fail in the conversion of a literal operand. -/
theorem CodeGenerator.emitPayload_returns {stof : String → Option Nat} {symbols : SymbolTable}
    {labels : List (String × Nat)} {node : InstructionNode}
    (hk : node.instruction.value ∈ knownMnemonics)
    (hck : SemanticAnalyzer.checkNode stof symbols node = .ok ())
    (hcv : node.instruction.value = "cv" →
      ∃ a b v, node.operands = [a, b] ∧ symbols.getVariable a.value = .ok v)
    (hlab : ∀ L, (symbols.labels.lookup L).isSome = true → (labels.lookup L).isSome = true)
    (hlit : ∀ t ∈ node.operands, t.type = .LITERAL →
      ∃ b, CodeGenerator.emitLiteral stof t.value (CodeGenerator.inferLiteralType t.value)
        = .ok b) :
    ∃ payload, CodeGenerator.emitPayload stof symbols labels node = .ok payload := by
  have hvar : ∀ (i : Nat) (t : Token) (v : VariableInfo), node.operand i = .ok t →
      symbols.getVariable t.value = .ok v →
      ∃ x, (node.operand i).bind (CodeGenerator.emitVariable symbols) = .ok x := by
    intro i t v h1 h2
    rw [h1]
    exact CodeGenerator.emitVariable_returns h2
  have hopd : ∀ (i : Nat) (t : Token), node.operand i = .ok t → t ∈ node.operands →
      CheckedValue symbols t →
      ∃ x, (node.operand i).bind (CodeGenerator.emitOperand stof symbols labels) = .ok x := by
    intro i t h1 hmem hc
    rw [h1]
    exact CodeGenerator.emitOperand_returns hc (hlit t hmem)
  have hlbl : ∀ (i : Nat) (t : Token), node.operand i = .ok t →
      (symbols.labels.lookup t.value).isSome = true →
      ∃ x, (node.operand i).bind (CodeGenerator.emitLabel labels) = .ok x := by
    intro i t h1 h2
    rw [h1]
    exact CodeGenerator.emitLabel_returns (hlab _ h2)
  have harith : ∀ op : String,
      SemanticAnalyzer.validateArithmeticOp stof symbols node op = .ok () →
      ∃ z, CodeGenerator.seq2 ((node.operand 0).bind (CodeGenerator.emitVariable symbols))
        ((node.operand 1).bind (CodeGenerator.emitOperand stof symbols labels)) = .ok z := by
    intro op h
    obtain ⟨a, b, va, hops, h1, h2⟩ := SemanticAnalyzer.validateArithmeticOp_facts h
    exact CodeGenerator.seq2_returns (hvar 0 a va (InstructionNode.operand_zero hops) h1)
      (hopd 1 b (InstructionNode.operand_one hops) (by simp [hops]) h2)
  have hincdec : SemanticAnalyzer.validateIncDec symbols node = .ok () →
      ∃ z, (node.operand 0).bind (CodeGenerator.emitVariable symbols) = .ok z := by
    intro h
    obtain ⟨a, va, hops, h1⟩ := SemanticAnalyzer.validateIncDec_facts h
    exact hvar 0 a va (InstructionNode.operand_zero hops) h1
  have hprint : SemanticAnalyzer.validatePrint symbols node = .ok () →
      ∃ z, CodeGenerator.emitPrint symbols node.operands = .ok z := by
    intro h
    exact CodeGenerator.emitPrint_returns _ (SemanticAnalyzer.validatePrintLoop_facts h)
  have hkey : SemanticAnalyzer.validateKeyOp symbols node = .ok () →
      ∃ z, (node.operand 0).bind (CodeGenerator.emitOperand stof symbols labels) = .ok z := by
    intro h
    obtain ⟨a, hops, h1⟩ := SemanticAnalyzer.validateKeyOp_facts h
    exact hopd 0 a (InstructionNode.operand_zero hops) (by simp [hops]) h1
  have hcond : SemanticAnalyzer.validateConditionalJump symbols node = .ok () →
      ∃ z, CodeGenerator.seq2
        (CodeGenerator.seq2 ((node.operand 0).bind (CodeGenerator.emitVariable symbols))
          ((node.operand 1).bind (CodeGenerator.emitVariable symbols)))
        (CodeGenerator.seq2 ((node.operand 2).bind (CodeGenerator.emitLabel labels))
          ((node.operand 3).bind (CodeGenerator.emitLabel labels))) = .ok z := by
    intro h
    obtain ⟨a, b, t, f, va, vb, hops, h1, h2, h3, h4⟩ :=
      SemanticAnalyzer.validateConditionalJump_facts h
    exact CodeGenerator.seq2_returns
      (CodeGenerator.seq2_returns (hvar 0 a va (InstructionNode.operand_zero hops) h1)
        (hvar 1 b vb (InstructionNode.operand_one hops) h2))
      (CodeGenerator.seq2_returns (hlbl 2 t (InstructionNode.operand_two hops) h3)
        (hlbl 3 f (InstructionNode.operand_three hops) h4))
  simp only [knownMnemonics, List.mem_cons, List.mem_singleton, List.not_mem_nil, or_false]
    at hk
  rcases hk with hm | hm | hm | hm | hm | hm | hm | hm | hm | hm | hm | hm | hm | hm | hm |
    hm | hm | hm | hm | hm | hm | hm | hm | hm
  · obtain ⟨a, b, v, hops, hv⟩ := hcv hm
    simp [CodeGenerator.emitPayload, hm, InstructionNode.operand_zero hops, hv]
  · have h : SemanticAnalyzer.validateArithmeticOp stof symbols node "av" = .ok () := by
      simpa [SemanticAnalyzer.checkNode, hm] using hck
    simpa [CodeGenerator.emitPayload, hm] using harith _ h
  · have h : SemanticAnalyzer.validateArithmeticOp stof symbols node "AAV" = .ok () := by
      simpa [SemanticAnalyzer.checkNode, hm] using hck
    simpa [CodeGenerator.emitPayload, hm] using harith _ h
  · have h : SemanticAnalyzer.validateArithmeticOp stof symbols node "SAV" = .ok () := by
      simpa [SemanticAnalyzer.checkNode, hm] using hck
    simpa [CodeGenerator.emitPayload, hm] using harith _ h
  · have h : SemanticAnalyzer.validateArithmeticOp stof symbols node "MAV" = .ok () := by
      simpa [SemanticAnalyzer.checkNode, hm] using hck
    simpa [CodeGenerator.emitPayload, hm] using harith _ h
  · have h : SemanticAnalyzer.validateArithmeticOp stof symbols node "DAV" = .ok () := by
      simpa [SemanticAnalyzer.checkNode, hm] using hck
    simpa [CodeGenerator.emitPayload, hm] using harith _ h
  · have h : SemanticAnalyzer.validateArithmeticOp stof symbols node "MOAV" = .ok () := by
      simpa [SemanticAnalyzer.checkNode, hm] using hck
    simpa [CodeGenerator.emitPayload, hm] using harith _ h
  · have h : SemanticAnalyzer.validateIncDec symbols node = .ok () := by
      simpa [SemanticAnalyzer.checkNode, hm] using hck
    simpa [CodeGenerator.emitPayload, hm] using hincdec h
  · have h : SemanticAnalyzer.validateIncDec symbols node = .ok () := by
      simpa [SemanticAnalyzer.checkNode, hm] using hck
    simpa [CodeGenerator.emitPayload, hm] using hincdec h
  · have h : SemanticAnalyzer.validatePrint symbols node = .ok () := by
      simpa [SemanticAnalyzer.checkNode, hm] using hck
    simpa [CodeGenerator.emitPayload, hm] using hprint h
  · have h : SemanticAnalyzer.validatePrint symbols node = .ok () := by
      simpa [SemanticAnalyzer.checkNode, hm] using hck
    simpa [CodeGenerator.emitPayload, hm] using hprint h
  · have h : SemanticAnalyzer.validateKeyOp symbols node = .ok () := by
      simpa [SemanticAnalyzer.checkNode, hm] using hck
    simpa [CodeGenerator.emitPayload, hm] using hkey h
  · have h : SemanticAnalyzer.validateKeyOp symbols node = .ok () := by
      simpa [SemanticAnalyzer.checkNode, hm] using hck
    simpa [CodeGenerator.emitPayload, hm] using hkey h
  · have h : SemanticAnalyzer.checkIkd symbols node = .ok () := by
      simpa [SemanticAnalyzer.checkNode, hm] using hck
    obtain ⟨a, b, va, vb, hops, h1, h2⟩ := SemanticAnalyzer.checkIkd_facts h
    simpa [CodeGenerator.emitPayload, hm] using
      CodeGenerator.seq2_returns (hvar 0 a va (InstructionNode.operand_zero hops) h1)
        (hvar 1 b vb (InstructionNode.operand_one hops) h2)
  · have h : SemanticAnalyzer.checkMvm symbols node = .ok () := by
      simpa [SemanticAnalyzer.checkNode, hm] using hck
    obtain ⟨a, b, hops, h1, h2⟩ := SemanticAnalyzer.checkMvm_facts h
    simpa [CodeGenerator.emitPayload, hm] using
      CodeGenerator.seq2_returns
        (hopd 0 a (InstructionNode.operand_zero hops) (by simp [hops]) h1)
        (hopd 1 b (InstructionNode.operand_one hops) (by simp [hops]) h2)
  · simp [CodeGenerator.emitPayload, hm]
  · have h : SemanticAnalyzer.checkJmp symbols node = .ok () := by
      simpa [SemanticAnalyzer.checkNode, hm] using hck
    obtain ⟨l, a, hops, hl⟩ := SemanticAnalyzer.checkJmp_ok h
    simpa [CodeGenerator.emitPayload, hm] using
      hlbl 0 l (InstructionNode.operand_zero hops) (by rw [hl]; rfl)
  · have h : SemanticAnalyzer.validateConditionalJump symbols node = .ok () := by
      simpa [SemanticAnalyzer.checkNode, hm] using hck
    simpa [CodeGenerator.emitPayload, hm] using hcond h
  · have h : SemanticAnalyzer.validateConditionalJump symbols node = .ok () := by
      simpa [SemanticAnalyzer.checkNode, hm] using hck
    simpa [CodeGenerator.emitPayload, hm] using hcond h
  · have h : SemanticAnalyzer.validateConditionalJump symbols node = .ok () := by
      simpa [SemanticAnalyzer.checkNode, hm] using hck
    simpa [CodeGenerator.emitPayload, hm] using hcond h
  · have h : SemanticAnalyzer.validateConditionalJump symbols node = .ok () := by
      simpa [SemanticAnalyzer.checkNode, hm] using hck
    simpa [CodeGenerator.emitPayload, hm] using hcond h
  · have h : SemanticAnalyzer.validateConditionalJump symbols node = .ok () := by
      simpa [SemanticAnalyzer.checkNode, hm] using hck
    simpa [CodeGenerator.emitPayload, hm] using hcond h
  · have h : SemanticAnalyzer.checkDl symbols node = .ok () := by
      simpa [SemanticAnalyzer.checkNode, hm] using hck
    obtain ⟨a, hops, h1⟩ := SemanticAnalyzer.checkDl_facts h
    simpa [CodeGenerator.emitPayload, hm] using
      hopd 0 a (InstructionNode.operand_zero hops) (by simp [hops]) h1
  · simp [CodeGenerator.emitPayload, hm]

theorem CodeGenerator.generateAll_returns {stof : String → Option Nat} {symbols : SymbolTable}
    {labels : List (String × Nat)} :
    ∀ l : List InstructionNode,
      (∀ node ∈ l, ∃ b, CodeGenerator.generateInstruction stof symbols labels node = .ok b) →
      ∃ out, CodeGenerator.generateAll stof symbols labels l = .ok out := by
  intro l
  induction l with
  | nil => intro _; exact ⟨[], rfl⟩
  | cons node rest ih =>
    intro h
    obtain ⟨a, ha⟩ := h node (List.mem_cons_self _ _)
    obtain ⟨b, hb⟩ := ih (fun n hn => h n (List.mem_cons_of_mem _ hn))
    exact ⟨a ++ b, by simp only [CodeGenerator.generateAll, ha, hb]⟩

theorem hasOperandShape_known {inst : String} {ops : List Token}
    (h : hasOperandShape inst ops) : inst ∈ knownMnemonics := by
  by_contra hn
  have hf := matchOperands_unknown hn (ops ++ [⟨.END_OF_LINE, "EOL", 0⟩])
  have hok : matchOperands inst (ops ++ [⟨.END_OF_LINE, "EOL", 0⟩])
      = .ok ops [⟨.END_OF_LINE, "EOL", 0⟩] :=
    (matchOperands_ok_iff _ _ _ _).mpr
      ⟨rfl, h, fun _ => ⟨_, _, rfl, by decide⟩, fun _ => ⟨_, _, rfl, rfl⟩⟩
  rw [hf] at hok
  cases hok

/-- The mnemonic of every node that the parser returns is one of the 24
reserved mnemonics. -/
theorem Parser.parse_known {tokens : List Token} {ast : List InstructionNode}
    (h : Parser.parse tokens = .ok ast) :
    ∀ node ∈ ast, node.instruction.value ∈ knownMnemonics := by
  intro node hn
  cases tokens with
  | nil =>
    simp only [Parser.parse, Parser.parseLoop] at h
    injection h with h
    subst h
    cases hn
  | cons t ts =>
    exact hasOperandShape_known
      (Parser.parseLoop_shape (List.cons_ne_nil t ts) _ _ ast h node hn)

/-- After a successful analysis of a list of nodes with reserved mnemonics, the
only failure of `generate` is a failed conversion of a literal operand in
`emitLiteral`: the size pass returns, every variable and every label is found
and every opcode is known, so `generate` returns whenever `emitLiteral` returns
on every literal operand of the list. -/
theorem CodeGenerator.generate_returns {stof : String → Option Nat} {symbols : SymbolTable}
    {ast : List InstructionNode}
    (hacc : SemanticAnalyzer.analyze stof SymbolTable.empty ast = .ok symbols)
    (hk : ∀ node ∈ ast, node.instruction.value ∈ knownMnemonics)
    (hlit : ∀ node ∈ ast, ∀ t ∈ node.operands, t.type = .LITERAL →
      ∃ b, CodeGenerator.emitLiteral stof t.value (CodeGenerator.inferLiteralType t.value)
        = .ok b) :
    ∃ out, CodeGenerator.generate stof symbols ast = .ok out := by
  have hshaped : ∀ n ∈ ast, n.Shaped := fun n hn => (SemanticAnalyzer.accepted_node hacc hn).1
  obtain ⟨hfp, _⟩ := SemanticAnalyzer.analyze_ok hacc
  obtain ⟨labels, hb⟩ := CodeGenerator.buildLabelMapFrom_shaped ast 0 [] hshaped
  have hlab : ∀ L, (symbols.labels.lookup L).isSome = true → (labels.lookup L).isSome = true := by
    intro L hL
    apply CodeGenerator.buildLabelMapFrom_defined hb L
    rcases (SemanticAnalyzer.firstPass_labels hfp).1 L hL with e | e
    · simp [SymbolTable.empty] at e
    · exact Or.inr e
  have hgen : CodeGenerator.generate stof symbols ast
      = CodeGenerator.generateAll stof symbols labels ast := by
    unfold CodeGenerator.generate CodeGenerator.buildLabelMap
    rw [hb]
  rw [hgen]
  apply CodeGenerator.generateAll_returns
  intro node hn
  obtain ⟨op, hop⟩ := CodeGenerator.instructionToOpcode_of_known (hk node hn)
  have hcv : node.instruction.value = "cv" →
      ∃ a b v, node.operands = [a, b] ∧ symbols.getVariable a.value = .ok v := by
    intro hm
    obtain ⟨a, b, hops⟩ := (hshaped node hn).1 hm
    have hsome := SemanticAnalyzer.firstPass_vars_defined hfp a.value
      (Or.inr ⟨node, hn, hm, a, b, hops, rfl⟩)
    unfold SymbolTable.getVariable
    cases hl : symbols.vars.lookup a.value with
    | none => rw [hl] at hsome; cases hsome
    | some v => exact ⟨a, b, v, hops, by rw [hl]⟩
  obtain ⟨payload, hp⟩ := CodeGenerator.emitPayload_returns (hk node hn)
    (SemanticAnalyzer.accepted_node hacc hn).2 hcv hlab (hlit node hn)
  exact ⟨op.code :: payload, by simp only [CodeGenerator.generateInstruction, hop, hp]⟩

/-! ## The lexer: progress of the main loop -/

theorem Lexer.readNumberLoop_suffix : ∀ (cs : List Char) (isFloat : Bool),
    (Lexer.readNumberLoop isFloat cs).2 <:+ cs := by
  intro cs
  induction cs with
  | nil => intro _; exact List.suffix_refl _
  | cons c cs ih =>
    intro isFloat
    unfold Lexer.readNumberLoop
    split
    · exact List.IsSuffix.trans (ih isFloat) (List.suffix_cons c cs)
    · split
      · exact List.IsSuffix.trans (ih true) (List.suffix_cons c cs)
      · exact List.suffix_refl _

theorem Lexer.readAlnum_suffix : ∀ (cs : List Char), (Lexer.readAlnum cs).2 <:+ cs := by
  intro cs
  induction cs with
  | nil => exact List.suffix_refl _
  | cons c cs ih =>
    unfold Lexer.readAlnum
    split
    · exact List.IsSuffix.trans ih (List.suffix_cons c cs)
    · exact List.suffix_refl _

theorem Lexer.readStringLoop_suffix : ∀ (cs : List Char), (Lexer.readStringLoop cs).2 <:+ cs := by
  intro cs
  induction cs with
  | nil => exact List.suffix_refl _
  | cons c cs ih =>
    unfold Lexer.readStringLoop
    split
    · exact List.IsSuffix.trans ih (List.suffix_cons c cs)
    · exact List.suffix_refl _

/-- One iteration of the main loop on a character other than `_`: the unread
rest after it is a suffix of the characters after the current one, so at least
one character is consumed, and at most one token is pushed. -/
theorem Lexer.step_progress {st : Lexer.State} {c : Char} {cs : List Char}
    (hrest : st.rest = c :: cs) (hc : c ≠ '_') :
    (Lexer.step st c cs).rest <:+ cs ∧
    (Lexer.step st c cs).tokens.length ≤ st.tokens.length + 1 := by
  unfold Lexer.step
  split
  · rename_i hd
    refine ⟨?_, by simp⟩
    simp only [Lexer.readNumber, hrest]
    split
    · rename_i cs1 heq
      injection heq with h1 h2
      rw [h2]
      exact Lexer.readNumberLoop_suffix cs1 false
    · rename_i hne
      have hm : c ≠ '-' := by
        intro e
        exact hne cs (by rw [e])
      have hdig : c.isDigit = true := by
        rcases hd with e | e
        · exact e
        · exact absurd e hm
      show (Lexer.readNumberLoop false (c :: cs)).2 <:+ cs
      unfold Lexer.readNumberLoop
      rw [if_pos hdig]
      exact Lexer.readNumberLoop_suffix cs false
  · split
    · rename_i hd ha
      refine ⟨?_, ?_⟩
      · have halpha : c.isAlpha = true := by
          rcases ha with e | e
          · exact e
          · exact absurd e hc
        have halnum : c.isAlphanum = true := by
          simp [Char.isAlphanum, halpha]
        have hr : (Lexer.readIdentifier st).2 = (Lexer.readAlnum cs).2 := by
          unfold Lexer.readIdentifier
          simp only [hrest]
          have : Lexer.readAlnum (c :: cs)
              = (c :: (Lexer.readAlnum cs).1, (Lexer.readAlnum cs).2) := by
            rw [Lexer.readAlnum, if_pos halnum]
          rw [this]
          split <;> rfl
        show (Lexer.readIdentifier st).2 <:+ cs
        rw [hr]
        exact Lexer.readAlnum_suffix cs
      · simp
    · split
      · refine ⟨?_, by simp⟩
        show (Lexer.readString st).2 <:+ cs
        unfold Lexer.readString
        simp only [hrest, List.tail_cons]
        have hs := Lexer.readStringLoop_suffix cs
        split
        · rename_i cs1 heq
          rw [heq] at hs
          exact List.IsSuffix.trans (List.suffix_cons _ cs1) hs
        · exact hs
      · split
        · exact ⟨List.suffix_refl _, by simp⟩
        · split
          · exact ⟨List.suffix_refl _, by simp⟩
          · exact ⟨List.suffix_refl _, by simp⟩

/-- On an input without `_` the main loop ends within as many iterations as
there are unread characters, and pushes at most one token for each. -/
theorem Lexer.loop_terminates : ∀ (fuel : Nat) (st : Lexer.State),
    '_' ∉ st.rest → st.rest.length ≤ fuel →
    ∃ st1, Lexer.loop fuel st = some st1 ∧
      st1.tokens.length ≤ st.tokens.length + st.rest.length := by
  intro fuel
  induction fuel with
  | zero =>
    intro st _ hlen
    have hnil : st.rest = [] := List.length_eq_zero.mp (Nat.le_zero.mp hlen)
    refine ⟨st, ?_, by omega⟩
    unfold Lexer.loop
    rw [hnil]
  | succ fuel ih =>
    intro st hno hlen
    cases hr : st.rest with
    | nil =>
      refine ⟨st, ?_, by omega⟩
      unfold Lexer.loop
      rw [hr]
    | cons c cs =>
      have hc : c ≠ '_' := by
        intro e
        apply hno
        rw [hr, e]
        exact List.mem_cons_self _ _
      obtain ⟨hsuf, htok⟩ := Lexer.step_progress hr hc
      have hno1 : '_' ∉ (Lexer.step st c cs).rest := by
        intro hm
        apply hno
        rw [hr]
        exact List.mem_cons_of_mem _ (hsuf.subset hm)
      have hl1 := hsuf.length_le
      have hlen1 : (Lexer.step st c cs).rest.length ≤ fuel := by
        rw [hr] at hlen
        simp only [List.length_cons] at hlen
        omega
      obtain ⟨st1, h1, h2⟩ := ih (Lexer.step st c cs) hno1 hlen1
      refine ⟨st1, ?_, ?_⟩
      · rw [Lexer.loop]
        simp only [hr]
        exact h1
      · simp only [List.length_cons]
        omega

theorem Lexer.finish_length (st : Lexer.State) :
    (Lexer.finish st).length ≤ st.tokens.length + 1 := by
  unfold Lexer.finish
  split
  · omega
  · split
    · simp
    · omega

/-- C34: for every source that contains no `_` character, every iteration of
the main loop of `Lexer::tokenize` consumes at least one character (the unread
rest after an iteration on a character other than `_` is shorter than before),
so `tokenize` terminates, within `length(source)` iterations, and returns at
most `length(source) + 1` tokens. -/
theorem lexer_progress_without_underscore (source : List Char) (h : '_' ∉ source) :
    (∀ (st : Lexer.State) (c : Char) (cs : List Char), st.rest = c :: cs → c ≠ '_' →
      (Lexer.step st c cs).rest.length < st.rest.length) ∧
    ∀ fuel, source.length ≤ fuel →
      ∃ toks, Lexer.tokenize fuel source = some toks ∧ toks.length ≤ source.length + 1 := by
  constructor
  · intro st c cs hrest hc
    have := (Lexer.step_progress hrest hc).1.length_le
    rw [hrest, List.length_cons]
    omega
  · intro fuel hf
    obtain ⟨st1, h1, h2⟩ := Lexer.loop_terminates fuel ⟨source, 1, []⟩ h hf
    refine ⟨Lexer.finish st1, ?_, ?_⟩
    · simp [Lexer.tokenize, h1]
    · have := Lexer.finish_length st1
      simp only [List.length_nil, Nat.zero_add] at h2
      omega

/-- C34 (witness): the source `p "a,b" -1.5` and a newline has 13 characters
and no `_`; `tokenize` returns within 13 iterations. -/
theorem lexer_progress_without_underscore_witness :
    '_' ∉ "p \"a,b\" -1.5\n".data ∧
    ∃ toks, Lexer.tokenize 13 "p \"a,b\" -1.5\n".data = some toks ∧
      toks.length ≤ "p \"a,b\" -1.5\n".data.length + 1 :=
  ⟨by decide,
   (lexer_progress_without_underscore "p \"a,b\" -1.5\n".data (by decide)).2 13 (by decide)⟩

/-! ## The parser: the tokens of a parsed program -/

theorem Parser.parseLoop_lossless {all : List Token} (h : all ≠ []) :
    ∀ (c : Nat) (rest : List Token) (ast : List InstructionNode),
      Parser.parseLoop c all rest = .ok ast →
      ∃ eols : List Token, eols.length = ast.length ∧
        (∀ e ∈ eols, e.type = .END_OF_LINE) ∧ rest = programTokens ast eols := by
  intro c
  induction c with
  | zero =>
    intro rest ast hp
    cases rest with
    | nil =>
      simp only [Parser.parseLoop] at hp
      injection hp with hp
      subst hp
      exact ⟨[], rfl, (fun _ he => by cases he), rfl⟩
    | cons t ts => simp [Parser.parseLoop] at hp
  | succ c ih =>
    intro rest ast hp
    cases rest with
    | nil =>
      simp only [Parser.parseLoop] at hp
      injection hp with hp
      subst hp
      exact ⟨[], rfl, (fun _ he => by cases he), rfl⟩
    | cons t ts =>
      simp only [Parser.parseLoop] at hp
      cases hi : Parser.parseInstruction all (t :: ts) with
      | error e => rw [hi] at hp; cases hp
      | ok a =>
        rw [hi] at hp
        simp only at hp
        cases hl : Parser.parseLoop c all a.2 with
        | error e => rw [hl] at hp; cases hp
        | ok p =>
          rw [hl] at hp
          simp only at hp
          injection hp with hp
          subst hp
          obtain ⟨ops, e, hts, he, _, hnode⟩ :=
            (Parser.parseInstruction_ok_iff h t ts a.2 a.1).mp hi
          obtain ⟨eols, hlen, hall, hrest⟩ := ih a.2 p hl
          refine ⟨e :: eols, by simp [hlen], ?_, ?_⟩
          · intro x hx
            rcases List.mem_cons.mp hx with e1 | e1
            · rw [e1]; exact he
            · exact hall x e1
          · rw [hts, hnode, hrest]
            simp [programTokens, InstructionNode.lineTokens]

/-- C33: parsing is lossless.  Whenever `Parser::parse` succeeds on a token
sequence, the sequence is the concatenation, over the returned nodes in order,
of the mnemonic token of the node, its operand tokens in order, and one token of
kind `END_OF_LINE`: no token is dropped, duplicated or reordered, and there are
as many nodes as `END_OF_LINE` tokens consumed as line terminators. -/
theorem parsing_is_lossless (tokens : List Token) (ast : List InstructionNode)
    (h : Parser.parse tokens = .ok ast) :
    ∃ eols : List Token, eols.length = ast.length ∧
      (∀ e ∈ eols, e.type = .END_OF_LINE) ∧ tokens = programTokens ast eols := by
  cases tokens with
  | nil =>
    simp only [Parser.parse, Parser.parseLoop] at h
    injection h with h
    subst h
    exact ⟨[], rfl, (fun _ he => by cases he), rfl⟩
  | cons t ts =>
    exact Parser.parseLoop_lossless (List.cons_ne_nil t ts) _ _ ast h

/-- C33 (witness): the tokens of the two lines `inc x` and `p "hi" x`. -/
theorem parsing_is_lossless_witness :
    Parser.parse [⟨.INSTRUCTION, "inc", 1⟩, ⟨.IDENTIFIER, "x", 1⟩, ⟨.END_OF_LINE, "EOL", 1⟩,
        ⟨.INSTRUCTION, "p", 2⟩, ⟨.STRING, "hi", 2⟩, ⟨.IDENTIFIER, "x", 2⟩,
        ⟨.END_OF_LINE, "EOL", 2⟩]
      = .ok [⟨⟨.INSTRUCTION, "inc", 1⟩, [⟨.IDENTIFIER, "x", 1⟩]⟩,
          ⟨⟨.INSTRUCTION, "p", 2⟩, [⟨.STRING, "hi", 2⟩, ⟨.IDENTIFIER, "x", 2⟩]⟩] ∧
    ∃ eols : List Token,
      eols.length = [(⟨⟨.INSTRUCTION, "inc", 1⟩, [⟨.IDENTIFIER, "x", 1⟩]⟩ : InstructionNode),
          ⟨⟨.INSTRUCTION, "p", 2⟩, [⟨.STRING, "hi", 2⟩, ⟨.IDENTIFIER, "x", 2⟩]⟩].length ∧
      (∀ e ∈ eols, e.type = .END_OF_LINE) ∧
      [⟨.INSTRUCTION, "inc", 1⟩, ⟨.IDENTIFIER, "x", 1⟩, ⟨.END_OF_LINE, "EOL", 1⟩,
        ⟨.INSTRUCTION, "p", 2⟩, ⟨.STRING, "hi", 2⟩, ⟨.IDENTIFIER, "x", 2⟩,
        ⟨.END_OF_LINE, "EOL", 2⟩]
        = programTokens [⟨⟨.INSTRUCTION, "inc", 1⟩, [⟨.IDENTIFIER, "x", 1⟩]⟩,
          ⟨⟨.INSTRUCTION, "p", 2⟩, [⟨.STRING, "hi", 2⟩, ⟨.IDENTIFIER, "x", 2⟩]⟩] eols :=
  ⟨by decide,
   parsing_is_lossless
    [⟨.INSTRUCTION, "inc", 1⟩, ⟨.IDENTIFIER, "x", 1⟩, ⟨.END_OF_LINE, "EOL", 1⟩,
      ⟨.INSTRUCTION, "p", 2⟩, ⟨.STRING, "hi", 2⟩, ⟨.IDENTIFIER, "x", 2⟩,
      ⟨.END_OF_LINE, "EOL", 2⟩]
    [⟨⟨.INSTRUCTION, "inc", 1⟩, [⟨.IDENTIFIER, "x", 1⟩]⟩,
      ⟨⟨.INSTRUCTION, "p", 2⟩, [⟨.STRING, "hi", 2⟩, ⟨.IDENTIFIER, "x", 2⟩]⟩]
    (by decide)⟩

/-! ## The parser on the token sequences of the lexer: no read out of bounds -/

theorem mem_of_getLast?_some {α : Type} : ∀ {l : List α} {x : α},
    l.getLast? = some x → x ∈ l := by
  intro l
  induction l with
  | nil => intro x h; cases h
  | cons a as ih =>
    intro x h
    cases as with
    | nil =>
      simp only [List.getLast?_singleton, Option.some.injEq] at h
      rw [h]
      exact List.mem_cons_self _ _
    | cons b bs =>
      rw [List.getLast?_cons_cons] at h
      exact List.mem_cons_of_mem _ (ih h)

theorem Lexer.step_eol_value {st : Lexer.State} {c : Char} {cs : List Char}
    (h : ∀ t ∈ st.tokens, t.type = .END_OF_LINE → t.value = "EOL") :
    ∀ t ∈ (Lexer.step st c cs).tokens, t.type = .END_OF_LINE → t.value = "EOL" := by
  have hpush : ∀ (x : Token), (x.type = .END_OF_LINE → x.value = "EOL") →
      ∀ t ∈ st.tokens ++ [x], t.type = .END_OF_LINE → t.value = "EOL" := by
    intro x hx t ht
    rcases List.mem_append.mp ht with e | e
    · exact h t e
    · rw [List.mem_singleton.mp e]
      exact hx
  unfold Lexer.step
  split
  · apply hpush
    intro hty
    exfalso
    revert hty
    unfold Lexer.readNumber
    split <;> simp
  · split
    · apply hpush
      intro hty
      exfalso
      revert hty
      unfold Lexer.readIdentifier
      simp only
      split
      · rename_i k hk
        exact Lexer.keywords_not_eol hk
      · simp
    · split
      · apply hpush
        intro hty
        exfalso
        revert hty
        simp [Lexer.readString]
      · split
        · apply hpush
          intro hty
          cases hty
        · split
          · apply hpush
            intro _
            rfl
          · exact h

theorem Lexer.loop_eol_value :
    ∀ (fuel : Nat) (st st1 : Lexer.State),
      (∀ t ∈ st.tokens, t.type = .END_OF_LINE → t.value = "EOL") →
      Lexer.loop fuel st = some st1 →
      ∀ t ∈ st1.tokens, t.type = .END_OF_LINE → t.value = "EOL" := by
  intro fuel
  induction fuel with
  | zero =>
    intro st st1 h hl
    unfold Lexer.loop at hl
    split at hl
    · injection hl with hl; rw [← hl]; exact h
    · cases hl
  | succ fuel ih =>
    intro st st1 h hl
    unfold Lexer.loop at hl
    split at hl
    · injection hl with hl; rw [← hl]; exact h
    · exact ih _ _ (Lexer.step_eol_value h) hl

/-- The last token that `tokenize` returns is an `END_OF_LINE` token with the
lexeme `EOL`. -/
theorem Lexer.tokenize_last {fuel : Nat} {source : List Char} {toks : List Token}
    (h : Lexer.tokenize fuel source = some toks) :
    ∀ x, toks.getLast? = some x → x.type = .END_OF_LINE ∧ x.value = "EOL" := by
  unfold Lexer.tokenize at h
  cases hl : Lexer.loop fuel ⟨source, 1, []⟩ with
  | none => rw [hl] at h; cases h
  | some st =>
    rw [hl] at h
    simp only [Option.map_some', Option.some.injEq] at h
    subst h
    have hinv := Lexer.loop_eol_value fuel _ st (fun t ht => by cases ht) hl
    intro x hx
    have hne : st.tokens ≠ [] := by
      intro e
      have : Lexer.finish st = [] := (Lexer.finish_eq_nil st).mpr e
      rw [this] at hx
      cases hx
    obtain ⟨t, ht, hty⟩ := Lexer.finish_last st hne
    rw [hx] at ht
    injection ht with ht
    subst ht
    refine ⟨hty, ?_⟩
    have hmem : x ∈ Lexer.finish st := mem_of_getLast?_some hx
    unfold Lexer.finish at hmem
    split at hmem
    · exact hinv x hmem hty
    · split at hmem
      · rcases List.mem_append.mp hmem with e | e
        · exact hinv x e hty
        · rw [List.mem_singleton.mp e]
      · exact hinv x hmem hty

theorem getLast?_of_append_cons {α : Type} (a : List α) (e : α) (r : List α) (x : α)
    (h : r.getLast? = some x) : (a ++ e :: r).getLast? = some x := by
  cases r with
  | nil => cases h
  | cons y ys =>
    have h1 : a ++ e :: y :: ys = (a ++ [e]) ++ y :: ys := by simp
    rw [h1, List.getLast?_append_of_ne_nil _ (List.cons_ne_nil y ys)]
    exact h

/-- On a token sequence whose last token is an `END_OF_LINE` token with a
lexeme that is no mnemonic, the loop of `parse` reads no token out of bounds. -/
theorem Parser.parseLoop_in_bounds {all : List Token} (hall : all ≠ []) :
    ∀ (c : Nat) (rest : List Token), rest.length ≤ c →
      (∀ x, rest.getLast? = some x → x.type = .END_OF_LINE ∧ x.value ∉ knownMnemonics) →
      Parser.parseLoop c all rest ≠ .error .ub := by
  intro c
  induction c with
  | zero =>
    intro rest hlen _
    have : rest = [] := List.length_eq_zero.mp (Nat.le_zero.mp hlen)
    subst this
    simp [Parser.parseLoop]
  | succ c ih =>
    intro rest hlen hlast
    cases rest with
    | nil => simp [Parser.parseLoop]
    | cons t ts =>
      simp only [Parser.parseLoop]
      rcases Parser.parseInstruction_eval hall t ts with
        ⟨ops, e, r, hm, he, hp⟩ | ⟨hm, _⟩ | ⟨m, hp⟩
      · obtain ⟨hts, _, _⟩ := (matchOperands_ok_iff _ _ _ _).mp hm
        have hlen2 : r.length ≤ c := by
          have := congrArg List.length hts
          simp at this hlen
          omega
        have hlast2 : ∀ x, r.getLast? = some x →
            x.type = .END_OF_LINE ∧ x.value ∉ knownMnemonics := by
          intro x hx
          apply hlast x
          rw [hts]
          have := getLast?_of_append_cons (t :: ops) e r x hx
          simpa using this
        have hrec := ih r hlen2 hlast2
        rw [hp]
        simp only
        cases hl : Parser.parseLoop c all r with
        | error e1 =>
          rw [hl] at hrec
          simp only
          intro hc
          injection hc with hc
          exact hrec (by rw [hc])
        | ok p => simp
      · exfalso
        have hops := matchOperands_outOfBounds hm
        cases hts : ts with
        | nil =>
          have := (hlast t (by rw [hts]; rfl)).2
          rw [matchOperands_unknown this] at hm
          cases hm
        | cons y ys =>
          obtain ⟨x, hx⟩ : ∃ x, (y :: ys).getLast? = some x :=
            ⟨(y :: ys).getLast (List.cons_ne_nil y ys), List.getLast?_eq_getLast _ _⟩
          have hx2 : (t :: ts).getLast? = some x := by
            rw [hts]
            have := getLast?_of_append_cons [] t (y :: ys) x hx
            simpa using this
          have hty := (hlast x hx2).1
          have hmem : x ∈ ts := by rw [hts]; exact mem_of_getLast?_some hx
          have := hops x hmem
          rw [hty] at this
          simp at this
      · rw [hp]
        simp

/-- C32: parser bounds safety.  For every source on which the lexer
terminates, `Parser::parse` on the token sequence of the lexer reads no token at
an index outside the sequence and never reads `tokens.back()` of an empty
sequence: it returns an instruction list or throws a `ParseError`. -/
theorem parser_bounds_safety (fuel : Nat) (source : List Char) (toks : List Token)
    (h : Lexer.tokenize fuel source = some toks) :
    Parser.parse toks ≠ .error .ub ∧
    ((∃ ast, Parser.parse toks = .ok ast) ∨ ∃ msg, Parser.parse toks = .error (.exn msg)) := by
  have hne : Parser.parse toks ≠ .error .ub := by
    cases htoks : toks with
    | nil => simp [Parser.parse, Parser.parseLoop]
    | cons t ts =>
      rw [← htoks]
      have hall : toks ≠ [] := by rw [htoks]; exact List.cons_ne_nil t ts
      apply Parser.parseLoop_in_bounds hall _ _ (Nat.le_refl _)
      intro x hx
      obtain ⟨h1, h2⟩ := Lexer.tokenize_last h x hx
      exact ⟨h1, by rw [h2]; decide⟩
  refine ⟨hne, ?_⟩
  cases hp : Parser.parse toks with
  | ok ast => exact Or.inl ⟨ast, rfl⟩
  | error e =>
    cases e with
    | exn msg => exact Or.inr ⟨msg, rfl⟩
    | ub => exact absurd hp hne

/-- C32 (witness): the source `mvm 5`, which ends in the middle of the operands:
the lexer appends an `END_OF_LINE` token, and the parser throws a `ParseError`
at it instead of reading past the end. -/
theorem parser_bounds_safety_witness :
    Lexer.tokenize 5 "mvm 5".data
      = some [⟨.INSTRUCTION, "mvm", 1⟩, ⟨.LITERAL, "5", 1⟩, ⟨.END_OF_LINE, "EOL", 1⟩] ∧
    Parser.parse [⟨.INSTRUCTION, "mvm", 1⟩, ⟨.LITERAL, "5", 1⟩, ⟨.END_OF_LINE, "EOL", 1⟩]
      = .error (.exn "Line 1: Expected literal value or variable") ∧
    Parser.parse [⟨.INSTRUCTION, "mvm", 1⟩, ⟨.LITERAL, "5", 1⟩, ⟨.END_OF_LINE, "EOL", 1⟩]
      ≠ .error .ub ∧
    ((∃ ast, Parser.parse [⟨.INSTRUCTION, "mvm", 1⟩, ⟨.LITERAL, "5", 1⟩,
        ⟨.END_OF_LINE, "EOL", 1⟩] = .ok ast) ∨
      ∃ msg, Parser.parse [⟨.INSTRUCTION, "mvm", 1⟩, ⟨.LITERAL, "5", 1⟩,
        ⟨.END_OF_LINE, "EOL", 1⟩] = .error (.exn msg)) :=
  ⟨by decide, by decide,
   parser_bounds_safety 5 "mvm 5".data
    [⟨.INSTRUCTION, "mvm", 1⟩, ⟨.LITERAL, "5", 1⟩, ⟨.END_OF_LINE, "EOL", 1⟩] (by decide)⟩

/-! ## The addresses emitted for labels -/

theorem addressAt_append (pre : List Nat) (v : Nat) (post : List Nat) :
    addressAt (pre ++ (CodeGenerator.emitUI32 v ++ post)) pre.length = v % 2 ^ 32 := by
  unfold addressAt
  rw [List.drop_left]
  have : (CodeGenerator.emitUI32 v ++ post).take 4 = CodeGenerator.emitUI32 v := by
    simp [CodeGenerator.emitUI32]
  rw [this, littleEndianValue_emitUI32]

theorem addressAt_eq {out pre post : List Nat} {v n : Nat}
    (h : out = pre ++ (CodeGenerator.emitUI32 v ++ post)) (hn : pre.length = n)
    (hv : v < 2 ^ 32) : addressAt out n = v := by
  rw [h, ← hn, addressAt_append, Nat.mod_eq_of_lt hv]

end Decoy
